import Mathlib

/-!
# Ballistic: a shallow embedding of the integrators and of the equation family

The C sources keep the state in module globals (`r0`, `r1`, `r2`, their
backups, `dt`, `kt`, `nevaluations`) and in the scratch arrays of the
`Method` struct.  Here every function takes the part of the state it reads
and returns the part it writes.  `long double` is an ordered field `K`
(exact arithmetic); the functions of the C mathematical library are the
fields of a record `Libm K`, and `Libm.real` is their meaning on `ℝ`.
-/

namespace Ballistic

/-- A `long double[3]` array: `x`, `y`, `z` are the entries `[0]`, `[1]`, `[2]`. -/
@[ext]
structure Vec3 (K : Type) where
  x : K
  y : K
  z : K

/-- The statement `u[k] += c * w[k]` for `k = 0, 1, 2`. -/
def Vec3.axpy {K : Type} [Field K] (u : Vec3 K) (c : K) (w : Vec3 K) : Vec3 K :=
  ⟨u.x + c * w.x, u.y + c * w.y, u.z + c * w.z⟩

/-- The value `a * (u[k] + c * w[k])` for `k = 0, 1, 2`. -/
def Vec3.comb {K : Type} [Field K] (a : K) (u : Vec3 K) (c : K) (w : Vec3 K) : Vec3 K :=
  ⟨a * (u.x + c * w.x), a * (u.y + c * w.y), a * (u.z + c * w.z)⟩

/-- The statement `u[k] += a * (p[k] + c * w[k])` for `k = 0, 1, 2`. -/
def Vec3.addComb {K : Type} [Field K] (u : Vec3 K) (a : K) (p : Vec3 K) (c : K) (w : Vec3 K) :
    Vec3 K :=
  ⟨u.x + a * (p.x + c * w.x), u.y + a * (p.y + c * w.y), u.z + a * (p.z + c * w.z)⟩

/-- The functions of the C mathematical library (`long double` versions) the program calls. -/
structure Libm (K : Type) where
  expl : K → K
  logl : K → K
  sqrtl : K → K
  cbrtl : K → K
  sinl : K → K
  cosl : K → K
  tanl : K → K
  acosl : K → K
  atanl : K → K
  sinhl : K → K
  coshl : K → K
  tanhl : K → K
  powl : K → K → K
  pi : K

/-- The meaning of the C mathematical library on the real numbers. -/
noncomputable def Libm.real : Libm ℝ where
  expl := Real.exp
  logl := Real.log
  sqrtl := Real.sqrt
  cbrtl := fun x => if 0 ≤ x then x ^ ((1 : ℝ) / 3) else -((-x) ^ ((1 : ℝ) / 3))
  sinl := Real.sin
  cosl := Real.cos
  tanl := Real.tan
  acosl := Real.arccos
  atanl := Real.arctan
  sinhl := Real.sinh
  coshl := Real.cosh
  tanhl := Real.tanh
  powl := fun x y => x ^ y
  pi := Real.pi

/-- The `Method` struct of method.h: scratch arrays, error accumulators, parameters. -/
structure Method (K : Type) where
  r0 : Nat → Vec3 K
  r1 : Nat → Vec3 K
  r2 : Nat → Vec3 K
  e0 : K
  e1 : K
  et0 : K
  et1 : K
  emt : K
  alpha : K
  beta : K
  nsteps : Nat
  order : Nat
  error_dt : Nat

/-- The module globals of equation.c; `nevaluations` has the type `σ` of the side state
that the acceleration functional updates (`unsigned long int` in the program). -/
structure Globals (K σ : Type) where
  r0 : Vec3 K
  r1 : Vec3 K
  r2 : Vec3 K
  ro0 : Vec3 K
  ro1 : Vec3 K
  ro2 : Vec3 K
  kt : K
  dt : K
  nevaluations : σ

/-- Function `method_init` of method.c. -/
def method_init {K : Type} (m : Method K) (nsteps order : Nat) : Method K :=
  { m with nsteps := nsteps, order := order }

/-! ## Revision 0.1.1: Runge-Kutta with the `a` and `c` tables -/

namespace V011

/-- The `RungeKutta` struct of revision 0.1.1. -/
structure RungeKutta (K : Type) where
  method : Method K
  a : List (List K)
  c : List (List K)
  t : List K
  e : List K

section tables
variable {K : Type} [Field K]

def rk_a1_1 : List K := [1]
def rk_c1_1 : List K := [1]
def rk_a1 : List (List K) := [rk_a1_1]
def rk_c1 : List (List K) := [rk_c1_1]
def rk_t1 : List K := [1]
def rk_e1 : List K := [-1]

def rk_a2_1 : List K := [1]
def rk_c2_1 : List K := [1]
def rk_a2_2 : List K := [0.5, 0.5]
def rk_c2_2 : List K := [0, 1]
def rk_a2 : List (List K) := [rk_a2_1, rk_a2_2]
def rk_c2 : List (List K) := [rk_c2_1, rk_c2_2]
def rk_t2 : List K := [1, 1]
def rk_e2 : List K := [0.5, -0.5]

def rk_a3_1 : List K := [1]
def rk_c3_1 : List K := [1]
def rk_a3_2 : List K := [0.75, 0.25]
def rk_c3_2 : List K := [0, 1]
def rk_a3_3 : List K := [1 / 3, 0, 2 / 3]
def rk_c3_3 : List K := [0, 0, 1]
def rk_a3 : List (List K) := [rk_a3_1, rk_a3_2, rk_a3_3]
def rk_c3 : List (List K) := [rk_c3_1, rk_c3_2, rk_c3_3]
def rk_t3 : List K := [1, 0.5, 1]
def rk_e3 : List K := [1 / 12, 1 / 12, -1 / 6]

def rk_a4_1 : List K := [1]
def rk_c4_1 : List K := [0.5]
def rk_a4_2 : List K := [0.5, 0.5]
def rk_c4_2 : List K := [-0.5, 1]
def rk_a4_3 : List K := [0.5, -0.5, 1]
def rk_c4_3 : List K := [0.5, 1, 1]
def rk_a4_4 : List K := [5 / 12, 0.25, 1 / 6, 1 / 6]
def rk_c4_4 : List K := [0.1, 1, 1, 1]
def rk_a4 : List (List K) := [rk_a4_1, rk_a4_2, rk_a4_3, rk_a4_4]
def rk_c4 : List (List K) := [rk_c4_1, rk_c4_2, rk_c4_3, rk_c4_4]
def rk_t4 : List K := [0.5, 0.5, 1, 1]

end tables

section step
variable {K : Type} [Field K]

def runge_kutta_init_1 (rk : RungeKutta K) : RungeKutta K :=
  { rk with method := method_init rk.method 1 1, a := rk_a1, c := rk_c1, t := rk_t1, e := rk_e1 }

def runge_kutta_init_2 (rk : RungeKutta K) : RungeKutta K :=
  { rk with method := method_init rk.method 2 2, a := rk_a2, c := rk_c2, t := rk_t2, e := rk_e2 }

def runge_kutta_init_3 (rk : RungeKutta K) : RungeKutta K :=
  { rk with method := method_init rk.method 3 3, a := rk_a3, c := rk_c3, t := rk_t3, e := rk_e3 }

/-- Function `runge_kutta_init_4`: the error coefficients `e` are left as they were. -/
def runge_kutta_init_4 (rk : RungeKutta K) : RungeKutta K :=
  { rk with method := method_init rk.method 4 4, a := rk_a4, c := rk_c4, t := rk_t4 }

/-- The `switch (type)` of `runge_kutta_read`: `none` is the `goto fail` of the default case. -/
def runge_kutta_init (type : Nat) (rk : RungeKutta K) : Option (RungeKutta K) :=
  match type with
  | 1 => some (runge_kutta_init_1 rk)
  | 2 => some (runge_kutta_init_2 rk)
  | 3 => some (runge_kutta_init_3 rk)
  | 4 => some (runge_kutta_init_4 rk)
  | _ => none

/-- The loop `for (j = 1; j < i; ++j)` of `runge_kutta_step`, run while `j < k`. -/
def step_inner (dt : K) (a c : List K) (i : Nat) : Nat → Method K → Method K
  | 0, m => m
  | 1, m => m
  | j + 2, m =>
    let m1 := step_inner dt a c i (j + 1) m
    let m2 : Method K :=
      { m1 with
        r0 := Function.update m1.r0 i
          ((m1.r0 i).addComb (a.getD (j + 1) 0) (m1.r0 (j + 1)) (dt * c.getD (j + 1) 0)
            (m1.r1 (j + 1))) }
    { m2 with
      r1 := Function.update m2.r1 i
        ((m2.r1 i).addComb (a.getD (j + 1) 0) (m2.r1 (j + 1)) (dt * c.getD (j + 1) 0)
          (m2.r2 (j + 1))) }

/-- The linear combination of the body of the loop `for (i = 1; i <= n; ++i)` of
`runge_kutta_step`: the statements before the call of `equation_acceleration`. -/
def stage_comb (dt : K) (a c : List K) (i : Nat) (m : Method K) : Method K :=
  let m1 : Method K :=
    { m with
      r0 := Function.update m.r0 i (Vec3.comb (a.getD 0 0) (m.r0 0) (dt * c.getD 0 0) (m.r1 0)) }
  let m2 : Method K :=
    { m1 with
      r1 := Function.update m1.r1 i
        (Vec3.comb (a.getD 0 0) (m1.r1 0) (dt * c.getD 0 0) (m1.r2 0)) }
  step_inner dt a c i i m2

/-- The body of the loop `for (i = 1; i <= n; ++i)` of `runge_kutta_step`; `a`, `c` are the
rows `rk->a[i - 1]`, `rk->c[i - 1]` and `ti` is `rk->t[i - 1]`. -/
def step_stage {ε σ : Type} (equation_acceleration : ε → Vec3 K → Vec3 K → K → σ → Vec3 K × σ)
    (eq : ε) (a c : List K) (ti : K) (t dt : K) (i : Nat) (s : Method K × Globals K σ) :
    Method K × Globals K σ :=
  let m3 := stage_comb dt a c i s.1
  let r := equation_acceleration eq (m3.r0 i) (m3.r1 i) (t + ti * dt) s.2.nevaluations
  ({ m3 with r2 := Function.update m3.r2 i r.1 }, { s.2 with nevaluations := r.2 })

/-- The loop `for (i = 1; i <= n; ++i)` of `runge_kutta_step`, run while `i <= k`. -/
def step_stages {ε σ : Type} (equation_acceleration : ε → Vec3 K → Vec3 K → K → σ → Vec3 K × σ)
    (eq : ε) (a c : List (List K)) (tt : List K) (t dt : K) :
    Nat → Method K × Globals K σ → Method K × Globals K σ
  | 0, s => s
  | i + 1, s =>
    step_stage equation_acceleration eq (a.getD i []) (c.getD i []) (tt.getD i 0) t dt (i + 1)
      (step_stages equation_acceleration eq a c tt t dt i s)

/-- Function `runge_kutta_step` of src/0.1.1/runge-kutta.c. -/
def runge_kutta_step {ε σ : Type}
    (equation_acceleration : ε → Vec3 K → Vec3 K → K → σ → Vec3 K × σ)
    (rk : RungeKutta K) (eq : ε) (t dt : K) (g : Globals K σ) : RungeKutta K × Globals K σ :=
  let m := rk.method
  let m0 : Method K :=
    { m with
      r0 := Function.update m.r0 0 g.r0
      r1 := Function.update m.r1 0 g.r1
      r2 := Function.update m.r2 0 g.r2 }
  let n := m0.nsteps
  let s := step_stages equation_acceleration eq rk.a rk.c rk.t t dt n (m0, g)
  ({ rk with method := s.1 }, { s.2 with r0 := s.1.r0 n, r1 := s.1.r1 n, r2 := s.1.r2 n })

end step

end V011

/-! ## Revision 0.3.1: Runge-Kutta with the `b` tables -/

namespace V031

/-- The `RungeKutta` struct of revision 0.3.1. -/
structure RungeKutta (K : Type) where
  method : Method K
  b : List (List K)
  t : List K
  e : List K

section tables
variable {K : Type} [Field K]

def rk_b1_1 : List K := [1]
def rk_b1 : List (List K) := [rk_b1_1]
def rk_t1 : List K := [1]
def rk_e1 : List K := [-1]

def rk_b2_1 : List K := [1]
def rk_b2_2 : List K := [0.5, 0.5]
def rk_b2 : List (List K) := [rk_b2_1, rk_b2_2]
def rk_t2 : List K := [1, 1]
def rk_e2 : List K := [0.5, -0.5]

def rk_b3_1 : List K := [1]
def rk_b3_2 : List K := [0.25, 0.25]
def rk_b3_3 : List K := [1 / 6, 1 / 6, 2 / 3]
def rk_b3 : List (List K) := [rk_b3_1, rk_b3_2, rk_b3_3]
def rk_t3 : List K := [1, 0.5, 1]
def rk_e3 : List K := [1 / 12, 1 / 12, -1 / 6]

def rk_b4_1 : List K := [0.5]
def rk_b4_2 : List K := [0, 0.5]
def rk_b4_3 : List K := [0, 0, 1]
def rk_b4_4 : List K := [1 / 6, 1 / 3, 1 / 3, 1 / 6]
def rk_b4 : List (List K) := [rk_b4_1, rk_b4_2, rk_b4_3, rk_b4_4]
def rk_t4 : List K := [0.5, 0.5, 1, 1]

end tables

section step
variable {K : Type} [Field K]

def runge_kutta_init_1 (rk : RungeKutta K) : RungeKutta K :=
  { rk with method := method_init rk.method 1 1, b := rk_b1, t := rk_t1, e := rk_e1 }

def runge_kutta_init_2 (rk : RungeKutta K) : RungeKutta K :=
  { rk with method := method_init rk.method 2 2, b := rk_b2, t := rk_t2, e := rk_e2 }

def runge_kutta_init_3 (rk : RungeKutta K) : RungeKutta K :=
  { rk with method := method_init rk.method 3 3, b := rk_b3, t := rk_t3, e := rk_e3 }

/-- Function `runge_kutta_init_4`: the error coefficients `e` are left as they were. -/
def runge_kutta_init_4 (rk : RungeKutta K) : RungeKutta K :=
  { rk with method := method_init rk.method 4 4, b := rk_b4, t := rk_t4 }

/-- The `switch (type)` of `runge_kutta_read` and `runge_kutta_read_xml`: `none` is the
`goto fail` of the default case. -/
def runge_kutta_init (type : Nat) (rk : RungeKutta K) : Option (RungeKutta K) :=
  match type with
  | 1 => some (runge_kutta_init_1 rk)
  | 2 => some (runge_kutta_init_2 rk)
  | 3 => some (runge_kutta_init_3 rk)
  | 4 => some (runge_kutta_init_4 rk)
  | _ => none

/-- The loop `for (j = 0; j < i; ++j)` of `runge_kutta_step`, run while `j < k`. -/
def step_inner (dt : K) (b : List K) (i : Nat) : Nat → Method K → Method K
  | 0, m => m
  | j + 1, m =>
    let m1 := step_inner dt b i j m
    let m2 : Method K :=
      { m1 with r0 := Function.update m1.r0 i ((m1.r0 i).axpy (dt * b.getD j 0) (m1.r1 j)) }
    { m2 with r1 := Function.update m2.r1 i ((m2.r1 i).axpy (dt * b.getD j 0) (m2.r2 j)) }

/-- The linear combination of the body of the loop `for (i = 1; i <= n; ++i)` of
`runge_kutta_step`: the statements before the call of `equation_acceleration`; `r`, `v` are
the globals `r0`, `r1`. -/
def stage_comb (dt : K) (b : List K) (i : Nat) (m : Method K) (r v : Vec3 K) : Method K :=
  step_inner dt b i i { m with r0 := Function.update m.r0 i r, r1 := Function.update m.r1 i v }

/-- The body of the loop `for (i = 1; i <= n; ++i)` of `runge_kutta_step`; `b` is the row
`rk->b[i - 1]` and `ti` is `rk->t[i - 1]`. -/
def step_stage {ε σ : Type} (equation_acceleration : ε → Vec3 K → Vec3 K → K → σ → Vec3 K × σ)
    (eq : ε) (b : List K) (ti : K) (t dt : K) (i : Nat) (s : Method K × Globals K σ) :
    Method K × Globals K σ :=
  let m2 := stage_comb dt b i s.1 s.2.r0 s.2.r1
  let r := equation_acceleration eq (m2.r0 i) (m2.r1 i) (t + ti * dt) s.2.nevaluations
  ({ m2 with r2 := Function.update m2.r2 i r.1 }, { s.2 with nevaluations := r.2 })

/-- The loop `for (i = 1; i <= n; ++i)` of `runge_kutta_step`, run while `i <= k`. -/
def step_stages {ε σ : Type} (equation_acceleration : ε → Vec3 K → Vec3 K → K → σ → Vec3 K × σ)
    (eq : ε) (b : List (List K)) (tt : List K) (t dt : K) :
    Nat → Method K × Globals K σ → Method K × Globals K σ
  | 0, s => s
  | i + 1, s =>
    step_stage equation_acceleration eq (b.getD i []) (tt.getD i 0) t dt (i + 1)
      (step_stages equation_acceleration eq b tt t dt i s)

/-- Function `runge_kutta_step` of src/0.3.1/runge-kutta.c. -/
def runge_kutta_step {ε σ : Type}
    (equation_acceleration : ε → Vec3 K → Vec3 K → K → σ → Vec3 K × σ)
    (rk : RungeKutta K) (eq : ε) (t dt : K) (g : Globals K σ) : RungeKutta K × Globals K σ :=
  let m := rk.method
  let m0 : Method K :=
    { m with
      r0 := Function.update m.r0 0 g.r0
      r1 := Function.update m.r1 0 g.r1
      r2 := Function.update m.r2 0 g.r2 }
  let n := m0.nsteps
  let s := step_stages equation_acceleration eq rk.b rk.t t dt n (m0, g)
  ({ rk with method := s.1 }, { s.2 with r0 := s.1.r0 n, r1 := s.1.r1 n, r2 := s.1.r2 n })

end step

end V031

/-! ## Revision 1.1.0: the equation family -/

/-- A `long double[2]` array. -/
structure Vec2 (K : Type) where
  x : K
  y : K

/-- The `Equation` struct of equation.h. -/
structure Equation (K : Type) where
  r : Vec3 K
  v : Vec3 K
  w : Vec2 K
  g : K
  tf : K
  lambda : K
  vertical_angle : K
  max_lambda : K
  min_lambda : K
  max_velocity : K
  min_velocity : K
  max_wind : K
  type : Nat
  land_type : Nat
  size_type : Nat

/-- Modelled from the spec: the config.h of revision 1.1.0 is not among the sources; its macro
`G` is the default gravity 9.81 of the data model, as in `#define G 9.81L` of
src/0.3.0/config.h and of src/0.1.0/equation.h. -/
def G {K : Type} [Field K] : K := 9.81

/-- The increment `++nevaluations` of the `unsigned long int` counter (64 bits). -/
def incr (nevaluations : Nat) : Nat := (nevaluations + 1) % 2 ^ 64

/-- What `equation_land` returns: its `int` result, the values left in `*t` and `*dt`, and
the globals. -/
structure LandResult (K σ : Type) where
  ret : Nat
  t : K
  dt : K
  g : Globals K σ

/-! ## The solvers of the polynomial equations (utils.c, and equation.c of revision 0.1.0) -/

namespace V010

/-- Function `solve_quadratic_reduced` of src/0.1.0/equation.c. -/
def solve_quadratic_reduced {K : Type} [LinearOrderedField K] (L : Libm K) (a b x1 x2 : K) : K :=
  let a2 := -0.5 * a
  let k := L.sqrtl (a2 * a2 - b)
  let x := a2 + k
  if x ≥ x1 ∧ x ≤ x2 then x else a2 - k

end V010

namespace V031

section utils
variable {K : Type} [LinearOrderedField K]

/-- Function `solve_quadratic_reduced` of src/0.3.1/utils.c. -/
def solve_quadratic_reduced (L : Libm K) (a b x1 x2 : K) : K :=
  let a2 := -0.5 * a
  let k := L.sqrtl (a2 * a2 - b)
  let x := a2 + k
  if x < x1 ∨ x > x2 then a2 - k else x

/-- Function `solve_quadratic` of src/0.3.1/utils.c. -/
def solve_quadratic (L : Libm K) (a b c x1 x2 : K) : K :=
  if a = 0 then -c / b else solve_quadratic_reduced L (b / a) (c / a) x1 x2

/-- Function `solve_cubic_reduced` of src/0.3.1/utils.c (the same text in
src/0.1.0/equation.c); `L.pi` is the constant `M_PIl`. -/
def solve_cubic_reduced (L : Libm K) (a b c x1 x2 : K) : K :=
  let a := a / 3
  let k0 := a * a
  let k1 := b / 3 - k0
  let k0 := (b * a - c) / 2 - a * k0
  let k2 := k1 * k1 * k1 + k0 * k0
  if k2 < 0 then
    let k1 := L.sqrtl (-k1)
    let k0 := L.acosl (k0 / (k1 * k1 * k1)) / 3
    let k1 := k1 * 2
    let k2 := k1 * L.cosl k0 - a
    if k2 < x1 ∨ k2 > x2 then
      let k2 := k1 * L.cosl (k0 + 2 * L.pi / 3) - a
      if k2 < x1 ∨ k2 > x2 then k1 * L.cosl (k0 - 2 * L.pi / 3) - a else k2
    else k2
  else
    let k1 := L.sqrtl k2
    let k2 := k0 + k1
    let k2 := L.cbrtl k2
    let k0 := k0 - k1
    let k2 := k2 + L.cbrtl k0
    k2 - a

/-- Function `solve_cubic` of src/0.3.1/utils.c. -/
def solve_cubic (L : Libm K) (a b c d x1 x2 : K) : K :=
  if a = 0 then solve_quadratic L b c d x1 x2
  else solve_cubic_reduced L (b / a) (c / a) (d / a) x1 x2

/-- The discriminant `k2` that `solve_cubic_reduced` tests:
`(b/3 - a^2/9)^3 + ((a*b/3 - c)/2 - a^3/27)^2` in the coefficients of the reduced cubic. -/
def cubic_discriminant (a b c : K) : K :=
  let a := a / 3
  let k0 := a * a
  let k1 := b / 3 - k0
  let k0 := (b * a - c) / 2 - a * k0
  k1 * k1 * k1 + k0 * k0

end utils

end V031

namespace V110

section equation
variable {K : Type} [LinearOrderedField K]

/-- Function `equation_acceleration_0` of src/1.1.0/equation.c. -/
def equation_acceleration_0 (_eq : Equation K) (_r0 _r1 : Vec3 K) (_t : K) (nevaluations : Nat) :
    Vec3 K × Nat :=
  (⟨0, 0, -G⟩, incr nevaluations)

/-- Function `equation_solution_0`: the pair (position `r0`, velocity `r1`) at time `t`. -/
def equation_solution_0 (eq : Equation K) (t : K) : Vec3 K × Vec3 K :=
  let r1 : Vec3 K := ⟨eq.v.x, eq.v.y, eq.v.z - eq.g * t⟩
  let r0 : Vec3 K :=
    ⟨eq.r.x + eq.v.x * t, eq.r.y + eq.v.y * t, eq.r.z + t * (eq.v.z - t * 0.5 * G)⟩
  (r0, r1)

/-- Function `equation_acceleration_1`. -/
def equation_acceleration_1 (eq : Equation K) (_r0 r1 : Vec3 K) (_t : K) (nevaluations : Nat) :
    Vec3 K × Nat :=
  (⟨-eq.lambda * (r1.x - eq.w.x), -eq.lambda * (r1.y - eq.w.y), -eq.g - eq.lambda * r1.z⟩,
    incr nevaluations)

/-- Function `equation_solution_1`. -/
def equation_solution_1 (L : Libm K) (eq : Equation K) (t : K) : Vec3 K × Vec3 K :=
  let v0 := eq.v.x - eq.w.x
  let v1 := eq.v.y - eq.w.y
  let elt := L.expl (-eq.lambda * t)
  let li := 1 / eq.lambda
  let gl := eq.g * li
  let r1 : Vec3 K := ⟨eq.w.x + v0 * elt, eq.w.y + v1 * elt, (eq.v.z + gl) * elt - gl⟩
  let k := li * (1 - elt)
  let r0 : Vec3 K :=
    ⟨eq.r.x + eq.w.x * t + v0 * k, eq.r.y + eq.w.y * t + v1 * k,
      eq.r.z - gl * t + (eq.v.z + gl) * k⟩
  (r0, r1)

/-- Function `equation_acceleration_2`. -/
def equation_acceleration_2 (eq : Equation K) (_r0 r1 : Vec3 K) (_t : K) (nevaluations : Nat) :
    Vec3 K × Nat :=
  let v0 := r1.x - eq.w.x
  let v1 := r1.y - eq.w.y
  (⟨-eq.lambda * |v0| * v0, -eq.lambda * |v1| * v1, -eq.g - eq.lambda * |r1.z| * r1.z⟩,
    incr nevaluations)

/-- Function `equation_solution_2`. -/
def equation_solution_2 (L : Libm K) (eq : Equation K) (t : K) : Vec3 K × Vec3 K :=
  let v0 := eq.v.x - eq.w.x
  let v1 := eq.v.y - eq.w.y
  let lt := eq.lambda * t
  let k0 := 1 + lt * |v0|
  let k1 := 1 + lt * |v1|
  let r1x := eq.w.x + v0 / k0
  let r1y := eq.w.y + v1 / k1
  let li := 1 / eq.lambda
  let k0 := li * L.logl k0
  let k1 := li * L.logl k1
  let r0x := eq.r.x + eq.w.x * t
  let r0y := eq.r.y + eq.w.y * t
  let r0x := if v0 ≥ 0 then r0x + k0 else r0x - k0
  let r0y := if v1 ≥ 0 then r0y + k1 else r0y - k1
  let gl := L.sqrtl (eq.g * eq.lambda)
  let glt := gl * t
  let g_l := L.sqrtl (eq.g / eq.lambda)
  let r0z := eq.r.z
  if eq.v.z ≤ 0 then
    let k0 := L.coshl glt
    let k1 := L.sinhl glt
    let r1z := g_l * (eq.v.z * k0 - g_l * k1) / (g_l * k0 - eq.v.z * k1)
    let r0z := r0z - li * L.logl (k0 - eq.v.z * k1 / g_l)
    (⟨r0x, r0y, r0z⟩, ⟨r1x, r1y, r1z⟩)
  else
    let alpha := L.atanl (eq.v.z / g_l)
    let tc := alpha / gl
    if t ≤ tc then
      let r1z := g_l * L.tanl (alpha - glt)
      let r0z := r0z + li * L.logl (L.cosl (alpha - glt) / L.cosl alpha)
      (⟨r0x, r0y, r0z⟩, ⟨r1x, r1y, r1z⟩)
    else
      let t := t - tc
      let glt := gl * t
      let r1z := -g_l * L.tanhl glt
      let r0z := r0z - li * L.logl (L.cosl alpha * L.coshl glt)
      (⟨r0x, r0y, r0z⟩, ⟨r1x, r1y, r1z⟩)

/-- Function `equation_acceleration_3`. -/
def equation_acceleration_3 (L : Libm K) (eq : Equation K) (_r0 _r1 : Vec3 K) (t : K)
    (nevaluations : Nat) : Vec3 K × Nat :=
  let elt := L.expl (-eq.lambda * t)
  (⟨eq.w.x * elt, eq.w.y * elt, -G⟩, incr nevaluations)

/-- Function `equation_solution_3`. -/
def equation_solution_3 (L : Libm K) (eq : Equation K) (t : K) : Vec3 K × Vec3 K :=
  let li := 1 / eq.lambda
  let k := li * (1 - L.expl (-eq.lambda * t))
  let r1 : Vec3 K := ⟨eq.v.x + eq.w.x * k, eq.v.y + eq.w.y * k, eq.v.z - eq.g * t⟩
  let k := k * li
  let r0 : Vec3 K :=
    ⟨eq.r.x + (eq.v.x + eq.w.x * li) * t - eq.w.x * k,
      eq.r.y + (eq.v.y + eq.w.y * li) * t - eq.w.y * k,
      eq.r.z + t * (eq.v.z - t * 0.5 * G)⟩
  (r0, r1)

/-- The first `switch (eq->type)` of `equation_read_xml`: the function that the pointer
`equation_acceleration` is set to; `none` is the `goto exit_on_error` of the default case. -/
def equation_acceleration (L : Libm K) (type : Nat) :
    Option (Equation K → Vec3 K → Vec3 K → K → Nat → Vec3 K × Nat) :=
  match type with
  | 0 => some equation_acceleration_0
  | 1 => some equation_acceleration_1
  | 2 => some equation_acceleration_2
  | 3 => some (equation_acceleration_3 L)
  | _ => none

/-- The first `switch (eq->type)` of `equation_read_xml`: the function that the pointer
`equation_solution` is set to. -/
def equation_solution (L : Libm K) (type : Nat) : Option (Equation K → K → Vec3 K × Vec3 K) :=
  match type with
  | 0 => some equation_solution_0
  | 1 => some (equation_solution_1 L)
  | 2 => some (equation_solution_2 L)
  | 3 => some (equation_solution_3 L)
  | _ => none

/-- Function `equation_step_size_0`: the global `dt`. -/
def equation_step_size_0 {σ : Type} (_eq : Equation K) (g : Globals K σ) : K := g.dt

/-- Function `equation_land_0`; `t_old` is the parameter `to`. -/
def equation_land_0 {σ : Type} (eq : Equation K) (t_old t dt : K) (g : Globals K σ) :
    LandResult K σ :=
  let tf := eq.tf
  if t_old ≥ tf then ⟨1, t, dt, g⟩
  else
    let t := t_old + dt
    if t ≥ tf then ⟨0, tf, tf - t_old, g⟩ else ⟨0, t, dt, g⟩

/-- Function `equation_land_1`; `t_old` is the parameter `to`. -/
def equation_land_1 {σ : Type} (_eq : Equation K) (t_old _t dt : K) (g : Globals K σ) :
    LandResult K σ :=
  if g.r0.z > 0 then ⟨0, t_old + dt, dt, g⟩
  else
    let h := g.r0.z / g.r1.z
    let r0 : Vec3 K := ⟨g.r0.x - h * g.r1.x, g.r0.y - h * g.r1.y, g.r0.z - h * g.r1.z⟩
    let r1 : Vec3 K := ⟨g.r1.x - h * g.r2.x, g.r1.y - h * g.r2.y, g.r1.z - h * g.r2.z⟩
    ⟨1, t_old - h, dt, { g with r0 := r0, r1 := r1 }⟩

/-- Function `equation_land_2`; `t_old` is the parameter `to`; `solve_quadratic` is the function
of utils.c (src/0.3.1/utils.c). -/
def equation_land_2 {σ : Type} (L : Libm K) (_eq : Equation K) (t_old _t dt : K)
    (g : Globals K σ) : LandResult K σ :=
  if g.r0.z > 0 then ⟨0, t_old + dt, dt, g⟩
  else
    let h := V031.solve_quadratic L (0.5 * g.r2.z) (-g.r1.z) g.r0.z 0 dt
    let r0 : Vec3 K :=
      ⟨g.r0.x - h * (g.r1.x - h * 0.5 * g.r2.x), g.r0.y - h * (g.r1.y - h * 0.5 * g.r2.y),
        g.r0.z - h * (g.r1.z - h * 0.5 * g.r2.z)⟩
    let r1 : Vec3 K := ⟨g.r1.x - h * g.r2.x, g.r1.y - h * g.r2.y, g.r1.z - h * g.r2.z⟩
    ⟨1, t_old - h, dt, { g with r0 := r0, r1 := r1 }⟩

/-- Function `equation_land_3`; `t_old` is the parameter `to`; `solve_cubic` is the function of
utils.c (src/0.3.1/utils.c). -/
def equation_land_3 {σ : Type} (L : Libm K) (_eq : Equation K) (t_old _t dt : K)
    (g : Globals K σ) : LandResult K σ :=
  if g.r0.z > 0 then ⟨0, t_old + dt, dt, g⟩
  else
    let r3 : Vec3 K :=
      ⟨(g.r2.x - g.ro2.x) / dt, (g.r2.y - g.ro2.y) / dt, (g.r2.z - g.ro2.z) / dt⟩
    let h := V031.solve_cubic L (-1 / 6 * r3.z) (0.5 * g.r2.z) (-g.r1.z) g.r0.z 0 dt
    let r0 : Vec3 K :=
      ⟨g.r0.x - h * (g.r1.x - h * (0.5 * g.r2.x - h * 1 / 6 * r3.x)),
        g.r0.y - h * (g.r1.y - h * (0.5 * g.r2.y - h * 1 / 6 * r3.y)),
        g.r0.z - h * (g.r1.z - h * (0.5 * g.r2.z - h * 1 / 6 * r3.z))⟩
    let r1 : Vec3 K :=
      ⟨g.r1.x - h * (g.r2.x - h * 0.5 * r3.x), g.r1.y - h * (g.r2.y - h * 0.5 * r3.y),
        g.r1.z - h * (g.r2.z - h * 0.5 * r3.z)⟩
    ⟨1, t_old - h, dt, { g with r0 := r0, r1 := r1 }⟩

end equation

end V110

/-! ## Revision 0.3.1: the Runge-Kutta error estimate and loop, the multi-steps step -/

namespace V031

section run
variable {K : Type} [LinearOrderedField K]

/-- The loop `for (i = 0; i < m->nsteps; ++i)` of `runge_kutta_error`, run while `i < k`: the
pair of the arrays `e0`, `e1`. -/
def error_sums (rk : RungeKutta K) (dt : K) : Nat → Vec3 K × Vec3 K
  | 0 => (⟨0, 0, 0⟩, ⟨0, 0, 0⟩)
  | i + 1 =>
    let e := error_sums rk dt i
    (e.1.axpy (dt * rk.e.getD i 0) (rk.method.r1 i), e.2.axpy (dt * rk.e.getD i 0) (rk.method.r2 i))

/-- Function `runge_kutta_error`. -/
def runge_kutta_error (L : Libm K) (rk : RungeKutta K) (dt : K) : RungeKutta K :=
  let m := rk.method
  let e := error_sums rk dt m.nsteps
  let e0 := L.sqrtl (e.1.x * e.1.x + e.1.y * e.1.y + e.1.z * e.1.z)
  let e1 := L.sqrtl (e.2.x * e.2.x + e.2.y * e.2.y + e.2.z * e.2.z)
  { rk with method := { m with e0 := e0, e1 := e1, et0 := m.et0 + e0, et1 := m.et1 + e1 } }

/-- The local variables of `runge_kutta_run`; `t_old` is the local `to`. -/
structure RunVars (K : Type) where
  t : K
  t_old : K
  dt : K
  dto : K
  et0o : K
  et1o : K

/-- The loop `for (t = 0.L; 1;)` of `runge_kutta_run`, with a bound on the number of
iterations: `none` when the bound is reached before the `break`.  The revision 0.3.1 of
`method_dt` is not among the sources and is a parameter, as are the functions that the
pointers `equation_acceleration`, `equation_step_size` and `equation_land` are set to. -/
def runge_kutta_loop {ε σ : Type} (L : Libm K) (method_dt : Method K → K → K)
    (equation_acceleration : ε → Vec3 K → Vec3 K → K → σ → Vec3 K × σ)
    (equation_step_size : ε → Globals K σ → K)
    (equation_land : ε → K → K → K → Globals K σ → LandResult K σ) (eq : ε) :
    Nat → RungeKutta K → Globals K σ → RunVars K → Option (K × RungeKutta K × Globals K σ)
  | 0, _, _, _ => none
  | fuel + 1, rk, g, x =>
    let m := rk.method
    -- time step size
    let s1 : RungeKutta K × Globals K σ × RunVars K :=
      if 0 < x.t ∧ m.error_dt ≠ 0 then
        let dto := x.dt
        let dt := method_dt m x.dt
        -- revert the step if big error
        if dt < m.beta * dto then
          ({ rk with method := { m with et0 := x.et0o, et1 := x.et1o } },
            { g with r0 := g.ro0, r1 := g.ro1, r2 := g.ro2 },
            { x with dto := dto, dt := dt, t := x.t_old })
        else (rk, g, { x with dto := dto, dt := dt })
      else (rk, g, { x with dt := equation_step_size eq g })
    -- checking trajectory end
    let t_old := s1.2.2.t
    let l := equation_land eq t_old s1.2.2.t s1.2.2.dt s1.2.1
    if l.ret ≠ 0 then some (l.t, s1.1, l.g)
    else
      -- backup of variables
      let g2 : Globals K σ := { l.g with ro0 := l.g.r0, ro1 := l.g.r1, ro2 := l.g.r2 }
      -- Runge-Kutta step
      let s3 := runge_kutta_step equation_acceleration s1.1 eq t_old l.dt g2
      -- error estimate
      if m.error_dt ≠ 0 then
        runge_kutta_loop L method_dt equation_acceleration equation_step_size equation_land eq
          fuel (runge_kutta_error L s3.1 l.dt) s3.2
          { s1.2.2 with t_old := t_old, t := l.t, dt := l.dt, et0o := s3.1.method.et0,
                        et1o := s3.1.method.et1 }
      else
        runge_kutta_loop L method_dt equation_acceleration equation_step_size equation_land eq
          fuel s3.1 s3.2 { s1.2.2 with t_old := t_old, t := l.t, dt := l.dt }

/-- Function `runge_kutta_run`: the backup of the registers, then the loop from `t = 0`; the
locals other than `t` are not initialised and start from any values `x`. -/
def runge_kutta_run {ε σ : Type} (L : Libm K) (method_dt : Method K → K → K)
    (equation_acceleration : ε → Vec3 K → Vec3 K → K → σ → Vec3 K × σ)
    (equation_step_size : ε → Globals K σ → K)
    (equation_land : ε → K → K → K → Globals K σ → LandResult K σ) (eq : ε)
    (fuel : Nat) (rk : RungeKutta K) (g : Globals K σ) (x : RunVars K) :
    Option (K × RungeKutta K × Globals K σ) :=
  runge_kutta_loop L method_dt equation_acceleration equation_step_size equation_land eq fuel rk
    { g with ro0 := g.r0, ro1 := g.r1, ro2 := g.r2 } { x with t := 0 }

end run

section multi_steps
variable {K : Type} [Field K]

/-- The `MultiSteps` struct of multi-steps.h. -/
structure MultiSteps (K : Type) where
  method : Method K
  runge_kutta : RungeKutta K
  a : List K
  c : List K
  ea : List K
  eb : List K
  steps : Nat

def ms_a2 : List K := [0.75, 0, 0.25]
def ms_c2 : List K := [2, 0, 0]
def ms_ea2 : List K := [0.25, 0, -0.25]
def ms_eb2 : List K := [0.5, 0, 0]
def ms_a3 : List K := [16 / 27, 0, 0, 11 / 27]
def ms_c3 : List K := [3, 0, 0, 12 / 11]
def ms_ea3 : List K := [17 / 108, 0, 0.25, -11 / 27]
def ms_eb3 : List K := [-5 / 18, 0, 0, -4 / 9]

/-- Function `multi_steps_init`: `none` is the `return 0` of the default case. -/
def multi_steps_init (ms : MultiSteps K) (nsteps : Nat) : Option (MultiSteps K) :=
  match nsteps with
  | 2 => some { ms with method := method_init ms.method 3 2, a := ms_a2, c := ms_c2,
                        ea := ms_ea2, eb := ms_eb2 }
  | 3 => some { ms with method := method_init ms.method 4 3, a := ms_a3, c := ms_c3,
                        ea := ms_ea3, eb := ms_eb3 }
  | _ => none

/-- The loop `for (i = 1; i < n; ++i)` of `multi_steps_step`, run while `i < k`: the pair of
the arrays `msr0`, `msr1`. -/
def multi_steps_sums {σ : Type} (ms : MultiSteps K) (dt : K) (g : Globals K σ) :
    Nat → Vec3 K × Vec3 K
  | 0 =>
    (Vec3.comb (ms.a.getD 0 0) g.r0 (dt * ms.c.getD 0 0) g.r1,
      Vec3.comb (ms.a.getD 0 0) g.r1 (dt * ms.c.getD 0 0) g.r2)
  | 1 =>
    (Vec3.comb (ms.a.getD 0 0) g.r0 (dt * ms.c.getD 0 0) g.r1,
      Vec3.comb (ms.a.getD 0 0) g.r1 (dt * ms.c.getD 0 0) g.r2)
  | i + 2 =>
    let s := multi_steps_sums ms dt g (i + 1)
    (s.1.addComb (ms.a.getD (i + 1) 0) (ms.method.r0 (i + 1)) (dt * ms.c.getD (i + 1) 0)
        (ms.method.r1 (i + 1)),
      s.2.addComb (ms.a.getD (i + 1) 0) (ms.method.r1 (i + 1)) (dt * ms.c.getD (i + 1) 0)
        (ms.method.r2 (i + 1)))

/-- The loop `for (i = n; --i > 0;)` of `multi_steps_step` from the value `i` of the counter
after its first decrement: the slot `i` takes the slot `i - 1`, down to the slot 1. -/
def multi_steps_shift : Nat → Method K → Method K
  | 0, m => m
  | i + 1, m =>
    multi_steps_shift i
      { m with
        r0 := Function.update m.r0 (i + 1) (m.r0 i)
        r1 := Function.update m.r1 (i + 1) (m.r1 i)
        r2 := Function.update m.r2 (i + 1) (m.r2 i) }

/-- Function `multi_steps_step` of src/multi-steps.c and src/0.3.1/multi-steps.c (the same
text); the counter `i` of the shift loop is an `unsigned int` (32 bits). -/
def multi_steps_step {ε σ : Type}
    (equation_acceleration : ε → Vec3 K → Vec3 K → K → σ → Vec3 K × σ)
    (ms : MultiSteps K) (eq : ε) (t dt : K) (g : Globals K σ) : MultiSteps K × Globals K σ :=
  let m := ms.method
  let n := m.nsteps
  let msr := multi_steps_sums ms dt g n
  let m0 : Method K :=
    { m with
      r0 := Function.update m.r0 0 g.r0
      r1 := Function.update m.r1 0 g.r1
      r2 := Function.update m.r2 0 g.r2 }
  let m1 := multi_steps_shift ((n + (2 ^ 32 - 1)) % 2 ^ 32) m0
  let r := equation_acceleration eq msr.1 msr.2 (t + dt) g.nevaluations
  ({ ms with method := m1 }, { g with r0 := msr.1, r1 := msr.2, r2 := r.1, nevaluations := r.2 })

end multi_steps

end V031

/-! ## Revision 1.1.0: the step sizes, the random initial conditions -/

namespace V110

section method
variable {K : Type} [LinearOrderedField K]

/-- Function `method_dt` of src/1.1.0/method.c; `fminl` is `min`, and the `unsigned int`
order is converted to `long double` before the subtraction. -/
def method_dt (L : Libm K) (m : Method K) (dt : K) : K :=
  dt * min m.alpha (L.powl (m.emt * dt / m.e0) (1 / ((m.order : K) - 1)))

end method

section equation_more
variable {K : Type} [LinearOrderedField K]

/-- Function `equation_step_size_1`; `fabsl` is the absolute value. -/
def equation_step_size_1 {σ : Type} (eq : Equation K) (g : Globals K σ) : K :=
  g.kt / |eq.lambda|

/-- Function `equation_step_size_2`; `fmaxl` is `max`. -/
def equation_step_size_2 {σ : Type} (eq : Equation K) (g : Globals K σ) : K :=
  g.kt / (|eq.lambda| * max |g.r1.x - eq.w.x| (max |g.r1.y - eq.w.y| |g.r1.z|))

/-- The call `gsl_rng_uniform (rng)` of the GSL: the generator is the sequence of the draws
that it still has to give; the call returns the first one and leaves the rest. -/
def gsl_rng_uniform (rng : Nat → K) : K × (Nat → K) := (rng 0, fun n => rng (n + 1))

/-- Function `equation_init`; `M_PIl` is `L.pi`. -/
def equation_init (L : Libm K) (eq : Equation K) (rng : Nat → K) : Equation K × (Nat → K) :=
  let s : Equation K × (Nat → K) :=
    match eq.type with
    | 1 | 2 | 3 =>
      let u := gsl_rng_uniform rng
      ({ eq with lambda := eq.min_lambda + (eq.max_lambda - eq.min_lambda) * u.1 }, u.2)
    | _ => (eq, rng)
  let eq := s.1
  let u := gsl_rng_uniform s.2
  let v := eq.min_velocity + (eq.max_velocity - eq.min_velocity) * u.1
  let u := gsl_rng_uniform u.2
  let ha := 2 * L.pi * u.1
  let va := eq.vertical_angle * L.pi / 180
  let v2 := v * L.sinl va
  let v1 := v * L.cosl va
  let v0 := v1 * L.cosl ha
  let v1 := v1 * L.sinl ha
  let u := gsl_rng_uniform u.2
  let v := eq.max_wind * u.1
  let u := gsl_rng_uniform u.2
  let ha := 2 * L.pi * u.1
  ({ eq with r := ⟨0, 0, eq.r.z⟩, v := ⟨v0, v1, v2⟩, w := ⟨v * L.cosl ha, v * L.sinl ha⟩ }, u.2)

end equation_more

end V110

/-! ## The reader of the configuration (utils.c, equation.c) -/

/-- What a property of an XML node is for the reader: not in the node (`xmlGetProp` returns
`NULL`), in the node with a text that `sscanf` does not convert, or in the node with the
value that `sscanf` converts. -/
inductive XmlProp (α : Type) where
  | absent : XmlProp α
  | bad : XmlProp α
  | value (v : α) : XmlProp α

/-- An `xmlNode` of libxml, as the reader sees it: its name, and its properties as read with
the format `%u` and with the format `%Lf`. -/
structure XmlNode (K : Type) where
  name : String
  uint : String → XmlProp Nat
  float : String → XmlProp K

def XML_DT : String := "dt"
def XML_EQUATION : String := "equation"
def XML_G : String := "g"
def XML_KT : String := "kt"
def XML_LAMBDA : String := "lambda"
def XML_LAND : String := "land"
def XML_T : String := "t"
def XML_TIME_STEP : String := "time-step"
def XML_TYPE : String := "type"
def XML_VX : String := "vx"
def XML_VY : String := "vy"
def XML_VZ : String := "vz"
def XML_WX : String := "wx"
def XML_WY : String := "wy"
def XML_X : String := "x"
def XML_Y : String := "y"
def XML_Z : String := "z"

/-- Modelled from the spec: the config.h of revision 1.1.0 is not among the sources; the
labels of the properties of the convergence mode are the names of section 5 of the spec. -/
def XML_VMIN : String := "vmin"

/-- Modelled from the spec: see `XML_VMIN`. -/
def XML_VMAX : String := "vmax"

/-- Modelled from the spec: see `XML_VMIN`. -/
def XML_VERTICAL_ANGLE : String := "vertical_angle"

/-- Modelled from the spec: see `XML_VMIN`. -/
def XML_WMAX : String := "wmax"

/-- Modelled from the spec: see `XML_VMIN`. -/
def XML_LAMBDA_MIN : String := "lambda_min"

/-- Modelled from the spec: see `XML_VMIN`. -/
def XML_LAMBDA_MAX : String := "lambda_max"

section xml
variable {K : Type} [LinearOrderedField K]

/-- Function `xml_node_get_uint` of utils.c: the value and the error code. -/
def xml_node_get_uint (node : XmlNode K) (prop : String) : Nat × Nat :=
  match node.uint prop with
  | XmlProp.absent => (0, 1)
  | XmlProp.bad => (0, 2)
  | XmlProp.value v => (v, 0)

/-- Function `xml_node_get_float` of utils.c: the value and the error code. -/
def xml_node_get_float (node : XmlNode K) (prop : String) : K × Nat :=
  match node.float prop with
  | XmlProp.absent => (0, 1)
  | XmlProp.bad => (0, 2)
  | XmlProp.value v => (v, 0)

/-- Function `xml_node_get_float_with_default` of utils.c; `xmlHasProp` is false for a
property that is not in the node. -/
def xml_node_get_float_with_default (node : XmlNode K) (prop : String) (default_value : K) :
    K × Nat :=
  match node.float prop with
  | XmlProp.absent => (default_value, 0)
  | _ => xml_node_get_float node prop

end xml

namespace V110

/-- What `equation_read_xml` writes: the `Equation` struct, the globals `dt` and `kt`, and the
four function pointers of equation.c; a pointer is `some k` when it holds the function of
suffix `k` (`equation_land_2` is `some 2`) and `none` when nothing was assigned to it. -/
structure ReadState (K : Type) where
  eq : Equation K
  dt : K
  kt : K
  equation_acceleration : Option Nat
  equation_solution : Option Nat
  equation_step_size : Option Nat
  equation_land : Option Nat

section read
variable {K : Type} [LinearOrderedField K]

/-- Function `equation_read_xml`, from its start to the check of `z`: `Except.error e` is
`e = ...; goto exit_on_error;`. -/
def equation_read_xml_type (s : ReadState K) (node : XmlNode K) : Except Nat (ReadState K) :=
  if node.name ≠ XML_EQUATION then Except.error 0
  else
    let r := xml_node_get_uint node XML_TYPE
    if r.2 ≠ 0 then Except.error 1
    else
      let s : ReadState K := { s with eq := { s.eq with type := r.1 } }
      let p : Option (ReadState K) :=
        match s.eq.type with
        | 0 => some { s with equation_acceleration := some 0, equation_solution := some 0 }
        | 1 => some { s with equation_acceleration := some 1, equation_solution := some 1 }
        | 2 => some { s with equation_acceleration := some 2, equation_solution := some 2 }
        | 3 => some { s with equation_acceleration := some 3, equation_solution := some 3 }
        | _ => none
      match p with
      | none => Except.error 2
      | some s =>
        let x := xml_node_get_float_with_default node XML_X 0
        if x.2 ≠ 0 then Except.error 3
        else
          let s : ReadState K := { s with eq := { s.eq with r := { s.eq.r with x := x.1 } } }
          let y := xml_node_get_float_with_default node XML_Y 0
          if y.2 ≠ 0 then Except.error 4
          else
            let s : ReadState K := { s with eq := { s.eq with r := { s.eq.r with y := y.1 } } }
            let z := xml_node_get_float node XML_Z
            let s : ReadState K := { s with eq := { s.eq with r := { s.eq.r with z := z.1 } } }
            if z.2 ≠ 0 ∨ s.eq.r.z < 0 then Except.error 5
            else Except.ok s

/-- Function `equation_read_xml`, the branch `if (initial)`: the initial conditions of one
trajectory. -/
def equation_read_xml_initial (s : ReadState K) (node : XmlNode K) : Except Nat (ReadState K) :=
  let vx := xml_node_get_float_with_default node XML_VX 0
  if vx.2 ≠ 0 then Except.error 6
  else
    let s : ReadState K := { s with eq := { s.eq with v := { s.eq.v with x := vx.1 } } }
    let vy := xml_node_get_float_with_default node XML_VY 0
    if vy.2 ≠ 0 then Except.error 7
    else
      let s : ReadState K := { s with eq := { s.eq with v := { s.eq.v with y := vy.1 } } }
      let vz := xml_node_get_float_with_default node XML_VZ 0
      if vz.2 ≠ 0 then Except.error 8
      else
        let s : ReadState K := { s with eq := { s.eq with v := { s.eq.v with z := vz.1 } } }
        let wx := xml_node_get_float_with_default node XML_WX 0
        if wx.2 ≠ 0 then Except.error 9
        else
          let s : ReadState K := { s with eq := { s.eq with w := { s.eq.w with x := wx.1 } } }
          let wy := xml_node_get_float_with_default node XML_WY 0
          if wy.2 ≠ 0 then Except.error 10
          else
            let s : ReadState K := { s with eq := { s.eq with w := { s.eq.w with y := wy.1 } } }
            match s.eq.type with
            | 1 | 2 | 3 =>
              let l := xml_node_get_float_with_default node XML_LAMBDA 0
              if l.2 ≠ 0 then Except.error 11
              else Except.ok { s with eq := { s.eq with lambda := l.1 } }
            | _ => Except.ok s

/-- Function `equation_read_xml`, the branch `else` of `if (initial)`: the ranges of the
random initial conditions. -/
def equation_read_xml_ranges (s : ReadState K) (node : XmlNode K) : Except Nat (ReadState K) :=
  let vmin := xml_node_get_float_with_default node XML_VMIN 0
  let s : ReadState K := { s with eq := { s.eq with min_velocity := vmin.1 } }
  if vmin.2 ≠ 0 ∨ s.eq.min_velocity < 0 then Except.error 12
  else
    let vmax := xml_node_get_float node XML_VMAX
    let s : ReadState K := { s with eq := { s.eq with max_velocity := vmax.1 } }
    if vmax.2 ≠ 0 ∨ s.eq.max_velocity ≤ 0 then Except.error 13
    else
      let va := xml_node_get_float node XML_VERTICAL_ANGLE
      if va.2 ≠ 0 then Except.error 14
      else
        let s : ReadState K := { s with eq := { s.eq with vertical_angle := va.1 } }
        let wmax := xml_node_get_float_with_default node XML_WMAX 0
        let s : ReadState K := { s with eq := { s.eq with max_wind := wmax.1 } }
        if wmax.2 ≠ 0 ∨ s.eq.max_wind < 0 then Except.error 15
        else
          match s.eq.type with
          | 1 | 2 | 3 =>
            let lmin := xml_node_get_float_with_default node XML_LAMBDA_MIN 0
            if lmin.2 ≠ 0 then Except.error 16
            else
              let s : ReadState K := { s with eq := { s.eq with min_lambda := lmin.1 } }
              let lmax := xml_node_get_float_with_default node XML_LAMBDA_MAX 0
              let s : ReadState K := { s with eq := { s.eq with max_lambda := lmax.1 } }
              if lmax.2 ≠ 0 ∨ s.eq.max_lambda < s.eq.min_lambda then Except.error 17
              else Except.ok s
          | _ => Except.ok s

/-- Function `equation_read_xml`, from the gravity to the type of the time step size. -/
def equation_read_xml_size (s : ReadState K) (node : XmlNode K) : Except Nat (ReadState K) :=
  let g := xml_node_get_float_with_default node XML_G G
  if g.2 ≠ 0 then Except.error 18
  else
    let s : ReadState K := { s with eq := { s.eq with g := g.1 } }
    let st := xml_node_get_uint node XML_TIME_STEP
    if st.2 ≠ 0 then Except.error 19
    else
      let s : ReadState K := { s with eq := { s.eq with size_type := st.1 } }
      match s.eq.size_type with
      | 0 =>
        let s : ReadState K := { s with equation_step_size := some 0 }
        let d := xml_node_get_float node XML_DT
        if d.2 ≠ 0 then Except.error 20
        else Except.ok { s with dt := d.1 }
      | 1 =>
        let s : ReadState K :=
          match s.eq.type with
          | 1 => { s with equation_step_size := some 1 }
          | 2 => { s with equation_step_size := some 2 }
          | _ => s
        let k := xml_node_get_float node XML_KT
        if k.2 ≠ 0 then Except.error 21
        else Except.ok { s with kt := k.1 }
      | _ => Except.error 22

/-- Function `equation_read_xml`, from the type of landing to the end. -/
def equation_read_xml_land (s : ReadState K) (node : XmlNode K) : Except Nat (ReadState K) :=
  let lt := xml_node_get_uint node XML_LAND
  if lt.2 ≠ 0 then Except.error 23
  else
    let s : ReadState K := { s with eq := { s.eq with land_type := lt.1 } }
    match s.eq.land_type with
    | 0 =>
      let s : ReadState K := { s with equation_land := some 0 }
      let tf := xml_node_get_float node XML_T
      let s : ReadState K := { s with eq := { s.eq with tf := tf.1 } }
      if tf.2 ≠ 0 ∨ s.eq.tf < 0 then Except.error 24
      else Except.ok s
    | 1 => Except.ok { s with equation_land := some 1 }
    | 2 => Except.ok { s with equation_land := some 2 }
    | 3 => Except.ok { s with equation_land := some 3 }
    | _ => Except.error 25

/-- Function `equation_read_xml`: `Except.ok` is `return 1` with what was written, and
`Except.error e` is `return 0` after `error_add (message[e])`. -/
def equation_read_xml (s : ReadState K) (node : XmlNode K) (initial : Nat) :
    Except Nat (ReadState K) :=
  match equation_read_xml_type s node with
  | Except.error e => Except.error e
  | Except.ok s =>
    match (if initial ≠ 0 then equation_read_xml_initial s node
      else equation_read_xml_ranges s node) with
    | Except.error e => Except.error e
    | Except.ok s =>
      match equation_read_xml_size s node with
      | Except.error e => Except.error e
      | Except.ok s => equation_read_xml_land s node

end read

end V110

namespace V031

section multi_steps_run
variable {K : Type} [LinearOrderedField K]

/-- The loop `for (i = 0; i < m->nsteps; ++i)` of `multi_steps_error`, run while `i < k`: the
pair of the arrays `e0`, `e1`. -/
def multi_steps_error_sums (ms : MultiSteps K) (dt : K) : Nat → Vec3 K × Vec3 K
  | 0 => (⟨0, 0, 0⟩, ⟨0, 0, 0⟩)
  | i + 1 =>
    let e := multi_steps_error_sums ms dt i
    let m := ms.method
    (⟨e.1.x + (ms.ea.getD i 0 * (m.r0 i).x + dt * ms.eb.getD i 0 * (m.r1 i).x),
        e.1.y + (ms.ea.getD i 0 * (m.r0 i).y + dt * ms.eb.getD i 0 * (m.r1 i).y),
        e.1.z + (ms.ea.getD i 0 * (m.r0 i).z + dt * ms.eb.getD i 0 * (m.r1 i).z)⟩,
      ⟨e.2.x + (ms.ea.getD i 0 * (m.r1 i).x + dt * ms.eb.getD i 0 * (m.r2 i).x),
        e.2.y + (ms.ea.getD i 0 * (m.r1 i).y + dt * ms.eb.getD i 0 * (m.r2 i).y),
        e.2.z + (ms.ea.getD i 0 * (m.r1 i).z + dt * ms.eb.getD i 0 * (m.r2 i).z)⟩)

/-- Function `multi_steps_error`. -/
def multi_steps_error (L : Libm K) (ms : MultiSteps K) (dt : K) : MultiSteps K :=
  let m := ms.method
  let e := multi_steps_error_sums ms dt m.nsteps
  let e0 := L.sqrtl (e.1.x * e.1.x + e.1.y * e.1.y + e.1.z * e.1.z)
  let e1 := L.sqrtl (e.2.x * e.2.x + e.2.y * e.2.y + e.2.z * e.2.z)
  { ms with method := { m with e0 := e0, e1 := e1, et0 := m.et0 + e0, et1 := m.et1 + e1 } }

/-- The function that a step of `multi_steps_run` calls. -/
inductive StepKind where
  | runge_kutta : StepKind
  | multi_steps : StepKind
deriving DecidableEq

/-- A record of a step of `multi_steps_run`, kept apart from the variables of the program to
state what the loop did: the function called, the step size `dto` given to `equation_land` and
the step size `dt` that `equation_land` left, with which the step was made. -/
structure StepRecord (K : Type) where
  kind : StepKind
  dto : K
  dt : K

/-- What the loop of the first steps of `multi_steps_run` leaves when it ends without a
landing: the counter `i`, the structs, the globals, the locals and the record of the steps. -/
structure FirstSteps (K σ : Type) where
  i : Nat
  ms : MultiSteps K
  g : Globals K σ
  x : RunVars K
  steps : List (StepRecord K)

/-- What `multi_steps_run` returns and leaves: the final time, the structs, the globals and
the record of the steps. -/
structure RunResult (K σ : Type) where
  t : K
  ms : MultiSteps K
  g : Globals K σ
  steps : List (StepRecord K)

/-- The loop `for (t = 0.L, i = n; --i > 0;)` of `multi_steps_run` (the first steps, made with
the Runge-Kutta method), with a bound on the number of iterations: `none` when the bound is
reached, `Sum.inl` at the `goto end` of a landing, `Sum.inr` when the loop ends.  The counter
`i` is an `unsigned int` (32 bits).  `method_dt` and the functions of the pointers of
equation.c are parameters, as in `runge_kutta_loop`. -/
def multi_steps_first {ε σ : Type} (L : Libm K) (method_dt : Method K → K → K)
    (equation_acceleration : ε → Vec3 K → Vec3 K → K → σ → Vec3 K × σ)
    (equation_step_size : ε → Globals K σ → K)
    (equation_land : ε → K → K → K → Globals K σ → LandResult K σ) (eq : ε) :
    Nat → Nat → MultiSteps K → Globals K σ → RunVars K → List (StepRecord K) →
      Option (RunResult K σ ⊕ FirstSteps K σ)
  | 0, _, _, _, _, _ => none
  | fuel + 1, i, ms, g, x, steps =>
    let i := (i + (2 ^ 32 - 1)) % 2 ^ 32
    if 0 < i then
      let rk := ms.runge_kutta
      let mrk := rk.method
      -- time step size
      let s1 : Nat × RungeKutta K × Globals K σ × RunVars K :=
        if 0 < x.t ∧ mrk.error_dt ≠ 0 then
          let dto := x.dt
          let dt := method_dt mrk x.dt
          -- revert the step if big error
          if dt < mrk.beta * dto then
            ((i + 1) % 2 ^ 32, { rk with method := { mrk with et0 := x.et0o, et1 := x.et1o } },
              { g with r0 := g.ro0, r1 := g.ro1, r2 := g.ro2 },
              { x with dto := dto, dt := dt, t := x.t_old })
          else (i, rk, g, { x with dto := dto, dt := dt })
        else (i, rk, g, { x with dt := equation_step_size eq g })
      let i := s1.1
      -- checking trajectory end
      let t_old := s1.2.2.2.t
      let l := equation_land eq t_old s1.2.2.2.t s1.2.2.2.dt s1.2.2.1
      if l.ret ≠ 0 then some (Sum.inl ⟨l.t, { ms with runge_kutta := s1.2.1 }, l.g, steps⟩)
      else
        -- saving step
        let m := ms.method
        let m1 : Method K :=
          { m with
            r0 := Function.update m.r0 i l.g.r0
            r1 := Function.update m.r1 i l.g.r1
            r2 := Function.update m.r2 i l.g.r2 }
        let g2 : Globals K σ := { l.g with ro0 := l.g.r0, ro1 := l.g.r1, ro2 := l.g.r2 }
        -- Runge-Kutta step
        let s3 := runge_kutta_step equation_acceleration s1.2.1 eq t_old l.dt g2
        let steps := steps ++ [⟨StepKind.runge_kutta, s1.2.2.2.dt, l.dt⟩]
        -- error estimate
        if mrk.error_dt ≠ 0 then
          multi_steps_first L method_dt equation_acceleration equation_step_size equation_land
            eq fuel i { ms with method := m1, runge_kutta := runge_kutta_error L s3.1 l.dt } s3.2
            { s1.2.2.2 with t_old := t_old, t := l.t, dt := l.dt, et0o := s3.1.method.et0,
                            et1o := s3.1.method.et1 } steps
        else
          multi_steps_first L method_dt equation_acceleration equation_step_size equation_land
            eq fuel i { ms with method := m1, runge_kutta := s3.1 } s3.2
            { s1.2.2.2 with t_old := t_old, t := l.t, dt := l.dt } steps
    else some (Sum.inr ⟨i, ms, g, x, steps⟩)

/-- The loop `while (1)` of `multi_steps_run` (the temporal loop), with a bound on the number
of iterations: `none` when the bound is reached before the `break`.  The increment `++i` of
the revert branch is left out: the counter is not read after the first steps. -/
def multi_steps_loop {ε σ : Type} (L : Libm K) (method_dt : Method K → K → K)
    (equation_acceleration : ε → Vec3 K → Vec3 K → K → σ → Vec3 K × σ)
    (equation_step_size : ε → Globals K σ → K)
    (equation_land : ε → K → K → K → Globals K σ → LandResult K σ) (eq : ε) :
    Nat → MultiSteps K → Globals K σ → RunVars K → List (StepRecord K) →
      Option (RunResult K σ)
  | 0, _, _, _, _ => none
  | fuel + 1, ms, g, x, steps =>
    let m := ms.method
    let mrk := ms.runge_kutta.method
    -- time step size
    let s1 : MultiSteps K × Globals K σ × RunVars K :=
      if m.error_dt ≠ 0 then
        let dto := x.dt
        let dt := method_dt m x.dt
        -- revert the step if big error
        if dt < mrk.beta * dto then
          ({ ms with method := { m with et0 := x.et0o, et1 := x.et1o } },
            { g with r0 := g.ro0, r1 := g.ro1, r2 := g.ro2 },
            { x with dto := dto, dt := dt, t := x.t_old })
        else (ms, g, { x with dto := dto, dt := dt })
      else (ms, g, { x with dt := equation_step_size eq g })
    -- checking trajectory end
    let t_old := s1.2.2.t
    let dto := s1.2.2.dt
    let l := equation_land eq t_old s1.2.2.t s1.2.2.dt s1.2.1
    if l.ret ≠ 0 then some ⟨l.t, s1.1, l.g, steps⟩
    else
      -- variables backup
      let g2 : Globals K σ := { l.g with ro0 := l.g.r0, ro1 := l.g.r1, ro2 := l.g.r2 }
      -- multi-steps step
      let s3 : MultiSteps K × Globals K σ × StepKind :=
        if dto = l.dt then
          let r := multi_steps_step equation_acceleration s1.1 eq t_old l.dt g2
          (r.1, r.2, StepKind.multi_steps)
        else
          let r := runge_kutta_step equation_acceleration s1.1.runge_kutta eq t_old l.dt g2
          ({ s1.1 with runge_kutta := r.1 }, r.2, StepKind.runge_kutta)
      let steps := steps ++ [⟨s3.2.2, dto, l.dt⟩]
      -- error estimate
      if m.error_dt ≠ 0 then
        multi_steps_loop L method_dt equation_acceleration equation_step_size equation_land eq
          fuel (multi_steps_error L s3.1 l.dt) s3.2.1
          { s1.2.2 with t_old := t_old, dto := dto, t := l.t, dt := l.dt,
                        et0o := s3.1.method.et0, et1o := s3.1.method.et1 } steps
      else
        multi_steps_loop L method_dt equation_acceleration equation_step_size equation_land eq
          fuel s3.1 s3.2.1 { s1.2.2 with t_old := t_old, dto := dto, t := l.t, dt := l.dt } steps

/-- Function `multi_steps_run` of src/0.3.1/multi-steps.c: the backup of the registers, the
first steps from `t = 0`, the saving of the last step, and the temporal loop; the locals other
than `t` are not initialised and start from any values `x`. -/
def multi_steps_run {ε σ : Type} (L : Libm K) (method_dt : Method K → K → K)
    (equation_acceleration : ε → Vec3 K → Vec3 K → K → σ → Vec3 K × σ)
    (equation_step_size : ε → Globals K σ → K)
    (equation_land : ε → K → K → K → Globals K σ → LandResult K σ) (eq : ε)
    (fuel : Nat) (ms : MultiSteps K) (g : Globals K σ) (x : RunVars K) :
    Option (RunResult K σ) :=
  match multi_steps_first L method_dt equation_acceleration equation_step_size equation_land eq
      fuel ms.method.nsteps ms { g with ro0 := g.r0, ro1 := g.r1, ro2 := g.r2 }
      { x with t := 0 } [] with
  | none => none
  | some (Sum.inl r) => some r
  | some (Sum.inr s) =>
    let m := s.ms.method
    let mrk := s.ms.runge_kutta.method
    -- saving last step, initing errors
    let m1 : Method K :=
      { m with
        r0 := Function.update m.r0 0 s.g.r0
        r1 := Function.update m.r1 0 s.g.r1
        r2 := Function.update m.r2 0 s.g.r2
        et0 := mrk.et0
        et1 := mrk.et1 }
    multi_steps_loop L method_dt equation_acceleration equation_step_size equation_land eq fuel
      { s.ms with method := m1 } s.g s.x s.steps

end multi_steps_run

end V031

namespace V031

section fixed_steps
variable {K : Type} [LinearOrderedField K]

/-- The states that the loop of `runge_kutta_run` goes through with a fixed step size `dt`
and the final time `tf` as the end: `j` steps from the step of index `k`, which starts at the
time `k dt` and has the size `min (dt, tf - k dt)`, each one after the backup of the
registers. -/
def runge_kutta_steps {ε σ : Type}
    (equation_acceleration : ε → Vec3 K → Vec3 K → K → σ → Vec3 K × σ) (eq : ε) (dt tf : K) :
    Nat → Nat → RungeKutta K × Globals K σ → RungeKutta K × Globals K σ
  | 0, _, s => s
  | j + 1, k, s =>
    runge_kutta_steps equation_acceleration eq dt tf j (k + 1)
      (runge_kutta_step equation_acceleration s.1 eq (k * dt) (min dt (tf - k * dt))
        { s.2 with ro0 := s.2.r0, ro1 := s.2.r1, ro2 := s.2.r2 })

/-- The state `(t, rk, g)` after one iteration of the loop of the first steps of
`multi_steps_run` that finds no landing, without error control: the step size of
`equation_step_size`, the call of `equation_land`, the backup of the registers and the
Runge-Kutta step.  Its iterates from `(0, rk, g)` are the states reached after `k`
Runge-Kutta steps. -/
def first_step {ε σ : Type}
    (equation_acceleration : ε → Vec3 K → Vec3 K → K → σ → Vec3 K × σ)
    (equation_step_size : ε → Globals K σ → K)
    (equation_land : ε → K → K → K → Globals K σ → LandResult K σ) (eq : ε)
    (s : K × RungeKutta K × Globals K σ) : K × RungeKutta K × Globals K σ :=
  let l := equation_land eq s.1 s.1 (equation_step_size eq s.2.2) s.2.2
  let r := runge_kutta_step equation_acceleration s.2.1 eq s.1 l.dt
    { l.g with ro0 := l.g.r0, ro1 := l.g.r1, ro2 := l.g.r2 }
  (l.t, r.1, r.2)

end fixed_steps

end V031

namespace V012

section multi_steps_run
variable {K : Type} [LinearOrderedField K]

/-- The loop `for (t = 0.L, i = n; --i > 0;)` of `multi_steps_run` of src/multi-steps.c (the
revision that calls `equation_land (eq, &t, &dt)`, with the `RungeKutta` struct of
src/0.1.2/runge-kutta.h), with a bound on the number of iterations: `none` when the bound is
reached, `Sum.inl` at the `goto end` of a landing, `Sum.inr` when the loop ends.  The
functions `runge_kutta_step` and `runge_kutta_error` of that revision are not among the
sources: they are those of revision 0.3.1, of the same declarations. -/
def multi_steps_first {ε σ : Type} (L : Libm K) (method_dt : Method K → K → K)
    (equation_acceleration : ε → Vec3 K → Vec3 K → K → σ → Vec3 K × σ)
    (equation_step_size : ε → Globals K σ → K)
    (equation_land : ε → K → K → Globals K σ → LandResult K σ) (eq : ε) :
    Nat → Nat → V031.MultiSteps K → Globals K σ → V031.RunVars K →
      List (V031.StepRecord K) → Option (V031.RunResult K σ ⊕ V031.FirstSteps K σ)
  | 0, _, _, _, _, _ => none
  | fuel + 1, i, ms, g, x, steps =>
    let i := (i + (2 ^ 32 - 1)) % 2 ^ 32
    if 0 < i then
      let rk := ms.runge_kutta
      let m := ms.method
      -- time step size
      let t_old := x.t
      let dt := if 0 < x.t ∧ m.error_dt ≠ 0 then method_dt m x.dt else equation_step_size eq g
      -- checking trajectory end
      let l := equation_land eq x.t dt g
      if l.ret ≠ 0 then some (Sum.inl ⟨l.t, ms, l.g, steps⟩)
      else
        -- saving step
        let m1 : Method K :=
          { m with
            r0 := Function.update m.r0 i l.g.r0
            r1 := Function.update m.r1 i l.g.r1
            r2 := Function.update m.r2 i l.g.r2 }
        let g2 : Globals K σ := { l.g with ro0 := l.g.r0, ro1 := l.g.r1, ro2 := l.g.r2 }
        -- Runge-Kutta step
        let s3 := V031.runge_kutta_step equation_acceleration rk eq t_old l.dt g2
        let steps := steps ++ [⟨V031.StepKind.runge_kutta, dt, l.dt⟩]
        -- error estimate
        if m.error_dt ≠ 0 then
          multi_steps_first L method_dt equation_acceleration equation_step_size equation_land
            eq fuel i { ms with method := m1, runge_kutta := V031.runge_kutta_error L s3.1 l.dt }
            s3.2 { x with t_old := t_old, t := l.t, dt := l.dt } steps
        else
          multi_steps_first L method_dt equation_acceleration equation_step_size equation_land
            eq fuel i { ms with method := m1, runge_kutta := s3.1 } s3.2
            { x with t_old := t_old, t := l.t, dt := l.dt } steps
    else some (Sum.inr ⟨i, ms, g, x, steps⟩)

/-- The loop `while (1)` of `multi_steps_run` of src/multi-steps.c, with a bound on the
number of iterations: `none` when the bound is reached before the `break`. -/
def multi_steps_loop {ε σ : Type} (L : Libm K) (method_dt : Method K → K → K)
    (equation_acceleration : ε → Vec3 K → Vec3 K → K → σ → Vec3 K × σ)
    (equation_step_size : ε → Globals K σ → K)
    (equation_land : ε → K → K → Globals K σ → LandResult K σ) (eq : ε) :
    Nat → V031.MultiSteps K → Globals K σ → V031.RunVars K → List (V031.StepRecord K) →
      Option (V031.RunResult K σ)
  | 0, _, _, _, _ => none
  | fuel + 1, ms, g, x, steps =>
    let m := ms.method
    -- time step size
    let t_old := x.t
    let dt := if 0 < x.t ∧ m.error_dt ≠ 0 then method_dt m x.dt else equation_step_size eq g
    -- checking trajectory end
    let dto := dt
    let l := equation_land eq x.t dt g
    if l.ret ≠ 0 then some ⟨l.t, ms, l.g, steps⟩
    else
      -- variables backup
      let g2 : Globals K σ := { l.g with ro0 := l.g.r0, ro1 := l.g.r1, ro2 := l.g.r2 }
      -- multi-steps step
      let s3 : V031.MultiSteps K × Globals K σ × V031.StepKind :=
        if dto = l.dt then
          let r := V031.multi_steps_step equation_acceleration ms eq t_old l.dt g2
          (r.1, r.2, V031.StepKind.multi_steps)
        else
          let r := V031.runge_kutta_step equation_acceleration ms.runge_kutta eq t_old l.dt g2
          ({ ms with runge_kutta := r.1 }, r.2, V031.StepKind.runge_kutta)
      let steps := steps ++ [⟨s3.2.2, dto, l.dt⟩]
      -- error estimate
      if m.error_dt ≠ 0 then
        multi_steps_loop L method_dt equation_acceleration equation_step_size equation_land eq
          fuel (V031.multi_steps_error L s3.1 l.dt) s3.2.1
          { x with t_old := t_old, dto := dto, t := l.t, dt := l.dt } steps
      else
        multi_steps_loop L method_dt equation_acceleration equation_step_size equation_land eq
          fuel s3.1 s3.2.1 { x with t_old := t_old, dto := dto, t := l.t, dt := l.dt } steps

/-- Function `multi_steps_run` of src/multi-steps.c: the backup of the registers, the first
steps from `t = 0`, the saving of the last step, and the temporal loop; the locals other than
`t` are not initialised and start from any values `x`. -/
def multi_steps_run {ε σ : Type} (L : Libm K) (method_dt : Method K → K → K)
    (equation_acceleration : ε → Vec3 K → Vec3 K → K → σ → Vec3 K × σ)
    (equation_step_size : ε → Globals K σ → K)
    (equation_land : ε → K → K → Globals K σ → LandResult K σ) (eq : ε)
    (fuel : Nat) (ms : V031.MultiSteps K) (g : Globals K σ) (x : V031.RunVars K) :
    Option (V031.RunResult K σ) :=
  match multi_steps_first L method_dt equation_acceleration equation_step_size equation_land eq
      fuel ms.method.nsteps ms { g with ro0 := g.r0, ro1 := g.r1, ro2 := g.r2 }
      { x with t := 0 } [] with
  | none => none
  | some (Sum.inl r) => some r
  | some (Sum.inr s) =>
    let m := s.ms.method
    -- saving last step
    let m1 : Method K :=
      { m with
        r0 := Function.update m.r0 0 s.g.r0
        r1 := Function.update m.r1 0 s.g.r1
        r2 := Function.update m.r2 0 s.g.r2 }
    multi_steps_loop L method_dt equation_acceleration equation_step_size equation_land eq fuel
      { s.ms with method := m1 } s.g s.x s.steps

end multi_steps_run

end V012

/-! ## The readers of the numerical methods and the driver (method.c, runge-kutta.c,
multi-steps.c, ballistic.c) -/

def XML_ALPHA : String := "alpha"
def XML_BETA : String := "beta"
def XML_ERROR_TIME : String := "error_time"
def XML_MULTI_STEPS : String := "multi-steps"
def XML_RUNGE_KUTTA : String := "runge_kutta"
def XML_STEPS : String := "steps"

/-- Modelled from the spec: the config.h of revision 1.1.0 is not among the sources; the root
element of the convergence mode and its properties have the names of section 6 of the spec. -/
def XML_CONVERGENCE : String := "convergence"

/-- Modelled from the spec: see `XML_CONVERGENCE`. -/
def XML_TRAJECTORIES : String := "trajectories"

/-- Modelled from the spec: see `XML_CONVERGENCE`. -/
def XML_FACTOR : String := "factor"

/-- An element of the XML document: an `xmlNode` with the list of its children, in the order
of the links `children` and `next` (the document is parsed with `xmlKeepBlanksDefault (0)`). -/
inductive XmlTree (K : Type) where
  | mk (node : XmlNode K) (children : List (XmlTree K)) : XmlTree K

/-- The node of an element. -/
def XmlTree.node {K : Type} : XmlTree K → XmlNode K
  | XmlTree.mk n _ => n

/-- The children of an element: the head is `node->children`, and each following one is the
`next` of the one before it. -/
def XmlTree.children {K : Type} : XmlTree K → List (XmlTree K)
  | XmlTree.mk _ c => c

namespace V110

section method_read
variable {K : Type} [LinearOrderedField K]

/-- Function `method_init_variables` of src/1.1.0/method.c: the scratch arrays are total
functions here and need no allocation; the totals of the errors are cleared. -/
def method_init_variables (m : Method K) : Method K :=
  { m with et0 := 0, et1 := 0 }

/-- Function `method_read_xml` of src/1.1.0/method.c: `Except.ok` is `return 1` with the
struct as written, and `Except.error e` is `return 0` after `error_add (message[e])`. -/
def method_read_xml (m : Method K) (node : XmlNode K) : Except Nat (Method K) :=
  let r := xml_node_get_uint node XML_TIME_STEP
  let m : Method K := { m with error_dt := r.1 }
  if r.2 ≠ 0 then Except.error 0
  else
    match m.error_dt with
    | 0 => Except.ok { m with emt := 0 }
    | 1 =>
      let a := xml_node_get_float node XML_ALPHA
      let m : Method K := { m with alpha := a.1 }
      if a.2 ≠ 0 then Except.error 1
      else
        let b := xml_node_get_float node XML_BETA
        let m : Method K := { m with beta := b.1 }
        if b.2 ≠ 0 then Except.error 2
        else
          let e := xml_node_get_float node XML_ERROR_TIME
          let m : Method K := { m with emt := e.1 }
          if e.2 ≠ 0 then Except.error 3
          else Except.ok m
    | _ => Except.error 4

end method_read

end V110

namespace V031

section method_read
variable {K : Type} [LinearOrderedField K]

/-- Function `runge_kutta_init_variables` of src/0.3.1/runge-kutta.c. -/
def runge_kutta_init_variables (rk : RungeKutta K) : RungeKutta K :=
  { rk with method := V110.method_init_variables rk.method }

/-- Function `runge_kutta_read_xml` of src/0.3.1/runge-kutta.c, with `method_read_xml` of
src/1.1.0/method.c: `Except.ok` is `return 1`, and `Except.error e` is `return 0` with the
message `message[e]`. -/
def runge_kutta_read_xml (rk : RungeKutta K) (node : XmlNode K) : Except Nat (RungeKutta K) :=
  let r := xml_node_get_uint node XML_TYPE
  if r.2 ≠ 0 then Except.error 0
  else
    match V110.method_read_xml rk.method node with
    | Except.error _ => Except.error 1
    | Except.ok m =>
      match runge_kutta_init r.1 { rk with method := m } with
      | some rk => Except.ok rk
      | none => Except.error 2

/-- Function `multi_steps_init_variables` of src/0.3.1/multi-steps.c. -/
def multi_steps_init_variables (ms : MultiSteps K) : MultiSteps K :=
  { ms with
    runge_kutta := runge_kutta_init_variables ms.runge_kutta
    method := V110.method_init_variables ms.method }

/-- Function `multi_steps_read_xml` of src/0.3.1/multi-steps.c: `some` is `return 1` with the
struct as written and `none` is `return 0`. -/
def multi_steps_read_xml (ms : MultiSteps K) (node : XmlTree K) : Option (MultiSteps K) :=
  if node.node.name ≠ XML_MULTI_STEPS then none
  else
    match node.children with
    | [] => none
    | child :: _ =>
      let r := xml_node_get_uint node.node XML_STEPS
      let ms : MultiSteps K := { ms with steps := r.1 }
      if r.2 ≠ 0 then none
      else
        match V110.method_read_xml ms.method node.node with
        | Except.error _ => none
        | Except.ok m =>
          match runge_kutta_read_xml ms.runge_kutta child.node with
          | Except.error _ => none
          | Except.ok rk => some { ms with method := m, runge_kutta := rk }

end method_read

end V031

namespace V110

section driver_xml
variable {K : Type} [LinearOrderedField K]

/-- The globals of ballistic.c that `convergence_read_xml` writes. -/
structure Convergence (K : Type) where
  convergence_factor : K
  ntrajectories : Nat
  convergence : Nat

/-- Function `convergence_read_xml` of src/1.1.0/ballistic.c: `Except.ok` is `return 1`, and
`Except.error e` is `return 0` after `error_add (message[e])`. -/
def convergence_read_xml (node : XmlNode K) : Except Nat (Convergence K) :=
  let n := xml_node_get_uint node XML_TRAJECTORIES
  if n.2 ≠ 0 ∨ n.1 = 0 then Except.error 0
  else
    let c := xml_node_get_uint node XML_CONVERGENCE
    if c.2 ≠ 0 ∨ c.1 = 0 then Except.error 1
    else
      let f := xml_node_get_float node XML_FACTOR
      if f.2 ≠ 0 ∨ f.1 ≤ 0 then Except.error 2
      else Except.ok ⟨f.1, n.1, c.1⟩

/-- What `method_open_xml` returns and writes: its `int` result `m` and the two structs. -/
structure OpenResult (K : Type) where
  m : Nat
  ms : V031.MultiSteps K
  rk : V031.RungeKutta K

/-- Function `method_open_xml` of src/1.1.0/ballistic.c; the node is `none` for a `NULL`
pointer.  The result 0 is the `return 0` after `error_add (message[e])`. -/
def method_open_xml (ms : V031.MultiSteps K) (rk : V031.RungeKutta K)
    (node : Option (XmlTree K)) : OpenResult K :=
  match node with
  | none => ⟨0, ms, rk⟩
  | some node =>
    if node.node.name = XML_RUNGE_KUTTA then
      match V031.runge_kutta_read_xml rk node.node with
      | Except.error _ => ⟨0, ms, rk⟩
      | Except.ok rk => ⟨1, ms, V031.runge_kutta_init_variables rk⟩
    else if node.node.name = XML_MULTI_STEPS then
      match V031.multi_steps_read_xml ms node with
      | none => ⟨0, ms, rk⟩
      | some ms => ⟨2, V031.multi_steps_init_variables ms, rk⟩
    else ⟨0, ms, rk⟩

/-- What a run function of ballistic.c leaves: the value of its local error code at the final
label (the index of the message it adds, 0 for none) and the value it returns. -/
structure RunReport where
  code : Nat
  ret : Nat
deriving DecidableEq

/-- Function `convergence_run` of src/1.1.0/ballistic.c.  The loops between
`rng = gsl_rng_alloc (gsl_rng_taus2)` and `gsl_rng_free (rng)`, which run the trajectories and
write the results file, are the parameter `sweep`: they do not write the local `er`, and
`none` is a sweep that does not end.  The field `code` is the local `er` at the label `fail`,
and `ret` is the value of the final `return 0;`. -/
def convergence_run
    (sweep : Convergence K → ReadState K → OpenResult K → Option Unit)
    (ms : V031.MultiSteps K) (rk : V031.RungeKutta K) (s : ReadState K) (node : XmlTree K) :
    Option RunReport :=
  match convergence_read_xml node.node with
  | Except.error _ => some ⟨1, 0⟩
  | Except.ok c =>
    match node.children with
    | [] => some ⟨2, 0⟩
    | child :: next =>
      match equation_read_xml s child.node 0 with
      | Except.error _ => some ⟨3, 0⟩
      | Except.ok s =>
        let me := method_open_xml ms rk next.head?
        match me.m with
        | 1 => (sweep c s me).map fun _ => ⟨0, 0⟩
        | 2 => (sweep c s me).map fun _ => ⟨0, 0⟩
        | _ => some ⟨4, 0⟩

/-- Function `ballistic_run` of src/1.1.0/ballistic.c.  The lines from `nevaluations = 0l` to
the deletion of the method, which run the trajectory and print the solutions, are the
parameter `trajectory`: they do not write the local `e`, and `none` is a run that does not
end.  Both fields of the report are the local `e`, which the function returns. -/
def ballistic_run
    (trajectory : ReadState K → OpenResult K → Option Unit)
    (ms : V031.MultiSteps K) (rk : V031.RungeKutta K) (s : ReadState K) (node : XmlTree K) :
    Option RunReport :=
  match node.children with
  | [] => some ⟨3, 3⟩
  | child :: next =>
    match equation_read_xml s child.node 1 with
    | Except.error _ => some ⟨4, 4⟩
    | Except.ok s =>
      match next.head? with
      | none => some ⟨5, 5⟩
      | some node =>
        if node.node.name = XML_RUNGE_KUTTA then
          match V031.runge_kutta_read_xml rk node.node with
          | Except.error _ => some ⟨6, 6⟩
          | Except.ok rk =>
            (trajectory s ⟨1, ms, V031.runge_kutta_init_variables rk⟩).map fun _ => ⟨0, 0⟩
        else if node.node.name = XML_MULTI_STEPS then
          match V031.multi_steps_read_xml ms node with
          | none => some ⟨7, 7⟩
          | some ms =>
            (trajectory s ⟨2, V031.multi_steps_init_variables ms, rk⟩).map fun _ => ⟨0, 0⟩
        else some ⟨8, 8⟩

/-- Function `main` of src/1.1.0/ballistic.c: the exit code.  `argn` is the number of
arguments; `doc` is `none` when `xmlParseFile` returns `NULL`, `some none` when the document
has no root element, and `some (some root)` otherwise.  The name `XML_BALLISTIC` of the root
element of one trajectory is in the config.h of revision 1.1.0, which is not among the
sources, and is a parameter. -/
def main (XML_BALLISTIC : String)
    (trajectory : ReadState K → OpenResult K → Option Unit)
    (sweep : Convergence K → ReadState K → OpenResult K → Option Unit)
    (ms : V031.MultiSteps K) (rk : V031.RungeKutta K) (s : ReadState K)
    (argn : Nat) (doc : Option (Option (XmlTree K))) : Option Nat :=
  if argn ≠ 3 then some 1
  else
    match doc with
    | none => some 2
    | some none => some 3
    | some (some node) =>
      if node.node.name = XML_BALLISTIC then
        (ballistic_run trajectory ms rk s node).map fun e => if e.ret ≠ 0 then 4 else e.ret
      else if node.node.name = XML_CONVERGENCE then
        (convergence_run sweep ms rk s node).map fun e => if e.ret ≠ 0 then 5 else e.ret
      else some 6

end driver_xml

end V110

/-! ## The numerical solution of the landing time (equation.c) -/

namespace V110

section solve
variable {K : Type} [LinearOrderedField K] {ε : Type}

/-- The locals of `equation_solve`. -/
structure SolveVars (K : Type) where
  t1 : K
  t2 : K
  t3 : K
  r02 : Vec3 K
  r12 : Vec3 K

/-- The loop `while (r02[2] > 0.L)` of `equation_solve`, with a bound on the number of
iterations: `none` when the bound is reached before the loop ends. -/
def equation_solve_double (equation_solution : ε → K → Vec3 K × Vec3 K) (eq : ε) :
    Nat → SolveVars K → Option (SolveVars K)
  | 0, _ => none
  | fuel + 1, x =>
    if x.r02.z > 0 then
      let t2 := x.t2 * 2
      let s := equation_solution eq t2
      equation_solve_double equation_solution eq fuel { x with t2 := t2, r02 := s.1, r12 := s.2 }
    else some x

/-- The loop `for (i = 0; i < 64; ++i)` of `equation_solve`, run while `i < k`. -/
def equation_solve_bisect (equation_solution : ε → K → Vec3 K × Vec3 K) (eq : ε) :
    Nat → SolveVars K → SolveVars K
  | 0, x => x
  | i + 1, x =>
    let x := equation_solve_bisect equation_solution eq i x
    let t3 := 0.5 * (x.t1 + x.t2)
    let s := equation_solution eq t3
    if s.1.z > 0 then { x with t3 := t3, r02 := s.1, r12 := s.2, t1 := t3 }
    else { x with t3 := t3, r02 := s.1, r12 := s.2, t2 := t3 }

/-- Function `equation_solve` of src/1.1.0/equation.c: the returned time `t3` and the vectors
written to `r0`, `r1`; the function that the pointer `equation_solution` is set to is a
parameter, and the local `t3`, which is not initialised, starts from any value. -/
def equation_solve (equation_solution : ε → K → Vec3 K × Vec3 K) (eq : ε) (fuel : Nat)
    (t3 : K) : Option (K × Vec3 K × Vec3 K) :=
  let s := equation_solution eq 1
  (equation_solve_double equation_solution eq fuel ⟨0, 1, t3, s.1, s.2⟩).map fun x =>
    let y := equation_solve_bisect equation_solution eq 64 x
    (y.t3, y.r02, y.r12)

end solve

end V110

/-! ## Revision 0.1.0: the step size of the error control and the closed forms -/

namespace V010

section early
variable {K : Type} [LinearOrderedField K]

/-- Function `method_dt` of src/0.1.0/method.c; `fmaxl` and `fminl` are `max` and `min`. -/
def method_dt (L : Libm K) (m : Method K) (dt : K) : K :=
  dt * max m.beta (min m.alpha (L.powl (m.emt * dt / m.e0) (1 / (m.order : K))))

/-- Function `equation_solution_0` of src/0.1.0/equation.c. -/
def equation_solution_0 (eq : Equation K) (t : K) : Vec3 K × Vec3 K :=
  let r1 : Vec3 K := ⟨eq.v.x, eq.v.y, eq.v.z - G * t⟩
  let r0 : Vec3 K :=
    ⟨eq.r.x + eq.v.x * t, eq.r.y + eq.v.y * t, eq.r.z + t * (eq.v.z - t * 0.5 * G)⟩
  (r0, r1)

/-- Function `equation_solution_1` of src/0.1.0/equation.c. -/
def equation_solution_1 (L : Libm K) (eq : Equation K) (t : K) : Vec3 K × Vec3 K :=
  let v0 := eq.v.x - eq.w.x
  let v1 := eq.v.y - eq.w.y
  let r1 : Vec3 K :=
    ⟨eq.w.x + v0 * L.expl (-eq.lambda * t), eq.w.y + v1 * L.expl (-eq.lambda * t),
      (eq.v.z + G / eq.lambda) * L.expl (-eq.lambda * t) - G / eq.lambda⟩
  let r0 : Vec3 K :=
    ⟨eq.r.x + eq.w.x * t + v0 / eq.lambda * (1 - L.expl (-eq.lambda * t)),
      eq.r.y + eq.w.y * t + v1 / eq.lambda * (1 - L.expl (-eq.lambda * t)),
      eq.r.z - G / eq.lambda * t
        + (eq.v.z + G / eq.lambda) / eq.lambda * (1 - L.expl (-eq.lambda * t))⟩
  (r0, r1)

/-- Function `equation_solution_2` of src/0.1.0/equation.c.  The denominators of the
horizontal velocities have `fabsl (eq->v[0])` and `fabsl (eq->v[1])`, the velocities without
the wind; the call `sinh` of the position of the first branch is the function `sinhl` here. -/
def equation_solution_2 (L : Libm K) (eq : Equation K) (t : K) : Vec3 K × Vec3 K :=
  let v0 := eq.v.x - eq.w.x
  let v1 := eq.v.y - eq.w.y
  let r1x := eq.w.x + v0 / (1 + eq.lambda * |eq.v.x| * t)
  let r1y := eq.w.y + v1 / (1 + eq.lambda * |eq.v.y| * t)
  let rx := eq.r.x + eq.w.x * t
  let ry := eq.r.y + eq.w.y * t
  let r0x :=
    if v0 ≥ 0 then rx + 1 / eq.lambda * L.logl (1 + eq.lambda * |v0| * t)
    else rx - 1 / eq.lambda * L.logl (1 + eq.lambda * |v0| * t)
  let r0y :=
    if v1 ≥ 0 then ry + 1 / eq.lambda * L.logl (1 + eq.lambda * |v1| * t)
    else ry - 1 / eq.lambda * L.logl (1 + eq.lambda * |v1| * t)
  let gl := L.sqrtl (G * eq.lambda)
  let g_l := L.sqrtl (G / eq.lambda)
  let r0z := eq.r.z
  if eq.v.z ≤ 0 then
    let r1z :=
      g_l * (eq.v.z * L.coshl (gl * t) - g_l * L.sinhl (gl * t))
        / (g_l * L.coshl (gl * t) - eq.v.z * L.sinhl (gl * t))
    let r0z := r0z - L.logl (L.coshl (gl * t) - eq.v.z * L.sinhl (gl * t) / g_l) / eq.lambda
    (⟨r0x, r0y, r0z⟩, ⟨r1x, r1y, r1z⟩)
  else
    let tc := L.atanl (eq.v.z / g_l) / gl
    if t ≤ tc then
      let r1z := L.tanl (L.atanl (eq.v.z / g_l) - gl * t) * g_l
      let r0z := r0z + L.logl (1 - gl * t / L.cosl (L.atanl (eq.v.z / g_l))) / eq.lambda
      (⟨r0x, r0y, r0z⟩, ⟨r1x, r1y, r1z⟩)
    else
      let t := t - tc
      let r1z := -g_l * L.tanhl (gl * t)
      let r0z := r0z - L.logl (L.cosl (L.atanl (eq.v.z / g_l)) * L.coshl (gl * t)) / eq.lambda
      (⟨r0x, r0y, r0z⟩, ⟨r1x, r1y, r1z⟩)

/-- Function `equation_solution_3` of src/0.1.0/equation.c. -/
def equation_solution_3 (L : Libm K) (eq : Equation K) (t : K) : Vec3 K × Vec3 K :=
  let r1 : Vec3 K :=
    ⟨eq.v.x + eq.w.x / eq.lambda * (1 - L.expl (-eq.lambda * t)),
      eq.v.y + eq.w.y / eq.lambda * (1 - L.expl (-eq.lambda * t)), eq.v.z - G * t⟩
  let r0 : Vec3 K :=
    ⟨eq.r.x + (eq.v.x + eq.w.x / eq.lambda) * t
        - eq.w.x / (eq.lambda * eq.lambda) * (1 - L.expl (-eq.lambda * t)),
      eq.r.y + (eq.v.y + eq.w.y / eq.lambda) * t
        - eq.w.y / (eq.lambda * eq.lambda) * (1 - L.expl (-eq.lambda * t)),
      eq.r.z + t * (eq.v.z - t * 0.5 * G)⟩
  (r0, r1)

end early

end V010

/-! ## Revision 0.1.1: the Runge-Kutta error estimate and loop -/

namespace V011

section run
variable {K : Type} [LinearOrderedField K]

/-- The loop `for (i = 0; i < m->nsteps; ++i)` of `runge_kutta_error` of revision 0.1.1, run
while `i < k`: the pair of the arrays `e0`, `e1`. -/
def error_sums (rk : RungeKutta K) (dt : K) : Nat → Vec3 K × Vec3 K
  | 0 => (⟨0, 0, 0⟩, ⟨0, 0, 0⟩)
  | i + 1 =>
    let e := error_sums rk dt i
    (e.1.axpy (dt * rk.e.getD i 0) (rk.method.r1 i), e.2.axpy (dt * rk.e.getD i 0) (rk.method.r2 i))

/-- Function `runge_kutta_error` of src/0.1.1/runge-kutta.c. -/
def runge_kutta_error (L : Libm K) (rk : RungeKutta K) (dt : K) : RungeKutta K :=
  let m := rk.method
  let e := error_sums rk dt m.nsteps
  let e0 := L.sqrtl (e.1.x * e.1.x + e.1.y * e.1.y + e.1.z * e.1.z)
  let e1 := L.sqrtl (e.2.x * e.2.x + e.2.y * e.2.y + e.2.z * e.2.z)
  { rk with method := { m with e0 := e0, e1 := e1, et0 := m.et0 + e0, et1 := m.et1 + e1 } }

/-- What the loop of `runge_kutta_run` of revision 0.1.1 leaves: the returned time, the
structs, and a ghost counter `reverts` of the number of times the branch
`if (dt < m->beta * dto)` was entered; the program has no such counter. -/
structure RunResult (K σ : Type) where
  t : K
  rk : RungeKutta K
  g : Globals K σ
  reverts : Nat

/-- The loop `for (t = 0.L; 1;)` of `runge_kutta_run` of src/0.1.1/runge-kutta.c, with a
bound on the number of iterations: `none` when the bound is reached before the `break`.
`method_dt` and the functions that the pointers are set to are parameters; `equation_land`
has the arguments `(eq, &t, &dt)` of revision 0.1.0.  The last argument is the ghost counter
of the entries in the branch that reverts the step. -/
def runge_kutta_loop {ε σ : Type} (L : Libm K) (method_dt : Method K → K → K)
    (equation_acceleration : ε → Vec3 K → Vec3 K → K → σ → Vec3 K × σ)
    (equation_step_size : ε → Globals K σ → K)
    (equation_land : ε → K → K → Globals K σ → LandResult K σ) (eq : ε) :
    Nat → RungeKutta K → Globals K σ → V031.RunVars K → Nat → Option (RunResult K σ)
  | 0, _, _, _, _ => none
  | fuel + 1, rk, g, x, reverts =>
    let m := rk.method
    -- time step size
    let s1 : RungeKutta K × Globals K σ × V031.RunVars K × Nat :=
      if 0 < x.t ∧ m.error_dt ≠ 0 then
        let dto := x.dt
        let dt := method_dt m x.dt
        -- revert the step if big error
        if dt < m.beta * dto then
          ({ rk with method := { m with et0 := x.et0o, et1 := x.et1o } },
            { g with r0 := g.ro0, r1 := g.ro1, r2 := g.ro2 },
            { x with dto := dto, dt := dt, t := x.t_old }, reverts + 1)
        else (rk, g, { x with dto := dto, dt := dt }, reverts)
      else (rk, g, { x with dt := equation_step_size eq g }, reverts)
    -- checking trajectory end
    let t_old := s1.2.2.1.t
    let l := equation_land eq s1.2.2.1.t s1.2.2.1.dt s1.2.1
    if l.ret ≠ 0 then some ⟨l.t, s1.1, l.g, s1.2.2.2⟩
    else
      -- backup of variables
      let g2 : Globals K σ := { l.g with ro0 := l.g.r0, ro1 := l.g.r1, ro2 := l.g.r2 }
      -- Runge-Kutta step
      let s3 := runge_kutta_step equation_acceleration s1.1 eq t_old l.dt g2
      -- error estimate
      if m.error_dt ≠ 0 then
        runge_kutta_loop L method_dt equation_acceleration equation_step_size equation_land eq
          fuel (runge_kutta_error L s3.1 l.dt) s3.2
          { s1.2.2.1 with t_old := t_old, t := l.t, dt := l.dt, et0o := s3.1.method.et0,
                          et1o := s3.1.method.et1 }
          s1.2.2.2
      else
        runge_kutta_loop L method_dt equation_acceleration equation_step_size equation_land eq
          fuel s3.1 s3.2 { s1.2.2.1 with t_old := t_old, t := l.t, dt := l.dt } s1.2.2.2

/-- Function `runge_kutta_run` of src/0.1.1/runge-kutta.c: the backup of the registers, then
the loop from `t = 0`; the locals other than `t` are not initialised and start from any
values `x`. -/
def runge_kutta_run {ε σ : Type} (L : Libm K) (method_dt : Method K → K → K)
    (equation_acceleration : ε → Vec3 K → Vec3 K → K → σ → Vec3 K × σ)
    (equation_step_size : ε → Globals K σ → K)
    (equation_land : ε → K → K → Globals K σ → LandResult K σ) (eq : ε)
    (fuel : Nat) (rk : RungeKutta K) (g : Globals K σ) (x : V031.RunVars K) :
    Option (RunResult K σ) :=
  runge_kutta_loop L method_dt equation_acceleration equation_step_size equation_land eq fuel rk
    { g with ro0 := g.r0, ro1 := g.r1, ro2 := g.r2 } { x with t := 0 } 0

end run

end V011

/-! ## The driver and sample inputs -/

section driver
variable {K : Type} [Field K] {ε σ : Type}

/-- The lines `equation_solution (eq, r0, r1, 0.);` and
`equation_acceleration (eq, r0, r1, r2, 0.L);` of the driver (ballistic.c), which set the
registers before the run. -/
def driver_init (equation_solution : ε → K → Vec3 K × Vec3 K)
    (equation_acceleration : ε → Vec3 K → Vec3 K → K → σ → Vec3 K × σ) (eq : ε)
    (g : Globals K σ) : Globals K σ :=
  let s := equation_solution eq 0
  let a := equation_acceleration eq s.1 s.2 0 g.nevaluations
  { g with r0 := s.1, r1 := s.2, r2 := a.1, nevaluations := a.2 }

/-- A `Method` struct with cleared scratch arrays and no error control. -/
def sample_method : Method K :=
  { r0 := fun _ => ⟨0, 0, 0⟩, r1 := fun _ => ⟨0, 0, 0⟩, r2 := fun _ => ⟨0, 0, 0⟩,
    e0 := 0, e1 := 0, et0 := 0, et1 := 0, emt := 0, alpha := 0, beta := 0,
    nsteps := 0, order := 0, error_dt := 0 }

/-- Globals with the registers `r0 = (0, 0, 100)`, `r1 = (30, 0, 30)`, `r2 = (0, 0, -9.81)`,
the step size `dt = 0.01` and a cleared counter. -/
def sample_globals : Globals K Nat :=
  { r0 := ⟨0, 0, 100⟩, r1 := ⟨30, 0, 30⟩, r2 := ⟨0, 0, -9.81⟩,
    ro0 := ⟨0, 0, 0⟩, ro1 := ⟨0, 0, 0⟩, ro2 := ⟨0, 0, 0⟩, kt := 0, dt := 0.01,
    nevaluations := 0 }

/-- An equation of type 0 with the given altitude, velocity, gravity and final time. -/
def sample_equation (z vx vz g tf : K) (land_type : Nat) : Equation K :=
  { r := ⟨0, 0, z⟩, v := ⟨vx, 0, vz⟩, w := ⟨0, 0⟩, g := g, tf := tf, lambda := 0,
    vertical_angle := 0, max_lambda := 0, min_lambda := 0, max_velocity := 0,
    min_velocity := 0, max_wind := 0, type := 0, land_type := land_type, size_type := 0 }

end driver

section samples
variable {K : Type} [LinearOrderedField K]

/-- A node with the given name and the given properties, each with a text that converts. -/
def sample_node (name : String) (u : List (String × Nat)) (f : List (String × K)) : XmlNode K :=
  { name := name
    uint := fun p =>
      match u.lookup p with
      | some v => XmlProp.value v
      | none => XmlProp.absent
    float := fun p =>
      match f.lookup p with
      | some v => XmlProp.value v
      | none => XmlProp.absent }

/-- The state before the configuration is read: a cleared `Equation` struct and no function
assigned to the pointers. -/
def sample_read_state : V110.ReadState K :=
  { eq := sample_equation 0 0 0 0 0 0, dt := 0, kt := 0, equation_acceleration := none,
    equation_solution := none, equation_step_size := none, equation_land := none }

/-- A record for the runs without error control over a field that has no mathematical
library: such a run takes the library as an argument and does not call it. -/
def sample_libm : Libm K :=
  { expl := id, logl := id, sqrtl := id, cbrtl := id, sinl := id, cosl := id, tanl := id,
    acosl := id, atanl := id, sinhl := id, coshl := id, tanhl := id, powl := fun x _ => x,
    pi := 0 }

/-- The second order multi-steps method (three slots) with the first order Runge-Kutta
method for the first steps, without error control. -/
def sample_multi_steps : V031.MultiSteps K :=
  { method := { (sample_method : Method K) with nsteps := 3, order := 2 }
    runge_kutta := V031.runge_kutta_init_1 ⟨sample_method, [], [], []⟩
    a := V031.ms_a2, c := V031.ms_c2, ea := V031.ms_ea2, eb := V031.ms_eb2, steps := 2 }

/-- An equation of type 2 with `lambda = 0.1`, `g = 10`, no wind, the launch from
`z = 100` with the velocity `(30, 0, 0)`, and the final time `tf = 0.2` as the end. -/
def sample_drag_equation : Equation K :=
  { sample_equation 100 30 0 10 (1 / 5) 0 with type := 2, lambda := 1 / 10 }

/-- The registers that the driver sets for `sample_drag_equation`, with `kt = 0.1` for the
step size of the stability condition: `a = (-90, 0, -10)` is the acceleration at the launch. -/
def sample_drag_globals : Globals K Nat :=
  { (sample_globals : Globals K Nat) with
    r0 := ⟨0, 0, 100⟩, r1 := ⟨30, 0, 0⟩, r2 := ⟨-90, 0, -10⟩, kt := 1 / 10 }

end samples

/-! ## More sample inputs -/

section samples_more
variable {K : Type} [LinearOrderedField K]

/-- A landing function to observe the arguments of a call: at `to = 0` it reports no landing
and advances the time by `dt`, as every `equation_land` function does, and at any later time
it ends the run and leaves in `*t` the step size `dt` that it was given. -/
def sample_land_probe {σ : Type} (_eq : Equation K) (t_old _t dt : K) (g : Globals K σ) :
    LandResult K σ :=
  if t_old = 0 then ⟨0, t_old + dt, dt, g⟩ else ⟨1, dt, dt, g⟩

/-- The struct of the multi-steps method before its initialisation, with every slot of the
history at the launch `r = (0, 0, 100)`, `v = (30, 0, 30)`, `a = (0, 0, -9.81)`. -/
def sample_history : V031.MultiSteps K :=
  { (sample_multi_steps : V031.MultiSteps K) with
    method :=
      { (sample_method : Method K) with
        r0 := fun _ => ⟨0, 0, 100⟩, r1 := fun _ => ⟨30, 0, 30⟩, r2 := fun _ => ⟨0, 0, -9.81⟩ } }

/-- The registers of the model without resistance at the time 2 after that launch. -/
def sample_globals_2 : Globals K Nat :=
  { (sample_globals : Globals K Nat) with
    r0 := ⟨60, 0, 140.38⟩, r1 := ⟨30, 0, 10.38⟩, r2 := ⟨0, 0, -9.81⟩ }

end samples_more

/-- A name for the root element of one trajectory, other than the name of the root element
of the convergence mode. -/
def sample_root : String := "ballistic"

section invariants
variable {K : Type} [Field K] {σ : Type}

/-- The invariant of the stage loop of revision 0.3.1: the slot 0 holds the registers, and
every slot `1 .. k` holds the linear combination of the slots below it. -/
def V031.StageInv (dt : K) (b : List (List K)) (k : Nat) (s : Method K × Globals K σ) : Prop :=
  s.1.r0 0 = s.2.r0 ∧ s.1.r1 0 = s.2.r1 ∧
  ∀ j, j < k →
    s.1.r0 (j + 1) = (V031.stage_comb dt (b.getD j []) (j + 1) s.1 s.2.r0 s.2.r1).r0 (j + 1) ∧
    s.1.r1 (j + 1) = (V031.stage_comb dt (b.getD j []) (j + 1) s.1 s.2.r0 s.2.r1).r1 (j + 1)

end invariants

/-! ## Lemmas on the stages of the Runge-Kutta step -/

section stage_lemmas
variable {K : Type} [Field K] {ε σ : Type}

omit [Field K] in
theorem Method.ext_fields {m m' : Method K} (h0 : m.r0 = m'.r0) (h1 : m.r1 = m'.r1)
    (h2 : m.r2 = m'.r2) (h3 : m.e0 = m'.e0) (h4 : m.e1 = m'.e1) (h5 : m.et0 = m'.et0)
    (h6 : m.et1 = m'.et1) (h7 : m.emt = m'.emt) (h8 : m.alpha = m'.alpha)
    (h9 : m.beta = m'.beta) (h10 : m.nsteps = m'.nsteps) (h11 : m.order = m'.order)
    (h12 : m.error_dt = m'.error_dt) : m = m' := by
  cases m; cases m'; simp_all

/-- The inner loop of the step writes the slot `i` of `r0` and `r1` only. -/
theorem V031.step_inner_frame (dt : K) (b : List K) (i k : Nat) (m : Method K) :
    (∀ j, j ≠ i → (V031.step_inner dt b i k m).r0 j = m.r0 j) ∧
    (∀ j, j ≠ i → (V031.step_inner dt b i k m).r1 j = m.r1 j) ∧
    (V031.step_inner dt b i k m).r2 = m.r2 ∧
    (V031.step_inner dt b i k m).e0 = m.e0 ∧ (V031.step_inner dt b i k m).e1 = m.e1 ∧
    (V031.step_inner dt b i k m).et0 = m.et0 ∧ (V031.step_inner dt b i k m).et1 = m.et1 ∧
    (V031.step_inner dt b i k m).emt = m.emt ∧ (V031.step_inner dt b i k m).alpha = m.alpha ∧
    (V031.step_inner dt b i k m).beta = m.beta ∧ (V031.step_inner dt b i k m).nsteps = m.nsteps ∧
    (V031.step_inner dt b i k m).order = m.order ∧
    (V031.step_inner dt b i k m).error_dt = m.error_dt := by
  induction k with
  | zero => simp [V031.step_inner]
  | succ k ih =>
    obtain ⟨h0, h1, h2, h3, h4, h5, h6, h7, h8, h9, h10, h11, h12⟩ := ih
    simp only [V031.step_inner]
    refine ⟨?_, ?_, h2, h3, h4, h5, h6, h7, h8, h9, h10, h11, h12⟩
    · intro j hj
      simp [Function.update_noteq hj, h0 j hj]
    · intro j hj
      simp [Function.update_noteq hj, h1 j hj]

/-- The slot `i` computed by the inner loop depends on the slot `i` it starts from and on the
velocities and accelerations of the slots below `k` only. -/
theorem V031.step_inner_congr (dt : K) (b : List K) (i k : Nat) (hk : k ≤ i) (m m' : Method K)
    (h0 : m.r0 i = m'.r0 i) (h1 : m.r1 i = m'.r1 i)
    (hv : ∀ l, l < k → m.r1 l = m'.r1 l) (ha : ∀ l, l < k → m.r2 l = m'.r2 l) :
    (V031.step_inner dt b i k m).r0 i = (V031.step_inner dt b i k m').r0 i ∧
    (V031.step_inner dt b i k m).r1 i = (V031.step_inner dt b i k m').r1 i := by
  induction k with
  | zero => simp [V031.step_inner, h0, h1]
  | succ k ih =>
    have hki : k ≠ i := by omega
    obtain ⟨e0, e1⟩ := ih (by omega) (fun l hl => hv l (by omega)) (fun l hl => ha l (by omega))
    have f := V031.step_inner_frame dt b i k m
    have f' := V031.step_inner_frame dt b i k m'
    simp only [V031.step_inner, Function.update_same]
    rw [e0, e1, f.2.1 k hki, f'.2.1 k hki, f.2.2.1, f'.2.2.1, hv k (by omega), ha k (by omega)]
    exact ⟨rfl, rfl⟩

/-- Frame of the linear combination of a stage of revision 0.3.1. -/
theorem V031.stage_comb_frame (dt : K) (b : List K) (i : Nat) (m : Method K) (r v : Vec3 K) :
    (∀ j, j ≠ i → (V031.stage_comb dt b i m r v).r0 j = m.r0 j) ∧
    (∀ j, j ≠ i → (V031.stage_comb dt b i m r v).r1 j = m.r1 j) ∧
    (V031.stage_comb dt b i m r v).r2 = m.r2 := by
  have f := V031.step_inner_frame dt b i i
    { m with r0 := Function.update m.r0 i r, r1 := Function.update m.r1 i v }
  refine ⟨fun j hj => ?_, fun j hj => ?_, f.2.2.1⟩
  · rw [V031.stage_comb, f.1 j hj]; simp [Function.update_noteq hj]
  · rw [V031.stage_comb, f.2.1 j hj]; simp [Function.update_noteq hj]

/-- The slot written by the linear combination of a stage depends on the globals and on the
slots below it only. -/
theorem V031.stage_comb_congr (dt : K) (b : List K) (i : Nat) (m m' : Method K) (r v : Vec3 K)
    (hv : ∀ l, l < i → m.r1 l = m'.r1 l) (ha : ∀ l, l < i → m.r2 l = m'.r2 l) :
    (V031.stage_comb dt b i m r v).r0 i = (V031.stage_comb dt b i m' r v).r0 i ∧
    (V031.stage_comb dt b i m r v).r1 i = (V031.stage_comb dt b i m' r v).r1 i := by
  refine V031.step_inner_congr dt b i i le_rfl _ _ (by simp) (by simp) (fun l hl => ?_)
    (fun l hl => ?_)
  · have : l ≠ i := by omega
    simp [Function.update_noteq this, hv l hl]
  · simpa using ha l hl

theorem V031.stageInv_step (acc : ε → Vec3 K → Vec3 K → K → σ → Vec3 K × σ) (eq : ε)
    (b : List (List K)) (ti t dt : K) (k : Nat) (s : Method K × Globals K σ)
    (h : V031.StageInv dt b k s) :
    V031.StageInv dt b (k + 1) (V031.step_stage acc eq (b.getD k []) ti t dt (k + 1) s) := by
  obtain ⟨h0, h1, hs⟩ := h
  have f := V031.stage_comb_frame dt (b.getD k []) (k + 1) s.1 s.2.r0 s.2.r1
  have hv : ∀ l, l < k + 1 →
      (V031.step_stage acc eq (b.getD k []) ti t dt (k + 1) s).1.r1 l = s.1.r1 l := by
    intro l hl
    simp only [V031.step_stage]
    exact f.2.1 l (by omega)
  have hr : ∀ l, l < k + 1 →
      (V031.step_stage acc eq (b.getD k []) ti t dt (k + 1) s).1.r0 l = s.1.r0 l := by
    intro l hl
    simp only [V031.step_stage]
    exact f.1 l (by omega)
  have ha : ∀ l, l < k + 1 →
      (V031.step_stage acc eq (b.getD k []) ti t dt (k + 1) s).1.r2 l = s.1.r2 l := by
    intro l hl
    have : l ≠ k + 1 := by omega
    simp only [V031.step_stage, Function.update_noteq this]
    rw [f.2.2]
  have hg0 : (V031.step_stage acc eq (b.getD k []) ti t dt (k + 1) s).2.r0 = s.2.r0 := rfl
  have hg1 : (V031.step_stage acc eq (b.getD k []) ti t dt (k + 1) s).2.r1 = s.2.r1 := rfl
  refine ⟨?_, ?_, fun j hj => ?_⟩
  · rw [hr 0 (by omega), hg0, h0]
  · rw [hv 0 (by omega), hg1, h1]
  · rw [hg0, hg1]
    have c := V031.stage_comb_congr dt (b.getD j []) (j + 1)
      (V031.step_stage acc eq (b.getD k []) ti t dt (k + 1) s).1 s.1 s.2.r0 s.2.r1
      (fun l hl => hv l (by omega)) (fun l hl => ha l (by omega))
    rw [c.1, c.2]
    rcases Nat.lt_succ_iff_lt_or_eq.mp hj with hjk | hjk
    · rw [hr (j + 1) (by omega), hv (j + 1) (by omega)]
      exact hs j hjk
    · subst hjk
      exact ⟨rfl, rfl⟩

/-- When every stage of the `a`, `c` tables forms the same linear combination as the stage of
the `b` tables on the states of the invariant, the two stage loops compute the same state. -/
theorem stages_agree (acc : ε → Vec3 K → Vec3 K → K → σ → Vec3 K × σ) (eq : ε)
    (a c b : List (List K)) (tt : List K) (t dt : K) (n : Nat)
    (hrow : ∀ i, i < n → ∀ s : Method K × Globals K σ, V031.StageInv dt b i s →
      V011.stage_comb dt (a.getD i []) (c.getD i []) (i + 1) s.1
        = V031.stage_comb dt (b.getD i []) (i + 1) s.1 s.2.r0 s.2.r1)
    (s : Method K × Globals K σ) (h : V031.StageInv dt b 0 s) :
    V011.step_stages acc eq a c tt t dt n s = V031.step_stages acc eq b tt t dt n s ∧
    V031.StageInv dt b n (V031.step_stages acc eq b tt t dt n s) := by
  induction n with
  | zero => exact ⟨rfl, h⟩
  | succ n ih =>
    obtain ⟨e, hi⟩ := ih (fun i hi => hrow i (by omega))
    refine ⟨?_, V031.stageInv_step acc eq b _ t dt n _ hi⟩
    simp only [V011.step_stages, V031.step_stages, e]
    simp only [V011.step_stage, V031.step_stage, hrow n (by omega) _ hi]

/-- Every stage of the order 1 tables of revision 0.1.1 forms the linear combination of
the order 1 table of revision 0.3.1. -/
theorem rows_agree_1 [CharZero K] (dt : K) (i : Nat) (hi : i < 1)
    (s : Method K × Globals K σ) (h : V031.StageInv dt V031.rk_b1 i s) :
    V011.stage_comb dt (V011.rk_a1.getD i []) (V011.rk_c1.getD i []) (i + 1) s.1
      = V031.stage_comb dt (V031.rk_b1.getD i []) (i + 1) s.1 s.2.r0 s.2.r1 := by
  obtain ⟨h0, h1, hs⟩ := h
  interval_cases i
  all_goals
    apply Method.ext_fields
    any_goals rfl
  all_goals
    simp only [V011.stage_comb, V011.step_inner, V031.stage_comb, V031.step_inner,
      V011.rk_a1, V011.rk_c1, V031.rk_b1, V011.rk_a1_1, V011.rk_c1_1, V031.rk_b1_1,
      List.getD_cons_zero, List.getD_cons_succ, Function.update_apply]
    simp only [zero_add, Nat.reduceAdd, ite_true, OfNat.ofNat_ne_zero, OfNat.ofNat_ne_one,
      OfNat.one_ne_ofNat, OfNat.zero_ne_ofNat, one_ne_zero, zero_ne_one, Nat.reduceEqDiff,
      ite_false]
    simp only [Function.update_idem]
    refine congrArg _ ?_
    simp only [h0, h1, Nat.reduceLT, Vec3.comb, Vec3.addComb, Vec3.axpy,
      Vec3.mk.injEq]
    refine ⟨?_, ?_, ?_⟩ <;> ring

/-- Every stage of the order 2 tables of revision 0.1.1 forms the linear combination of
the order 2 table of revision 0.3.1. -/
theorem rows_agree_2 [CharZero K] (dt : K) (i : Nat) (hi : i < 2)
    (s : Method K × Globals K σ) (h : V031.StageInv dt V031.rk_b2 i s) :
    V011.stage_comb dt (V011.rk_a2.getD i []) (V011.rk_c2.getD i []) (i + 1) s.1
      = V031.stage_comb dt (V031.rk_b2.getD i []) (i + 1) s.1 s.2.r0 s.2.r1 := by
  obtain ⟨h0, h1, hs⟩ := h
  have s1 := hs 0
  simp only [V031.stage_comb, V031.step_inner, V031.rk_b2, V031.rk_b2_1,
    List.getD_cons_zero, List.getD_cons_succ, Function.update_apply] at s1
  simp only [zero_add, Nat.reduceAdd, ite_true, OfNat.ofNat_ne_zero, OfNat.ofNat_ne_one,
    OfNat.one_ne_ofNat, OfNat.zero_ne_ofNat, one_ne_zero, zero_ne_one, Nat.reduceEqDiff,
    ite_false] at s1
  interval_cases i
  all_goals
    apply Method.ext_fields
    any_goals rfl
  all_goals
    simp only [V011.stage_comb, V011.step_inner, V031.stage_comb, V031.step_inner,
      V011.rk_a2, V011.rk_c2, V031.rk_b2, V011.rk_a2_1, V011.rk_c2_1, V031.rk_b2_1, V011.rk_a2_2, V011.rk_c2_2, V031.rk_b2_2,
      List.getD_cons_zero, List.getD_cons_succ, Function.update_apply]
    simp only [zero_add, Nat.reduceAdd, ite_true, OfNat.ofNat_ne_zero, OfNat.ofNat_ne_one,
      OfNat.one_ne_ofNat, OfNat.zero_ne_ofNat, one_ne_zero, zero_ne_one, Nat.reduceEqDiff,
      ite_false]
    simp only [Function.update_idem]
    refine congrArg _ ?_
    simp only [s1, h0, h1, Nat.reduceLT, Vec3.comb, Vec3.addComb, Vec3.axpy,
      Vec3.mk.injEq]
    refine ⟨?_, ?_, ?_⟩ <;> ring

/-- Every stage of the order 3 tables of revision 0.1.1 forms the linear combination of
the order 3 table of revision 0.3.1. -/
theorem rows_agree_3 [CharZero K] (dt : K) (i : Nat) (hi : i < 3)
    (s : Method K × Globals K σ) (h : V031.StageInv dt V031.rk_b3 i s) :
    V011.stage_comb dt (V011.rk_a3.getD i []) (V011.rk_c3.getD i []) (i + 1) s.1
      = V031.stage_comb dt (V031.rk_b3.getD i []) (i + 1) s.1 s.2.r0 s.2.r1 := by
  obtain ⟨h0, h1, hs⟩ := h
  have s1 := hs 0
  have s2 := hs 1
  simp only [V031.stage_comb, V031.step_inner, V031.rk_b3, V031.rk_b3_1, V031.rk_b3_2,
    List.getD_cons_zero, List.getD_cons_succ, Function.update_apply] at s1 s2
  simp only [zero_add, Nat.reduceAdd, ite_true, OfNat.ofNat_ne_zero, OfNat.ofNat_ne_one,
    OfNat.one_ne_ofNat, OfNat.zero_ne_ofNat, one_ne_zero, zero_ne_one, Nat.reduceEqDiff,
    ite_false] at s1 s2
  interval_cases i
  all_goals
    apply Method.ext_fields
    any_goals rfl
  all_goals
    simp only [V011.stage_comb, V011.step_inner, V031.stage_comb, V031.step_inner,
      V011.rk_a3, V011.rk_c3, V031.rk_b3, V011.rk_a3_1, V011.rk_c3_1, V031.rk_b3_1, V011.rk_a3_2, V011.rk_c3_2, V031.rk_b3_2, V011.rk_a3_3, V011.rk_c3_3, V031.rk_b3_3,
      List.getD_cons_zero, List.getD_cons_succ, Function.update_apply]
    simp only [zero_add, Nat.reduceAdd, ite_true, OfNat.ofNat_ne_zero, OfNat.ofNat_ne_one,
      OfNat.one_ne_ofNat, OfNat.zero_ne_ofNat, one_ne_zero, zero_ne_one, Nat.reduceEqDiff,
      ite_false]
    simp only [Function.update_idem]
    refine congrArg _ ?_
    simp only [s1, s2, h0, h1, Nat.reduceLT, Vec3.comb, Vec3.addComb, Vec3.axpy,
      Vec3.mk.injEq]
    refine ⟨?_, ?_, ?_⟩ <;> ring

/-- Every stage of the order 4 tables of revision 0.1.1 forms the linear combination of
the order 4 table of revision 0.3.1. -/
theorem rows_agree_4 [CharZero K] (dt : K) (i : Nat) (hi : i < 4)
    (s : Method K × Globals K σ) (h : V031.StageInv dt V031.rk_b4 i s) :
    V011.stage_comb dt (V011.rk_a4.getD i []) (V011.rk_c4.getD i []) (i + 1) s.1
      = V031.stage_comb dt (V031.rk_b4.getD i []) (i + 1) s.1 s.2.r0 s.2.r1 := by
  obtain ⟨h0, h1, hs⟩ := h
  have s1 := hs 0
  have s2 := hs 1
  have s3 := hs 2
  simp only [V031.stage_comb, V031.step_inner, V031.rk_b4, V031.rk_b4_1, V031.rk_b4_2, V031.rk_b4_3,
    List.getD_cons_zero, List.getD_cons_succ, Function.update_apply] at s1 s2 s3
  simp only [zero_add, Nat.reduceAdd, ite_true, OfNat.ofNat_ne_zero, OfNat.ofNat_ne_one,
    OfNat.one_ne_ofNat, OfNat.zero_ne_ofNat, one_ne_zero, zero_ne_one, Nat.reduceEqDiff,
    ite_false] at s1 s2 s3
  interval_cases i
  all_goals
    apply Method.ext_fields
    any_goals rfl
  all_goals
    simp only [V011.stage_comb, V011.step_inner, V031.stage_comb, V031.step_inner,
      V011.rk_a4, V011.rk_c4, V031.rk_b4, V011.rk_a4_1, V011.rk_c4_1, V031.rk_b4_1, V011.rk_a4_2, V011.rk_c4_2, V031.rk_b4_2, V011.rk_a4_3, V011.rk_c4_3, V031.rk_b4_3, V011.rk_a4_4, V011.rk_c4_4, V031.rk_b4_4,
      List.getD_cons_zero, List.getD_cons_succ, Function.update_apply]
    simp only [zero_add, Nat.reduceAdd, ite_true, OfNat.ofNat_ne_zero, OfNat.ofNat_ne_one,
      OfNat.one_ne_ofNat, OfNat.zero_ne_ofNat, one_ne_zero, zero_ne_one, Nat.reduceEqDiff,
      ite_false]
    simp only [Function.update_idem]
    refine congrArg _ ?_
    simp only [s1, s2, s3, h0, h1, Nat.reduceLT, Vec3.comb, Vec3.addComb, Vec3.axpy,
      Vec3.mk.injEq]
    refine ⟨?_, ?_, ?_⟩ <;> ring

/-- The step of revision 0.1.1 and the step of revision 0.3.1 agree when their stage loops do. -/
theorem steps_agree_of_rows [CharZero K] (acc : ε → Vec3 K → Vec3 K → K → σ → Vec3 K × σ)
    (eq : ε) (rkA : V011.RungeKutta K) (rkB : V031.RungeKutta K) (t dt : K) (g : Globals K σ)
    (hm : rkA.method = rkB.method) (ht : rkA.t = rkB.t)
    (hrow : ∀ i, i < rkB.method.nsteps → ∀ s : Method K × Globals K σ,
      V031.StageInv dt rkB.b i s →
      V011.stage_comb dt (rkA.a.getD i []) (rkA.c.getD i []) (i + 1) s.1
        = V031.stage_comb dt (rkB.b.getD i []) (i + 1) s.1 s.2.r0 s.2.r1) :
    (V011.runge_kutta_step acc rkA eq t dt g).1.method
        = (V031.runge_kutta_step acc rkB eq t dt g).1.method ∧
      (V011.runge_kutta_step acc rkA eq t dt g).2
        = (V031.runge_kutta_step acc rkB eq t dt g).2 := by
  have e := (stages_agree acc eq rkA.a rkA.c rkB.b rkB.t t dt rkB.method.nsteps hrow
    ({ rkB.method with
        r0 := Function.update rkB.method.r0 0 g.r0
        r1 := Function.update rkB.method.r1 0 g.r1
        r2 := Function.update rkB.method.r2 0 g.r2 }, g)
    ⟨by simp, by simp, fun j hj => absurd hj (Nat.not_lt_zero j)⟩).1
  simp only [V011.runge_kutta_step, V031.runge_kutta_step, hm, ht, e, and_self]

end stage_lemmas

/-! ## C1: the two coefficient representations encode the same integrator -/

/-- C1: for each order `p` in 1..4, every state, time, step and acceleration functional, the
step of revision 0.1.1 (tables `a`, `c`) and the step of revision 0.3.1 (tables `b`) leave the
same scratch arrays (stage positions, velocities and accelerations of every stage) and the
same globals (final registers and side state), in exact arithmetic. -/
theorem runge_kutta_step_tables_agree {K : Type} [Field K] [CharZero K] {ε σ : Type}
    (acc : ε → Vec3 K → Vec3 K → K → σ → Vec3 K × σ) (eq : ε) (m : Method K)
    (a0 c0 b0 : List (List K)) (t0 e0 : List K) (t dt : K) (g : Globals K σ) (p : Nat)
    (hp : 1 ≤ p ∧ p ≤ 4) :
    ∃ rkA rkB, V011.runge_kutta_init p ⟨m, a0, c0, t0, e0⟩ = some rkA ∧
      V031.runge_kutta_init p ⟨m, b0, t0, e0⟩ = some rkB ∧
      (V011.runge_kutta_step acc rkA eq t dt g).1.method
        = (V031.runge_kutta_step acc rkB eq t dt g).1.method ∧
      (V011.runge_kutta_step acc rkA eq t dt g).2
        = (V031.runge_kutta_step acc rkB eq t dt g).2 := by
  obtain ⟨h1, h4⟩ := hp
  interval_cases p
  · exact ⟨_, _, rfl, rfl, steps_agree_of_rows acc eq _ _ t dt g rfl rfl
      (fun i hi s h => rows_agree_1 dt i hi s h)⟩
  · exact ⟨_, _, rfl, rfl, steps_agree_of_rows acc eq _ _ t dt g rfl rfl
      (fun i hi s h => rows_agree_2 dt i hi s h)⟩
  · exact ⟨_, _, rfl, rfl, steps_agree_of_rows acc eq _ _ t dt g rfl rfl
      (fun i hi s h => rows_agree_3 dt i hi s h)⟩
  · exact ⟨_, _, rfl, rfl, steps_agree_of_rows acc eq _ _ t dt g rfl rfl
      (fun i hi s h => rows_agree_4 dt i hi s h)⟩

/-- C1 at order 4 on the linear drag of an equation with `lambda = 1/2` over the rationals. -/
theorem runge_kutta_step_tables_agree_witness :
    (1 ≤ 4 ∧ 4 ≤ 4) ∧
    ∃ rkA rkB, V011.runge_kutta_init 4 ⟨(sample_method : Method ℚ), [], [], [], []⟩ = some rkA ∧
      V031.runge_kutta_init 4 ⟨(sample_method : Method ℚ), [], [], []⟩ = some rkB ∧
      (V011.runge_kutta_step V110.equation_acceleration_1 rkA
          { sample_equation (100 : ℚ) 30 30 9.81 1 0 with lambda := 1 / 2 } 0 0.01
          sample_globals).1.method
        = (V031.runge_kutta_step V110.equation_acceleration_1 rkB
          { sample_equation (100 : ℚ) 30 30 9.81 1 0 with lambda := 1 / 2 } 0 0.01
          sample_globals).1.method ∧
      (V011.runge_kutta_step V110.equation_acceleration_1 rkA
          { sample_equation (100 : ℚ) 30 30 9.81 1 0 with lambda := 1 / 2 } 0 0.01
          sample_globals).2
        = (V031.runge_kutta_step V110.equation_acceleration_1 rkB
          { sample_equation (100 : ℚ) 30 30 9.81 1 0 with lambda := 1 / 2 } 0 0.01
          sample_globals).2 :=
  ⟨by decide, runge_kutta_step_tables_agree V110.equation_acceleration_1 _ sample_method
    [] [] [] [] [] 0 0.01 sample_globals 4 (by decide)⟩

/-! ## C4, C5: the number of evaluations of the acceleration functional -/

section evaluations
variable {K : Type} [Field K] {ε σ : Type}

/-- The side state after `k` stages, for a functional whose effect on the side state is a
function `F` of the time of the call: `F` is applied at the times `t + t[i] * dt`, in order. -/
theorem V031.step_stages_nevaluations (acc : ε → Vec3 K → Vec3 K → K → σ → Vec3 K × σ)
    (F : K → σ → σ) (hF : ∀ e r v u n, (acc e r v u n).2 = F u n) (eq : ε)
    (b : List (List K)) (tt : List K) (t dt : K) (k : Nat) (s : Method K × Globals K σ) :
    (V031.step_stages acc eq b tt t dt k s).2.nevaluations
      = (List.range k).foldl (fun n i => F (t + tt.getD i 0 * dt) n) s.2.nevaluations := by
  induction k with
  | zero => rfl
  | succ k ih =>
    simp only [V031.step_stages, V031.step_stage, hF, ih, List.range_succ, List.foldl_append,
      List.foldl_cons, List.foldl_nil]

theorem V031.runge_kutta_step_nevaluations (acc : ε → Vec3 K → Vec3 K → K → σ → Vec3 K × σ)
    (F : K → σ → σ) (hF : ∀ e r v u n, (acc e r v u n).2 = F u n) (rk : V031.RungeKutta K)
    (eq : ε) (t dt : K) (g : Globals K σ) :
    (V031.runge_kutta_step acc rk eq t dt g).2.nevaluations
      = (List.range rk.method.nsteps).foldl (fun n i => F (t + rk.t.getD i 0 * dt) n)
          g.nevaluations := by
  simp only [V031.runge_kutta_step]
  exact V031.step_stages_nevaluations acc F hF eq rk.b rk.t t dt rk.method.nsteps _

theorem incr_foldl (k : Nat) (hk : 1 ≤ k) (n : Nat) :
    (List.range k).foldl (fun n _ => incr n) n = (n + k) % 2 ^ 64 := by
  induction k with
  | zero => omega
  | succ k ih =>
    rcases Nat.eq_zero_or_pos k with h0 | hpos
    · subst h0; simp [incr, List.range_succ]
    · rw [List.range_succ, List.foldl_append, ih hpos]
      simp only [List.foldl_cons, List.foldl_nil, incr]
      omega

omit [Field K] in
theorem log_foldl (h : Nat → K) (k : Nat) (l : List K) :
    (List.range k).foldl (fun n i => n ++ [h i]) l = l ++ (List.range k).map h := by
  induction k with
  | zero => simp
  | succ k ih => simp [List.range_succ, List.foldl_append, ih]

end evaluations

/-- C4: one call of `runge_kutta_step` of order `p` in 1..4 adds `p` to the counter
`nevaluations` (an `unsigned long int`), for each of the four types of equation; and a
functional that records the times of its calls is called at the `p` times
`t + t[i - 1] * dt`, `i = 1 .. p`, in this order and at no other time. -/
theorem runge_kutta_step_evaluations {K : Type} [LinearOrderedField K] (L : Libm K)
    (p : Nat) (hp : 1 ≤ p ∧ p ≤ 4) (rk0 : V031.RungeKutta K) (type : Nat)
    (acc : Equation K → Vec3 K → Vec3 K → K → Nat → Vec3 K × Nat)
    (hacc : V110.equation_acceleration L type = some acc) (eq : Equation K) (t dt : K)
    (g : Globals K Nat) :
    ∃ rk, V031.runge_kutta_init p rk0 = some rk ∧
      (V031.runge_kutta_step acc rk eq t dt g).2.nevaluations = (g.nevaluations + p) % 2 ^ 64 ∧
      ∀ (f : Equation K → Vec3 K → Vec3 K → K → Vec3 K) (gl : Globals K (List K)),
        (V031.runge_kutta_step (fun e r v u l => (f e r v u, l ++ [u])) rk eq t dt
            gl).2.nevaluations
          = gl.nevaluations ++ (List.range p).map (fun i => t + rk.t.getD i 0 * dt) := by
  have hF : ∀ e r v u n, (acc e r v u n).2 = (fun (_ : K) n => incr n) u n := by
    intro e r v u n
    unfold V110.equation_acceleration at hacc
    split at hacc <;> simp only [Option.some.injEq, reduceCtorEq] at hacc <;> subst hacc <;> rfl
  obtain ⟨h1, h4⟩ := hp
  have key : ∀ rk : V031.RungeKutta K, rk.method.nsteps = p →
      (V031.runge_kutta_step acc rk eq t dt g).2.nevaluations = (g.nevaluations + p) % 2 ^ 64 ∧
      ∀ (f : Equation K → Vec3 K → Vec3 K → K → Vec3 K) (gl : Globals K (List K)),
        (V031.runge_kutta_step (fun e r v u l => (f e r v u, l ++ [u])) rk eq t dt
            gl).2.nevaluations
          = gl.nevaluations ++ (List.range p).map (fun i => t + rk.t.getD i 0 * dt) := by
    intro rk hn
    refine ⟨?_, fun f gl => ?_⟩
    · rw [V031.runge_kutta_step_nevaluations acc _ hF, hn]
      exact incr_foldl p h1 _
    · rw [V031.runge_kutta_step_nevaluations _ (fun u l => l ++ [u]) (fun _ _ _ _ _ => rfl), hn]
      exact log_foldl _ p _
  interval_cases p
  · exact ⟨_, rfl, key _ rfl⟩
  · exact ⟨_, rfl, key _ rfl⟩
  · exact ⟨_, rfl, key _ rfl⟩
  · exact ⟨_, rfl, key _ rfl⟩

/-- C4 at order 3 on the forced model (type 3) over the reals. -/
theorem runge_kutta_step_evaluations_witness :
    (1 ≤ 3 ∧ 3 ≤ 4) ∧
    V110.equation_acceleration Libm.real 3 = some (V110.equation_acceleration_3 Libm.real) ∧
    ∃ rk, V031.runge_kutta_init 3 ⟨(sample_method : Method ℝ), [], [], []⟩ = some rk ∧
      (V031.runge_kutta_step (V110.equation_acceleration_3 Libm.real) rk
          (sample_equation 0 30 30 9.81 1 3) 0 0.01 sample_globals).2.nevaluations
        = ((sample_globals : Globals ℝ Nat).nevaluations + 3) % 2 ^ 64 ∧
      ∀ (f : Equation ℝ → Vec3 ℝ → Vec3 ℝ → ℝ → Vec3 ℝ) (gl : Globals ℝ (List ℝ)),
        (V031.runge_kutta_step (fun e r v u l => (f e r v u, l ++ [u])) rk
            (sample_equation 0 30 30 9.81 1 3) 0 0.01 gl).2.nevaluations
          = gl.nevaluations ++ (List.range 3).map (fun i => 0 + rk.t.getD i 0 * 0.01) :=
  ⟨by decide, rfl, runge_kutta_step_evaluations Libm.real 3 (by decide)
    ⟨sample_method, [], [], []⟩ 3 _ rfl (sample_equation 0 30 30 9.81 1 3) 0 0.01
    sample_globals⟩

/-- C5: one call of `multi_steps_step` calls the acceleration functional once, at the new
position and velocity and at the time `t + dt`: for each of the four types of equation the
counter `nevaluations` grows by one, whatever the number of slots `nsteps` and the tables;
a functional that records the times of its calls records `t + dt` and nothing else. -/
theorem multi_steps_step_evaluations {K : Type} [LinearOrderedField K] (L : Libm K)
    (type : Nat) (acc : Equation K → Vec3 K → Vec3 K → K → Nat → Vec3 K × Nat)
    (hacc : V110.equation_acceleration L type = some acc) (ms : V031.MultiSteps K)
    (eq : Equation K) (t dt : K) (g : Globals K Nat) :
    (V031.multi_steps_step acc ms eq t dt g).2.nevaluations = (g.nevaluations + 1) % 2 ^ 64 ∧
    (V031.multi_steps_step acc ms eq t dt g).2.r2
      = (acc eq (V031.multi_steps_step acc ms eq t dt g).2.r0
          (V031.multi_steps_step acc ms eq t dt g).2.r1 (t + dt) g.nevaluations).1 ∧
    ∀ (f : Equation K → Vec3 K → Vec3 K → K → Vec3 K) (gl : Globals K (List K)),
      (V031.multi_steps_step (fun e r v u l => (f e r v u, l ++ [u])) ms eq t dt
          gl).2.nevaluations = gl.nevaluations ++ [t + dt] := by
  have hF : ∀ e r v u n, (acc e r v u n).2 = incr n := by
    intro e r v u n
    unfold V110.equation_acceleration at hacc
    split at hacc <;> simp only [Option.some.injEq, reduceCtorEq] at hacc <;> subst hacc <;> rfl
  refine ⟨?_, rfl, fun f gl => rfl⟩
  simp only [V031.multi_steps_step, hF, incr]

/-- C5 on the third order multi-steps method and the quadratic drag (type 2), over the
reals. -/
theorem multi_steps_step_evaluations_witness :
    V110.equation_acceleration Libm.real 2 = some V110.equation_acceleration_2 ∧
    (V031.multi_steps_step V110.equation_acceleration_2
        ⟨sample_method, ⟨sample_method, [], [], []⟩, V031.ms_a3, V031.ms_c3, V031.ms_ea3,
          V031.ms_eb3, 3⟩
        (sample_equation (100 : ℝ) 30 30 9.81 1 0) 0 0.01 sample_globals).2.nevaluations
      = ((sample_globals : Globals ℝ Nat).nevaluations + 1) % 2 ^ 64 :=
  ⟨rfl, (multi_steps_step_evaluations Libm.real 2 _ rfl
    ⟨sample_method, ⟨sample_method, [], [], []⟩, V031.ms_a3, V031.ms_c3, V031.ms_ea3,
      V031.ms_eb3, 3⟩
    (sample_equation (100 : ℝ) 30 30 9.81 1 0) 0 0.01 sample_globals).1⟩

/-! ## C2: the Runge-Kutta loop on the model without resistance -/

section frame
variable {K : Type} [Field K] {ε σ : Type}

/-- The stage loop leaves the parameters of the method and the globals other than the side
state as they were. -/
theorem V031.step_stages_frame (acc : ε → Vec3 K → Vec3 K → K → σ → Vec3 K × σ) (eq : ε)
    (b : List (List K)) (tt : List K) (t dt : K) (k : Nat) (s : Method K × Globals K σ) :
    (V031.step_stages acc eq b tt t dt k s).1.nsteps = s.1.nsteps ∧
    (V031.step_stages acc eq b tt t dt k s).1.order = s.1.order ∧
    (V031.step_stages acc eq b tt t dt k s).1.error_dt = s.1.error_dt ∧
    (V031.step_stages acc eq b tt t dt k s).1.e0 = s.1.e0 ∧
    (V031.step_stages acc eq b tt t dt k s).1.e1 = s.1.e1 ∧
    (V031.step_stages acc eq b tt t dt k s).1.et0 = s.1.et0 ∧
    (V031.step_stages acc eq b tt t dt k s).1.et1 = s.1.et1 ∧
    (V031.step_stages acc eq b tt t dt k s).1.emt = s.1.emt ∧
    (V031.step_stages acc eq b tt t dt k s).1.alpha = s.1.alpha ∧
    (V031.step_stages acc eq b tt t dt k s).1.beta = s.1.beta ∧
    (V031.step_stages acc eq b tt t dt k s).2.r0 = s.2.r0 ∧
    (V031.step_stages acc eq b tt t dt k s).2.r1 = s.2.r1 ∧
    (V031.step_stages acc eq b tt t dt k s).2.r2 = s.2.r2 ∧
    (V031.step_stages acc eq b tt t dt k s).2.ro0 = s.2.ro0 ∧
    (V031.step_stages acc eq b tt t dt k s).2.ro1 = s.2.ro1 ∧
    (V031.step_stages acc eq b tt t dt k s).2.ro2 = s.2.ro2 ∧
    (V031.step_stages acc eq b tt t dt k s).2.kt = s.2.kt ∧
    (V031.step_stages acc eq b tt t dt k s).2.dt = s.2.dt := by
  induction k with
  | zero => simp [V031.step_stages]
  | succ k ih =>
    obtain ⟨h1, h2, h3, h4, h5, h6, h7, h8, h9, h10, h11, h12, h13, h14, h15, h16, h17, h18⟩ := ih
    have f := V031.step_inner_frame dt (b.getD k []) (k + 1) (k + 1)
      { (V031.step_stages acc eq b tt t dt k s).1 with
        r0 := Function.update (V031.step_stages acc eq b tt t dt k s).1.r0 (k + 1)
          (V031.step_stages acc eq b tt t dt k s).2.r0
        r1 := Function.update (V031.step_stages acc eq b tt t dt k s).1.r1 (k + 1)
          (V031.step_stages acc eq b tt t dt k s).2.r1 }
    obtain ⟨-, -, -, f3, f4, f5, f6, f7, f8, f9, f10, f11, f12⟩ := f
    simp only [V031.step_stages, V031.step_stage, V031.stage_comb]
    exact ⟨f10.trans h1, f11.trans h2, f12.trans h3, f3.trans h4, f4.trans h5, f5.trans h6,
      f6.trans h7, f7.trans h8, f8.trans h9, f9.trans h10, h11, h12, h13, h14, h15, h16, h17,
      h18⟩

/-- Function `runge_kutta_step` leaves the tables, the parameters of the method, the backups
and the step sizes as they were. -/
theorem V031.runge_kutta_step_frame (acc : ε → Vec3 K → Vec3 K → K → σ → Vec3 K × σ)
    (rk : V031.RungeKutta K) (eq : ε) (t dt : K) (g : Globals K σ) :
    (V031.runge_kutta_step acc rk eq t dt g).1.b = rk.b ∧
    (V031.runge_kutta_step acc rk eq t dt g).1.t = rk.t ∧
    (V031.runge_kutta_step acc rk eq t dt g).1.e = rk.e ∧
    (V031.runge_kutta_step acc rk eq t dt g).1.method.nsteps = rk.method.nsteps ∧
    (V031.runge_kutta_step acc rk eq t dt g).1.method.order = rk.method.order ∧
    (V031.runge_kutta_step acc rk eq t dt g).1.method.error_dt = rk.method.error_dt ∧
    (V031.runge_kutta_step acc rk eq t dt g).2.ro0 = g.ro0 ∧
    (V031.runge_kutta_step acc rk eq t dt g).2.ro1 = g.ro1 ∧
    (V031.runge_kutta_step acc rk eq t dt g).2.ro2 = g.ro2 ∧
    (V031.runge_kutta_step acc rk eq t dt g).2.kt = g.kt ∧
    (V031.runge_kutta_step acc rk eq t dt g).2.dt = g.dt := by
  have f := V031.step_stages_frame acc eq rk.b rk.t t dt rk.method.nsteps
    ({ rk.method with
        r0 := Function.update rk.method.r0 0 g.r0
        r1 := Function.update rk.method.r1 0 g.r1
        r2 := Function.update rk.method.r2 0 g.r2 }, g)
  obtain ⟨h1, h2, h3, -, -, -, -, -, -, -, -, -, -, h14, h15, h16, h17, h18⟩ := f
  exact ⟨rfl, rfl, rfl, h1, h2, h3, h14, h15, h16, h17, h18⟩

end frame

section free_fall
variable {K : Type} [LinearOrderedField K]

/-- On the constant acceleration of the type 0, one step of order 2, 3 or 4 moves the
registers along the parabola exactly. -/
theorem V031.runge_kutta_step_parabola (p : Nat) (hp : 2 ≤ p ∧ p ≤ 4) (rk0 rk : V031.RungeKutta K)
    (hrk : V031.runge_kutta_init p rk0 = some rk) (m : Method K) (hn : m.nsteps = p)
    (eq : Equation K) (t dt : K) (g : Globals K Nat) (hg : g.r2 = ⟨0, 0, -G⟩) :
    (V031.runge_kutta_step V110.equation_acceleration_0 { rk with method := m } eq t dt g).2.r0
      = ⟨g.r0.x + dt * g.r1.x, g.r0.y + dt * g.r1.y, g.r0.z + dt * g.r1.z - dt * dt * 0.5 * G⟩ ∧
    (V031.runge_kutta_step V110.equation_acceleration_0 { rk with method := m } eq t dt g).2.r1
      = ⟨g.r1.x, g.r1.y, g.r1.z - dt * G⟩ ∧
    (V031.runge_kutta_step V110.equation_acceleration_0 { rk with method := m } eq t dt g).2.r2
      = ⟨0, 0, -G⟩ := by
  obtain ⟨h2, h4⟩ := hp
  interval_cases p
  all_goals
    simp only [V031.runge_kutta_init, Option.some.injEq] at hrk
    subst hrk
    simp only [V031.runge_kutta_step, hn, V031.runge_kutta_init_2, V031.runge_kutta_init_3,
      V031.runge_kutta_init_4, V031.step_stages, V031.step_stage,
      V031.stage_comb, V031.step_inner, V110.equation_acceleration_0, Function.update_apply,
      V031.rk_b2, V031.rk_b2_1, V031.rk_b2_2, V031.rk_t2,
      V031.rk_b3, V031.rk_b3_1, V031.rk_b3_2, V031.rk_b3_3, V031.rk_t3,
      V031.rk_b4, V031.rk_b4_1, V031.rk_b4_2, V031.rk_b4_3, V031.rk_b4_4, V031.rk_t4,
      List.getD_cons_zero, List.getD_cons_succ, hg]
    simp only [zero_add, Nat.reduceAdd, ite_true, OfNat.ofNat_ne_zero, OfNat.ofNat_ne_one,
      OfNat.one_ne_ofNat, OfNat.zero_ne_ofNat, one_ne_zero, zero_ne_one, Nat.reduceEqDiff,
      ite_false, Vec3.axpy, Vec3.mk.injEq, true_and]
    split_ands <;> first | trivial | ring

/-- The iteration of the loop that finds the final time reached: the `break`. -/
theorem V031.runge_kutta_loop_end {σ : Type} (L : Libm K) (method_dt : Method K → K → K)
    (acc : Equation K → Vec3 K → Vec3 K → K → σ → Vec3 K × σ) (eq : Equation K)
    (fuel : Nat) (rk : V031.RungeKutta K) (g : Globals K σ) (x : V031.RunVars K)
    (he : rk.method.error_dt = 0) (ht : eq.tf ≤ x.t) :
    V031.runge_kutta_loop L method_dt acc V110.equation_step_size_0 V110.equation_land_0 eq
      (fuel + 1) rk g x = some (x.t, rk, g) := by
  simp [V031.runge_kutta_loop, he, V110.equation_land_0, ht]

/-- An iteration of the loop before the final time: one step of the size that
`equation_land_0` leaves in `dt`. -/
theorem V031.runge_kutta_loop_step {σ : Type} (L : Libm K) (method_dt : Method K → K → K)
    (acc : Equation K → Vec3 K → Vec3 K → K → σ → Vec3 K × σ) (eq : Equation K)
    (fuel : Nat) (rk : V031.RungeKutta K) (g : Globals K σ) (x : V031.RunVars K)
    (he : rk.method.error_dt = 0) (ht : x.t < eq.tf) :
    V031.runge_kutta_loop L method_dt acc V110.equation_step_size_0 V110.equation_land_0 eq
      (fuel + 1) rk g x
    = V031.runge_kutta_loop L method_dt acc V110.equation_step_size_0 V110.equation_land_0 eq
        fuel
        (V031.runge_kutta_step acc rk eq x.t (min g.dt (eq.tf - x.t))
          { g with ro0 := g.r0, ro1 := g.r1, ro2 := g.r2 }).1
        (V031.runge_kutta_step acc rk eq x.t (min g.dt (eq.tf - x.t))
          { g with ro0 := g.r0, ro1 := g.r1, ro2 := g.r2 }).2
        { x with t_old := x.t, t := min (x.t + g.dt) eq.tf, dt := min g.dt (eq.tf - x.t) } := by
  have hnot : ¬ eq.tf ≤ x.t := not_le.mpr ht
  rw [V031.runge_kutta_loop]
  simp only [he, ne_eq, not_true_eq_false, and_false, ite_false, V110.equation_land_0,
    V110.equation_step_size_0, ge_iff_le, hnot]
  by_cases h : eq.tf ≤ x.t + g.dt
  · have h1 : min g.dt (eq.tf - x.t) = eq.tf - x.t := min_eq_right (by linarith)
    have h2 : min (x.t + g.dt) eq.tf = eq.tf := min_eq_right h
    simp only [h, ite_true, h1, h2, not_true_eq_false, ite_false]
  · have h1 : min g.dt (eq.tf - x.t) = g.dt := min_eq_left (by linarith)
    have h2 : min (x.t + g.dt) eq.tf = x.t + g.dt := min_eq_left (by linarith)
    simp only [h, ite_false, h1, h2, not_true_eq_false]

/-- The closed form of the type 0 after a further time `h`, when the configured gravity is
the constant `G`. -/
theorem V110.equation_solution_0_add (eq : Equation K) (hg : eq.g = G) (t h : K) :
    (V110.equation_solution_0 eq (t + h)).1
      = ⟨(V110.equation_solution_0 eq t).1.x + h * (V110.equation_solution_0 eq t).2.x,
          (V110.equation_solution_0 eq t).1.y + h * (V110.equation_solution_0 eq t).2.y,
          (V110.equation_solution_0 eq t).1.z + h * (V110.equation_solution_0 eq t).2.z
            - h * h * 0.5 * G⟩ ∧
    (V110.equation_solution_0 eq (t + h)).2
      = ⟨(V110.equation_solution_0 eq t).2.x, (V110.equation_solution_0 eq t).2.y,
          (V110.equation_solution_0 eq t).2.z - h * G⟩ := by
  simp only [V110.equation_solution_0, hg, Vec3.mk.injEq, true_and]
  split_ands <;> ring

/-- The loop on the type 0 with a fixed step and the final time as the end: whenever the
registers are on the closed form at the time `t <= tf` and at most `n` steps are left, the
loop ends with `n + 1` iterations or more, at the time `tf` and on the closed form. -/
theorem V031.runge_kutta_loop_free_fall (L : Libm K) (method_dt : Method K → K → K) (p : Nat)
    (hp : 2 ≤ p ∧ p ≤ 4) (rk0 rkp : V031.RungeKutta K)
    (hrk : V031.runge_kutta_init p rk0 = some rkp) (eq : Equation K) (hg : eq.g = G) :
    ∀ (n : Nat) (rk : V031.RungeKutta K) (g : Globals K Nat) (x : V031.RunVars K),
      rk.b = rkp.b → rk.t = rkp.t → rk.e = rkp.e → rk.method.nsteps = p →
      rk.method.error_dt = 0 →
      g.r2 = ⟨0, 0, -G⟩ → 0 < g.dt → x.t ≤ eq.tf →
      g.r0 = (V110.equation_solution_0 eq x.t).1 → g.r1 = (V110.equation_solution_0 eq x.t).2 →
      eq.tf - x.t ≤ n * g.dt →
      ∀ fuel, n + 1 ≤ fuel → ∃ rk' g',
        V031.runge_kutta_loop L method_dt V110.equation_acceleration_0
          V110.equation_step_size_0 V110.equation_land_0 eq fuel rk g x = some (eq.tf, rk', g') ∧
        g'.r0 = (V110.equation_solution_0 eq eq.tf).1 ∧
        g'.r1 = (V110.equation_solution_0 eq eq.tf).2 := by
  have hpn : rkp.method.nsteps = p := by
    obtain ⟨h2, h4⟩ := hp
    interval_cases p <;> simp only [V031.runge_kutta_init, Option.some.injEq] at hrk <;>
      subst hrk <;> rfl
  have fin : ∀ (rk : V031.RungeKutta K) (g : Globals K Nat) (x : V031.RunVars K),
      rk.method.error_dt = 0 → x.t ≤ eq.tf → eq.tf ≤ x.t →
      g.r0 = (V110.equation_solution_0 eq x.t).1 → g.r1 = (V110.equation_solution_0 eq x.t).2 →
      ∀ fuel, 1 ≤ fuel → ∃ rk' g',
        V031.runge_kutta_loop L method_dt V110.equation_acceleration_0
          V110.equation_step_size_0 V110.equation_land_0 eq fuel rk g x = some (eq.tf, rk', g') ∧
        g'.r0 = (V110.equation_solution_0 eq eq.tf).1 ∧
        g'.r1 = (V110.equation_solution_0 eq eq.tf).2 := by
    intro rk g x he h1 h2 hr0 hr1 fuel hf
    obtain ⟨f, rfl⟩ : ∃ f, fuel = f + 1 := ⟨fuel - 1, by omega⟩
    have ht : x.t = eq.tf := le_antisymm h1 h2
    refine ⟨rk, g, ?_, ?_, ?_⟩
    · rw [V031.runge_kutta_loop_end L method_dt _ eq f rk g x he h2, ht]
    · rw [hr0, ht]
    · rw [hr1, ht]
  intro n
  induction n with
  | zero =>
    intro rk g x _ _ _ _ he _ _ htle hr0 hr1 hrem fuel hf
    have h2 : eq.tf ≤ x.t := by
      have : eq.tf - x.t ≤ 0 := by simpa using hrem
      linarith
    exact fin rk g x he htle h2 hr0 hr1 fuel (by omega)
  | succ n ih =>
    intro rk g x hb ht hee hn he hr2 hdt htle hr0 hr1 hrem fuel hf
    by_cases h2 : eq.tf ≤ x.t
    · exact fin rk g x he htle h2 hr0 hr1 fuel (by omega)
    · have hlt : x.t < eq.tf := not_le.mp h2
      obtain ⟨f, rfl⟩ : ∃ f, fuel = f + 1 := ⟨fuel - 1, by omega⟩
      rw [V031.runge_kutta_loop_step L method_dt _ eq f rk g x he hlt]
      have fr := V031.runge_kutta_step_frame V110.equation_acceleration_0 rk eq x.t
        (min g.dt (eq.tf - x.t)) { g with ro0 := g.r0, ro1 := g.r1, ro2 := g.r2 }
      obtain ⟨f1, f2, f3, f4, -, f6, -, -, -, -, f11⟩ := fr
      have hrk' : rk = { rkp with method := rk.method } := by
        cases rk; cases rkp; simp_all
      have ex := V031.runge_kutta_step_parabola p hp rk0 rkp hrk rk.method hn eq x.t
        (min g.dt (eq.tf - x.t)) { g with ro0 := g.r0, ro1 := g.r1, ro2 := g.r2 } hr2
      rw [← hrk'] at ex
      obtain ⟨e0, e1, e2⟩ := ex
      have hmin : min (x.t + g.dt) eq.tf = x.t + min g.dt (eq.tf - x.t) := by
        rw [← min_add_add_left]; congr 1; ring
      have ad := V110.equation_solution_0_add eq hg x.t (min g.dt (eq.tf - x.t))
      refine ih _ _ _ (f1.trans hb) (f2.trans ht) (f3.trans hee) (f4.trans hn) (f6.trans he) e2
        (by rw [f11]; exact hdt) (min_le_right _ _) ?_ ?_ ?_ f (by omega)
      · rw [e0]; simp only [hmin, ad.1, hr0, hr1]
      · rw [e1]; simp only [hmin, ad.2, hr1]
      · rw [f11]
        simp only
        have hn0 : (0 : K) ≤ (n : K) * g.dt := mul_nonneg (Nat.cast_nonneg n) hdt.le
        have hs : eq.tf - x.t ≤ ((n : K) + 1) * g.dt := by simpa using hrem
        rcases le_total (x.t + g.dt) eq.tf with hc | hc
        · rw [min_eq_left hc]; linarith
        · rw [min_eq_right hc]; linarith

end free_fall

/-- C2: for the type 0 with `g = 9.81`, the final time as the end (`equation_land_0`), a fixed
step `dt > 0` (`equation_step_size_0`), no error control and an order `p` in 2..4, from the
registers set by the driver, `runge_kutta_run` ends (with `N` iterations or more, `N` fixed),
returns `tf`, and leaves the position and the velocity of the closed form
`equation_solution_0 (eq, tf)`, for every `z0`, `v0` and `tf >= 0`, in exact arithmetic. -/
theorem runge_kutta_run_free_fall {K : Type} [LinearOrderedField K] [Archimedean K]
    (L : Libm K) (method_dt : Method K → K → K) (p : Nat) (hp : 2 ≤ p ∧ p ≤ 4)
    (rk0 : V031.RungeKutta K) (herr : rk0.method.error_dt = 0) (eq : Equation K)
    (hg : eq.g = 9.81) (htf : 0 ≤ eq.tf) (g : Globals K Nat) (hdt : 0 < g.dt)
    (x : V031.RunVars K) :
    ∃ rk, V031.runge_kutta_init p rk0 = some rk ∧ ∃ N, ∀ fuel, N ≤ fuel → ∃ rk' g',
      V031.runge_kutta_run L method_dt V110.equation_acceleration_0 V110.equation_step_size_0
        V110.equation_land_0 eq fuel rk
        (driver_init V110.equation_solution_0 V110.equation_acceleration_0 eq g) x
        = some (eq.tf, rk', g') ∧
      g'.r0 = (V110.equation_solution_0 eq eq.tf).1 ∧
      g'.r1 = (V110.equation_solution_0 eq eq.tf).2 := by
  have hinit : ∃ rk, V031.runge_kutta_init p rk0 = some rk ∧ rk.method.nsteps = p ∧
      rk.method.error_dt = 0 := by
    obtain ⟨h2, h4⟩ := hp
    interval_cases p
    · exact ⟨_, rfl, rfl, herr⟩
    · exact ⟨_, rfl, rfl, herr⟩
    · exact ⟨_, rfl, rfl, herr⟩
  obtain ⟨rk, hrk, hn, he⟩ := hinit
  obtain ⟨n, hn'⟩ := exists_nat_ge (eq.tf / g.dt)
  refine ⟨rk, hrk, n + 1, fun fuel hf => ?_⟩
  have hrem : eq.tf - 0 ≤ (n : K) * g.dt := by
    rw [sub_zero]
    exact (div_le_iff₀ hdt).mp hn'
  exact V031.runge_kutta_loop_free_fall L method_dt p hp rk0 rk hrk eq hg n rk
    { driver_init V110.equation_solution_0 V110.equation_acceleration_0 eq g with
      ro0 := (driver_init V110.equation_solution_0 V110.equation_acceleration_0 eq g).r0
      ro1 := (driver_init V110.equation_solution_0 V110.equation_acceleration_0 eq g).r1
      ro2 := (driver_init V110.equation_solution_0 V110.equation_acceleration_0 eq g).r2 }
    { x with t := 0 } rfl rfl rfl hn he rfl hdt htf rfl rfl hrem fuel hf

/-- The closed form of the free-fall drop at its final time: on the ground, with the velocity
`-sqrt (2 * 9.81 * 100)`. -/
theorem free_fall_drop_closed_form :
    (V110.equation_solution_0 (sample_equation 100 0 0 9.81 (Real.sqrt (200 / 9.81)) 0)
      (Real.sqrt (200 / 9.81))).1.z = 0 ∧
    (V110.equation_solution_0 (sample_equation 100 0 0 9.81 (Real.sqrt (200 / 9.81)) 0)
      (Real.sqrt (200 / 9.81))).2.z = -Real.sqrt (2 * 9.81 * 100) := by
  have h : Real.sqrt (200 / 9.81) * Real.sqrt (200 / 9.81) = 200 / 9.81 :=
    Real.mul_self_sqrt (by norm_num)
  have h' : Real.sqrt (2 * 9.81 * 100) = 9.81 * Real.sqrt (200 / 9.81) := by
    rw [show (2 * 9.81 * 100 : ℝ) = 9.81 * 9.81 * (200 / 9.81) by norm_num,
      Real.sqrt_mul (by norm_num), Real.sqrt_mul_self (by norm_num)]
  simp only [V110.equation_solution_0, sample_equation, G]
  refine ⟨?_, ?_⟩
  · have e : (100 : ℝ) + Real.sqrt (200 / 9.81) * (0 - Real.sqrt (200 / 9.81) * 0.5 * 9.81)
        = 100 - (Real.sqrt (200 / 9.81) * Real.sqrt (200 / 9.81)) * (0.5 * 9.81) := by ring
    rw [e, h]
    norm_num
  · rw [h']
    ring

/-- C2 on the free-fall drop: `z0 = 100`, `v0 = 0`, `tf = sqrt (200 / 9.81)`, the fourth order
method and `dt = 0.01`, over the reals; the run ends on the closed form, whose height is 0
and whose vertical velocity is `-sqrt (2 * 9.81 * 100)`. -/
theorem runge_kutta_run_free_fall_witness :
    ((2 ≤ 4 ∧ 4 ≤ 4) ∧ (sample_method : Method ℝ).error_dt = 0 ∧
    (sample_equation 100 0 0 9.81 (Real.sqrt (200 / 9.81)) 0).g = 9.81 ∧
    0 ≤ (sample_equation 100 0 0 9.81 (Real.sqrt (200 / 9.81)) 0).tf ∧
    0 < (sample_globals : Globals ℝ Nat).dt ∧
    ∃ rk, V031.runge_kutta_init 4 ⟨(sample_method : Method ℝ), [], [], []⟩ = some rk ∧
      ∃ N, ∀ fuel, N ≤ fuel → ∃ rk' g',
        V031.runge_kutta_run Libm.real (fun _ dt => dt) V110.equation_acceleration_0
          V110.equation_step_size_0 V110.equation_land_0
          (sample_equation 100 0 0 9.81 (Real.sqrt (200 / 9.81)) 0) fuel rk
          (driver_init V110.equation_solution_0 V110.equation_acceleration_0
            (sample_equation 100 0 0 9.81 (Real.sqrt (200 / 9.81)) 0) sample_globals)
          ⟨0, 0, 0, 0, 0, 0⟩
          = some ((sample_equation 100 0 0 9.81 (Real.sqrt (200 / 9.81)) 0).tf, rk', g') ∧
        g'.r0 = (V110.equation_solution_0
          (sample_equation 100 0 0 9.81 (Real.sqrt (200 / 9.81)) 0)
          (sample_equation 100 0 0 9.81 (Real.sqrt (200 / 9.81)) 0).tf).1 ∧
        g'.r1 = (V110.equation_solution_0
          (sample_equation 100 0 0 9.81 (Real.sqrt (200 / 9.81)) 0)
          (sample_equation 100 0 0 9.81 (Real.sqrt (200 / 9.81)) 0).tf).2) ∧
    (V110.equation_solution_0 (sample_equation 100 0 0 9.81 (Real.sqrt (200 / 9.81)) 0)
      (Real.sqrt (200 / 9.81))).1.z = 0 ∧
    (V110.equation_solution_0 (sample_equation 100 0 0 9.81 (Real.sqrt (200 / 9.81)) 0)
      (Real.sqrt (200 / 9.81))).2.z = -Real.sqrt (2 * 9.81 * 100) :=
  ⟨⟨by decide, rfl, rfl, Real.sqrt_nonneg _, by norm_num [sample_globals],
    runge_kutta_run_free_fall Libm.real (fun _ dt => dt) 4 (by decide)
      ⟨sample_method, [], [], []⟩ rfl (sample_equation 100 0 0 9.81 (Real.sqrt (200 / 9.81)) 0)
      rfl (Real.sqrt_nonneg _) sample_globals (by norm_num [sample_globals])
      ⟨0, 0, 0, 0, 0, 0⟩⟩, free_fall_drop_closed_form⟩

/-! ## C3: the launch from the ground level -/

/-- With the first order landing, a position register on the ground `z = 0` and a vertical
velocity that is not zero (the divisor of the back-step `h = z / v_z`), the first landing test
of `runge_kutta_run` ends the run: no step is taken, the back-step is `0 / v_z = 0`, the time
returned is 0 and the registers are as they were. -/
theorem V031.runge_kutta_run_land_at_start {K : Type} [LinearOrderedField K] {σ : Type}
    (L : Libm K) (method_dt : Method K → K → K)
    (acc : Equation K → Vec3 K → Vec3 K → K → σ → Vec3 K × σ)
    (step_size : Equation K → Globals K σ → K) (eq : Equation K) (fuel : Nat)
    (rk : V031.RungeKutta K) (g : Globals K σ) (x : V031.RunVars K) (hz : g.r0.z = 0)
    (hv : g.r1.z ≠ 0) :
    g.r0.z / g.r1.z = 0 ∧ g.r0.z / g.r1.z * g.r1.z = g.r0.z ∧
    V031.runge_kutta_run L method_dt acc step_size V110.equation_land_1 eq (fuel + 1) rk g x
      = some (0, rk, { g with ro0 := g.r0, ro1 := g.r1, ro2 := g.r2 }) := by
  refine ⟨by rw [hz, zero_div], div_mul_cancel₀ _ hv, ?_⟩
  simp [V031.runge_kutta_run, V031.runge_kutta_loop, V110.equation_land_1, hz]
  exact Vec3.ext rfl rfl hz.symm

/-- C3, as the code has it: for the vacuum parabola launched from the ground level (type 0,
`equation_land_1`, `z0 = 0`, `v0.z > 0`), whatever the method, the step size and the
horizontal velocity, `runge_kutta_run` takes no step: the landing test `z <= 0` holds at the
first check, the back-step is `h = z0 / v0.z = 0` (the divisor `v0.z` is positive), and the
run returns the final time 0 with the position `r0` and the velocity `v0` of the launch, so
that the final `x` is `x0`. -/
theorem runge_kutta_run_ground_launch {K : Type} [LinearOrderedField K] (L : Libm K)
    (method_dt : Method K → K → K) (step_size : Equation K → Globals K Nat → K)
    (eq : Equation K) (hz : eq.r.z = 0) (hv : 0 < eq.v.z) (fuel : Nat)
    (rk : V031.RungeKutta K) (g : Globals K Nat) (x : V031.RunVars K) :
    ∃ g', V031.runge_kutta_run L method_dt V110.equation_acceleration_0 step_size
        V110.equation_land_1 eq (fuel + 1) rk
        (driver_init V110.equation_solution_0 V110.equation_acceleration_0 eq g) x
        = some (0, rk, g') ∧ g'.r0 = eq.r ∧ g'.r1 = eq.v ∧ 0 < g'.r1.z ∧
      g'.r0.z / g'.r1.z = 0 := by
  have h0 : (driver_init V110.equation_solution_0 V110.equation_acceleration_0 eq g).r0 = eq.r := by
    simp only [driver_init, V110.equation_solution_0]
    exact Vec3.ext (by simp) (by simp) (by simp)
  have h1 : (driver_init V110.equation_solution_0 V110.equation_acceleration_0 eq g).r1 = eq.v := by
    simp only [driver_init, V110.equation_solution_0]
    exact Vec3.ext (by simp) (by simp) (by simp)
  refine ⟨_, (V031.runge_kutta_run_land_at_start L method_dt _ step_size eq fuel rk _ x
    (by rw [h0, hz]) (by rw [h1]; exact ne_of_gt hv)).2.2, h0, h1, ?_, ?_⟩
  · show (driver_init V110.equation_solution_0 V110.equation_acceleration_0 eq g).r1.z > 0
    rw [h1]
    exact hv
  · show (driver_init V110.equation_solution_0 V110.equation_acceleration_0 eq g).r0.z
      / (driver_init V110.equation_solution_0 V110.equation_acceleration_0 eq g).r1.z = 0
    rw [h0, hz, zero_div]

/-- C3 on the scenario of the vacuum parabola, `v0 = (30, 0, 30)`, `g = 9.81`, the second
order method and `dt = 0.02`, over the reals. -/
theorem runge_kutta_run_ground_launch_witness :
    (sample_equation (0 : ℝ) 30 30 9.81 0 1).r.z = 0 ∧
    0 < (sample_equation (0 : ℝ) 30 30 9.81 0 1).v.z ∧
    ∃ g', V031.runge_kutta_run Libm.real (fun _ dt => dt) V110.equation_acceleration_0
        V110.equation_step_size_0 V110.equation_land_1 (sample_equation (0 : ℝ) 30 30 9.81 0 1)
        (999 + 1) (V031.runge_kutta_init_2 ⟨sample_method, [], [], []⟩)
        (driver_init V110.equation_solution_0 V110.equation_acceleration_0
          (sample_equation (0 : ℝ) 30 30 9.81 0 1) { sample_globals with dt := 0.02 })
        ⟨0, 0, 0, 0, 0, 0⟩
        = some (0, V031.runge_kutta_init_2 ⟨sample_method, [], [], []⟩, g') ∧
      g'.r0 = (sample_equation (0 : ℝ) 30 30 9.81 0 1).r ∧
      g'.r1 = (sample_equation (0 : ℝ) 30 30 9.81 0 1).v ∧ 0 < g'.r1.z ∧
      g'.r0.z / g'.r1.z = 0 :=
  ⟨rfl, by norm_num [sample_equation],
    runge_kutta_run_ground_launch _ _ _ _ rfl (by norm_num [sample_equation]) 999 _ _ _⟩

/-- C3 as stated fails on its scenario: with `z0 = 0`, `v0 = (30, 0, 30)`, `g = 9.81`, the
second order method and `dt = 0.02`, the run returns a final time and a final `x` that are
not (positive, within 0.01 of the range `2 * 30 * 30 / 9.81`): both are 0. -/
theorem runge_kutta_run_ground_launch_counterexample :
    ∃ t rk' g', V031.runge_kutta_run Libm.real (fun _ dt => dt) V110.equation_acceleration_0
        V110.equation_step_size_0 V110.equation_land_1 (sample_equation (0 : ℝ) 30 30 9.81 0 1)
        1000 (V031.runge_kutta_init_2 ⟨sample_method, [], [], []⟩)
        (driver_init V110.equation_solution_0 V110.equation_acceleration_0
          (sample_equation (0 : ℝ) 30 30 9.81 0 1) { sample_globals with dt := 0.02 })
        ⟨0, 0, 0, 0, 0, 0⟩ = some (t, rk', g') ∧
      t = 0 ∧ g'.r0.x = 0 ∧ ¬ (0 < t ∧ |g'.r0.x - 2 * 30 * 30 / 9.81| ≤ 0.01) := by
  refine ⟨0, _, _, (V031.runge_kutta_run_land_at_start Libm.real _ _ _ _ 999 _ _ _ ?_ ?_).2.2,
    rfl, ?_, fun h => lt_irrefl _ h.1⟩
  · simp [driver_init, V110.equation_solution_0, sample_equation]
  · simp [driver_init, V110.equation_solution_0, sample_equation]
  · simp [driver_init, V110.equation_solution_0, sample_equation]

/-! ## C6, C7: the configured gravity -/

/-- C6 at the failing input `g = 1`: the acceleration functionals of the types 0 and 3 return
the vertical component `-9.81` (the macro `G`), which is not `-eq.g`; the functional of the
type 1 returns `-eq.g - lambda * v_z`. -/
theorem equation_acceleration_gravity_at_g1 :
    (V110.equation_acceleration_0 (sample_equation (0 : ℝ) 0 0 1 0 0) ⟨0, 0, 0⟩ ⟨0, 0, 0⟩ 0 0).1
      = ⟨0, 0, -9.81⟩ ∧
    (V110.equation_acceleration_3 Libm.real
        { sample_equation (0 : ℝ) 0 0 1 0 0 with type := 3 } ⟨0, 0, 0⟩ ⟨0, 0, 0⟩ 0 0).1.z
      = -9.81 ∧
    (V110.equation_acceleration_1
        { sample_equation (0 : ℝ) 0 0 1 0 0 with type := 1 } ⟨0, 0, 0⟩ ⟨0, 0, 0⟩ 0 0).1.z
      = -1 ∧
    (-9.81 : ℝ) ≠ -(sample_equation (0 : ℝ) 0 0 1 0 0).g := by
  refine ⟨rfl, rfl, ?_, ?_⟩
  · simp [V110.equation_acceleration_1, sample_equation]
  · norm_num [sample_equation]

/-- C7 at the failing input `g = 1`, `r0 = 0`, `v0 = 0`, `t = 1`: `equation_solution_0`
returns the velocity `v_z = -1` (with `eq.g`) and the position `z = -4.905` (with the macro
`G = 9.81`), not `z = -eq.g / 2 = -0.5`. -/
theorem equation_solution_0_at_g1 :
    (V110.equation_solution_0 (sample_equation (0 : ℚ) 0 0 1 0 0) 1).2 = ⟨0, 0, -1⟩ ∧
    (V110.equation_solution_0 (sample_equation (0 : ℚ) 0 0 1 0 0) 1).1 = ⟨0, 0, -4.905⟩ ∧
    (-4.905 : ℚ) ≠ 0 + 0 * 1 + -(sample_equation (0 : ℚ) 0 0 1 0 0).g / 2 * 1 ^ 2 := by
  refine ⟨?_, ?_, ?_⟩
  · simp [V110.equation_solution_0, sample_equation]
  · simp only [V110.equation_solution_0, sample_equation, G, Vec3.mk.injEq]
    norm_num
  · norm_num [sample_equation]

/-! ## C8: the closed forms at the initial time -/

/-- C8: for each type 0..3 (with `lambda != 0` for the types 1 and 3, and `lambda > 0`,
`g > 0` for the type 2), the closed form at `t = 0` is the configured initial state
`(eq.r, eq.v)`, on the branch `v0.z <= 0` and on the branch `v0.z > 0` of the type 2. -/
theorem equation_solution_at_zero (eq : Equation ℝ)
    (sol : Equation ℝ → ℝ → Vec3 ℝ × Vec3 ℝ)
    (hsol : V110.equation_solution Libm.real eq.type = some sol)
    (_h13 : eq.type = 1 ∨ eq.type = 3 → eq.lambda ≠ 0)
    (h2 : eq.type = 2 → 0 < eq.lambda ∧ 0 < eq.g) :
    sol eq 0 = (eq.r, eq.v) := by
  unfold V110.equation_solution at hsol
  split at hsol
  · simp only [Option.some.injEq] at hsol
    subst hsol
    simp [V110.equation_solution_0]
  · simp only [Option.some.injEq] at hsol
    subst hsol
    simp [V110.equation_solution_1, Libm.real]
  · rename_i ht
    obtain ⟨hl, hg⟩ := h2 ht
    simp only [Option.some.injEq] at hsol
    subst hsol
    have hg_l : 0 < Real.sqrt (eq.g / eq.lambda) := Real.sqrt_pos.mpr (div_pos hg hl)
    have hgl : 0 < Real.sqrt (eq.g * eq.lambda) := Real.sqrt_pos.mpr (mul_pos hg hl)
    by_cases hv : eq.v.z ≤ 0
    · simp only [V110.equation_solution_2, Libm.real, hv, if_true]
      simp [hg_l.ne']
    · have hvp : 0 < eq.v.z := not_le.mp hv
      have htc : (0 : ℝ) ≤ Real.arctan (eq.v.z / Real.sqrt (eq.g / eq.lambda))
          / Real.sqrt (eq.g * eq.lambda) :=
        div_nonneg (by
          rw [← Real.arctan_zero]
          exact Real.arctan_strictMono.monotone (div_pos hvp hg_l).le) hgl.le
      simp only [V110.equation_solution_2, Libm.real, hv, if_false, htc, if_true]
      have hc := (Real.cos_arctan_pos (eq.v.z / Real.sqrt (eq.g / eq.lambda))).ne'
      simp [Real.tan_arctan, hg_l.ne', hc, mul_div_cancel₀]
  · simp only [Option.some.injEq] at hsol
    subst hsol
    simp [V110.equation_solution_3, Libm.real]
  · exact absurd hsol (by simp)

/-- C8 on the quadratic drag launched upwards: type 2, `v0 = (30, 0, 30)`, `g = 9.81`,
`lambda = 0.002`. -/
theorem equation_solution_at_zero_witness :
    V110.equation_solution Libm.real
        ({ sample_equation (0 : ℝ) 30 30 9.81 0 2 with type := 2, lambda := 0.002 }).type
      = some (V110.equation_solution_2 Libm.real) ∧
    V110.equation_solution_2 Libm.real
        { sample_equation (0 : ℝ) 30 30 9.81 0 2 with type := 2, lambda := 0.002 } 0
      = (({ sample_equation (0 : ℝ) 30 30 9.81 0 2 with type := 2, lambda := 0.002 }).r,
          ({ sample_equation (0 : ℝ) 30 30 9.81 0 2 with type := 2, lambda := 0.002 }).v) :=
  ⟨rfl, equation_solution_at_zero
    { sample_equation (0 : ℝ) 30 30 9.81 0 2 with type := 2, lambda := 0.002 } _ rfl
    (fun _ => by norm_num) (fun _ => ⟨by norm_num, by norm_num [sample_equation]⟩)⟩

/-! ## C9: the closed form of the linear drag solves the model -/

theorem hasDerivAt_exp_neg_mul (l t : ℝ) :
    HasDerivAt (fun s => Real.exp (-l * s)) (-l * Real.exp (-l * t)) t := by
  have h := ((hasDerivAt_id t).const_mul (-l)).exp
  simp only [id, mul_one] at h
  convert h using 1
  ring

/-- C9: for the type 1 with `lambda != 0`, the closed form `t -> (r(t), v(t))` of
`equation_solution_1` solves the model at every real `t`: `dr/dt = v(t)`, and `dv/dt` is the
value of `equation_acceleration_1` at `(r(t), v(t), t)`, which is
`(-lambda (v_x - w_x), -lambda (v_y - w_y), -g - lambda v_z)`; the initial value is
`(eq.r, eq.v)`. -/
theorem equation_solution_1_solves_model (eq : Equation ℝ) (hl : eq.lambda ≠ 0) (t : ℝ)
    (n : Nat) :
    HasDerivAt (fun s => (V110.equation_solution_1 Libm.real eq s).1.x)
      (V110.equation_solution_1 Libm.real eq t).2.x t ∧
    HasDerivAt (fun s => (V110.equation_solution_1 Libm.real eq s).1.y)
      (V110.equation_solution_1 Libm.real eq t).2.y t ∧
    HasDerivAt (fun s => (V110.equation_solution_1 Libm.real eq s).1.z)
      (V110.equation_solution_1 Libm.real eq t).2.z t ∧
    HasDerivAt (fun s => (V110.equation_solution_1 Libm.real eq s).2.x)
      (V110.equation_acceleration_1 eq (V110.equation_solution_1 Libm.real eq t).1
        (V110.equation_solution_1 Libm.real eq t).2 t n).1.x t ∧
    HasDerivAt (fun s => (V110.equation_solution_1 Libm.real eq s).2.y)
      (V110.equation_acceleration_1 eq (V110.equation_solution_1 Libm.real eq t).1
        (V110.equation_solution_1 Libm.real eq t).2 t n).1.y t ∧
    HasDerivAt (fun s => (V110.equation_solution_1 Libm.real eq s).2.z)
      (V110.equation_acceleration_1 eq (V110.equation_solution_1 Libm.real eq t).1
        (V110.equation_solution_1 Libm.real eq t).2 t n).1.z t ∧
    (V110.equation_acceleration_1 eq (V110.equation_solution_1 Libm.real eq t).1
        (V110.equation_solution_1 Libm.real eq t).2 t n).1
      = ⟨-eq.lambda * ((V110.equation_solution_1 Libm.real eq t).2.x - eq.w.x),
          -eq.lambda * ((V110.equation_solution_1 Libm.real eq t).2.y - eq.w.y),
          -eq.g - eq.lambda * (V110.equation_solution_1 Libm.real eq t).2.z⟩ ∧
    V110.equation_solution_1 Libm.real eq 0 = (eq.r, eq.v) := by
  have hE := hasDerivAt_exp_neg_mul eq.lambda t
  have hI := hasDerivAt_id t
  refine ⟨?_, ?_, ?_, ?_, ?_, ?_, rfl, ?_⟩
  · have h := ((hI.const_mul eq.w.x).const_add eq.r.x).add
      ((((hE.const_sub 1).const_mul (1 / eq.lambda))).const_mul (eq.v.x - eq.w.x))
    simp only [V110.equation_solution_1, Libm.real]
    convert h using 1
    field_simp
  · have h := ((hI.const_mul eq.w.y).const_add eq.r.y).add
      ((((hE.const_sub 1).const_mul (1 / eq.lambda))).const_mul (eq.v.y - eq.w.y))
    simp only [V110.equation_solution_1, Libm.real]
    convert h using 1
    field_simp
  · have h := ((hI.const_mul (eq.g * (1 / eq.lambda))).const_sub eq.r.z).add
      ((((hE.const_sub 1).const_mul (1 / eq.lambda))).const_mul
        (eq.v.z + eq.g * (1 / eq.lambda)))
    simp only [V110.equation_solution_1, Libm.real]
    convert h using 1
    field_simp
    ring
  · have h := (hE.const_mul (eq.v.x - eq.w.x)).const_add eq.w.x
    simp only [V110.equation_solution_1, V110.equation_acceleration_1, Libm.real]
    convert h using 1
    field_simp
    ring
  · have h := (hE.const_mul (eq.v.y - eq.w.y)).const_add eq.w.y
    simp only [V110.equation_solution_1, V110.equation_acceleration_1, Libm.real]
    convert h using 1
    field_simp
    ring
  · have h := (hE.const_mul (eq.v.z + eq.g * (1 / eq.lambda))).sub_const
      (eq.g * (1 / eq.lambda))
    simp only [V110.equation_solution_1, V110.equation_acceleration_1, Libm.real]
    convert h using 1
    field_simp
    ring
  · simp [V110.equation_solution_1, Libm.real]

/-- C9 on the linear drag reaching the terminal velocity: type 1, `w = (10, 0)`,
`lambda = 0.1`, `z0 = 1000`, at `t = 100`. -/
theorem equation_solution_1_solves_model_witness :
    ({ sample_equation (1000 : ℝ) 0 0 9.81 100 0 with
        type := 1, lambda := 0.1, w := ⟨10, 0⟩ } : Equation ℝ).lambda ≠ 0 ∧
    HasDerivAt
      (fun s => (V110.equation_solution_1 Libm.real
        { sample_equation (1000 : ℝ) 0 0 9.81 100 0 with
          type := 1, lambda := 0.1, w := ⟨10, 0⟩ } s).1.x)
      (V110.equation_solution_1 Libm.real
        { sample_equation (1000 : ℝ) 0 0 9.81 100 0 with
          type := 1, lambda := 0.1, w := ⟨10, 0⟩ } 100).2.x 100 :=
  ⟨by norm_num, (equation_solution_1_solves_model
    { sample_equation (1000 : ℝ) 0 0 9.81 100 0 with type := 1, lambda := 0.1, w := ⟨10, 0⟩ }
    (by norm_num) 100 0).1⟩

/-! ## C10: the horizontal closed form of the quadratic drag solves the model -/

/-- The horizontal velocity of the quadratic drag: its derivative is the drag. -/
theorem hasDerivAt_drag2_velocity (l u w t : ℝ) (hl : 0 < l) (ht : 0 ≤ t) :
    HasDerivAt (fun s => w + u / (1 + l * s * |u|))
      (-l * |w + u / (1 + l * t * |u|) - w| * (w + u / (1 + l * t * |u|) - w)) t := by
  have hk : HasDerivAt (fun s => 1 + l * s * |u|) (l * |u|) t := by
    have h := (((hasDerivAt_id t).const_mul l).mul_const |u|).const_add 1
    simp only [id, mul_one] at h
    exact h
  have hk0 : 0 < 1 + l * t * |u| := by positivity
  have h := ((hasDerivAt_const t u).div hk hk0.ne').const_add w
  convert h using 1
  rw [add_sub_cancel_left, abs_div, abs_of_pos hk0]
  field_simp
  ring

/-- The horizontal position of the quadratic drag: its derivative is the velocity. -/
theorem hasDerivAt_drag2_position (l u w r t : ℝ) (hl : 0 < l) (ht : 0 ≤ t) :
    HasDerivAt
      (fun s => if u ≥ 0 then r + w * s + 1 / l * Real.log (1 + l * s * |u|)
        else r + w * s - 1 / l * Real.log (1 + l * s * |u|))
      (w + u / (1 + l * t * |u|)) t := by
  have hk : HasDerivAt (fun s => 1 + l * s * |u|) (l * |u|) t := by
    have h := (((hasDerivAt_id t).const_mul l).mul_const |u|).const_add 1
    simp only [id, mul_one] at h
    exact h
  have hk0 : 0 < 1 + l * t * |u| := by positivity
  have hlog := (hk.log hk0.ne').const_mul (1 / l)
  have hlin : HasDerivAt (fun s => r + w * s) w t := by
    have h := ((hasDerivAt_id t).const_mul w).const_add r
    simp only [id, mul_one] at h
    exact h
  by_cases hu : u ≥ 0
  · simp only [hu, if_true]
    convert hlin.add hlog using 1
    rw [abs_of_nonneg hu]
    field_simp
  · simp only [hu, if_false]
    convert hlin.sub hlog using 1
    rw [abs_of_neg (not_le.mp hu)]
    have e : 1 / l * (l * -u / (1 + l * t * -u)) = -(u / (1 + l * t * -u)) := by
      rw [mul_div_assoc, ← mul_assoc, one_div_mul_cancel hl.ne', one_mul, neg_div]
    rw [e, sub_neg_eq_add]

theorem V110.equation_solution_2_velocity_x (eq : Equation ℝ) (s : ℝ) :
    (V110.equation_solution_2 Libm.real eq s).2.x
      = eq.w.x + (eq.v.x - eq.w.x) / (1 + eq.lambda * s * |eq.v.x - eq.w.x|) := by
  simp only [V110.equation_solution_2]
  split_ifs <;> rfl

theorem V110.equation_solution_2_velocity_y (eq : Equation ℝ) (s : ℝ) :
    (V110.equation_solution_2 Libm.real eq s).2.y
      = eq.w.y + (eq.v.y - eq.w.y) / (1 + eq.lambda * s * |eq.v.y - eq.w.y|) := by
  simp only [V110.equation_solution_2]
  split_ifs <;> rfl

theorem V110.equation_solution_2_position_x (eq : Equation ℝ) (s : ℝ) :
    (V110.equation_solution_2 Libm.real eq s).1.x
      = if eq.v.x - eq.w.x ≥ 0 then
          eq.r.x + eq.w.x * s
            + 1 / eq.lambda * Real.log (1 + eq.lambda * s * |eq.v.x - eq.w.x|)
        else eq.r.x + eq.w.x * s
            - 1 / eq.lambda * Real.log (1 + eq.lambda * s * |eq.v.x - eq.w.x|) := by
  simp only [V110.equation_solution_2]
  split_ifs <;> rfl

theorem V110.equation_solution_2_position_y (eq : Equation ℝ) (s : ℝ) :
    (V110.equation_solution_2 Libm.real eq s).1.y
      = if eq.v.y - eq.w.y ≥ 0 then
          eq.r.y + eq.w.y * s
            + 1 / eq.lambda * Real.log (1 + eq.lambda * s * |eq.v.y - eq.w.y|)
        else eq.r.y + eq.w.y * s
            - 1 / eq.lambda * Real.log (1 + eq.lambda * s * |eq.v.y - eq.w.y|) := by
  simp only [V110.equation_solution_2]
  split_ifs <;> rfl

/-- The two branches on the sign of `u` as the factor `Real.sign u`. -/
theorem sign_log_branches (l u r w s : ℝ) :
    (if u ≥ 0 then r + w * s + 1 / l * Real.log (1 + l * s * |u|)
      else r + w * s - 1 / l * Real.log (1 + l * s * |u|))
    = r + w * s + Real.sign u * Real.log (1 + l * |u| * s) / l := by
  have e : l * s * |u| = l * |u| * s := by ring
  rcases lt_trichotomy u 0 with h | h | h
  · rw [if_neg (not_le.mpr h), Real.sign_of_neg h, e]; ring
  · subst h; simp
  · rw [if_pos h.le, Real.sign_of_pos h, e]; ring

/-- C10: for the type 2 with `lambda > 0` and every `t >= 0`, the horizontal components of
the closed form of `equation_solution_2` are
`v_x = w_x + (v0_x - w_x) / (1 + lambda |v0_x - w_x| t)` and
`r_x = r0_x + w_x t + sign (v0_x - w_x) ln (1 + lambda |v0_x - w_x| t) / lambda` (the same
in `y`), and they solve the horizontal model of `equation_acceleration_2`: `dr_x/dt = v_x`
and `dv_x/dt = -lambda |v_x - w_x| (v_x - w_x)`. -/
theorem equation_solution_2_horizontal_solves_model (eq : Equation ℝ) (hl : 0 < eq.lambda)
    (t : ℝ) (ht : 0 ≤ t) (n : Nat) :
    ((V110.equation_solution_2 Libm.real eq t).2.x
        = eq.w.x + (eq.v.x - eq.w.x) / (1 + eq.lambda * |eq.v.x - eq.w.x| * t) ∧
      (V110.equation_solution_2 Libm.real eq t).1.x
        = eq.r.x + eq.w.x * t
          + Real.sign (eq.v.x - eq.w.x)
            * Real.log (1 + eq.lambda * |eq.v.x - eq.w.x| * t) / eq.lambda ∧
      HasDerivAt (fun s => (V110.equation_solution_2 Libm.real eq s).1.x)
        (V110.equation_solution_2 Libm.real eq t).2.x t ∧
      HasDerivAt (fun s => (V110.equation_solution_2 Libm.real eq s).2.x)
        (V110.equation_acceleration_2 eq (V110.equation_solution_2 Libm.real eq t).1
          (V110.equation_solution_2 Libm.real eq t).2 t n).1.x t ∧
      (V110.equation_acceleration_2 eq (V110.equation_solution_2 Libm.real eq t).1
          (V110.equation_solution_2 Libm.real eq t).2 t n).1.x
        = -eq.lambda * |(V110.equation_solution_2 Libm.real eq t).2.x - eq.w.x|
            * ((V110.equation_solution_2 Libm.real eq t).2.x - eq.w.x)) ∧
    ((V110.equation_solution_2 Libm.real eq t).2.y
        = eq.w.y + (eq.v.y - eq.w.y) / (1 + eq.lambda * |eq.v.y - eq.w.y| * t) ∧
      (V110.equation_solution_2 Libm.real eq t).1.y
        = eq.r.y + eq.w.y * t
          + Real.sign (eq.v.y - eq.w.y)
            * Real.log (1 + eq.lambda * |eq.v.y - eq.w.y| * t) / eq.lambda ∧
      HasDerivAt (fun s => (V110.equation_solution_2 Libm.real eq s).1.y)
        (V110.equation_solution_2 Libm.real eq t).2.y t ∧
      HasDerivAt (fun s => (V110.equation_solution_2 Libm.real eq s).2.y)
        (V110.equation_acceleration_2 eq (V110.equation_solution_2 Libm.real eq t).1
          (V110.equation_solution_2 Libm.real eq t).2 t n).1.y t ∧
      (V110.equation_acceleration_2 eq (V110.equation_solution_2 Libm.real eq t).1
          (V110.equation_solution_2 Libm.real eq t).2 t n).1.y
        = -eq.lambda * |(V110.equation_solution_2 Libm.real eq t).2.y - eq.w.y|
            * ((V110.equation_solution_2 Libm.real eq t).2.y - eq.w.y)) := by
  refine ⟨?_, ?_⟩
  · refine ⟨?_, ?_, ?_, ?_, rfl⟩
    · rw [V110.equation_solution_2_velocity_x]
      congr 3
      ring
    · rw [V110.equation_solution_2_position_x, sign_log_branches]
    · rw [funext (V110.equation_solution_2_position_x eq), V110.equation_solution_2_velocity_x]
      exact hasDerivAt_drag2_position eq.lambda (eq.v.x - eq.w.x) eq.w.x eq.r.x t hl ht
    · rw [funext (V110.equation_solution_2_velocity_x eq)]
      simp only [V110.equation_acceleration_2, V110.equation_solution_2_velocity_x]
      exact hasDerivAt_drag2_velocity eq.lambda (eq.v.x - eq.w.x) eq.w.x t hl ht
  · refine ⟨?_, ?_, ?_, ?_, rfl⟩
    · rw [V110.equation_solution_2_velocity_y]
      congr 3
      ring
    · rw [V110.equation_solution_2_position_y, sign_log_branches]
    · rw [funext (V110.equation_solution_2_position_y eq), V110.equation_solution_2_velocity_y]
      exact hasDerivAt_drag2_position eq.lambda (eq.v.y - eq.w.y) eq.w.y eq.r.y t hl ht
    · rw [funext (V110.equation_solution_2_velocity_y eq)]
      simp only [V110.equation_acceleration_2, V110.equation_solution_2_velocity_y]
      exact hasDerivAt_drag2_velocity eq.lambda (eq.v.y - eq.w.y) eq.w.y t hl ht

/-- C10 on the quadratic drag with wind: type 2, `v0 = (30, 0, 30)`, `w = (10, -5)`,
`lambda = 0.002`, at `t = 4`. -/
theorem equation_solution_2_horizontal_solves_model_witness :
    0 < ({ sample_equation (0 : ℝ) 30 30 9.81 0 2 with
        type := 2, lambda := 0.002, w := ⟨10, -5⟩ } : Equation ℝ).lambda ∧ (0 : ℝ) ≤ 4 ∧
    HasDerivAt
      (fun s => (V110.equation_solution_2 Libm.real
        { sample_equation (0 : ℝ) 30 30 9.81 0 2 with
          type := 2, lambda := 0.002, w := ⟨10, -5⟩ } s).1.y)
      (V110.equation_solution_2 Libm.real
        { sample_equation (0 : ℝ) 30 30 9.81 0 2 with
          type := 2, lambda := 0.002, w := ⟨10, -5⟩ } 4).2.y 4 :=
  ⟨by norm_num, by norm_num, (equation_solution_2_horizontal_solves_model
    { sample_equation (0 : ℝ) 30 30 9.81 0 2 with type := 2, lambda := 0.002, w := ⟨10, -5⟩ }
    (by norm_num) 4 (by norm_num) 0).2.2.2.1⟩

/-! ## C18: the reduced quadratic -/

section quadratic

/-- The two values that `solve_quadratic_reduced` chooses from are the roots of the reduced
quadratic, and every root is one of them. -/
theorem quadratic_roots (a b : ℝ) (h : 0 ≤ a ^ 2 / 4 - b) :
    (-0.5 * a + Real.sqrt (-0.5 * a * (-0.5 * a) - b)) ^ 2
        + a * (-0.5 * a + Real.sqrt (-0.5 * a * (-0.5 * a) - b)) + b = 0 ∧
    (-0.5 * a - Real.sqrt (-0.5 * a * (-0.5 * a) - b)) ^ 2
        + a * (-0.5 * a - Real.sqrt (-0.5 * a * (-0.5 * a) - b)) + b = 0 ∧
    ∀ y : ℝ, y ^ 2 + a * y + b = 0 →
      y = -0.5 * a + Real.sqrt (-0.5 * a * (-0.5 * a) - b) ∨
      y = -0.5 * a - Real.sqrt (-0.5 * a * (-0.5 * a) - b) := by
  have e : -0.5 * a * (-0.5 * a) - b = a ^ 2 / 4 - b := by norm_num; ring
  rw [e]
  have hk : Real.sqrt (a ^ 2 / 4 - b) * Real.sqrt (a ^ 2 / 4 - b) = a ^ 2 / 4 - b :=
    Real.mul_self_sqrt h
  have e5 : (-0.5 : ℝ) = -(1 / 2) := by norm_num
  rw [e5]
  refine ⟨by linear_combination hk, by linear_combination hk, fun y hy => ?_⟩
  have hf : (y - (-(1 / 2) * a + Real.sqrt (a ^ 2 / 4 - b)))
      * (y - (-(1 / 2) * a - Real.sqrt (a ^ 2 / 4 - b))) = 0 := by
    linear_combination hy - hk
  rcases mul_eq_zero.mp hf with h1 | h1
  · exact Or.inl (sub_eq_zero.mp h1)
  · exact Or.inr (sub_eq_zero.mp h1)

/-- The value of `solve_quadratic_reduced` (revision 0.3.1) is a root, and it is in the
interval when a root is. -/
theorem V031.solve_quadratic_reduced_spec (a b x1 x2 : ℝ) (h : 0 ≤ a ^ 2 / 4 - b) :
    V031.solve_quadratic_reduced Libm.real a b x1 x2 ^ 2
        + a * V031.solve_quadratic_reduced Libm.real a b x1 x2 + b = 0 ∧
    ((∃ y : ℝ, y ^ 2 + a * y + b = 0 ∧ x1 ≤ y ∧ y ≤ x2) →
      x1 ≤ V031.solve_quadratic_reduced Libm.real a b x1 x2 ∧
      V031.solve_quadratic_reduced Libm.real a b x1 x2 ≤ x2) := by
  obtain ⟨r1, r2, hall⟩ := quadratic_roots a b h
  simp only [V031.solve_quadratic_reduced, Libm.real]
  split_ifs with hc
  · refine ⟨r2, fun ⟨y, hy, h1, h2⟩ => ?_⟩
    rcases hall y hy with e | e
    · rw [← e] at hc
      rcases hc with hc | hc
      · exact absurd h1 (not_le.mpr hc)
      · exact absurd h2 (not_le.mpr hc)
    · rw [← e]; exact ⟨h1, h2⟩
  · exact ⟨r1, fun _ => ⟨not_lt.mp (fun h' => hc (Or.inl h')), not_lt.mp (fun h' => hc (Or.inr h'))⟩⟩

/-- The two revisions of `solve_quadratic_reduced` return the same value. -/
theorem solve_quadratic_reduced_revisions (a b x1 x2 : ℝ) :
    V010.solve_quadratic_reduced Libm.real a b x1 x2
      = V031.solve_quadratic_reduced Libm.real a b x1 x2 := by
  simp only [V010.solve_quadratic_reduced, V031.solve_quadratic_reduced, ge_iff_le, gt_iff_lt]
  by_cases hc : x1 ≤ -0.5 * a + Libm.real.sqrtl (-0.5 * a * (-0.5 * a) - b) ∧
      -0.5 * a + Libm.real.sqrtl (-0.5 * a * (-0.5 * a) - b) ≤ x2
  · rw [if_pos hc, if_neg]
    rintro (h' | h')
    · exact absurd hc.1 (not_le.mpr h')
    · exact absurd hc.2 (not_le.mpr h')
  · rw [if_neg hc, if_pos]
    by_contra hn
    exact hc ⟨not_lt.mp (fun h' => hn (Or.inl h')), not_lt.mp (fun h' => hn (Or.inr h'))⟩

end quadratic

/-- C18: for all real `a`, `b`, `x1`, `x2` with `a^2/4 - b >= 0`, the value `x` of
`solve_quadratic_reduced (a, b, x1, x2)` (revision 0.3.1 and revision 0.1.0, which return the
same value) satisfies `x^2 + a*x + b = 0` exactly, and `x` lies in `[x1, x2]` whenever a real
root of the equation lies in `[x1, x2]`. -/
theorem solve_quadratic_reduced_root (a b x1 x2 : ℝ) (h : 0 ≤ a ^ 2 / 4 - b) :
    (V031.solve_quadratic_reduced Libm.real a b x1 x2 ^ 2
        + a * V031.solve_quadratic_reduced Libm.real a b x1 x2 + b = 0 ∧
      ((∃ y : ℝ, y ^ 2 + a * y + b = 0 ∧ x1 ≤ y ∧ y ≤ x2) →
        x1 ≤ V031.solve_quadratic_reduced Libm.real a b x1 x2 ∧
        V031.solve_quadratic_reduced Libm.real a b x1 x2 ≤ x2)) ∧
    (V010.solve_quadratic_reduced Libm.real a b x1 x2 ^ 2
        + a * V010.solve_quadratic_reduced Libm.real a b x1 x2 + b = 0 ∧
      ((∃ y : ℝ, y ^ 2 + a * y + b = 0 ∧ x1 ≤ y ∧ y ≤ x2) →
        x1 ≤ V010.solve_quadratic_reduced Libm.real a b x1 x2 ∧
        V010.solve_quadratic_reduced Libm.real a b x1 x2 ≤ x2)) := by
  rw [solve_quadratic_reduced_revisions]
  exact ⟨V031.solve_quadratic_reduced_spec a b x1 x2 h,
    V031.solve_quadratic_reduced_spec a b x1 x2 h⟩

/-- C18 on `x^2 - 3 x + 2 = 0` in `[0, 3/2]`: the root 2 is outside, the root 1 is returned. -/
theorem solve_quadratic_reduced_root_witness :
    (0 : ℝ) ≤ (-3) ^ 2 / 4 - 2 ∧
    V031.solve_quadratic_reduced Libm.real (-3) 2 0 (3 / 2) ^ 2
        + -3 * V031.solve_quadratic_reduced Libm.real (-3) 2 0 (3 / 2) + 2 = 0 :=
  ⟨by norm_num, (solve_quadratic_reduced_root (-3) 2 0 (3 / 2) (by norm_num)).1.1⟩

/-! ## C13, C14: the end by the final time and the first order landing -/

/-- C13: `equation_land_0` returns 1 if and only if `t_old >= tf`, whatever the registers are,
and it never changes the globals; otherwise it returns 0, leaves `t = min (t_old + dt, tf)` and
`dt = t - t_old`, so that the new time does not exceed `tf` and is `tf` when the step
reaches it. -/
theorem equation_land_0_spec {K : Type} [LinearOrderedField K] {σ : Type} (eq : Equation K)
    (t_old t dt : K) (g : Globals K σ) :
    ((V110.equation_land_0 eq t_old t dt g).ret = 1 ↔ t_old ≥ eq.tf) ∧
    ((V110.equation_land_0 eq t_old t dt g).ret = 1 ∨
      (V110.equation_land_0 eq t_old t dt g).ret = 0) ∧
    (V110.equation_land_0 eq t_old t dt g).g = g ∧
    (¬ t_old ≥ eq.tf →
      (V110.equation_land_0 eq t_old t dt g).ret = 0 ∧
      (V110.equation_land_0 eq t_old t dt g).t = min (t_old + dt) eq.tf ∧
      (V110.equation_land_0 eq t_old t dt g).dt = (V110.equation_land_0 eq t_old t dt g).t - t_old ∧
      (V110.equation_land_0 eq t_old t dt g).t ≤ eq.tf ∧
      (t_old + dt ≥ eq.tf → (V110.equation_land_0 eq t_old t dt g).t = eq.tf)) := by
  simp only [V110.equation_land_0]
  by_cases h1 : t_old ≥ eq.tf
  · simp [h1]
  · by_cases h2 : t_old + dt ≥ eq.tf
    · simp [h1, h2]
    · have h3 : t_old + dt ≤ eq.tf := (not_le.mp h2).le
      simp [h1, h2, h3]

/-- C14: with the first order landing, when the current `z <= 0` and `v_z != 0`,
`equation_land_1` returns 1 with the back-step `h = z / v_z`: it leaves `r - h v` and
`v - h a` in the registers, `t = t_old - h`, and the new `z` is 0; when `z > 0` it returns 0,
leaves `t = t_old + dt` and changes neither the globals nor `dt`. -/
theorem equation_land_1_spec {K : Type} [LinearOrderedField K] {σ : Type} (eq : Equation K)
    (t_old t dt : K) (g : Globals K σ) :
    (g.r0.z ≤ 0 → g.r1.z ≠ 0 →
      (V110.equation_land_1 eq t_old t dt g).ret = 1 ∧
      (V110.equation_land_1 eq t_old t dt g).t = t_old - g.r0.z / g.r1.z ∧
      (V110.equation_land_1 eq t_old t dt g).g.r0
        = ⟨g.r0.x - g.r0.z / g.r1.z * g.r1.x, g.r0.y - g.r0.z / g.r1.z * g.r1.y,
            g.r0.z - g.r0.z / g.r1.z * g.r1.z⟩ ∧
      (V110.equation_land_1 eq t_old t dt g).g.r1
        = ⟨g.r1.x - g.r0.z / g.r1.z * g.r2.x, g.r1.y - g.r0.z / g.r1.z * g.r2.y,
            g.r1.z - g.r0.z / g.r1.z * g.r2.z⟩ ∧
      (V110.equation_land_1 eq t_old t dt g).g.r2 = g.r2 ∧
      (V110.equation_land_1 eq t_old t dt g).g.r0.z = 0) ∧
    (g.r0.z > 0 →
      (V110.equation_land_1 eq t_old t dt g).ret = 0 ∧
      (V110.equation_land_1 eq t_old t dt g).t = t_old + dt ∧
      (V110.equation_land_1 eq t_old t dt g).g = g ∧
      (V110.equation_land_1 eq t_old t dt g).dt = dt) := by
  refine ⟨fun hz hv => ?_, fun hz => ?_⟩
  · have hn : ¬ g.r0.z > 0 := not_lt.mpr hz
    simp [V110.equation_land_1, hn, div_mul_cancel₀ _ hv]
  · simp [V110.equation_land_1, hz]

/-- C14 on a state below the ground: `z = -1/2`, `v = (30, 0, -25)`. -/
theorem equation_land_1_spec_witness :
    (V110.equation_land_1 (sample_equation (0 : ℚ) 30 30 9.81 0 1) 1 1 (1 / 10)
      { (sample_globals : Globals ℚ Nat) with r0 := ⟨3, 0, -1 / 2⟩, r1 := ⟨30, 0, -25⟩ }).g.r0.z
      = 0 :=
  ((equation_land_1_spec (sample_equation (0 : ℚ) 30 30 9.81 0 1) 1 1 (1 / 10)
    { (sample_globals : Globals ℚ Nat) with r0 := ⟨3, 0, -1 / 2⟩, r1 := ⟨30, 0, -25⟩ }).1
    (by norm_num) (by norm_num)).2.2.2.2.2

/-! ## The solver of the second order equation -/

/-- The value of `solve_quadratic` with a non-zero leading coefficient and a real root is a
root of `a x^2 + b x + c`, and it is in the interval when a root is. -/
theorem V031.solve_quadratic_spec (a b c x1 x2 : ℝ) (ha : a ≠ 0) (hd : 0 ≤ b ^ 2 - 4 * a * c) :
    a * V031.solve_quadratic Libm.real a b c x1 x2 ^ 2
        + b * V031.solve_quadratic Libm.real a b c x1 x2 + c = 0 ∧
    ((∃ y : ℝ, a * y ^ 2 + b * y + c = 0 ∧ x1 ≤ y ∧ y ≤ x2) →
      x1 ≤ V031.solve_quadratic Libm.real a b c x1 x2 ∧
      V031.solve_quadratic Libm.real a b c x1 x2 ≤ x2) := by
  have hd' : 0 ≤ (b / a) ^ 2 / 4 - c / a := by
    have : (b / a) ^ 2 / 4 - c / a = (b ^ 2 - 4 * a * c) / (4 * a ^ 2) := by
      field_simp
      ring
    rw [this]
    positivity
  obtain ⟨hr, hi⟩ := V031.solve_quadratic_reduced_spec (b / a) (c / a) x1 x2 hd'
  simp only [V031.solve_quadratic, ha, if_false]
  refine ⟨?_, fun ⟨y, hy, h1, h2⟩ => hi ⟨y, ?_, h1, h2⟩⟩
  · have := congrArg (fun u => a * u) hr
    simp only [mul_zero] at this
    rw [← this]
    field_simp
    ring
  · have : y ^ 2 + b / a * y + c / a = (a * y ^ 2 + b * y + c) / a := by
      field_simp
      ring
    rw [this, hy, zero_div]

/-! ## C19: the reduced cubic -/

section cubic

/-- The real cube root `cbrtl`: its cube is its argument. -/
theorem cbrtl_cube (x : ℝ) : Libm.real.cbrtl x ^ 3 = x := by
  have h3 : ((1 : ℝ) / 3) = ((3 : ℕ) : ℝ)⁻¹ := by norm_num
  simp only [Libm.real]
  split_ifs with h
  · rw [h3]
    exact Real.rpow_inv_natCast_pow h (by norm_num)
  · have hx : 0 ≤ -x := by linarith
    have e : ((-x) ^ ((1 : ℝ) / 3)) ^ 3 = -x := by
      rw [h3]
      exact Real.rpow_inv_natCast_pow hx (by norm_num)
    have : (-((-x) ^ ((1 : ℝ) / 3))) ^ 3 = -(((-x) ^ ((1 : ℝ) / 3)) ^ 3) := by ring
    rw [this, e, neg_neg]

/-- The cube is injective on the reals. -/
theorem cube_injective {u v : ℝ} (h : u ^ 3 = v ^ 3) : u = v := by
  have hs : StrictMono (fun a : ℝ => a ^ 3) := Odd.strictMono_pow (by decide)
  exact hs.injective h

/-- The trigonometric branch: with `k1^3 + k0^2 < 0`, the arguments of `sqrtl` and `acosl` are
in their domains. -/
theorem trig_domain (k0 k1 : ℝ) (h : k1 * k1 * k1 + k0 * k0 < 0) :
    0 < -k1 ∧ 0 < Real.sqrt (-k1) ∧
    -1 ≤ k0 / (Real.sqrt (-k1) * Real.sqrt (-k1) * Real.sqrt (-k1)) ∧
    k0 / (Real.sqrt (-k1) * Real.sqrt (-k1) * Real.sqrt (-k1)) ≤ 1 := by
  have hk1 : 0 < -k1 := by
    by_contra hn
    have h0 : 0 ≤ k1 := by linarith
    have : 0 ≤ k1 * k1 * k1 := mul_nonneg (mul_nonneg h0 h0) h0
    nlinarith [mul_self_nonneg k0]
  have hm : 0 < Real.sqrt (-k1) := Real.sqrt_pos.mpr hk1
  have hmm : Real.sqrt (-k1) * Real.sqrt (-k1) = -k1 := Real.mul_self_sqrt hk1.le
  have hm3 : 0 < Real.sqrt (-k1) * Real.sqrt (-k1) * Real.sqrt (-k1) := by positivity
  have hsq : k0 ^ 2 ≤ (Real.sqrt (-k1) * Real.sqrt (-k1) * Real.sqrt (-k1)) ^ 2 := by
    have : (Real.sqrt (-k1) * Real.sqrt (-k1) * Real.sqrt (-k1)) ^ 2 = -(k1 * k1 * k1) := by
      rw [hmm]
      have : (-k1 * Real.sqrt (-k1)) ^ 2 = k1 ^ 2 * (Real.sqrt (-k1) * Real.sqrt (-k1)) := by ring
      rw [this, hmm]
      ring
    rw [this]
    nlinarith
  have habs := abs_le_of_sq_le_sq' hsq hm3.le
  refine ⟨hk1, hm, ?_, ?_⟩
  · rw [le_div_iff₀ hm3]
    linarith [habs.1]
  · rw [div_le_iff₀ hm3]
    linarith [habs.2]

/-- A candidate of the trigonometric branch is a root: `2 m cos phi - a/3` with
`m = sqrt (-k1)` and `cos (3 phi) = k0 / m^3`. -/
theorem trig_root (a b c m phi : ℝ) (hm : m * m = -(b / 3 - a / 3 * (a / 3))) (hm0 : m ≠ 0)
    (hphi : Real.cos (3 * phi) = ((b * (a / 3) - c) / 2 - a / 3 * (a / 3 * (a / 3))) / (m * m * m)) :
    (m * 2 * Real.cos phi - a / 3) ^ 3 + a * (m * 2 * Real.cos phi - a / 3) ^ 2
      + b * (m * 2 * Real.cos phi - a / 3) + c = 0 := by
  have h3 := Real.cos_three_mul phi
  rw [hphi] at h3
  have harg : ((b * (a / 3) - c) / 2 - a / 3 * (a / 3 * (a / 3)))
      = (4 * Real.cos phi ^ 3 - 3 * Real.cos phi) * (m * m * m) := by
    rw [← h3, div_mul_cancel₀ _ (mul_ne_zero (mul_ne_zero hm0 hm0) hm0)]
  linear_combination (6 * m * Real.cos phi) * hm - 2 * harg

/-- The shifts by a third of a turn do not change the cosine of the triple angle. -/
theorem cos_three_mul_shift (x : ℝ) :
    Real.cos (3 * (x + 2 * Real.pi / 3)) = Real.cos (3 * x) ∧
    Real.cos (3 * (x - 2 * Real.pi / 3)) = Real.cos (3 * x) := by
  have e1 : 3 * (x + 2 * Real.pi / 3) = 3 * x + 2 * Real.pi := by ring
  have e2 : 3 * (x - 2 * Real.pi / 3) = 3 * x - 2 * Real.pi := by ring
  rw [e1, e2, Real.cos_add_two_pi, Real.cos_sub_two_pi]
  exact ⟨rfl, rfl⟩

/-- The sum of the two cube roots of the Cardano branch is a root. -/
theorem cardano_root (a b c s u v : ℝ)
    (hs : s * s = (b / 3 - a / 3 * (a / 3)) * (b / 3 - a / 3 * (a / 3)) * (b / 3 - a / 3 * (a / 3))
      + ((b * (a / 3) - c) / 2 - a / 3 * (a / 3 * (a / 3)))
        * ((b * (a / 3) - c) / 2 - a / 3 * (a / 3 * (a / 3))))
    (hu : u ^ 3 = (b * (a / 3) - c) / 2 - a / 3 * (a / 3 * (a / 3)) + s)
    (hv : v ^ 3 = (b * (a / 3) - c) / 2 - a / 3 * (a / 3 * (a / 3)) - s) :
    u * v = -(b / 3 - a / 3 * (a / 3)) ∧
    (u + v - a / 3) ^ 3 + a * (u + v - a / 3) ^ 2 + b * (u + v - a / 3) + c = 0 := by
  have huv : u * v = -(b / 3 - a / 3 * (a / 3)) := by
    apply cube_injective
    have : (u * v) ^ 3 = u ^ 3 * v ^ 3 := by ring
    rw [this, hu, hv]
    linear_combination -hs
  refine ⟨huv, ?_⟩
  linear_combination hu + hv + 3 * (u + v) * huv

/-- The candidates of the trigonometric branch of `solve_cubic_reduced`: each is a root. -/
theorem trig_candidates (a b c : ℝ) (hD : V031.cubic_discriminant a b c < 0) :
    (∀ phi : ℝ,
      Real.cos (3 * phi) = ((b * (a / 3) - c) / 2 - a / 3 * (a / 3 * (a / 3)))
        / (Real.sqrt (-(b / 3 - a / 3 * (a / 3))) * Real.sqrt (-(b / 3 - a / 3 * (a / 3)))
          * Real.sqrt (-(b / 3 - a / 3 * (a / 3)))) →
      (Real.sqrt (-(b / 3 - a / 3 * (a / 3))) * 2 * Real.cos phi - a / 3) ^ 3
        + a * (Real.sqrt (-(b / 3 - a / 3 * (a / 3))) * 2 * Real.cos phi - a / 3) ^ 2
        + b * (Real.sqrt (-(b / 3 - a / 3 * (a / 3))) * 2 * Real.cos phi - a / 3) + c = 0) ∧
    Real.cos (3 * (Real.arccos (((b * (a / 3) - c) / 2 - a / 3 * (a / 3 * (a / 3)))
        / (Real.sqrt (-(b / 3 - a / 3 * (a / 3))) * Real.sqrt (-(b / 3 - a / 3 * (a / 3)))
          * Real.sqrt (-(b / 3 - a / 3 * (a / 3))))) / 3))
      = ((b * (a / 3) - c) / 2 - a / 3 * (a / 3 * (a / 3)))
        / (Real.sqrt (-(b / 3 - a / 3 * (a / 3))) * Real.sqrt (-(b / 3 - a / 3 * (a / 3)))
          * Real.sqrt (-(b / 3 - a / 3 * (a / 3)))) := by
  simp only [V031.cubic_discriminant] at hD
  obtain ⟨hk1, hm, hlo, hhi⟩ := trig_domain _ _ hD
  refine ⟨fun phi hphi => trig_root a b c _ phi (Real.mul_self_sqrt hk1.le) hm.ne' hphi, ?_⟩
  rw [mul_div_cancel₀ _ (by norm_num : (3 : ℝ) ≠ 0)]
  exact Real.cos_arccos hlo hhi

end cubic

/-- The value of `solve_cubic_reduced` is a root of the reduced cubic, on both branches. -/
theorem V031.solve_cubic_reduced_is_root (a b c x1 x2 : ℝ) :
    V031.solve_cubic_reduced Libm.real a b c x1 x2 ^ 3
        + a * V031.solve_cubic_reduced Libm.real a b c x1 x2 ^ 2
        + b * V031.solve_cubic_reduced Libm.real a b c x1 x2 + c = 0 := by
  by_cases hD : V031.cubic_discriminant a b c < 0
  · obtain ⟨hroot, hcos⟩ := trig_candidates a b c hD
    have hD' := hD
    simp only [V031.cubic_discriminant] at hD'
    simp only [V031.solve_cubic_reduced, Libm.real, hD', if_true]
    split_ifs
    · exact hroot _ ((cos_three_mul_shift _).2.trans hcos)
    · exact hroot _ ((cos_three_mul_shift _).1.trans hcos)
    · exact hroot _ hcos
  · have hD' := hD
    simp only [V031.cubic_discriminant] at hD'
    simp only [V031.solve_cubic_reduced, Libm.real, hD', if_false]
    exact (cardano_root a b c _ _ _ (Real.mul_self_sqrt (not_lt.mp hD')) (cbrtl_cube _)
      (cbrtl_cube _)).2

/-- C19: for all real `a`, `b`, `c`, `x1`, `x2`, the value `x` of
`solve_cubic_reduced (a, b, c, x1, x2)` is a real root of `x^3 + a x^2 + b x + c = 0`, on the
trigonometric branch (discriminant `< 0`) and on the Cardano branch (discriminant `>= 0`); on
the trigonometric branch the argument of `sqrtl` is positive and the argument of `acosl` is in
`[-1, 1]`. -/
theorem solve_cubic_reduced_root (a b c x1 x2 : ℝ) :
    V031.solve_cubic_reduced Libm.real a b c x1 x2 ^ 3
        + a * V031.solve_cubic_reduced Libm.real a b c x1 x2 ^ 2
        + b * V031.solve_cubic_reduced Libm.real a b c x1 x2 + c = 0 ∧
    (V031.cubic_discriminant a b c < 0 →
      0 < -(b / 3 - a / 3 * (a / 3)) ∧
      -1 ≤ ((b * (a / 3) - c) / 2 - a / 3 * (a / 3 * (a / 3)))
        / (Real.sqrt (-(b / 3 - a / 3 * (a / 3))) * Real.sqrt (-(b / 3 - a / 3 * (a / 3)))
          * Real.sqrt (-(b / 3 - a / 3 * (a / 3)))) ∧
      ((b * (a / 3) - c) / 2 - a / 3 * (a / 3 * (a / 3)))
        / (Real.sqrt (-(b / 3 - a / 3 * (a / 3))) * Real.sqrt (-(b / 3 - a / 3 * (a / 3)))
          * Real.sqrt (-(b / 3 - a / 3 * (a / 3)))) ≤ 1) := by
  refine ⟨V031.solve_cubic_reduced_is_root a b c x1 x2, fun hD => ?_⟩
  simp only [V031.cubic_discriminant] at hD
  obtain ⟨hk1, -, hlo, hhi⟩ := trig_domain _ _ hD
  exact ⟨hk1, hlo, hhi⟩

section cubic_interval

theorem cos_two_pi_div_three : Real.cos (2 * Real.pi / 3) = -(1 / 2) ∧
    Real.sin (2 * Real.pi / 3) = Real.sqrt 3 / 2 := by
  have e : 2 * Real.pi / 3 = Real.pi - Real.pi / 3 := by ring
  rw [e, Real.cos_pi_sub, Real.sin_pi_sub, Real.cos_pi_div_three, Real.sin_pi_div_three]
  exact ⟨rfl, rfl⟩

/-- The three candidates of the trigonometric branch are all the roots: the depressed cubic
is the product of the three factors. -/
theorem trig_factor (p q m x y : ℝ) (hm : m * m = -p)
    (hq : (4 * Real.cos x ^ 3 - 3 * Real.cos x) * (m * m * m) = q) :
    (y - m * 2 * Real.cos x) * (y - m * 2 * Real.cos (x + 2 * Real.pi / 3))
        * (y - m * 2 * Real.cos (x - 2 * Real.pi / 3))
      = y ^ 3 + 3 * p * y - 2 * q := by
  obtain ⟨hc, hs⟩ := cos_two_pi_div_three
  rw [Real.cos_add, Real.cos_sub, hc, hs]
  have h3 : Real.sqrt 3 * Real.sqrt 3 = 3 := Real.mul_self_sqrt (by norm_num)
  have hsc := Real.sin_sq_add_cos_sq x
  generalize Real.cos x = c at *
  generalize Real.sin x = s at *
  generalize Real.sqrt 3 = r at *
  subst hq
  have hp : p = -(m * m) := by linarith
  subst hp
  linear_combination (2 * m ^ 3 * c * s ^ 2 - m ^ 2 * s ^ 2 * y) * h3
    + (6 * m ^ 3 * c - 3 * m ^ 2 * y) * hsc

/-- The shift of a cubic to its depressed form. -/
theorem cubic_depressed (a b c x : ℝ) :
    x ^ 3 + a * x ^ 2 + b * x + c
      = (x + a / 3) ^ 3 + 3 * (b / 3 - a / 3 * (a / 3)) * (x + a / 3)
        - 2 * ((b * (a / 3) - c) / 2 - a / 3 * (a / 3 * (a / 3))) := by
  ring

/-- On the trigonometric branch every real root of the reduced cubic is one of the three
candidates of `solve_cubic_reduced`. -/
theorem trig_all_roots (a b c : ℝ) (hD : V031.cubic_discriminant a b c < 0) (x : ℝ)
    (hx : x ^ 3 + a * x ^ 2 + b * x + c = 0) :
    x = Real.sqrt (-(b / 3 - a / 3 * (a / 3))) * 2
          * Real.cos (Real.arccos (((b * (a / 3) - c) / 2 - a / 3 * (a / 3 * (a / 3)))
            / (Real.sqrt (-(b / 3 - a / 3 * (a / 3))) * Real.sqrt (-(b / 3 - a / 3 * (a / 3)))
              * Real.sqrt (-(b / 3 - a / 3 * (a / 3))))) / 3) - a / 3 ∨
    x = Real.sqrt (-(b / 3 - a / 3 * (a / 3))) * 2
          * Real.cos (Real.arccos (((b * (a / 3) - c) / 2 - a / 3 * (a / 3 * (a / 3)))
            / (Real.sqrt (-(b / 3 - a / 3 * (a / 3))) * Real.sqrt (-(b / 3 - a / 3 * (a / 3)))
              * Real.sqrt (-(b / 3 - a / 3 * (a / 3))))) / 3 + 2 * Real.pi / 3) - a / 3 ∨
    x = Real.sqrt (-(b / 3 - a / 3 * (a / 3))) * 2
          * Real.cos (Real.arccos (((b * (a / 3) - c) / 2 - a / 3 * (a / 3 * (a / 3)))
            / (Real.sqrt (-(b / 3 - a / 3 * (a / 3))) * Real.sqrt (-(b / 3 - a / 3 * (a / 3)))
              * Real.sqrt (-(b / 3 - a / 3 * (a / 3))))) / 3 - 2 * Real.pi / 3) - a / 3 := by
  obtain ⟨-, hcos⟩ := trig_candidates a b c hD
  have hD' := hD
  simp only [V031.cubic_discriminant] at hD'
  obtain ⟨hk1, hm, -, -⟩ := trig_domain _ _ hD'
  have hm3 : Real.sqrt (-(b / 3 - a / 3 * (a / 3))) * Real.sqrt (-(b / 3 - a / 3 * (a / 3)))
      * Real.sqrt (-(b / 3 - a / 3 * (a / 3))) ≠ 0 := by positivity
  rw [Real.cos_three_mul] at hcos
  have hq := (eq_div_iff hm3).mp hcos
  have hf := trig_factor (b / 3 - a / 3 * (a / 3))
    ((b * (a / 3) - c) / 2 - a / 3 * (a / 3 * (a / 3)))
    (Real.sqrt (-(b / 3 - a / 3 * (a / 3)))) _ (x + a / 3)
    (Real.mul_self_sqrt hk1.le) hq
  rw [← cubic_depressed, hx] at hf
  rcases mul_eq_zero.mp hf with h12 | h3
  · rcases mul_eq_zero.mp h12 with h1 | h2
    · exact Or.inl (by linarith)
    · exact Or.inr (Or.inl (by linarith))
  · exact Or.inr (Or.inr (by linarith))

/-- On the Cardano branch with a positive discriminant the reduced cubic has one real root. -/
theorem cardano_unique (a b c : ℝ) (hD : 0 < V031.cubic_discriminant a b c) (x1 x2 x : ℝ)
    (hx : x ^ 3 + a * x ^ 2 + b * x + c = 0) :
    x = V031.solve_cubic_reduced Libm.real a b c x1 x2 := by
  have hD' := hD
  simp only [V031.cubic_discriminant] at hD'
  have hs0 := Real.sqrt_pos.mpr hD'
  have hs := Real.mul_self_sqrt hD'.le
  simp only [V031.solve_cubic_reduced, Libm.real, not_lt.mpr hD'.le, if_false]
  have hu := cbrtl_cube ((b * (a / 3) - c) / 2 - a / 3 * (a / 3 * (a / 3))
    + Real.sqrt ((b / 3 - a / 3 * (a / 3)) * (b / 3 - a / 3 * (a / 3)) * (b / 3 - a / 3 * (a / 3))
      + ((b * (a / 3) - c) / 2 - a / 3 * (a / 3 * (a / 3)))
        * ((b * (a / 3) - c) / 2 - a / 3 * (a / 3 * (a / 3)))))
  have hv := cbrtl_cube ((b * (a / 3) - c) / 2 - a / 3 * (a / 3 * (a / 3))
    - Real.sqrt ((b / 3 - a / 3 * (a / 3)) * (b / 3 - a / 3 * (a / 3)) * (b / 3 - a / 3 * (a / 3))
      + ((b * (a / 3) - c) / 2 - a / 3 * (a / 3 * (a / 3)))
        * ((b * (a / 3) - c) / 2 - a / 3 * (a / 3 * (a / 3)))))
  obtain ⟨huv, hroot⟩ := cardano_root a b c _ _ _ hs hu hv
  simp only [Libm.real] at hu hv huv hroot ⊢
  generalize (if 0 ≤ (b * (a / 3) - c) / 2 - a / 3 * (a / 3 * (a / 3))
      + Real.sqrt ((b / 3 - a / 3 * (a / 3)) * (b / 3 - a / 3 * (a / 3)) * (b / 3 - a / 3 * (a / 3))
        + ((b * (a / 3) - c) / 2 - a / 3 * (a / 3 * (a / 3)))
          * ((b * (a / 3) - c) / 2 - a / 3 * (a / 3 * (a / 3)))) then _ else _) = u at *
  generalize (if 0 ≤ (b * (a / 3) - c) / 2 - a / 3 * (a / 3 * (a / 3))
      - Real.sqrt ((b / 3 - a / 3 * (a / 3)) * (b / 3 - a / 3 * (a / 3)) * (b / 3 - a / 3 * (a / 3))
        + ((b * (a / 3) - c) / 2 - a / 3 * (a / 3 * (a / 3)))
          * ((b * (a / 3) - c) / 2 - a / 3 * (a / 3 * (a / 3)))) then _ else _) = v at *
  have hne : u ≠ v := by
    intro h
    rw [h, hv] at hu
    linarith
  have hpos : 0 < (u - v) ^ 2 := by
    have : u - v ≠ 0 := sub_ne_zero.mpr hne
    positivity
  have hfac : (x - (u + v - a / 3))
      * ((x + a / 3) ^ 2 + (x + a / 3) * (u + v) + (u + v) ^ 2
        + 3 * (b / 3 - a / 3 * (a / 3))) = 0 := by
    linear_combination hx - hroot
  rcases mul_eq_zero.mp hfac with h | h
  · linarith
  · exfalso
    have hT : (x + a / 3 + (u + v) / 2) ^ 2 + 3 / 4 * (u - v) ^ 2 = 0 := by
      linear_combination h - 3 * huv
    have := sq_nonneg (x + a / 3 + (u + v) / 2)
    linarith

end cubic_interval

section cubic_select

/-- When the discriminant is not zero and the reduced cubic has a root in `[x1, x2]`, the value
of `solve_cubic_reduced` is in `[x1, x2]`. -/
theorem V031.solve_cubic_reduced_interval (a b c x1 x2 : ℝ)
    (hD : V031.cubic_discriminant a b c ≠ 0)
    (h : ∃ x : ℝ, x ^ 3 + a * x ^ 2 + b * x + c = 0 ∧ x1 ≤ x ∧ x ≤ x2) :
    x1 ≤ V031.solve_cubic_reduced Libm.real a b c x1 x2 ∧
    V031.solve_cubic_reduced Libm.real a b c x1 x2 ≤ x2 := by
  obtain ⟨x, hx, h1, h2⟩ := h
  rcases lt_or_gt_of_ne hD with hneg | hpos
  · have hall := trig_all_roots a b c hneg x hx
    have hneg' := hneg
    simp only [V031.cubic_discriminant] at hneg'
    simp only [V031.solve_cubic_reduced, Libm.real, hneg', if_true]
    split_ifs with c1 c2
    · rcases hall with e | e | e
      · rw [← e] at c1
        rcases c1 with c1 | c1
        · exact absurd h1 (not_le.mpr c1)
        · exact absurd h2 (not_le.mpr c1)
      · rw [← e] at c2
        rcases c2 with c2 | c2
        · exact absurd h1 (not_le.mpr c2)
        · exact absurd h2 (not_le.mpr c2)
      · rw [← e]
        exact ⟨h1, h2⟩
    · exact ⟨not_lt.mp (fun h' => c2 (Or.inl h')), not_lt.mp (fun h' => c2 (Or.inr h'))⟩
    · exact ⟨not_lt.mp (fun h' => c1 (Or.inl h')), not_lt.mp (fun h' => c1 (Or.inr h'))⟩
  · rw [← cardano_unique a b c hpos x1 x2 x hx]
    exact ⟨h1, h2⟩

/-- The value of `solve_cubic` with a non-zero leading coefficient is a root of
`a x^3 + b x^2 + c x + d`; it is in the interval when a root is and the discriminant of the
reduced cubic is not zero. -/
theorem V031.solve_cubic_spec (a b c d x1 x2 : ℝ) (ha : a ≠ 0) :
    a * V031.solve_cubic Libm.real a b c d x1 x2 ^ 3
        + b * V031.solve_cubic Libm.real a b c d x1 x2 ^ 2
        + c * V031.solve_cubic Libm.real a b c d x1 x2 + d = 0 ∧
    (V031.cubic_discriminant (b / a) (c / a) (d / a) ≠ 0 →
      (∃ y : ℝ, a * y ^ 3 + b * y ^ 2 + c * y + d = 0 ∧ x1 ≤ y ∧ y ≤ x2) →
      x1 ≤ V031.solve_cubic Libm.real a b c d x1 x2 ∧
      V031.solve_cubic Libm.real a b c d x1 x2 ≤ x2) := by
  have hr := V031.solve_cubic_reduced_is_root (b / a) (c / a) (d / a) x1 x2
  simp only [V031.solve_cubic, ha, if_false]
  refine ⟨?_, fun hD ⟨y, hy, h1, h2⟩ =>
    V031.solve_cubic_reduced_interval _ _ _ x1 x2 hD ⟨y, ?_, h1, h2⟩⟩
  · have := congrArg (fun u => a * u) hr
    simp only [mul_zero] at this
    rw [← this]
    field_simp
    ring
  · have : y ^ 3 + b / a * y ^ 2 + c / a * y + d / a
        = (a * y ^ 3 + b * y ^ 2 + c * y + d) / a := by
      field_simp
      ring
    rw [this, hy, zero_div]

end cubic_select

/-! ## C20: the interval of the reduced cubic -/

/-- C20 at the failing input `x^3 - 3 x + 2 = 0` on `[0, 2]`: the discriminant is 0, the
Cardano branch returns the simple root `-2`, which is outside `[0, 2]`, although the double
root 1 is inside. -/
theorem solve_cubic_reduced_double_root :
    V031.cubic_discriminant (0 : ℝ) (-3) 2 = 0 ∧
    (1 : ℝ) ^ 3 + 0 * 1 ^ 2 + -3 * 1 + 2 = 0 ∧ (0 : ℝ) ≤ 1 ∧ (1 : ℝ) ≤ 2 ∧
    V031.solve_cubic_reduced Libm.real 0 (-3) 2 0 2 = -2 ∧
    ¬ ((0 : ℝ) ≤ V031.solve_cubic_reduced Libm.real 0 (-3) 2 0 2 ∧
      V031.solve_cubic_reduced Libm.real 0 (-3) 2 0 2 ≤ 2) := by
  have hv : V031.solve_cubic_reduced Libm.real 0 (-3) 2 0 2 = -2 := by
    simp only [V031.solve_cubic_reduced, Libm.real]
    norm_num
  refine ⟨by norm_num [V031.cubic_discriminant], by norm_num, by norm_num, by norm_num, hv, ?_⟩
  rw [hv]
  norm_num

/-! ## C15: the second order landing -/

/-- C15: with the second order landing, when the current `z <= 0`, `a_z != 0` and
`v_z^2 >= 2 a_z z`, `equation_land_2` returns 1 with a back-step `h = t_old - t` that is a root
of `(a_z / 2) h^2 - v_z h + z = 0`; it leaves `r - h (v - (h / 2) a)` and `v - h a` in the
registers, and the new `z` is 0. -/
theorem equation_land_2_spec {σ : Type} (eq : Equation ℝ) (t_old t dt : ℝ) (g : Globals ℝ σ)
    (hz : g.r0.z ≤ 0) (ha : g.r2.z ≠ 0) (hd : 2 * g.r2.z * g.r0.z ≤ g.r1.z ^ 2) :
    (V110.equation_land_2 Libm.real eq t_old t dt g).ret = 1 ∧
    g.r2.z / 2 * (t_old - (V110.equation_land_2 Libm.real eq t_old t dt g).t) ^ 2
      - g.r1.z * (t_old - (V110.equation_land_2 Libm.real eq t_old t dt g).t) + g.r0.z = 0 ∧
    (V110.equation_land_2 Libm.real eq t_old t dt g).g.r0
      = ⟨g.r0.x - (t_old - (V110.equation_land_2 Libm.real eq t_old t dt g).t)
            * (g.r1.x - (t_old - (V110.equation_land_2 Libm.real eq t_old t dt g).t) / 2
              * g.r2.x),
          g.r0.y - (t_old - (V110.equation_land_2 Libm.real eq t_old t dt g).t)
            * (g.r1.y - (t_old - (V110.equation_land_2 Libm.real eq t_old t dt g).t) / 2
              * g.r2.y),
          g.r0.z - (t_old - (V110.equation_land_2 Libm.real eq t_old t dt g).t)
            * (g.r1.z - (t_old - (V110.equation_land_2 Libm.real eq t_old t dt g).t) / 2
              * g.r2.z)⟩ ∧
    (V110.equation_land_2 Libm.real eq t_old t dt g).g.r1
      = ⟨g.r1.x - (t_old - (V110.equation_land_2 Libm.real eq t_old t dt g).t) * g.r2.x,
          g.r1.y - (t_old - (V110.equation_land_2 Libm.real eq t_old t dt g).t) * g.r2.y,
          g.r1.z - (t_old - (V110.equation_land_2 Libm.real eq t_old t dt g).t) * g.r2.z⟩ ∧
    (V110.equation_land_2 Libm.real eq t_old t dt g).g.r2 = g.r2 ∧
    (V110.equation_land_2 Libm.real eq t_old t dt g).g.r0.z = 0 := by
  have hn : ¬ g.r0.z > 0 := not_lt.mpr hz
  have ha' : (0.5 : ℝ) * g.r2.z ≠ 0 := mul_ne_zero (by norm_num) ha
  have hd' : 0 ≤ (-g.r1.z) ^ 2 - 4 * (0.5 * g.r2.z) * g.r0.z := by
    have : (-g.r1.z) ^ 2 - 4 * (0.5 * g.r2.z) * g.r0.z
        = g.r1.z ^ 2 - 2 * g.r2.z * g.r0.z := by ring
    rw [this]
    linarith
  have hr := (V031.solve_quadratic_spec (0.5 * g.r2.z) (-g.r1.z) g.r0.z 0 dt ha' hd').1
  simp only [V110.equation_land_2, hn, if_false, sub_sub_cancel]
  generalize V031.solve_quadratic Libm.real (0.5 * g.r2.z) (-g.r1.z) g.r0.z 0 dt = h at hr
  split_ands <;>
    first
    | trivial
    | linear_combination hr
    | (simp only [Vec3.mk.injEq]; split_ands <;> ring)

/-- C15 on a state below the ground: `z = -3/4`, `v_z = -2`, `a_z = -2`; the back-step is a
root of `-h^2 + 2 h - 3/4`. -/
theorem equation_land_2_spec_witness :
    (V110.equation_land_2 Libm.real (sample_equation (0 : ℝ) 30 30 9.81 0 2) 1 1 1
      { (sample_globals : Globals ℝ Nat) with
        r0 := ⟨3, 0, -3 / 4⟩, r1 := ⟨30, 0, -2⟩, r2 := ⟨0, 0, -2⟩ }).g.r0.z = 0 :=
  (equation_land_2_spec (sample_equation (0 : ℝ) 30 30 9.81 0 2) 1 1 1
    { (sample_globals : Globals ℝ Nat) with
      r0 := ⟨3, 0, -3 / 4⟩, r1 := ⟨30, 0, -2⟩, r2 := ⟨0, 0, -2⟩ }
    (by norm_num) (by norm_num) (by norm_num)).2.2.2.2.2

/-! ## C16: the third order landing -/

/-- C16: with the third order landing, when the current `z <= 0`, `dt != 0` and the jerk
`j = (a - a_prev) / dt` has `j_z != 0`, `equation_land_3` returns 1 with a back-step
`h = t_old - t` that is a real root of `-(j_z / 6) h^3 + (a_z / 2) h^2 - v_z h + z = 0`; the
new `z` is `z - h (v_z - h (a_z / 2 - h j_z / 6)) = 0` and the new velocity is
`v - h (a - (h / 2) j)`. In the field model `j_z != 0` already gives `dt != 0`. -/
theorem equation_land_3_spec {σ : Type} (eq : Equation ℝ) (t_old t dt : ℝ) (g : Globals ℝ σ)
    (hz : g.r0.z ≤ 0) (_hdt : dt ≠ 0) (hj : (g.r2.z - g.ro2.z) / dt ≠ 0) :
    (V110.equation_land_3 Libm.real eq t_old t dt g).ret = 1 ∧
    -((g.r2.z - g.ro2.z) / dt / 6)
        * (t_old - (V110.equation_land_3 Libm.real eq t_old t dt g).t) ^ 3
      + g.r2.z / 2 * (t_old - (V110.equation_land_3 Libm.real eq t_old t dt g).t) ^ 2
      - g.r1.z * (t_old - (V110.equation_land_3 Libm.real eq t_old t dt g).t) + g.r0.z = 0 ∧
    (V110.equation_land_3 Libm.real eq t_old t dt g).g.r0.z
      = g.r0.z - (t_old - (V110.equation_land_3 Libm.real eq t_old t dt g).t)
          * (g.r1.z - (t_old - (V110.equation_land_3 Libm.real eq t_old t dt g).t)
            * (g.r2.z / 2 - (t_old - (V110.equation_land_3 Libm.real eq t_old t dt g).t)
              * ((g.r2.z - g.ro2.z) / dt) / 6)) ∧
    (V110.equation_land_3 Libm.real eq t_old t dt g).g.r0.z = 0 ∧
    (V110.equation_land_3 Libm.real eq t_old t dt g).g.r1
      = ⟨g.r1.x - (t_old - (V110.equation_land_3 Libm.real eq t_old t dt g).t)
            * (g.r2.x - (t_old - (V110.equation_land_3 Libm.real eq t_old t dt g).t) / 2
              * ((g.r2.x - g.ro2.x) / dt)),
          g.r1.y - (t_old - (V110.equation_land_3 Libm.real eq t_old t dt g).t)
            * (g.r2.y - (t_old - (V110.equation_land_3 Libm.real eq t_old t dt g).t) / 2
              * ((g.r2.y - g.ro2.y) / dt)),
          g.r1.z - (t_old - (V110.equation_land_3 Libm.real eq t_old t dt g).t)
            * (g.r2.z - (t_old - (V110.equation_land_3 Libm.real eq t_old t dt g).t) / 2
              * ((g.r2.z - g.ro2.z) / dt))⟩ := by
  have hn : ¬ g.r0.z > 0 := not_lt.mpr hz
  have ha' : -1 / 6 * ((g.r2.z - g.ro2.z) / dt) ≠ 0 := mul_ne_zero (by norm_num) hj
  have hr := (V031.solve_cubic_spec (-1 / 6 * ((g.r2.z - g.ro2.z) / dt)) (0.5 * g.r2.z)
    (-g.r1.z) g.r0.z 0 dt ha').1
  simp only [V110.equation_land_3, hn, if_false, sub_sub_cancel]
  generalize V031.solve_cubic Libm.real (-1 / 6 * ((g.r2.z - g.ro2.z) / dt)) (0.5 * g.r2.z)
    (-g.r1.z) g.r0.z 0 dt = h at hr
  generalize (g.r2.z - g.ro2.z) / dt = j at hr
  split_ands <;>
    first
    | trivial
    | linear_combination hr
    | (simp only [Vec3.mk.injEq]; split_ands <;> ring)
    | ring

/-- C16 on a state below the ground: `z = -7/8`, `v_z = -2`, `a_z = -2`, `a_prev_z = 4`,
`dt = 1`, so `j_z = -6` and the back-step is a root of `h^3 - h^2 + 2 h - 7/8`. -/
theorem equation_land_3_spec_witness :
    (V110.equation_land_3 Libm.real (sample_equation (0 : ℝ) 30 30 9.81 0 3) 1 1 1
      { (sample_globals : Globals ℝ Nat) with
        r0 := ⟨3, 0, -7 / 8⟩, r1 := ⟨30, 0, -2⟩, r2 := ⟨0, 0, -2⟩,
        ro2 := ⟨0, 0, 4⟩ }).g.r0.z = 0 :=
  (equation_land_3_spec (sample_equation (0 : ℝ) 30 30 9.81 0 3) 1 1 1
    { (sample_globals : Globals ℝ Nat) with
      r0 := ⟨3, 0, -7 / 8⟩, r1 := ⟨30, 0, -2⟩, r2 := ⟨0, 0, -2⟩, ro2 := ⟨0, 0, 4⟩ }
    (by norm_num) (by norm_num) (by norm_num)).2.2.2.1

/-! ## C17: the back-step and the last step -/

/-- C17 fails for the first order landing on the state `z = -1`, `v_z = -1` with the step
`dt = 1/2`: the call reports the landing with the back-step `h = z / v_z = 1`, which is not in
`[0, dt]`. -/
theorem equation_land_back_step_counterexample :
    (0 : ℚ) < 1 / 2 ∧
    ({ (sample_globals : Globals ℚ Nat) with
        r0 := ⟨3, 0, -1⟩, r1 := ⟨30, 0, -1⟩ } : Globals ℚ Nat).r0.z ≤ 0 ∧
    (V110.equation_land_1 (sample_equation (0 : ℚ) 30 30 9.81 0 1) 1 1 (1 / 2)
      { (sample_globals : Globals ℚ Nat) with r0 := ⟨3, 0, -1⟩, r1 := ⟨30, 0, -1⟩ }).ret = 1 ∧
    1 - (V110.equation_land_1 (sample_equation (0 : ℚ) 30 30 9.81 0 1) 1 1 (1 / 2)
      { (sample_globals : Globals ℚ Nat) with r0 := ⟨3, 0, -1⟩, r1 := ⟨30, 0, -1⟩ }).t = 1 ∧
    ¬ (0 ≤ 1 - (V110.equation_land_1 (sample_equation (0 : ℚ) 30 30 9.81 0 1) 1 1 (1 / 2)
        { (sample_globals : Globals ℚ Nat) with r0 := ⟨3, 0, -1⟩, r1 := ⟨30, 0, -1⟩ }).t ∧
      1 - (V110.equation_land_1 (sample_equation (0 : ℚ) 30 30 9.81 0 1) 1 1 (1 / 2)
        { (sample_globals : Globals ℚ Nat) with r0 := ⟨3, 0, -1⟩, r1 := ⟨30, 0, -1⟩ }).t
        ≤ 1 / 2) := by
  norm_num [V110.equation_land_1]

/-- C17, amended: when the call reports a landing (current `z <= 0`), the back-step
`h = t_old - t` is in `[0, dt]` provided that the polynomial of the landing type has a root
in `[0, dt]`: for the type 1, `v_z != 0` and `0 <= z / v_z <= dt`; for the type 2, `a_z != 0`
and a root of `(a_z / 2) h^2 - v_z h + z` in `[0, dt]`; for the type 3, `j_z != 0`, a root of
`-(j_z / 6) h^3 + (a_z / 2) h^2 - v_z h + z` in `[0, dt]` and a discriminant of the reduced
cubic that is not zero. -/
theorem equation_land_back_step_in_step {σ : Type} (eq : Equation ℝ) (t_old t dt : ℝ)
    (g : Globals ℝ σ) (hz : g.r0.z ≤ 0) :
    (g.r1.z ≠ 0 → 0 ≤ g.r0.z / g.r1.z → g.r0.z / g.r1.z ≤ dt →
      (V110.equation_land_1 eq t_old t dt g).ret = 1 ∧
      0 ≤ t_old - (V110.equation_land_1 eq t_old t dt g).t ∧
      t_old - (V110.equation_land_1 eq t_old t dt g).t ≤ dt) ∧
    (g.r2.z ≠ 0 →
      (∃ y : ℝ, g.r2.z / 2 * y ^ 2 - g.r1.z * y + g.r0.z = 0 ∧ 0 ≤ y ∧ y ≤ dt) →
      (V110.equation_land_2 Libm.real eq t_old t dt g).ret = 1 ∧
      0 ≤ t_old - (V110.equation_land_2 Libm.real eq t_old t dt g).t ∧
      t_old - (V110.equation_land_2 Libm.real eq t_old t dt g).t ≤ dt) ∧
    ((g.r2.z - g.ro2.z) / dt ≠ 0 →
      V031.cubic_discriminant (0.5 * g.r2.z / (-1 / 6 * ((g.r2.z - g.ro2.z) / dt)))
        (-g.r1.z / (-1 / 6 * ((g.r2.z - g.ro2.z) / dt)))
        (g.r0.z / (-1 / 6 * ((g.r2.z - g.ro2.z) / dt))) ≠ 0 →
      (∃ y : ℝ, -((g.r2.z - g.ro2.z) / dt / 6) * y ^ 3 + g.r2.z / 2 * y ^ 2 - g.r1.z * y
        + g.r0.z = 0 ∧ 0 ≤ y ∧ y ≤ dt) →
      (V110.equation_land_3 Libm.real eq t_old t dt g).ret = 1 ∧
      0 ≤ t_old - (V110.equation_land_3 Libm.real eq t_old t dt g).t ∧
      t_old - (V110.equation_land_3 Libm.real eq t_old t dt g).t ≤ dt) := by
  have hn : ¬ g.r0.z > 0 := not_lt.mpr hz
  refine ⟨fun _ h0 h1 => ?_, fun ha ⟨y, hy, h0, h1⟩ => ?_, fun hj hD ⟨y, hy, h0, h1⟩ => ?_⟩
  · simp only [V110.equation_land_1, hn, if_false, sub_sub_cancel]
    exact ⟨trivial, h0, h1⟩
  · have ha' : (0.5 : ℝ) * g.r2.z ≠ 0 := mul_ne_zero (by norm_num) ha
    have hd' : 0 ≤ (-g.r1.z) ^ 2 - 4 * (0.5 * g.r2.z) * g.r0.z := by
      have e : (-g.r1.z) ^ 2 - 4 * (0.5 * g.r2.z) * g.r0.z = (g.r2.z * y - g.r1.z) ^ 2 := by
        linear_combination (-2 * g.r2.z) * hy
      rw [e]
      positivity
    have hi := (V031.solve_quadratic_spec (0.5 * g.r2.z) (-g.r1.z) g.r0.z 0 dt ha' hd').2
      ⟨y, by linear_combination hy, h0, h1⟩
    simp only [V110.equation_land_2, hn, if_false, sub_sub_cancel]
    exact ⟨trivial, hi⟩
  · have ha' : -1 / 6 * ((g.r2.z - g.ro2.z) / dt) ≠ 0 := mul_ne_zero (by norm_num) hj
    have hi := (V031.solve_cubic_spec (-1 / 6 * ((g.r2.z - g.ro2.z) / dt)) (0.5 * g.r2.z)
      (-g.r1.z) g.r0.z 0 dt ha').2 hD ⟨y, by linear_combination hy, h0, h1⟩
    simp only [V110.equation_land_3, hn, if_false, sub_sub_cancel]
    exact ⟨trivial, hi⟩

/-- C17, amended, on a state below the ground with the step `dt = 1`: `z = -3/4`, `v_z = -2`,
`a_z = -2`; the polynomial `-h^2 + 2 h - 3/4` of the type 2 has the root `1/2` in `[0, 1]`, and
the back-step is in `[0, 1]`. -/
theorem equation_land_back_step_in_step_witness :
    0 ≤ 1 - (V110.equation_land_2 Libm.real (sample_equation (0 : ℝ) 30 30 9.81 0 2) 1 1 1
      { (sample_globals : Globals ℝ Nat) with
        r0 := ⟨3, 0, -3 / 4⟩, r1 := ⟨30, 0, -2⟩, r2 := ⟨0, 0, -2⟩ }).t ∧
    1 - (V110.equation_land_2 Libm.real (sample_equation (0 : ℝ) 30 30 9.81 0 2) 1 1 1
      { (sample_globals : Globals ℝ Nat) with
        r0 := ⟨3, 0, -3 / 4⟩, r1 := ⟨30, 0, -2⟩, r2 := ⟨0, 0, -2⟩ }).t ≤ 1 :=
  ((equation_land_back_step_in_step (sample_equation (0 : ℝ) 30 30 9.81 0 2) 1 1 1
    { (sample_globals : Globals ℝ Nat) with
      r0 := ⟨3, 0, -3 / 4⟩, r1 := ⟨30, 0, -2⟩, r2 := ⟨0, 0, -2⟩ }
    (by norm_num)).2.1 (by norm_num) ⟨1 / 2, by norm_num, by norm_num, by norm_num⟩).2

/-! ## C12: the closed form of the forced model -/

/-- C12: for the type 3 with `lambda != 0`, the horizontal components of the closed form of
`equation_solution_3` are `v_x = v0_x + w_x (1 - exp (-lambda t)) / lambda` and
`r_x = r0_x + (v0_x + w_x / lambda) t - w_x (1 - exp (-lambda t)) / lambda^2` (same in `y`),
and they solve the forced model at every real `t`: `dr_x/dt = v_x`, and `dv_x/dt` is the
horizontal value of `equation_acceleration_3`, which is `w_x exp (-lambda t)`. -/
theorem equation_solution_3_horizontal_solves_model (eq : Equation ℝ) (hl : eq.lambda ≠ 0)
    (t : ℝ) (r0 r1 : Vec3 ℝ) (n : Nat) :
    (V110.equation_solution_3 Libm.real eq t).2.x
      = eq.v.x + eq.w.x * (1 - Real.exp (-eq.lambda * t)) / eq.lambda ∧
    (V110.equation_solution_3 Libm.real eq t).2.y
      = eq.v.y + eq.w.y * (1 - Real.exp (-eq.lambda * t)) / eq.lambda ∧
    (V110.equation_solution_3 Libm.real eq t).1.x
      = eq.r.x + (eq.v.x + eq.w.x / eq.lambda) * t
        - eq.w.x * (1 - Real.exp (-eq.lambda * t)) / eq.lambda ^ 2 ∧
    (V110.equation_solution_3 Libm.real eq t).1.y
      = eq.r.y + (eq.v.y + eq.w.y / eq.lambda) * t
        - eq.w.y * (1 - Real.exp (-eq.lambda * t)) / eq.lambda ^ 2 ∧
    HasDerivAt (fun s => (V110.equation_solution_3 Libm.real eq s).1.x)
      (V110.equation_solution_3 Libm.real eq t).2.x t ∧
    HasDerivAt (fun s => (V110.equation_solution_3 Libm.real eq s).1.y)
      (V110.equation_solution_3 Libm.real eq t).2.y t ∧
    HasDerivAt (fun s => (V110.equation_solution_3 Libm.real eq s).2.x)
      (V110.equation_acceleration_3 Libm.real eq r0 r1 t n).1.x t ∧
    HasDerivAt (fun s => (V110.equation_solution_3 Libm.real eq s).2.y)
      (V110.equation_acceleration_3 Libm.real eq r0 r1 t n).1.y t ∧
    (V110.equation_acceleration_3 Libm.real eq r0 r1 t n).1.x
      = eq.w.x * Real.exp (-eq.lambda * t) ∧
    (V110.equation_acceleration_3 Libm.real eq r0 r1 t n).1.y
      = eq.w.y * Real.exp (-eq.lambda * t) := by
  have hE := hasDerivAt_exp_neg_mul eq.lambda t
  have hI := hasDerivAt_id t
  refine ⟨?_, ?_, ?_, ?_, ?_, ?_, ?_, ?_, rfl, rfl⟩
  · simp only [V110.equation_solution_3, Libm.real]
    field_simp
  · simp only [V110.equation_solution_3, Libm.real]
    field_simp
  · simp only [V110.equation_solution_3, Libm.real]
    field_simp
    ring
  · simp only [V110.equation_solution_3, Libm.real]
    field_simp
    ring
  · have h := ((hI.const_mul (eq.v.x + eq.w.x * (1 / eq.lambda))).const_add eq.r.x).sub
      ((((hE.const_sub 1).const_mul (1 / eq.lambda)).mul_const (1 / eq.lambda)).const_mul
        eq.w.x)
    simp only [V110.equation_solution_3, Libm.real]
    convert h using 1
    field_simp
    ring
  · have h := ((hI.const_mul (eq.v.y + eq.w.y * (1 / eq.lambda))).const_add eq.r.y).sub
      ((((hE.const_sub 1).const_mul (1 / eq.lambda)).mul_const (1 / eq.lambda)).const_mul
        eq.w.y)
    simp only [V110.equation_solution_3, Libm.real]
    convert h using 1
    field_simp
    ring
  · have h := (((hE.const_sub 1).const_mul (1 / eq.lambda)).const_mul eq.w.x).const_add eq.v.x
    simp only [V110.equation_solution_3, V110.equation_acceleration_3, Libm.real]
    convert h using 1
    field_simp
  · have h := (((hE.const_sub 1).const_mul (1 / eq.lambda)).const_mul eq.w.y).const_add eq.v.y
    simp only [V110.equation_solution_3, V110.equation_acceleration_3, Libm.real]
    convert h using 1
    field_simp

/-- C12 on a forced flight: type 3, `w = (10, 0)`, `lambda = 0.1`, at `t = 100`. -/
theorem equation_solution_3_horizontal_solves_model_witness :
    ({ sample_equation (1000 : ℝ) 0 0 9.81 100 0 with
        type := 3, lambda := 0.1, w := ⟨10, 0⟩ } : Equation ℝ).lambda ≠ 0 ∧
    HasDerivAt
      (fun s => (V110.equation_solution_3 Libm.real
        { sample_equation (1000 : ℝ) 0 0 9.81 100 0 with
          type := 3, lambda := 0.1, w := ⟨10, 0⟩ } s).1.x)
      (V110.equation_solution_3 Libm.real
        { sample_equation (1000 : ℝ) 0 0 9.81 100 0 with
          type := 3, lambda := 0.1, w := ⟨10, 0⟩ } 100).2.x 100 :=
  ⟨by norm_num, (equation_solution_3_horizontal_solves_model
    { sample_equation (1000 : ℝ) 0 0 9.81 100 0 with type := 3, lambda := 0.1, w := ⟨10, 0⟩ }
    (by norm_num) 100 ⟨0, 0, 0⟩ ⟨0, 0, 0⟩ 0).2.2.2.2.1⟩

/-! ## C11: the vertical closed form of the quadratic drag at the apex -/

/-- The argument of `atanl` in `equation_solution_2` is `v_z sqrt (lambda / g)`. -/
theorem div_sqrt_div (v g l : ℝ) : v / Real.sqrt (g / l) = v * Real.sqrt (l / g) := by
  rw [← inv_div l g, Real.sqrt_inv, div_inv_eq_mul]

/-- The height gained up to the apex: `-ln (cos alpha) = ln (1 + x^2) / 2` for
`alpha = arctan x`. -/
theorem log_cos_arctan (x : ℝ) :
    Real.log (Real.cos (Real.arctan x)) = -(Real.log (1 + x ^ 2) / 2) := by
  have h0 : (0 : ℝ) < 1 + x ^ 2 := by positivity
  rw [Real.cos_arctan, one_div, Real.log_inv, Real.sqrt_eq_rpow, Real.log_rpow h0]
  ring

/-- C11: for the type 2 with `v0_z > 0`, `lambda > 0`, `g > 0`, let
`alpha = arctan (v0_z sqrt (lambda / g))` and `t_c = alpha / sqrt (g lambda)`. At `t = t_c`
the closed form of `equation_solution_2` (ascending branch) gives `v_z = 0` and
`z = z0 - ln (cos alpha) / lambda = z0 + ln (1 + lambda v0_z^2 / g) / (2 lambda)`, and the
values of the descending branch tend to the same `v_z` and `z` as `t -> t_c` from above. -/
theorem equation_solution_2_apex (eq : Equation ℝ) (hv : 0 < eq.v.z) (hl : 0 < eq.lambda)
    (hg : 0 < eq.g) :
    (V110.equation_solution_2 Libm.real eq
      (Real.arctan (eq.v.z * Real.sqrt (eq.lambda / eq.g))
        / Real.sqrt (eq.g * eq.lambda))).2.z = 0 ∧
    (V110.equation_solution_2 Libm.real eq
      (Real.arctan (eq.v.z * Real.sqrt (eq.lambda / eq.g))
        / Real.sqrt (eq.g * eq.lambda))).1.z
      = eq.r.z - Real.log (Real.cos (Real.arctan (eq.v.z * Real.sqrt (eq.lambda / eq.g))))
          / eq.lambda ∧
    eq.r.z - Real.log (Real.cos (Real.arctan (eq.v.z * Real.sqrt (eq.lambda / eq.g))))
        / eq.lambda
      = eq.r.z + Real.log (1 + eq.lambda * eq.v.z ^ 2 / eq.g) / (2 * eq.lambda) ∧
    Filter.Tendsto (fun t => (V110.equation_solution_2 Libm.real eq t).2.z)
      (nhdsWithin (Real.arctan (eq.v.z * Real.sqrt (eq.lambda / eq.g))
        / Real.sqrt (eq.g * eq.lambda))
        (Set.Ioi (Real.arctan (eq.v.z * Real.sqrt (eq.lambda / eq.g))
          / Real.sqrt (eq.g * eq.lambda))))
      (nhds 0) ∧
    Filter.Tendsto (fun t => (V110.equation_solution_2 Libm.real eq t).1.z)
      (nhdsWithin (Real.arctan (eq.v.z * Real.sqrt (eq.lambda / eq.g))
        / Real.sqrt (eq.g * eq.lambda))
        (Set.Ioi (Real.arctan (eq.v.z * Real.sqrt (eq.lambda / eq.g))
          / Real.sqrt (eq.g * eq.lambda))))
      (nhds (eq.r.z - Real.log (Real.cos (Real.arctan (eq.v.z * Real.sqrt (eq.lambda / eq.g))))
          / eq.lambda)) := by
  have hvn : ¬ eq.v.z ≤ 0 := not_le.mpr hv
  have hgl : 0 < Real.sqrt (eq.g * eq.lambda) := Real.sqrt_pos.mpr (mul_pos hg hl)
  have hca := Real.cos_arctan_pos (eq.v.z * Real.sqrt (eq.lambda / eq.g))
  generalize hα : Real.arctan (eq.v.z * Real.sqrt (eq.lambda / eq.g)) = α at hca ⊢
  generalize htc : α / Real.sqrt (eq.g * eq.lambda) = tc
  have hz : α - Real.sqrt (eq.g * eq.lambda) * tc = 0 := by
    rw [← htc, mul_div_cancel₀ _ hgl.ne', sub_self]
  refine ⟨?_, ?_, ?_, ?_, ?_⟩
  · simp only [V110.equation_solution_2, Libm.real, hvn, if_false, div_sqrt_div, hα, htc,
      le_refl, if_true, hz, Real.tan_zero, mul_zero]
  · simp only [V110.equation_solution_2, Libm.real, hvn, if_false, div_sqrt_div, hα, htc,
      le_refl, if_true, hz, Real.cos_zero, one_div, Real.log_inv]
    ring
  · rw [← hα, log_cos_arctan, mul_pow, Real.sq_sqrt (div_pos hl hg).le]
    have e : eq.v.z ^ 2 * (eq.lambda / eq.g) = eq.lambda * eq.v.z ^ 2 / eq.g := by ring
    rw [e]
    ring
  · have hc : Continuous (fun t : ℝ => -Real.sqrt (eq.g / eq.lambda)
        * (Real.sinh (Real.sqrt (eq.g * eq.lambda) * (t - tc))
          / Real.cosh (Real.sqrt (eq.g * eq.lambda) * (t - tc)))) := by
      refine continuous_const.mul (Continuous.div ?_ ?_ (fun x => (Real.cosh_pos _).ne'))
      · exact Real.continuous_sinh.comp (continuous_const.mul (continuous_id.sub continuous_const))
      · exact Real.continuous_cosh.comp (continuous_const.mul (continuous_id.sub continuous_const))
    have ht := (hc.tendsto tc).mono_left
      (nhdsWithin_le_nhds : nhdsWithin tc (Set.Ioi tc) ≤ nhds tc)
    simp only [sub_self, mul_zero, Real.sinh_zero, zero_div] at ht
    refine ht.congr' ?_
    refine eventually_nhdsWithin_of_forall (fun t ht' => ?_)
    have hn : ¬ t ≤ tc := not_le.mpr ht'
    simp only [V110.equation_solution_2, Libm.real, hvn, if_false, div_sqrt_div, hα, htc, hn,
      Real.tanh_eq_sinh_div_cosh]
  · have hc : Continuous (fun t : ℝ => eq.r.z - 1 / eq.lambda
        * Real.log (Real.cos α * Real.cosh (Real.sqrt (eq.g * eq.lambda) * (t - tc)))) := by
      refine continuous_const.sub (continuous_const.mul (Continuous.log ?_
        (fun x => (mul_pos hca (Real.cosh_pos _)).ne')))
      exact continuous_const.mul
        (Real.continuous_cosh.comp (continuous_const.mul (continuous_id.sub continuous_const)))
    have ht := (hc.tendsto tc).mono_left
      (nhdsWithin_le_nhds : nhdsWithin tc (Set.Ioi tc) ≤ nhds tc)
    simp only [sub_self, mul_zero, Real.cosh_zero, mul_one] at ht
    have e : eq.r.z - 1 / eq.lambda * Real.log (Real.cos α)
        = eq.r.z - Real.log (Real.cos α) / eq.lambda := by ring
    rw [e] at ht
    refine ht.congr' ?_
    refine eventually_nhdsWithin_of_forall (fun t ht' => ?_)
    have hn : ¬ t ≤ tc := not_le.mpr ht'
    simp only [V110.equation_solution_2, Libm.real, hvn, if_false, div_sqrt_div, hα, htc, hn]

/-- C11 on a vertical shot: type 2, `v0_z = 30`, `lambda = 0.01`, `g = 9.81`. -/
theorem equation_solution_2_apex_witness :
    (V110.equation_solution_2 Libm.real
      { sample_equation (0 : ℝ) 0 30 9.81 100 1 with type := 2, lambda := 0.01 }
      (Real.arctan (30 * Real.sqrt (0.01 / 9.81)) / Real.sqrt (9.81 * 0.01))).2.z = 0 :=
  (equation_solution_2_apex
    { sample_equation (0 : ℝ) 0 30 9.81 100 1 with type := 2, lambda := 0.01 }
    (by norm_num [sample_equation]) (by norm_num) (by norm_num [sample_equation])).1

/-! ## C21: the step size of the error control -/

/-- C21: `method_dt` returns `dt min (alpha, (emt dt / e0)^(1 / (p - 1)))` with `p` the order
of the method; for `p >= 2`, `dt > 0`, `e0 > 0`, `emt > 0` and `alpha > 0` the next step size
is positive and at most `alpha dt`; the parameter `beta` is not read, so that nothing bounds
the next step size from below. -/
theorem method_dt_spec (m : Method ℝ) (dt : ℝ) (hp : 2 ≤ m.order) (hdt : 0 < dt)
    (he : 0 < m.e0) (hm : 0 < m.emt) (ha : 0 < m.alpha) :
    V110.method_dt Libm.real m dt
      = dt * min m.alpha ((m.emt * dt / m.e0) ^ ((1 : ℝ) / ((m.order : ℝ) - 1))) ∧
    0 < V110.method_dt Libm.real m dt ∧
    V110.method_dt Libm.real m dt ≤ m.alpha * dt ∧
    ∀ b : ℝ, V110.method_dt Libm.real { m with beta := b } dt
      = V110.method_dt Libm.real m dt := by
  have _hp := hp
  have hx : 0 < m.emt * dt / m.e0 := div_pos (mul_pos hm hdt) he
  have hpow : 0 < (m.emt * dt / m.e0) ^ ((1 : ℝ) / ((m.order : ℝ) - 1)) :=
    Real.rpow_pos_of_pos hx _
  refine ⟨rfl, ?_, ?_, fun b => rfl⟩
  · exact mul_pos hdt (lt_min ha hpow)
  · simp only [V110.method_dt]
    rw [mul_comm m.alpha dt]
    exact mul_le_mul_of_nonneg_left (min_le_left _ _) hdt.le

/-- C21 on a method of order 2 with `alpha = 2`, `beta = 1/2`, `emt = 1`, `e0 = 4` and
`dt = 1`: the next step size `1/4` is positive, at most `alpha dt`, and below `beta dt`. -/
theorem method_dt_spec_witness :
    (0 < V110.method_dt Libm.real
        { (sample_method : Method ℝ) with
          order := 2, alpha := 2, beta := 1 / 2, emt := 1, e0 := 4 } 1 ∧
      V110.method_dt Libm.real
        { (sample_method : Method ℝ) with
          order := 2, alpha := 2, beta := 1 / 2, emt := 1, e0 := 4 } 1 ≤ 2 * 1) ∧
    V110.method_dt Libm.real
        { (sample_method : Method ℝ) with
          order := 2, alpha := 2, beta := 1 / 2, emt := 1, e0 := 4 } 1 < 1 / 2 * 1 :=
  ⟨⟨(method_dt_spec
      { (sample_method : Method ℝ) with
        order := 2, alpha := 2, beta := 1 / 2, emt := 1, e0 := 4 } 1 (by decide) (by norm_num) (by norm_num) (by norm_num) (by norm_num)).2.1,
    (method_dt_spec
      { (sample_method : Method ℝ) with
        order := 2, alpha := 2, beta := 1 / 2, emt := 1, e0 := 4 } 1 (by decide) (by norm_num) (by norm_num) (by norm_num) (by norm_num)).2.2.1⟩,
    by norm_num [V110.method_dt, Libm.real]⟩

/-! ## C22: the registers after a Runge-Kutta step -/

section last_stage
variable {K : Type} [Field K] {ε σ : Type}

/-- After the stage `i`, the slot `i` of the accelerations holds the value of the functional
at the slot `i` of the positions and velocities and at the time `t + ti dt`. -/
theorem V031.step_stage_slot (acc : ε → Vec3 K → Vec3 K → K → σ → Vec3 K × σ) (eq : ε)
    (b : List K) (ti t dt : K) (i : Nat) (s : Method K × Globals K σ) :
    (V031.step_stage acc eq b ti t dt i s).1.r2 i
      = (acc eq ((V031.step_stage acc eq b ti t dt i s).1.r0 i)
          ((V031.step_stage acc eq b ti t dt i s).1.r1 i) (t + ti * dt) s.2.nevaluations).1 ∧
    (V031.step_stage acc eq b ti t dt i s).2.nevaluations
      = (acc eq ((V031.step_stage acc eq b ti t dt i s).1.r0 i)
          ((V031.step_stage acc eq b ti t dt i s).1.r1 i) (t + ti * dt) s.2.nevaluations).2 := by
  simp [V031.step_stage]

/-- The registers after `runge_kutta_step` with `k + 1` stages: the last stage, whose
acceleration is the value of the functional at the time `t + t[k] dt`. -/
theorem V031.runge_kutta_step_last (acc : ε → Vec3 K → Vec3 K → K → σ → Vec3 K × σ)
    (rk : V031.RungeKutta K) (eq : ε) (t dt : K) (g : Globals K σ) (k : Nat)
    (hn : rk.method.nsteps = k + 1) :
    (V031.runge_kutta_step acc rk eq t dt g).2.r0
      = (V031.runge_kutta_step acc rk eq t dt g).1.method.r0 (k + 1) ∧
    (V031.runge_kutta_step acc rk eq t dt g).2.r1
      = (V031.runge_kutta_step acc rk eq t dt g).1.method.r1 (k + 1) ∧
    (V031.runge_kutta_step acc rk eq t dt g).2.r2
      = (V031.runge_kutta_step acc rk eq t dt g).1.method.r2 (k + 1) ∧
    ∃ n : σ,
      (V031.runge_kutta_step acc rk eq t dt g).2.r2
        = (acc eq (V031.runge_kutta_step acc rk eq t dt g).2.r0
            (V031.runge_kutta_step acc rk eq t dt g).2.r1 (t + rk.t.getD k 0 * dt) n).1 ∧
      (V031.runge_kutta_step acc rk eq t dt g).2.nevaluations
        = (acc eq (V031.runge_kutta_step acc rk eq t dt g).2.r0
            (V031.runge_kutta_step acc rk eq t dt g).2.r1 (t + rk.t.getD k 0 * dt) n).2 := by
  refine ⟨?_, ?_, ?_, ?_⟩
  · simp only [V031.runge_kutta_step, hn]
  · simp only [V031.runge_kutta_step, hn]
  · simp only [V031.runge_kutta_step, hn]
  · simp only [V031.runge_kutta_step, hn, V031.step_stages]
    exact ⟨_, V031.step_stage_slot acc eq _ _ t dt (k + 1) _⟩

end last_stage

/-- C22: after `runge_kutta_step` of an order `p` in 1..4 (tables of revision 0.3.1), the
registers `(r, v, a)` are the last stage `(r_p, v_p, a_p)` of the scratch arrays, the last
weight `t[p - 1]` of the stage times is 1, and the acceleration register (with the side
state) is the value of the acceleration functional at the new `r`, `v` and the time
`t + dt`. -/
theorem runge_kutta_step_registers {K : Type} [Field K] {ε σ : Type}
    (acc : ε → Vec3 K → Vec3 K → K → σ → Vec3 K × σ) (p : Nat) (hp : 1 ≤ p ∧ p ≤ 4)
    (rk0 : V031.RungeKutta K) (eq : ε) (t dt : K) (g : Globals K σ) :
    ∃ rk, V031.runge_kutta_init p rk0 = some rk ∧
      (V031.runge_kutta_step acc rk eq t dt g).2.r0
        = (V031.runge_kutta_step acc rk eq t dt g).1.method.r0 p ∧
      (V031.runge_kutta_step acc rk eq t dt g).2.r1
        = (V031.runge_kutta_step acc rk eq t dt g).1.method.r1 p ∧
      (V031.runge_kutta_step acc rk eq t dt g).2.r2
        = (V031.runge_kutta_step acc rk eq t dt g).1.method.r2 p ∧
      rk.t.getD (p - 1) 0 = 1 ∧
      ∃ n : σ,
        (V031.runge_kutta_step acc rk eq t dt g).2.r2
          = (acc eq (V031.runge_kutta_step acc rk eq t dt g).2.r0
              (V031.runge_kutta_step acc rk eq t dt g).2.r1 (t + dt) n).1 ∧
        (V031.runge_kutta_step acc rk eq t dt g).2.nevaluations
          = (acc eq (V031.runge_kutta_step acc rk eq t dt g).2.r0
              (V031.runge_kutta_step acc rk eq t dt g).2.r1 (t + dt) n).2 := by
  have key : ∀ (rk : V031.RungeKutta K) (k : Nat), rk.method.nsteps = k + 1 →
      rk.t.getD k 0 = 1 →
      (V031.runge_kutta_step acc rk eq t dt g).2.r0
        = (V031.runge_kutta_step acc rk eq t dt g).1.method.r0 (k + 1) ∧
      (V031.runge_kutta_step acc rk eq t dt g).2.r1
        = (V031.runge_kutta_step acc rk eq t dt g).1.method.r1 (k + 1) ∧
      (V031.runge_kutta_step acc rk eq t dt g).2.r2
        = (V031.runge_kutta_step acc rk eq t dt g).1.method.r2 (k + 1) ∧
      rk.t.getD k 0 = 1 ∧
      ∃ n : σ,
        (V031.runge_kutta_step acc rk eq t dt g).2.r2
          = (acc eq (V031.runge_kutta_step acc rk eq t dt g).2.r0
              (V031.runge_kutta_step acc rk eq t dt g).2.r1 (t + dt) n).1 ∧
        (V031.runge_kutta_step acc rk eq t dt g).2.nevaluations
          = (acc eq (V031.runge_kutta_step acc rk eq t dt g).2.r0
              (V031.runge_kutta_step acc rk eq t dt g).2.r1 (t + dt) n).2 := by
    intro rk k hn ht
    obtain ⟨h0, h1, h2, n, h3, h4⟩ := V031.runge_kutta_step_last acc rk eq t dt g k hn
    rw [ht, one_mul] at h3 h4
    exact ⟨h0, h1, h2, ht, n, h3, h4⟩
  obtain ⟨h1, h4⟩ := hp
  interval_cases p
  · exact ⟨_, rfl, key _ 0 rfl rfl⟩
  · exact ⟨_, rfl, key _ 1 rfl rfl⟩
  · exact ⟨_, rfl, key _ 2 rfl rfl⟩
  · exact ⟨_, rfl, key _ 3 rfl rfl⟩

/-- C22 at order 4 on the quadratic drag over the rationals. -/
theorem runge_kutta_step_registers_witness :
    (1 ≤ 4 ∧ 4 ≤ 4) ∧
    ∃ rk, V031.runge_kutta_init 4 ⟨(sample_method : Method ℚ), [], [], []⟩ = some rk ∧
      (V031.runge_kutta_step V110.equation_acceleration_2 rk
          { sample_equation (100 : ℚ) 30 30 9.81 1 0 with lambda := 1 / 100 } 0 0.01
          sample_globals).2.r0
        = (V031.runge_kutta_step V110.equation_acceleration_2 rk
          { sample_equation (100 : ℚ) 30 30 9.81 1 0 with lambda := 1 / 100 } 0 0.01
          sample_globals).1.method.r0 4 :=
  ⟨by decide,
    (runge_kutta_step_registers V110.equation_acceleration_2 4 (by decide)
      ⟨(sample_method : Method ℚ), [], [], []⟩
      { sample_equation (100 : ℚ) 30 30 9.81 1 0 with lambda := 1 / 100 } 0 0.01
      sample_globals).imp (fun _ h => ⟨h.1, h.2.1⟩)⟩

/-! ## C23: the history after a multi-steps step -/

section shift
variable {K : Type} [Field K]

omit [Field K] in
/-- The shift loop from the counter `k`: the slots `1 .. k` take the slots `0 .. k - 1`, and
the other slots stay. -/
theorem V031.multi_steps_shift_slots (k : Nat) (m : Method K) (j : Nat) :
    ((V031.multi_steps_shift k m).r0 j
      = if j = 0 then m.r0 0 else if j ≤ k then m.r0 (j - 1) else m.r0 j) ∧
    ((V031.multi_steps_shift k m).r1 j
      = if j = 0 then m.r1 0 else if j ≤ k then m.r1 (j - 1) else m.r1 j) ∧
    ((V031.multi_steps_shift k m).r2 j
      = if j = 0 then m.r2 0 else if j ≤ k then m.r2 (j - 1) else m.r2 j) := by
  induction k generalizing m with
  | zero =>
    simp only [V031.multi_steps_shift]
    by_cases hj : j = 0
    · simp [hj]
    · simp [hj]
  | succ k ih =>
    simp only [V031.multi_steps_shift, ih, Function.update_apply]
    by_cases hj : j = 0
    · subst hj
      simp
    · by_cases h1 : j ≤ k
      · have h2 : j ≤ k + 1 := by omega
        have h3 : j - 1 ≠ k + 1 := by omega
        simp [hj, h1, h2, h3]
      · by_cases h4 : j = k + 1
        · subst h4
          simp
        · have h5 : ¬ j ≤ k + 1 := by omega
          simp [hj, h1, h4, h5]

/-- The sums of `multi_steps_step`, by components: the term of the registers and the terms
of the slots `1 .. n - 1`. -/
theorem V031.multi_steps_sums_eq {σ : Type} (ms : V031.MultiSteps K) (dt : K)
    (g : Globals K σ) (n : Nat) :
    (V031.multi_steps_sums ms dt g (n + 1)).1
      = ⟨ms.a.getD 0 0 * (g.r0.x + dt * ms.c.getD 0 0 * g.r1.x)
            + ∑ i in Finset.Ico 1 (n + 1),
              ms.a.getD i 0 * ((ms.method.r0 i).x + dt * ms.c.getD i 0 * (ms.method.r1 i).x),
          ms.a.getD 0 0 * (g.r0.y + dt * ms.c.getD 0 0 * g.r1.y)
            + ∑ i in Finset.Ico 1 (n + 1),
              ms.a.getD i 0 * ((ms.method.r0 i).y + dt * ms.c.getD i 0 * (ms.method.r1 i).y),
          ms.a.getD 0 0 * (g.r0.z + dt * ms.c.getD 0 0 * g.r1.z)
            + ∑ i in Finset.Ico 1 (n + 1),
              ms.a.getD i 0 * ((ms.method.r0 i).z + dt * ms.c.getD i 0 * (ms.method.r1 i).z)⟩ ∧
    (V031.multi_steps_sums ms dt g (n + 1)).2
      = ⟨ms.a.getD 0 0 * (g.r1.x + dt * ms.c.getD 0 0 * g.r2.x)
            + ∑ i in Finset.Ico 1 (n + 1),
              ms.a.getD i 0 * ((ms.method.r1 i).x + dt * ms.c.getD i 0 * (ms.method.r2 i).x),
          ms.a.getD 0 0 * (g.r1.y + dt * ms.c.getD 0 0 * g.r2.y)
            + ∑ i in Finset.Ico 1 (n + 1),
              ms.a.getD i 0 * ((ms.method.r1 i).y + dt * ms.c.getD i 0 * (ms.method.r2 i).y),
          ms.a.getD 0 0 * (g.r1.z + dt * ms.c.getD 0 0 * g.r2.z)
            + ∑ i in Finset.Ico 1 (n + 1),
              ms.a.getD i 0 * ((ms.method.r1 i).z + dt * ms.c.getD i 0 * (ms.method.r2 i).z)⟩ := by
  induction n with
  | zero => simp [V031.multi_steps_sums, Vec3.comb]
  | succ n ih =>
    rw [V031.multi_steps_sums]
    simp only [ih, Vec3.addComb, Finset.sum_Ico_succ_top (Nat.succ_le_succ (Nat.zero_le n)),
      Vec3.mk.injEq]
    refine ⟨⟨?_, ?_, ?_⟩, ⟨?_, ?_, ?_⟩⟩ <;> ring

end shift

/-- C23 fails on a history whose slot 0 does not hold the registers: with three slots, the
slot 0 at `(7, 7, 7)` and the register `r = (0, 0, 100)`, after `multi_steps_step` the slot 1
holds the register `r` of before the call and not what the slot 0 held. -/
theorem multi_steps_step_history_counterexample :
    (1 ≤ 1 ∧ 1 ≤ 3 - 1) ∧
    (V031.multi_steps_step V110.equation_acceleration_0
        ⟨{ (sample_method : Method ℚ) with nsteps := 3, r0 := fun _ => ⟨7, 7, 7⟩ },
          ⟨sample_method, [], [], []⟩, V031.ms_a2, V031.ms_c2, V031.ms_ea2, V031.ms_eb2, 2⟩
        (sample_equation (100 : ℚ) 30 30 9.81 1 0) 0 0.01 sample_globals).1.method.r0 1
      = (sample_globals : Globals ℚ Nat).r0 ∧
    (V031.multi_steps_step V110.equation_acceleration_0
        ⟨{ (sample_method : Method ℚ) with nsteps := 3, r0 := fun _ => ⟨7, 7, 7⟩ },
          ⟨sample_method, [], [], []⟩, V031.ms_a2, V031.ms_c2, V031.ms_ea2, V031.ms_eb2, 2⟩
        (sample_equation (100 : ℚ) 30 30 9.81 1 0) 0 0.01 sample_globals).1.method.r0 1
      ≠ ({ (sample_method : Method ℚ) with nsteps := 3, r0 := fun _ => ⟨7, 7, 7⟩ } :
          Method ℚ).r0 (1 - 1) := by
  refine ⟨by decide, rfl, ?_⟩
  have h : (V031.multi_steps_step V110.equation_acceleration_0
        ⟨{ (sample_method : Method ℚ) with nsteps := 3, r0 := fun _ => ⟨7, 7, 7⟩ },
          ⟨sample_method, [], [], []⟩, V031.ms_a2, V031.ms_c2, V031.ms_ea2, V031.ms_eb2, 2⟩
        (sample_equation (100 : ℚ) 30 30 9.81 1 0) 0 0.01 sample_globals).1.method.r0 1
      = ⟨0, 0, 100⟩ := rfl
  rw [h]
  simp

/-- C23, amended: after `multi_steps_step` with `n >= 1` slots, the slot 0 holds the
registers `(r, v, a)` of before the call, and so does the slot 1 when `n >= 2` (the registers
are copied to the slot 0 before the shift); for every `i` with `2 <= i <= n - 1` the slot `i`
holds what the slot `i - 1` held before the call.  The registers then hold
`(r_new, v_new)`, the sum of `a[0] (r + dt c[0] v, v + dt c[0] a)` on the registers of before
the call and of `a[i] (R0[i] + dt c[i] R1[i], R1[i] + dt c[i] R2[i])` on the slots
`i = 1 .. n - 1`, and the acceleration of the functional at `(r_new, v_new, t + dt)`. -/
theorem multi_steps_step_history {K : Type} [Field K] {ε σ : Type}
    (acc : ε → Vec3 K → Vec3 K → K → σ → Vec3 K × σ) (ms : V031.MultiSteps K) (eq : ε)
    (t dt : K) (g : Globals K σ) (hn : 1 ≤ ms.method.nsteps ∧ ms.method.nsteps < 2 ^ 32) :
    ((V031.multi_steps_step acc ms eq t dt g).1.method.r0 0 = g.r0 ∧
      (V031.multi_steps_step acc ms eq t dt g).1.method.r1 0 = g.r1 ∧
      (V031.multi_steps_step acc ms eq t dt g).1.method.r2 0 = g.r2) ∧
    (2 ≤ ms.method.nsteps →
      (V031.multi_steps_step acc ms eq t dt g).1.method.r0 1 = g.r0 ∧
      (V031.multi_steps_step acc ms eq t dt g).1.method.r1 1 = g.r1 ∧
      (V031.multi_steps_step acc ms eq t dt g).1.method.r2 1 = g.r2) ∧
    (∀ i, 2 ≤ i → i ≤ ms.method.nsteps - 1 →
      (V031.multi_steps_step acc ms eq t dt g).1.method.r0 i = ms.method.r0 (i - 1) ∧
      (V031.multi_steps_step acc ms eq t dt g).1.method.r1 i = ms.method.r1 (i - 1) ∧
      (V031.multi_steps_step acc ms eq t dt g).1.method.r2 i = ms.method.r2 (i - 1)) ∧
    (V031.multi_steps_step acc ms eq t dt g).2.r0
      = ⟨ms.a.getD 0 0 * (g.r0.x + dt * ms.c.getD 0 0 * g.r1.x)
            + ∑ i in Finset.Ico 1 ms.method.nsteps,
              ms.a.getD i 0 * ((ms.method.r0 i).x + dt * ms.c.getD i 0 * (ms.method.r1 i).x),
          ms.a.getD 0 0 * (g.r0.y + dt * ms.c.getD 0 0 * g.r1.y)
            + ∑ i in Finset.Ico 1 ms.method.nsteps,
              ms.a.getD i 0 * ((ms.method.r0 i).y + dt * ms.c.getD i 0 * (ms.method.r1 i).y),
          ms.a.getD 0 0 * (g.r0.z + dt * ms.c.getD 0 0 * g.r1.z)
            + ∑ i in Finset.Ico 1 ms.method.nsteps,
              ms.a.getD i 0 * ((ms.method.r0 i).z + dt * ms.c.getD i 0 * (ms.method.r1 i).z)⟩ ∧
    (V031.multi_steps_step acc ms eq t dt g).2.r1
      = ⟨ms.a.getD 0 0 * (g.r1.x + dt * ms.c.getD 0 0 * g.r2.x)
            + ∑ i in Finset.Ico 1 ms.method.nsteps,
              ms.a.getD i 0 * ((ms.method.r1 i).x + dt * ms.c.getD i 0 * (ms.method.r2 i).x),
          ms.a.getD 0 0 * (g.r1.y + dt * ms.c.getD 0 0 * g.r2.y)
            + ∑ i in Finset.Ico 1 ms.method.nsteps,
              ms.a.getD i 0 * ((ms.method.r1 i).y + dt * ms.c.getD i 0 * (ms.method.r2 i).y),
          ms.a.getD 0 0 * (g.r1.z + dt * ms.c.getD 0 0 * g.r2.z)
            + ∑ i in Finset.Ico 1 ms.method.nsteps,
              ms.a.getD i 0 * ((ms.method.r1 i).z + dt * ms.c.getD i 0 * (ms.method.r2 i).z)⟩ ∧
    (V031.multi_steps_step acc ms eq t dt g).2.r2
      = (acc eq (V031.multi_steps_step acc ms eq t dt g).2.r0
          (V031.multi_steps_step acc ms eq t dt g).2.r1 (t + dt) g.nevaluations).1 := by
  obtain ⟨h1, h2⟩ := hn
  obtain ⟨n, hn⟩ : ∃ n, ms.method.nsteps = n + 1 := ⟨ms.method.nsteps - 1, by omega⟩
  have hmod : (ms.method.nsteps + (2 ^ 32 - 1)) % 2 ^ 32 = n := by
    norm_num at h2 ⊢
    omega
  have hs := V031.multi_steps_sums_eq ms dt g n
  rw [← hn] at hs
  have e : (V031.multi_steps_step acc ms eq t dt g).1.method
      = V031.multi_steps_shift n
          { ms.method with
            r0 := Function.update ms.method.r0 0 g.r0
            r1 := Function.update ms.method.r1 0 g.r1
            r2 := Function.update ms.method.r2 0 g.r2 } := by
    simp only [V031.multi_steps_step]
    rw [hmod]
  rw [e]
  refine ⟨?_, ?_, ?_, ?_, ?_, rfl⟩
  · obtain ⟨a0, a1, a2⟩ := V031.multi_steps_shift_slots n
      { ms.method with
        r0 := Function.update ms.method.r0 0 g.r0
        r1 := Function.update ms.method.r1 0 g.r1
        r2 := Function.update ms.method.r2 0 g.r2 } 0
    rw [a0, a1, a2]
    simp only [ite_true, Function.update_same, and_self]
  · intro h
    have hle : 1 ≤ n := by omega
    obtain ⟨a0, a1, a2⟩ := V031.multi_steps_shift_slots n
      { ms.method with
        r0 := Function.update ms.method.r0 0 g.r0
        r1 := Function.update ms.method.r1 0 g.r1
        r2 := Function.update ms.method.r2 0 g.r2 } 1
    rw [a0, a1, a2]
    simp only [hle, one_ne_zero, ite_false, ite_true, Nat.sub_self, Function.update_same,
      and_self]
  · intro i hi hi2
    have h0 : i ≠ 0 := by omega
    have hle : i ≤ n := by omega
    have h3 : i - 1 ≠ 0 := by omega
    obtain ⟨a0, a1, a2⟩ := V031.multi_steps_shift_slots n
      { ms.method with
        r0 := Function.update ms.method.r0 0 g.r0
        r1 := Function.update ms.method.r1 0 g.r1
        r2 := Function.update ms.method.r2 0 g.r2 } i
    rw [a0, a1, a2]
    simp only [h0, hle, ite_false, ite_true, ne_eq, h3, not_false_eq_true,
      Function.update_noteq, and_self]
  · exact hs.1
  · exact hs.2

/-- C23, amended, on the second order multi-steps method (three slots) and the model without
resistance over the rationals: the slot 2 takes what the slot 1 held. -/
theorem multi_steps_step_history_witness :
    (V031.multi_steps_step V110.equation_acceleration_0
        ⟨{ (sample_method : Method ℚ) with nsteps := 3, r0 := fun _ => ⟨7, 7, 7⟩ },
          ⟨sample_method, [], [], []⟩, V031.ms_a2, V031.ms_c2, V031.ms_ea2, V031.ms_eb2, 2⟩
        (sample_equation (100 : ℚ) 30 30 9.81 1 0) 0 0.01 sample_globals).1.method.r0 2
      = ({ (sample_method : Method ℚ) with nsteps := 3, r0 := fun _ => ⟨7, 7, 7⟩ } :
          Method ℚ).r0 (2 - 1) :=
  ((multi_steps_step_history V110.equation_acceleration_0
    ⟨{ (sample_method : Method ℚ) with nsteps := 3, r0 := fun _ => ⟨7, 7, 7⟩ },
      ⟨sample_method, [], [], []⟩, V031.ms_a2, V031.ms_c2, V031.ms_ea2, V031.ms_eb2, 2⟩
    (sample_equation (100 : ℚ) 30 30 9.81 1 0) 0 0.01 sample_globals
    ⟨by decide, by decide⟩).2.2.1 2 (by decide) (by decide)).1

/-! ## C24: the choice of the step in the temporal loop of `multi_steps_run` -/

section kinds
variable {K : Type} [LinearOrderedField K] {ε σ : Type}

/-- The steps of the loop of the first steps are Runge-Kutta steps. -/
theorem V031.multi_steps_first_kinds (L : Libm K) (method_dt : Method K → K → K)
    (acc : ε → Vec3 K → Vec3 K → K → σ → Vec3 K × σ) (step_size : ε → Globals K σ → K)
    (land : ε → K → K → K → Globals K σ → LandResult K σ) (eq : ε) :
    ∀ (fuel i : Nat) (ms : V031.MultiSteps K) (g : Globals K σ) (x : V031.RunVars K)
      (steps : List (V031.StepRecord K)) (res : V031.RunResult K σ ⊕ V031.FirstSteps K σ),
      V031.multi_steps_first L method_dt acc step_size land eq fuel i ms g x steps = some res →
      ∃ new : List (V031.StepRecord K),
        (∀ e ∈ new, e.kind = V031.StepKind.runge_kutta) ∧
        Sum.elim (fun r => r.steps) (fun s => s.steps) res = steps ++ new := by
  intro fuel
  induction fuel with
  | zero =>
    intro i ms g x steps res h
    simp [V031.multi_steps_first] at h
  | succ f ih =>
    intro i ms g x steps res h
    rw [V031.multi_steps_first] at h
    simp only at h
    split_ifs at h
    all_goals first
      | (simp only [Option.some.injEq] at h
         subst h
         exact ⟨[], by simp, by simp⟩)
      | (obtain ⟨new, hk, hs⟩ := ih _ _ _ _ _ _ h
         rw [List.append_assoc] at hs
         refine ⟨_, ?_, hs⟩
         intro e he
         rcases List.mem_append.mp he with he | he
         · rw [List.mem_singleton.mp he]
         · exact hk e he)

/-- In the temporal loop, a step is made by `multi_steps_step` exactly when `equation_land`
left the step size that it was given. -/
theorem V031.multi_steps_loop_kinds (L : Libm K) (method_dt : Method K → K → K)
    (acc : ε → Vec3 K → Vec3 K → K → σ → Vec3 K × σ) (step_size : ε → Globals K σ → K)
    (land : ε → K → K → K → Globals K σ → LandResult K σ) (eq : ε) :
    ∀ (fuel : Nat) (ms : V031.MultiSteps K) (g : Globals K σ) (x : V031.RunVars K)
      (steps : List (V031.StepRecord K)) (r : V031.RunResult K σ),
      V031.multi_steps_loop L method_dt acc step_size land eq fuel ms g x steps = some r →
      ∃ new : List (V031.StepRecord K),
        (∀ e ∈ new, (e.kind = V031.StepKind.multi_steps ↔ e.dto = e.dt)) ∧
        r.steps = steps ++ new := by
  intro fuel
  induction fuel with
  | zero =>
    intro ms g x steps r h
    simp [V031.multi_steps_loop] at h
  | succ f ih =>
    intro ms g x steps r h
    rw [V031.multi_steps_loop] at h
    simp only at h
    split_ifs at h
    all_goals first
      | (simp only [Option.some.injEq] at h
         subst h
         exact ⟨[], by simp, by simp⟩)
      | (obtain ⟨new, hk, hs⟩ := ih _ _ _ _ _ h
         rw [List.append_assoc] at hs
         refine ⟨_, ?_, hs⟩
         intro e he
         rcases List.mem_append.mp he with he | he
         · rw [List.mem_singleton.mp he]
           first
             | exact ⟨fun _ => by assumption, fun _ => rfl⟩
             | exact ⟨fun hh => V031.StepKind.noConfusion hh, fun hh => by contradiction⟩
         · exact hk e he)

/-- The steps of the loop of the first steps of src/multi-steps.c are Runge-Kutta steps. -/
theorem V012.multi_steps_first_kinds_base (L : Libm K) (method_dt : Method K → K → K)
    (acc : ε → Vec3 K → Vec3 K → K → σ → Vec3 K × σ) (step_size : ε → Globals K σ → K)
    (land : ε → K → K → Globals K σ → LandResult K σ) (eq : ε) :
    ∀ (fuel i : Nat) (ms : V031.MultiSteps K) (g : Globals K σ) (x : V031.RunVars K)
      (steps : List (V031.StepRecord K)) (res : V031.RunResult K σ ⊕ V031.FirstSteps K σ),
      V012.multi_steps_first L method_dt acc step_size land eq fuel i ms g x steps = some res →
      ∃ new : List (V031.StepRecord K),
        (∀ e ∈ new, e.kind = V031.StepKind.runge_kutta) ∧
        Sum.elim (fun r => r.steps) (fun s => s.steps) res = steps ++ new := by
  intro fuel
  induction fuel with
  | zero =>
    intro i ms g x steps res h
    simp [V012.multi_steps_first] at h
  | succ f ih =>
    intro i ms g x steps res h
    rw [V012.multi_steps_first] at h
    simp only at h
    split_ifs at h
    all_goals first
      | (simp only [Option.some.injEq] at h
         subst h
         exact ⟨[], by simp, by simp⟩)
      | (obtain ⟨new, hk, hs⟩ := ih _ _ _ _ _ _ h
         rw [List.append_assoc] at hs
         refine ⟨_, ?_, hs⟩
         intro e he
         rcases List.mem_append.mp he with he | he
         · rw [List.mem_singleton.mp he]
         · exact hk e he)

/-- In the temporal loop of src/multi-steps.c, a step is made by `multi_steps_step` exactly when `equation_land`
left the step size that it was given. -/
theorem V012.multi_steps_loop_kinds_base (L : Libm K) (method_dt : Method K → K → K)
    (acc : ε → Vec3 K → Vec3 K → K → σ → Vec3 K × σ) (step_size : ε → Globals K σ → K)
    (land : ε → K → K → Globals K σ → LandResult K σ) (eq : ε) :
    ∀ (fuel : Nat) (ms : V031.MultiSteps K) (g : Globals K σ) (x : V031.RunVars K)
      (steps : List (V031.StepRecord K)) (r : V031.RunResult K σ),
      V012.multi_steps_loop L method_dt acc step_size land eq fuel ms g x steps = some r →
      ∃ new : List (V031.StepRecord K),
        (∀ e ∈ new, (e.kind = V031.StepKind.multi_steps ↔ e.dto = e.dt)) ∧
        r.steps = steps ++ new := by
  intro fuel
  induction fuel with
  | zero =>
    intro ms g x steps r h
    simp [V012.multi_steps_loop] at h
  | succ f ih =>
    intro ms g x steps r h
    rw [V012.multi_steps_loop] at h
    simp only at h
    split_ifs at h
    all_goals first
      | (simp only [Option.some.injEq] at h
         subst h
         exact ⟨[], by simp, by simp⟩)
      | (obtain ⟨new, hk, hs⟩ := ih _ _ _ _ _ h
         rw [List.append_assoc] at hs
         refine ⟨_, ?_, hs⟩
         intro e he
         rcases List.mem_append.mp he with he | he
         · rw [List.mem_singleton.mp he]
           first
             | exact ⟨fun _ => by assumption, fun _ => rfl⟩
             | exact ⟨fun hh => V031.StepKind.noConfusion hh, fun hh => by contradiction⟩
         · exact hk e he)

end kinds

/-- C24 fails on a run of the second order multi-steps method on the quadratic drag with the
step size of the stability condition (`kt = 0.1`, `lambda = 0.1`) up to `tf = 0.2`: the two
first steps are Runge-Kutta steps of the sizes `1/30` and `1/27`, and the third step is made
by `multi_steps_step` with the size `10/243`, which is not the size of the step before it. -/
theorem multi_steps_run_step_kinds_counterexample :
    (V031.multi_steps_run sample_libm (fun _ dt => dt) V110.equation_acceleration_2
        V110.equation_step_size_2 V110.equation_land_0 (sample_drag_equation : Equation ℚ) 10
        sample_multi_steps sample_drag_globals ⟨0, 0, 0, 0, 0, 0⟩).map
      (fun r => (r.t, (r.steps.map (fun e => (e.kind, e.dt))).take 3))
      = some (1 / 5, [(V031.StepKind.runge_kutta, 1 / 30), (V031.StepKind.runge_kutta, 1 / 27),
          (V031.StepKind.multi_steps, 10 / 243)]) ∧
    (10 / 243 : ℚ) ≠ 1 / 27 := by
  refine ⟨?_, by norm_num⟩
  set_option maxRecDepth 1000000 in with_unfolding_all decide

/-- C24, amended: in a run of `multi_steps_run` that ends (src/0.3.1/multi-steps.c and
src/multi-steps.c), the steps of the loop of the first steps are Runge-Kutta steps, and a step
of the temporal loop is made by `multi_steps_step` exactly when `equation_land` left unchanged
the step size `dto` that the same iteration gave to it (the test `dto == dt`, with `dto = dt`
assigned just before the call), and by `runge_kutta_step` exactly when `equation_land`
changed it; the step size of the iteration before is not compared. -/
theorem multi_steps_run_step_kinds {K : Type} [LinearOrderedField K] {ε σ : Type} (L : Libm K)
    (method_dt : Method K → K → K) (acc : ε → Vec3 K → Vec3 K → K → σ → Vec3 K × σ)
    (step_size : ε → Globals K σ → K) (eq : ε) (fuel : Nat) (ms : V031.MultiSteps K)
    (g : Globals K σ) (x : V031.RunVars K) :
    (∀ (land : ε → K → K → K → Globals K σ → LandResult K σ) (r : V031.RunResult K σ),
      V031.multi_steps_run L method_dt acc step_size land eq fuel ms g x = some r →
      (V031.multi_steps_first L method_dt acc step_size land eq fuel ms.method.nsteps ms
          { g with ro0 := g.r0, ro1 := g.r1, ro2 := g.r2 } { x with t := 0 } []
          = some (Sum.inl r) ∧
        ∀ e ∈ r.steps, e.kind = V031.StepKind.runge_kutta) ∨
      (∃ (s : V031.FirstSteps K σ) (main : List (V031.StepRecord K)),
        V031.multi_steps_first L method_dt acc step_size land eq fuel ms.method.nsteps ms
          { g with ro0 := g.r0, ro1 := g.r1, ro2 := g.r2 } { x with t := 0 } []
          = some (Sum.inr s) ∧
        r.steps = s.steps ++ main ∧
        (∀ e ∈ s.steps, e.kind = V031.StepKind.runge_kutta) ∧
        ∀ e ∈ main, (e.kind = V031.StepKind.multi_steps ↔ e.dto = e.dt))) ∧
    (∀ (land : ε → K → K → Globals K σ → LandResult K σ) (r : V031.RunResult K σ),
      V012.multi_steps_run L method_dt acc step_size land eq fuel ms g x = some r →
      (V012.multi_steps_first L method_dt acc step_size land eq fuel ms.method.nsteps ms
          { g with ro0 := g.r0, ro1 := g.r1, ro2 := g.r2 } { x with t := 0 } []
          = some (Sum.inl r) ∧
        ∀ e ∈ r.steps, e.kind = V031.StepKind.runge_kutta) ∨
      (∃ (s : V031.FirstSteps K σ) (main : List (V031.StepRecord K)),
        V012.multi_steps_first L method_dt acc step_size land eq fuel ms.method.nsteps ms
          { g with ro0 := g.r0, ro1 := g.r1, ro2 := g.r2 } { x with t := 0 } []
          = some (Sum.inr s) ∧
        r.steps = s.steps ++ main ∧
        (∀ e ∈ s.steps, e.kind = V031.StepKind.runge_kutta) ∧
        ∀ e ∈ main, (e.kind = V031.StepKind.multi_steps ↔ e.dto = e.dt))) := by
  refine ⟨fun land r h => ?_, fun land r h => ?_⟩
  · unfold V031.multi_steps_run at h
    split at h
    · exact absurd h (by simp)
    · rename_i r0 hf
      obtain ⟨new, hk, hs⟩ := V031.multi_steps_first_kinds L method_dt acc step_size land eq _
        _ _ _ _ _ _ hf
      simp only [Option.some.injEq] at h
      subst h
      simp only [Sum.elim_inl, List.nil_append] at hs
      exact Or.inl ⟨hf, fun e he => hk e (hs ▸ he)⟩
    · rename_i s hf
      obtain ⟨new, hk, hs⟩ := V031.multi_steps_first_kinds L method_dt acc step_size land eq _
        _ _ _ _ _ _ hf
      simp only [Sum.elim_inr, List.nil_append] at hs
      obtain ⟨main, hm, hr⟩ := V031.multi_steps_loop_kinds L method_dt acc step_size land eq _
        _ _ _ _ _ h
      exact Or.inr ⟨s, main, hf, hr, fun e he => hk e (hs ▸ he), hm⟩
  · unfold V012.multi_steps_run at h
    split at h
    · exact absurd h (by simp)
    · rename_i r0 hf
      obtain ⟨new, hk, hs⟩ := V012.multi_steps_first_kinds_base L method_dt acc step_size land eq _
        _ _ _ _ _ _ hf
      simp only [Option.some.injEq] at h
      subst h
      simp only [Sum.elim_inl, List.nil_append] at hs
      exact Or.inl ⟨hf, fun e he => hk e (hs ▸ he)⟩
    · rename_i s hf
      obtain ⟨new, hk, hs⟩ := V012.multi_steps_first_kinds_base L method_dt acc step_size land eq _
        _ _ _ _ _ _ hf
      simp only [Sum.elim_inr, List.nil_append] at hs
      obtain ⟨main, hm, hr⟩ := V012.multi_steps_loop_kinds_base L method_dt acc step_size land eq _
        _ _ _ _ _ h
      exact Or.inr ⟨s, main, hf, hr, fun e he => hk e (hs ▸ he), hm⟩

/-- C24, amended, on the run of the counterexample: the run ends, and its steps are the
Runge-Kutta steps of the first steps followed by steps made by `multi_steps_step` exactly
when `equation_land_0` did not clip the step. -/
theorem multi_steps_run_step_kinds_witness :
    ∃ r, V031.multi_steps_run sample_libm (fun _ dt => dt) V110.equation_acceleration_2
        V110.equation_step_size_2 V110.equation_land_0 (sample_drag_equation : Equation ℚ) 10
        sample_multi_steps sample_drag_globals ⟨0, 0, 0, 0, 0, 0⟩ = some r ∧
      ∃ first main : List (V031.StepRecord ℚ), r.steps = first ++ main ∧
        (∀ e ∈ first, e.kind = V031.StepKind.runge_kutta) ∧
        ∀ e ∈ main, (e.kind = V031.StepKind.multi_steps ↔ e.dto = e.dt) := by
  have hs : (V031.multi_steps_run sample_libm (fun _ dt => dt) V110.equation_acceleration_2
      V110.equation_step_size_2 V110.equation_land_0 (sample_drag_equation : Equation ℚ) 10
      sample_multi_steps sample_drag_globals ⟨0, 0, 0, 0, 0, 0⟩).isSome = true := by
    set_option maxRecDepth 1000000 in with_unfolding_all decide
  obtain ⟨r, hr⟩ := Option.isSome_iff_exists.mp hs
  refine ⟨r, hr, ?_⟩
  rcases (multi_steps_run_step_kinds sample_libm (fun _ dt => dt) V110.equation_acceleration_2
    V110.equation_step_size_2 (sample_drag_equation : Equation ℚ) 10
    sample_multi_steps sample_drag_globals ⟨0, 0, 0, 0, 0, 0⟩).1 V110.equation_land_0 r hr
    with ⟨-, h1⟩ | ⟨s, main, -, h2, h3, h4⟩
  · exact ⟨r.steps, [], by simp, h1, by simp⟩
  · exact ⟨s.steps, main, h2, h3, h4⟩

/-! ## C25: the first steps of `multi_steps_run` -/

section first_steps
variable {K : Type} [LinearOrderedField K] {ε σ : Type}

/-- An iteration of the loop of the first steps, without error control and without landing. -/
theorem V031.multi_steps_first_step (L : Libm K) (method_dt : Method K → K → K)
    (acc : ε → Vec3 K → Vec3 K → K → σ → Vec3 K × σ) (step_size : ε → Globals K σ → K)
    (land : ε → K → K → K → Globals K σ → LandResult K σ) (eq : ε)
    (fuel j : Nat) (ms : V031.MultiSteps K) (g : Globals K σ) (x : V031.RunVars K)
    (steps : List (V031.StepRecord K)) (hj : j + 2 < 2 ^ 32)
    (he : ms.runge_kutta.method.error_dt = 0)
    (hl : (land eq x.t x.t (step_size eq g) g).ret = 0)
    (hg : (land eq x.t x.t (step_size eq g) g).g = g) :
    V031.multi_steps_first L method_dt acc step_size land eq (fuel + 1) (j + 2) ms g x steps
    = V031.multi_steps_first L method_dt acc step_size land eq fuel (j + 1)
        { ms with
          method :=
            { ms.method with
              r0 := Function.update ms.method.r0 (j + 1) g.r0
              r1 := Function.update ms.method.r1 (j + 1) g.r1
              r2 := Function.update ms.method.r2 (j + 1) g.r2 }
          runge_kutta := (V031.first_step acc step_size land eq (x.t, ms.runge_kutta, g)).2.1 }
        (V031.first_step acc step_size land eq (x.t, ms.runge_kutta, g)).2.2
        { x with
          t_old := x.t
          t := (V031.first_step acc step_size land eq (x.t, ms.runge_kutta, g)).1
          dt := (land eq x.t x.t (step_size eq g) g).dt }
        (steps ++ [⟨V031.StepKind.runge_kutta, step_size eq g,
          (land eq x.t x.t (step_size eq g) g).dt⟩]) := by
  have hmod : (j + 2 + (2 ^ 32 - 1)) % 2 ^ 32 = j + 1 := by
    norm_num at hj ⊢
    omega
  rw [V031.multi_steps_first]
  simp only [hmod, he, ne_eq, not_true_eq_false, and_false, ite_false, Nat.succ_pos, ite_true,
    hl, V031.first_step, hg]

/-- The end of the loop of the first steps: the counter reaches 0. -/
theorem V031.multi_steps_first_end (L : Libm K) (method_dt : Method K → K → K)
    (acc : ε → Vec3 K → Vec3 K → K → σ → Vec3 K × σ) (step_size : ε → Globals K σ → K)
    (land : ε → K → K → K → Globals K σ → LandResult K σ) (eq : ε)
    (fuel : Nat) (ms : V031.MultiSteps K) (g : Globals K σ) (x : V031.RunVars K)
    (steps : List (V031.StepRecord K)) :
    V031.multi_steps_first L method_dt acc step_size land eq (fuel + 1) 1 ms g x steps
    = some (Sum.inr ⟨0, ms, g, x, steps⟩) := by
  rw [V031.multi_steps_first]
  simp

/-- The loop of the first steps from the counter `j + 1`, without error control and without
landing: it makes `j` Runge-Kutta steps; the slot `j - k` takes the registers reached after
`k` steps, for `k < j`, and the other slots stay. -/
theorem V031.multi_steps_first_run (L : Libm K) (method_dt : Method K → K → K)
    (acc : ε → Vec3 K → Vec3 K → K → σ → Vec3 K × σ) (step_size : ε → Globals K σ → K)
    (land : ε → K → K → K → Globals K σ → LandResult K σ) (eq : ε) :
    ∀ (j fuel : Nat) (ms : V031.MultiSteps K) (g : Globals K σ) (x : V031.RunVars K)
      (steps : List (V031.StepRecord K)),
      j + 1 < 2 ^ 32 → j + 1 ≤ fuel → ms.runge_kutta.method.error_dt = 0 →
      (∀ k, k < j →
        (land eq
          (Nat.iterate (V031.first_step acc step_size land eq) k (x.t, ms.runge_kutta, g)).1
          (Nat.iterate (V031.first_step acc step_size land eq) k (x.t, ms.runge_kutta, g)).1
          (step_size eq
            (Nat.iterate (V031.first_step acc step_size land eq) k
              (x.t, ms.runge_kutta, g)).2.2)
          (Nat.iterate (V031.first_step acc step_size land eq) k
            (x.t, ms.runge_kutta, g)).2.2).ret = 0 ∧
        (land eq
          (Nat.iterate (V031.first_step acc step_size land eq) k (x.t, ms.runge_kutta, g)).1
          (Nat.iterate (V031.first_step acc step_size land eq) k (x.t, ms.runge_kutta, g)).1
          (step_size eq
            (Nat.iterate (V031.first_step acc step_size land eq) k
              (x.t, ms.runge_kutta, g)).2.2)
          (Nat.iterate (V031.first_step acc step_size land eq) k
            (x.t, ms.runge_kutta, g)).2.2).g
          = (Nat.iterate (V031.first_step acc step_size land eq) k
            (x.t, ms.runge_kutta, g)).2.2) →
      ∃ s : V031.FirstSteps K σ,
        V031.multi_steps_first L method_dt acc step_size land eq fuel (j + 1) ms g x steps
          = some (Sum.inr s) ∧
        (s.x.t, s.ms.runge_kutta, s.g)
          = Nat.iterate (V031.first_step acc step_size land eq) j (x.t, ms.runge_kutta, g) ∧
        (∃ new : List (V031.StepRecord K), s.steps = steps ++ new ∧ new.length = j ∧
          ∀ e ∈ new, e.kind = V031.StepKind.runge_kutta) ∧
        (∀ k, k < j →
          s.ms.method.r0 (j - k)
            = (Nat.iterate (V031.first_step acc step_size land eq) k
                (x.t, ms.runge_kutta, g)).2.2.r0 ∧
          s.ms.method.r1 (j - k)
            = (Nat.iterate (V031.first_step acc step_size land eq) k
                (x.t, ms.runge_kutta, g)).2.2.r1 ∧
          s.ms.method.r2 (j - k)
            = (Nat.iterate (V031.first_step acc step_size land eq) k
                (x.t, ms.runge_kutta, g)).2.2.r2) ∧
        (∀ q, q = 0 ∨ j < q →
          s.ms.method.r0 q = ms.method.r0 q ∧ s.ms.method.r1 q = ms.method.r1 q ∧
          s.ms.method.r2 q = ms.method.r2 q) := by
  intro j
  induction j with
  | zero =>
    intro fuel ms g x steps _ hf _ _
    obtain ⟨f, rfl⟩ : ∃ f, fuel = f + 1 := ⟨fuel - 1, by omega⟩
    refine ⟨⟨0, ms, g, x, steps⟩, V031.multi_steps_first_end L method_dt acc step_size land eq
      f ms g x steps, rfl, ⟨[], by simp, rfl, by simp⟩, fun k hk => by omega,
      fun q _ => ⟨rfl, rfl, rfl⟩⟩
  | succ j ih =>
    intro fuel ms g x steps hj hf he hland
    obtain ⟨f, rfl⟩ : ∃ f, fuel = f + 1 := ⟨fuel - 1, by omega⟩
    have h0 := hland 0 (by omega)
    simp only [Function.iterate_zero, id_eq] at h0
    rw [V031.multi_steps_first_step L method_dt acc step_size land eq f j ms g x steps hj he
      h0.1 h0.2]
    have he1 : (V031.first_step acc step_size land eq
        (x.t, ms.runge_kutta, g)).2.1.method.error_dt = 0 := by
      simp only [V031.first_step]
      rw [(V031.runge_kutta_step_frame acc _ eq _ _ _).2.2.2.2.2.1]
      exact he
    obtain ⟨s, hs, hst, ⟨new, hn1, hn2, hn3⟩, hslots, hframe⟩ := ih f
      { ms with
        method :=
          { ms.method with
            r0 := Function.update ms.method.r0 (j + 1) g.r0
            r1 := Function.update ms.method.r1 (j + 1) g.r1
            r2 := Function.update ms.method.r2 (j + 1) g.r2 }
        runge_kutta := (V031.first_step acc step_size land eq (x.t, ms.runge_kutta, g)).2.1 }
      (V031.first_step acc step_size land eq (x.t, ms.runge_kutta, g)).2.2
      { x with
        t_old := x.t
        t := (V031.first_step acc step_size land eq (x.t, ms.runge_kutta, g)).1
        dt := (land eq x.t x.t (step_size eq g) g).dt }
      (steps ++ [⟨V031.StepKind.runge_kutta, step_size eq g,
        (land eq x.t x.t (step_size eq g) g).dt⟩])
      (by omega) (by omega) he1
      (fun k hk => by
        have := hland (k + 1) (by omega)
        rw [Function.iterate_succ_apply] at this
        exact this)
    refine ⟨s, hs, ?_,
      ⟨(⟨V031.StepKind.runge_kutta, step_size eq g,
        (land eq x.t x.t (step_size eq g) g).dt⟩ : V031.StepRecord K) :: new, ?_, ?_, ?_⟩,
      ?_, ?_⟩
    · rw [Function.iterate_succ_apply]
      exact hst
    · rw [hn1, List.append_assoc]
      rfl
    · simp [hn2]
    · intro e he'
      rcases List.mem_cons.mp he' with rfl | he'
      · rfl
      · exact hn3 e he'
    · intro k hk
      rcases Nat.eq_zero_or_pos k with h0' | hpos
      · subst h0'
        have := hframe (j + 1) (Or.inr (by omega))
        simp only [Function.update_same] at this
        simpa using this
      · obtain ⟨k', rfl⟩ : ∃ k', k = k' + 1 := ⟨k - 1, by omega⟩
        have := hslots k' (by omega)
        rw [Function.iterate_succ_apply]
        have e : j + 1 - (k' + 1) = j - k' := by omega
        rw [e]
        exact this
    · intro q hq
      have hne : q ≠ j + 1 := by omega
      have := hframe q (by omega)
      simp only [ne_eq, hne, not_false_eq_true, Function.update_noteq] at this
      exact this

/-- An iteration of the loop of the first steps of src/multi-steps.c, without error control and without landing. -/
theorem V012.multi_steps_first_step_base (L : Libm K) (method_dt : Method K → K → K)
    (acc : ε → Vec3 K → Vec3 K → K → σ → Vec3 K × σ) (step_size : ε → Globals K σ → K)
    (land : ε → K → K → Globals K σ → LandResult K σ) (eq : ε)
    (fuel j : Nat) (ms : V031.MultiSteps K) (g : Globals K σ) (x : V031.RunVars K)
    (steps : List (V031.StepRecord K)) (hj : j + 2 < 2 ^ 32)
    (he : ms.method.error_dt = 0)
    (hl : (land eq x.t (step_size eq g) g).ret = 0)
    (hg : (land eq x.t (step_size eq g) g).g = g) :
    V012.multi_steps_first L method_dt acc step_size land eq (fuel + 1) (j + 2) ms g x steps
    = V012.multi_steps_first L method_dt acc step_size land eq fuel (j + 1)
        { ms with
          method :=
            { ms.method with
              r0 := Function.update ms.method.r0 (j + 1) g.r0
              r1 := Function.update ms.method.r1 (j + 1) g.r1
              r2 := Function.update ms.method.r2 (j + 1) g.r2 }
          runge_kutta := (V031.first_step acc step_size (fun e _ t dt gl => land e t dt gl) eq (x.t, ms.runge_kutta, g)).2.1 }
        (V031.first_step acc step_size (fun e _ t dt gl => land e t dt gl) eq (x.t, ms.runge_kutta, g)).2.2
        { x with
          t_old := x.t
          t := (V031.first_step acc step_size (fun e _ t dt gl => land e t dt gl) eq (x.t, ms.runge_kutta, g)).1
          dt := (land eq x.t (step_size eq g) g).dt }
        (steps ++ [⟨V031.StepKind.runge_kutta, step_size eq g,
          (land eq x.t (step_size eq g) g).dt⟩]) := by
  have hmod : (j + 2 + (2 ^ 32 - 1)) % 2 ^ 32 = j + 1 := by
    norm_num at hj ⊢
    omega
  rw [V012.multi_steps_first]
  simp only [hmod, he, ne_eq, not_true_eq_false, and_false, ite_false, Nat.succ_pos, ite_true,
    hl, V031.first_step, hg]

/-- The end of the loop of the first steps of src/multi-steps.c: the counter reaches 0. -/
theorem V012.multi_steps_first_end_base (L : Libm K) (method_dt : Method K → K → K)
    (acc : ε → Vec3 K → Vec3 K → K → σ → Vec3 K × σ) (step_size : ε → Globals K σ → K)
    (land : ε → K → K → Globals K σ → LandResult K σ) (eq : ε)
    (fuel : Nat) (ms : V031.MultiSteps K) (g : Globals K σ) (x : V031.RunVars K)
    (steps : List (V031.StepRecord K)) :
    V012.multi_steps_first L method_dt acc step_size land eq (fuel + 1) 1 ms g x steps
    = some (Sum.inr ⟨0, ms, g, x, steps⟩) := by
  rw [V012.multi_steps_first]
  simp

/-- The loop of the first steps of src/multi-steps.c from the counter `j + 1`, without error control and without
landing: it makes `j` Runge-Kutta steps; the slot `j - k` takes the registers reached after
`k` steps, for `k < j`, and the other slots stay. -/
theorem V012.multi_steps_first_run_base (L : Libm K) (method_dt : Method K → K → K)
    (acc : ε → Vec3 K → Vec3 K → K → σ → Vec3 K × σ) (step_size : ε → Globals K σ → K)
    (land : ε → K → K → Globals K σ → LandResult K σ) (eq : ε) :
    ∀ (j fuel : Nat) (ms : V031.MultiSteps K) (g : Globals K σ) (x : V031.RunVars K)
      (steps : List (V031.StepRecord K)),
      j + 1 < 2 ^ 32 → j + 1 ≤ fuel → ms.method.error_dt = 0 →
      (∀ k, k < j →
        (land eq
          (Nat.iterate (V031.first_step acc step_size (fun e _ t dt gl => land e t dt gl) eq) k
            (x.t, ms.runge_kutta, g)).1
          (step_size eq
            (Nat.iterate (V031.first_step acc step_size (fun e _ t dt gl => land e t dt gl) eq) k
              (x.t, ms.runge_kutta, g)).2.2)
          (Nat.iterate (V031.first_step acc step_size (fun e _ t dt gl => land e t dt gl) eq) k
            (x.t, ms.runge_kutta, g)).2.2).ret = 0 ∧
        (land eq
          (Nat.iterate (V031.first_step acc step_size (fun e _ t dt gl => land e t dt gl) eq) k
            (x.t, ms.runge_kutta, g)).1
          (step_size eq
            (Nat.iterate (V031.first_step acc step_size (fun e _ t dt gl => land e t dt gl) eq) k
              (x.t, ms.runge_kutta, g)).2.2)
          (Nat.iterate (V031.first_step acc step_size (fun e _ t dt gl => land e t dt gl) eq) k
            (x.t, ms.runge_kutta, g)).2.2).g
          = (Nat.iterate (V031.first_step acc step_size (fun e _ t dt gl => land e t dt gl) eq) k
            (x.t, ms.runge_kutta, g)).2.2) →
      ∃ s : V031.FirstSteps K σ,
        V012.multi_steps_first L method_dt acc step_size land eq fuel (j + 1) ms g x steps
          = some (Sum.inr s) ∧
        (s.x.t, s.ms.runge_kutta, s.g)
          = Nat.iterate (V031.first_step acc step_size (fun e _ t dt gl => land e t dt gl) eq) j (x.t, ms.runge_kutta, g) ∧
        (∃ new : List (V031.StepRecord K), s.steps = steps ++ new ∧ new.length = j ∧
          ∀ e ∈ new, e.kind = V031.StepKind.runge_kutta) ∧
        (∀ k, k < j →
          s.ms.method.r0 (j - k)
            = (Nat.iterate (V031.first_step acc step_size (fun e _ t dt gl => land e t dt gl) eq) k
                (x.t, ms.runge_kutta, g)).2.2.r0 ∧
          s.ms.method.r1 (j - k)
            = (Nat.iterate (V031.first_step acc step_size (fun e _ t dt gl => land e t dt gl) eq) k
                (x.t, ms.runge_kutta, g)).2.2.r1 ∧
          s.ms.method.r2 (j - k)
            = (Nat.iterate (V031.first_step acc step_size (fun e _ t dt gl => land e t dt gl) eq) k
                (x.t, ms.runge_kutta, g)).2.2.r2) ∧
        (∀ q, q = 0 ∨ j < q →
          s.ms.method.r0 q = ms.method.r0 q ∧ s.ms.method.r1 q = ms.method.r1 q ∧
          s.ms.method.r2 q = ms.method.r2 q) := by
  intro j
  induction j with
  | zero =>
    intro fuel ms g x steps _ hf _ _
    obtain ⟨f, rfl⟩ : ∃ f, fuel = f + 1 := ⟨fuel - 1, by omega⟩
    refine ⟨⟨0, ms, g, x, steps⟩, V012.multi_steps_first_end_base L method_dt acc step_size land eq
      f ms g x steps, rfl, ⟨[], by simp, rfl, by simp⟩, fun k hk => by omega,
      fun q _ => ⟨rfl, rfl, rfl⟩⟩
  | succ j ih =>
    intro fuel ms g x steps hj hf he hland
    obtain ⟨f, rfl⟩ : ∃ f, fuel = f + 1 := ⟨fuel - 1, by omega⟩
    have h0 := hland 0 (by omega)
    simp only [Function.iterate_zero, id_eq] at h0
    rw [V012.multi_steps_first_step_base L method_dt acc step_size land eq f j ms g x steps hj he
      h0.1 h0.2]
    obtain ⟨s, hs, hst, ⟨new, hn1, hn2, hn3⟩, hslots, hframe⟩ := ih f
      { ms with
        method :=
          { ms.method with
            r0 := Function.update ms.method.r0 (j + 1) g.r0
            r1 := Function.update ms.method.r1 (j + 1) g.r1
            r2 := Function.update ms.method.r2 (j + 1) g.r2 }
        runge_kutta := (V031.first_step acc step_size (fun e _ t dt gl => land e t dt gl) eq (x.t, ms.runge_kutta, g)).2.1 }
      (V031.first_step acc step_size (fun e _ t dt gl => land e t dt gl) eq (x.t, ms.runge_kutta, g)).2.2
      { x with
        t_old := x.t
        t := (V031.first_step acc step_size (fun e _ t dt gl => land e t dt gl) eq (x.t, ms.runge_kutta, g)).1
        dt := (land eq x.t (step_size eq g) g).dt }
      (steps ++ [⟨V031.StepKind.runge_kutta, step_size eq g,
        (land eq x.t (step_size eq g) g).dt⟩])
      (by omega) (by omega) he
      (fun k hk => by
        have := hland (k + 1) (by omega)
        rw [Function.iterate_succ_apply] at this
        exact this)
    refine ⟨s, hs, ?_,
      ⟨(⟨V031.StepKind.runge_kutta, step_size eq g,
        (land eq x.t (step_size eq g) g).dt⟩ : V031.StepRecord K) :: new, ?_, ?_, ?_⟩,
      ?_, ?_⟩
    · rw [Function.iterate_succ_apply]
      exact hst
    · rw [hn1, List.append_assoc]
      rfl
    · simp [hn2]
    · intro e he'
      rcases List.mem_cons.mp he' with rfl | he'
      · rfl
      · exact hn3 e he'
    · intro k hk
      rcases Nat.eq_zero_or_pos k with h0' | hpos
      · subst h0'
        have := hframe (j + 1) (Or.inr (by omega))
        simp only [Function.update_same] at this
        simpa using this
      · obtain ⟨k', rfl⟩ : ∃ k', k = k' + 1 := ⟨k - 1, by omega⟩
        have := hslots k' (by omega)
        rw [Function.iterate_succ_apply]
        have e : j + 1 - (k' + 1) = j - k' := by omega
        rw [e]
        exact this
    · intro q hq
      have hne : q ≠ j + 1 := by omega
      have := hframe q (by omega)
      simp only [ne_eq, hne, not_false_eq_true, Function.update_noteq] at this
      exact this

end first_steps

/-- Function `equation_land_0` does not change the globals. -/
theorem V110.equation_land_0_globals {K : Type} [LinearOrderedField K] {σ : Type}
    (eq : Equation K) (t_old t dt : K) (g : Globals K σ) :
    (V110.equation_land_0 eq t_old t dt g).g = g := by
  simp only [V110.equation_land_0]
  split_ifs <;> rfl

/-- The first steps of `multi_steps_run` of revision 0.3.1 with `j + 1` slots, without error
control and without landing: the run is the temporal loop from the state after `j`
Runge-Kutta steps. -/
theorem V031.multi_steps_run_first {K : Type} [LinearOrderedField K] {ε σ : Type}
    (L : Libm K) (method_dt : Method K → K → K)
    (acc : ε → Vec3 K → Vec3 K → K → σ → Vec3 K × σ) (step_size : ε → Globals K σ → K)
    (land : ε → K → K → K → Globals K σ → LandResult K σ) (eq : ε)
    (ms : V031.MultiSteps K) (j : Nat) (hj : ms.method.nsteps = j + 1) (hj32 : j + 1 < 2 ^ 32)
    (he : ms.runge_kutta.method.error_dt = 0) (g : Globals K σ) (x : V031.RunVars K)
    (fuel : Nat) (hf : j + 1 ≤ fuel)
    (hg : ∀ (t_old t dt : K) (gl : Globals K σ),
      (land eq t_old t dt gl).ret = 0 → (land eq t_old t dt gl).g = gl)
    (hland : ∀ k, k < j →
      (land eq
        (Nat.iterate (V031.first_step acc step_size land eq) k
          (0, ms.runge_kutta, { g with ro0 := g.r0, ro1 := g.r1, ro2 := g.r2 })).1
        (Nat.iterate (V031.first_step acc step_size land eq) k
          (0, ms.runge_kutta, { g with ro0 := g.r0, ro1 := g.r1, ro2 := g.r2 })).1
        (step_size eq
          (Nat.iterate (V031.first_step acc step_size land eq) k
            (0, ms.runge_kutta, { g with ro0 := g.r0, ro1 := g.r1, ro2 := g.r2 })).2.2)
        (Nat.iterate (V031.first_step acc step_size land eq) k
          (0, ms.runge_kutta, { g with ro0 := g.r0, ro1 := g.r1, ro2 := g.r2 })).2.2).ret
        = 0) :
    ∃ (ms1 : V031.MultiSteps K) (x1 : V031.RunVars K) (steps : List (V031.StepRecord K)),
      V031.multi_steps_run L method_dt acc step_size land eq fuel ms g x
        = V031.multi_steps_loop L method_dt acc step_size land eq fuel ms1
            (Nat.iterate (V031.first_step acc step_size land eq) j
              (0, ms.runge_kutta, { g with ro0 := g.r0, ro1 := g.r1, ro2 := g.r2 })).2.2
            x1 steps ∧
      steps.length = j ∧
      (∀ e ∈ steps, e.kind = V031.StepKind.runge_kutta) ∧
      x1.t = (Nat.iterate (V031.first_step acc step_size land eq) j
        (0, ms.runge_kutta, { g with ro0 := g.r0, ro1 := g.r1, ro2 := g.r2 })).1 ∧
      ms1.runge_kutta
        = (Nat.iterate (V031.first_step acc step_size land eq) j
          (0, ms.runge_kutta, { g with ro0 := g.r0, ro1 := g.r1, ro2 := g.r2 })).2.1 ∧
      (∀ k, k < j →
        ms1.method.r0 (j - k)
          = (Nat.iterate (V031.first_step acc step_size land eq) k
              (0, ms.runge_kutta, { g with ro0 := g.r0, ro1 := g.r1, ro2 := g.r2 })).2.2.r0 ∧
        ms1.method.r1 (j - k)
          = (Nat.iterate (V031.first_step acc step_size land eq) k
              (0, ms.runge_kutta, { g with ro0 := g.r0, ro1 := g.r1, ro2 := g.r2 })).2.2.r1 ∧
        ms1.method.r2 (j - k)
          = (Nat.iterate (V031.first_step acc step_size land eq) k
              (0, ms.runge_kutta, { g with ro0 := g.r0, ro1 := g.r1, ro2 := g.r2 })).2.2.r2) ∧
      ms1.method.r0 0
        = (Nat.iterate (V031.first_step acc step_size land eq) j
            (0, ms.runge_kutta, { g with ro0 := g.r0, ro1 := g.r1, ro2 := g.r2 })).2.2.r0 ∧
      ms1.method.r1 0
        = (Nat.iterate (V031.first_step acc step_size land eq) j
            (0, ms.runge_kutta, { g with ro0 := g.r0, ro1 := g.r1, ro2 := g.r2 })).2.2.r1 ∧
      ms1.method.r2 0
        = (Nat.iterate (V031.first_step acc step_size land eq) j
            (0, ms.runge_kutta, { g with ro0 := g.r0, ro1 := g.r1, ro2 := g.r2 })).2.2.r2 := by
  obtain ⟨s, hs, hst, ⟨new, hn1, hn2, hn3⟩, hslots, -⟩ :=
    V031.multi_steps_first_run L method_dt acc step_size land eq j fuel ms
      { g with ro0 := g.r0, ro1 := g.r1, ro2 := g.r2 } { x with t := 0 } []
      hj32 hf he
      (fun k hk => by
        have h1 := hland k hk
        exact ⟨h1, hg _ _ _ _ h1⟩)
  simp only [List.nil_append] at hn1
  have hrun : V031.multi_steps_run L method_dt acc step_size land eq fuel ms g x
      = V031.multi_steps_loop L method_dt acc step_size land eq fuel
          { s.ms with
            method :=
              { s.ms.method with
                r0 := Function.update s.ms.method.r0 0 s.g.r0
                r1 := Function.update s.ms.method.r1 0 s.g.r1
                r2 := Function.update s.ms.method.r2 0 s.g.r2
                et0 := s.ms.runge_kutta.method.et0
                et1 := s.ms.runge_kutta.method.et1 } }
          s.g s.x s.steps := by
    unfold V031.multi_steps_run
    rw [hj, hs]
  have hg' : s.g = (Nat.iterate (V031.first_step acc step_size land eq) j
      (0, ms.runge_kutta, { g with ro0 := g.r0, ro1 := g.r1, ro2 := g.r2 })).2.2 :=
    congrArg (fun p => p.2.2) hst
  have hrk' : s.ms.runge_kutta = (Nat.iterate (V031.first_step acc step_size land eq) j
      (0, ms.runge_kutta, { g with ro0 := g.r0, ro1 := g.r1, ro2 := g.r2 })).2.1 :=
    congrArg (fun p => p.2.1) hst
  have ht' : s.x.t = (Nat.iterate (V031.first_step acc step_size land eq) j
      (0, ms.runge_kutta, { g with ro0 := g.r0, ro1 := g.r1, ro2 := g.r2 })).1 :=
    congrArg (fun p => p.1) hst
  rw [← hg', ← hrk', ← ht']
  refine ⟨{ s.ms with
      method :=
        { s.ms.method with
          r0 := Function.update s.ms.method.r0 0 s.g.r0
          r1 := Function.update s.ms.method.r1 0 s.g.r1
          r2 := Function.update s.ms.method.r2 0 s.g.r2
          et0 := s.ms.runge_kutta.method.et0
          et1 := s.ms.runge_kutta.method.et1 } },
    s.x, s.steps, hrun, by rw [hn1]; exact hn2,
    fun e he' => hn3 e (hn1 ▸ he'), rfl, rfl, fun k hk => ?_, ?_, ?_, ?_⟩
  · have hne : j - k ≠ 0 := by omega
    have := hslots k hk
    simp only [ne_eq, hne, not_false_eq_true, Function.update_noteq]
    exact this
  · simp only [Function.update_same]
  · simp only [Function.update_same]
  · simp only [Function.update_same]

/-- The first steps of `multi_steps_run` of src/multi-steps.c with `j + 1` slots, without
error control and without landing: the run is the temporal loop from the state after `j`
Runge-Kutta steps; `equation_land (eq, &t, &dt)` is called with the time of the state. -/
theorem V012.multi_steps_run_first_base {K : Type} [LinearOrderedField K] {ε σ : Type}
    (L : Libm K) (method_dt : Method K → K → K)
    (acc : ε → Vec3 K → Vec3 K → K → σ → Vec3 K × σ) (step_size : ε → Globals K σ → K)
    (land : ε → K → K → K → Globals K σ → LandResult K σ) (eq : ε)
    (ms : V031.MultiSteps K) (j : Nat) (hj : ms.method.nsteps = j + 1) (hj32 : j + 1 < 2 ^ 32)
    (he : ms.method.error_dt = 0) (g : Globals K σ) (x : V031.RunVars K)
    (fuel : Nat) (hf : j + 1 ≤ fuel)
    (hg : ∀ (t_old t dt : K) (gl : Globals K σ),
      (land eq t_old t dt gl).ret = 0 → (land eq t_old t dt gl).g = gl)
    (hland : ∀ k, k < j →
      (land eq
        (Nat.iterate (V031.first_step acc step_size land eq) k
          (0, ms.runge_kutta, { g with ro0 := g.r0, ro1 := g.r1, ro2 := g.r2 })).1
        (Nat.iterate (V031.first_step acc step_size land eq) k
          (0, ms.runge_kutta, { g with ro0 := g.r0, ro1 := g.r1, ro2 := g.r2 })).1
        (step_size eq
          (Nat.iterate (V031.first_step acc step_size land eq) k
            (0, ms.runge_kutta, { g with ro0 := g.r0, ro1 := g.r1, ro2 := g.r2 })).2.2)
        (Nat.iterate (V031.first_step acc step_size land eq) k
          (0, ms.runge_kutta, { g with ro0 := g.r0, ro1 := g.r1, ro2 := g.r2 })).2.2).ret
        = 0) :
    ∃ (ms1 : V031.MultiSteps K) (x1 : V031.RunVars K) (steps : List (V031.StepRecord K)),
      V012.multi_steps_run L method_dt acc step_size (fun e t dt gl => land e t t dt gl) eq fuel ms g x
        = V012.multi_steps_loop L method_dt acc step_size (fun e t dt gl => land e t t dt gl) eq fuel ms1
            (Nat.iterate (V031.first_step acc step_size land eq) j
              (0, ms.runge_kutta, { g with ro0 := g.r0, ro1 := g.r1, ro2 := g.r2 })).2.2
            x1 steps ∧
      steps.length = j ∧
      (∀ e ∈ steps, e.kind = V031.StepKind.runge_kutta) ∧
      x1.t = (Nat.iterate (V031.first_step acc step_size land eq) j
        (0, ms.runge_kutta, { g with ro0 := g.r0, ro1 := g.r1, ro2 := g.r2 })).1 ∧
      ms1.runge_kutta
        = (Nat.iterate (V031.first_step acc step_size land eq) j
          (0, ms.runge_kutta, { g with ro0 := g.r0, ro1 := g.r1, ro2 := g.r2 })).2.1 ∧
      (∀ k, k < j →
        ms1.method.r0 (j - k)
          = (Nat.iterate (V031.first_step acc step_size land eq) k
              (0, ms.runge_kutta, { g with ro0 := g.r0, ro1 := g.r1, ro2 := g.r2 })).2.2.r0 ∧
        ms1.method.r1 (j - k)
          = (Nat.iterate (V031.first_step acc step_size land eq) k
              (0, ms.runge_kutta, { g with ro0 := g.r0, ro1 := g.r1, ro2 := g.r2 })).2.2.r1 ∧
        ms1.method.r2 (j - k)
          = (Nat.iterate (V031.first_step acc step_size land eq) k
              (0, ms.runge_kutta, { g with ro0 := g.r0, ro1 := g.r1, ro2 := g.r2 })).2.2.r2) ∧
      ms1.method.r0 0
        = (Nat.iterate (V031.first_step acc step_size land eq) j
            (0, ms.runge_kutta, { g with ro0 := g.r0, ro1 := g.r1, ro2 := g.r2 })).2.2.r0 ∧
      ms1.method.r1 0
        = (Nat.iterate (V031.first_step acc step_size land eq) j
            (0, ms.runge_kutta, { g with ro0 := g.r0, ro1 := g.r1, ro2 := g.r2 })).2.2.r1 ∧
      ms1.method.r2 0
        = (Nat.iterate (V031.first_step acc step_size land eq) j
            (0, ms.runge_kutta, { g with ro0 := g.r0, ro1 := g.r1, ro2 := g.r2 })).2.2.r2 := by
  have hfs : V031.first_step acc step_size
      (fun e _ t dt gl => (fun e t dt gl => land e t t dt gl) e t dt gl) eq
      = V031.first_step acc step_size land eq := rfl
  have hlands := V012.multi_steps_first_run_base L method_dt acc step_size
    (fun e t dt gl => land e t t dt gl) eq j fuel ms
    { g with ro0 := g.r0, ro1 := g.r1, ro2 := g.r2 } { x with t := 0 } [] hj32 hf he
  rw [hfs] at hlands
  obtain ⟨s, hs, hst, ⟨new, hn1, hn2, hn3⟩, hslots, -⟩ := hlands
    (fun k hk => by
      have h1 := hland k hk
      exact ⟨h1, hg _ _ _ _ h1⟩)
  simp only [List.nil_append] at hn1
  have hrun : V012.multi_steps_run L method_dt acc step_size
        (fun e t dt gl => land e t t dt gl) eq fuel ms g x
      = V012.multi_steps_loop L method_dt acc step_size
          (fun e t dt gl => land e t t dt gl) eq fuel
          { s.ms with
            method :=
              { s.ms.method with
                r0 := Function.update s.ms.method.r0 0 s.g.r0
                r1 := Function.update s.ms.method.r1 0 s.g.r1
                r2 := Function.update s.ms.method.r2 0 s.g.r2 } }
          s.g s.x s.steps := by
    unfold V012.multi_steps_run
    rw [hj, hs]
  have hg' : s.g = (Nat.iterate (V031.first_step acc step_size land eq) j
      (0, ms.runge_kutta, { g with ro0 := g.r0, ro1 := g.r1, ro2 := g.r2 })).2.2 :=
    congrArg (fun p => p.2.2) hst
  have hrk' : s.ms.runge_kutta = (Nat.iterate (V031.first_step acc step_size land eq) j
      (0, ms.runge_kutta, { g with ro0 := g.r0, ro1 := g.r1, ro2 := g.r2 })).2.1 :=
    congrArg (fun p => p.2.1) hst
  have ht' : s.x.t = (Nat.iterate (V031.first_step acc step_size land eq) j
      (0, ms.runge_kutta, { g with ro0 := g.r0, ro1 := g.r1, ro2 := g.r2 })).1 :=
    congrArg (fun p => p.1) hst
  rw [← hg', ← hrk', ← ht']
  refine ⟨{ s.ms with
      method :=
        { s.ms.method with
          r0 := Function.update s.ms.method.r0 0 s.g.r0
          r1 := Function.update s.ms.method.r1 0 s.g.r1
          r2 := Function.update s.ms.method.r2 0 s.g.r2 } },
    s.x, s.steps, hrun, by rw [hn1]; exact hn2,
    fun e he' => hn3 e (hn1 ▸ he'), rfl, rfl, fun k hk => ?_, ?_, ?_, ?_⟩
  · have hne : j - k ≠ 0 := by omega
    have := hslots k hk
    simp only [ne_eq, hne, not_false_eq_true, Function.update_noteq]
    exact this
  · simp only [Function.update_same]
  · simp only [Function.update_same]
  · simp only [Function.update_same]

/-- C25: for the multi-steps method of order 2 or 3 (`n = 3` or `n = 4` slots), without error
control and when `equation_land` finds no landing at the `n - 1` first checks (and then
leaves the globals as they are), `multi_steps_run` (src/0.3.1/multi-steps.c and
src/multi-steps.c) makes exactly `n - 1` Runge-Kutta steps and then enters the temporal loop,
where the first step of the multi-steps formula can be made; at that point the slot
`n - 1 - k` holds the registers `(r, v, a)` reached after `k` Runge-Kutta steps, for
`k = 0 .. n - 2`, and the slot 0 and the registers hold the state reached after `n - 1`
steps.  The error control of the first steps is the field `error_dt` of the Runge-Kutta
method in revision 0.3.1 and of the multi-steps method in src/multi-steps.c. -/
theorem multi_steps_run_first_steps {K : Type} [LinearOrderedField K] {ε σ : Type}
    (L : Libm K) (method_dt : Method K → K → K)
    (acc : ε → Vec3 K → Vec3 K → K → σ → Vec3 K × σ) (step_size : ε → Globals K σ → K)
    (land : ε → K → K → K → Globals K σ → LandResult K σ) (eq : ε)
    (ms0 ms : V031.MultiSteps K) (order : Nat)
    (hinit : V031.multi_steps_init ms0 order = some ms) (g : Globals K σ) (x : V031.RunVars K)
    (fuel : Nat) (hf : ms.method.nsteps ≤ fuel)
    (hg : ∀ (t_old t dt : K) (gl : Globals K σ),
      (land eq t_old t dt gl).ret = 0 → (land eq t_old t dt gl).g = gl)
    (hland : ∀ k, k < (ms.method.nsteps - 1) →
      (land eq
        (Nat.iterate (V031.first_step acc step_size land eq) k
          (0, ms.runge_kutta, { g with ro0 := g.r0, ro1 := g.r1, ro2 := g.r2 })).1
        (Nat.iterate (V031.first_step acc step_size land eq) k
          (0, ms.runge_kutta, { g with ro0 := g.r0, ro1 := g.r1, ro2 := g.r2 })).1
        (step_size eq
          (Nat.iterate (V031.first_step acc step_size land eq) k
            (0, ms.runge_kutta, { g with ro0 := g.r0, ro1 := g.r1, ro2 := g.r2 })).2.2)
        (Nat.iterate (V031.first_step acc step_size land eq) k
          (0, ms.runge_kutta, { g with ro0 := g.r0, ro1 := g.r1, ro2 := g.r2 })).2.2).ret
        = 0) :
    ms.method.nsteps = order + 1 ∧ (order = 2 ∨ order = 3) ∧
    (ms.runge_kutta.method.error_dt = 0 →
      ∃ (ms1 : V031.MultiSteps K) (x1 : V031.RunVars K) (steps : List (V031.StepRecord K)),
        V031.multi_steps_run L method_dt acc step_size land eq fuel ms g x
          = V031.multi_steps_loop L method_dt acc step_size land eq fuel ms1
              (Nat.iterate (V031.first_step acc step_size land eq) (ms.method.nsteps - 1)
                (0, ms.runge_kutta, { g with ro0 := g.r0, ro1 := g.r1, ro2 := g.r2 })).2.2
              x1 steps ∧
        steps.length = (ms.method.nsteps - 1) ∧
        (∀ e ∈ steps, e.kind = V031.StepKind.runge_kutta) ∧
        x1.t = (Nat.iterate (V031.first_step acc step_size land eq) (ms.method.nsteps - 1)
          (0, ms.runge_kutta, { g with ro0 := g.r0, ro1 := g.r1, ro2 := g.r2 })).1 ∧
        ms1.runge_kutta
          = (Nat.iterate (V031.first_step acc step_size land eq) (ms.method.nsteps - 1)
            (0, ms.runge_kutta, { g with ro0 := g.r0, ro1 := g.r1, ro2 := g.r2 })).2.1 ∧
        (∀ k, k < (ms.method.nsteps - 1) →
          ms1.method.r0 ((ms.method.nsteps - 1) - k)
            = (Nat.iterate (V031.first_step acc step_size land eq) k
                (0, ms.runge_kutta, { g with ro0 := g.r0, ro1 := g.r1, ro2 := g.r2 })).2.2.r0 ∧
          ms1.method.r1 ((ms.method.nsteps - 1) - k)
            = (Nat.iterate (V031.first_step acc step_size land eq) k
                (0, ms.runge_kutta, { g with ro0 := g.r0, ro1 := g.r1, ro2 := g.r2 })).2.2.r1 ∧
          ms1.method.r2 ((ms.method.nsteps - 1) - k)
            = (Nat.iterate (V031.first_step acc step_size land eq) k
                (0, ms.runge_kutta, { g with ro0 := g.r0, ro1 := g.r1, ro2 := g.r2 })).2.2.r2) ∧
        ms1.method.r0 0
          = (Nat.iterate (V031.first_step acc step_size land eq) (ms.method.nsteps - 1)
              (0, ms.runge_kutta, { g with ro0 := g.r0, ro1 := g.r1, ro2 := g.r2 })).2.2.r0 ∧
        ms1.method.r1 0
          = (Nat.iterate (V031.first_step acc step_size land eq) (ms.method.nsteps - 1)
              (0, ms.runge_kutta, { g with ro0 := g.r0, ro1 := g.r1, ro2 := g.r2 })).2.2.r1 ∧
        ms1.method.r2 0
          = (Nat.iterate (V031.first_step acc step_size land eq) (ms.method.nsteps - 1)
              (0, ms.runge_kutta, { g with ro0 := g.r0, ro1 := g.r1, ro2 := g.r2 })).2.2.r2) ∧
    (ms.method.error_dt = 0 →
      ∃ (ms1 : V031.MultiSteps K) (x1 : V031.RunVars K) (steps : List (V031.StepRecord K)),
        V012.multi_steps_run L method_dt acc step_size (fun e t dt gl => land e t t dt gl) eq fuel ms g x
          = V012.multi_steps_loop L method_dt acc step_size (fun e t dt gl => land e t t dt gl) eq fuel ms1
              (Nat.iterate (V031.first_step acc step_size land eq) (ms.method.nsteps - 1)
                (0, ms.runge_kutta, { g with ro0 := g.r0, ro1 := g.r1, ro2 := g.r2 })).2.2
              x1 steps ∧
        steps.length = (ms.method.nsteps - 1) ∧
        (∀ e ∈ steps, e.kind = V031.StepKind.runge_kutta) ∧
        x1.t = (Nat.iterate (V031.first_step acc step_size land eq) (ms.method.nsteps - 1)
          (0, ms.runge_kutta, { g with ro0 := g.r0, ro1 := g.r1, ro2 := g.r2 })).1 ∧
        ms1.runge_kutta
          = (Nat.iterate (V031.first_step acc step_size land eq) (ms.method.nsteps - 1)
            (0, ms.runge_kutta, { g with ro0 := g.r0, ro1 := g.r1, ro2 := g.r2 })).2.1 ∧
        (∀ k, k < (ms.method.nsteps - 1) →
          ms1.method.r0 ((ms.method.nsteps - 1) - k)
            = (Nat.iterate (V031.first_step acc step_size land eq) k
                (0, ms.runge_kutta, { g with ro0 := g.r0, ro1 := g.r1, ro2 := g.r2 })).2.2.r0 ∧
          ms1.method.r1 ((ms.method.nsteps - 1) - k)
            = (Nat.iterate (V031.first_step acc step_size land eq) k
                (0, ms.runge_kutta, { g with ro0 := g.r0, ro1 := g.r1, ro2 := g.r2 })).2.2.r1 ∧
          ms1.method.r2 ((ms.method.nsteps - 1) - k)
            = (Nat.iterate (V031.first_step acc step_size land eq) k
                (0, ms.runge_kutta, { g with ro0 := g.r0, ro1 := g.r1, ro2 := g.r2 })).2.2.r2) ∧
        ms1.method.r0 0
          = (Nat.iterate (V031.first_step acc step_size land eq) (ms.method.nsteps - 1)
              (0, ms.runge_kutta, { g with ro0 := g.r0, ro1 := g.r1, ro2 := g.r2 })).2.2.r0 ∧
        ms1.method.r1 0
          = (Nat.iterate (V031.first_step acc step_size land eq) (ms.method.nsteps - 1)
              (0, ms.runge_kutta, { g with ro0 := g.r0, ro1 := g.r1, ro2 := g.r2 })).2.2.r1 ∧
        ms1.method.r2 0
          = (Nat.iterate (V031.first_step acc step_size land eq) (ms.method.nsteps - 1)
              (0, ms.runge_kutta, { g with ro0 := g.r0, ro1 := g.r1, ro2 := g.r2 })).2.2.r2) := by
  have hn : ms.method.nsteps = order + 1 ∧ (order = 2 ∨ order = 3) := by
    unfold V031.multi_steps_init at hinit
    split at hinit
    · simp only [Option.some.injEq] at hinit
      subst hinit
      exact ⟨rfl, Or.inl rfl⟩
    · simp only [Option.some.injEq] at hinit
      subst hinit
      exact ⟨rfl, Or.inr rfl⟩
    · simp only [reduceCtorEq] at hinit
  have hj32 : order + 1 < 2 ^ 32 := by
    rcases hn.2 with h | h <;> subst h <;> norm_num
  have hjs : ms.method.nsteps - 1 = order := by omega
  rw [hjs] at hland ⊢
  exact ⟨hn.1, hn.2,
    fun he => V031.multi_steps_run_first L method_dt acc step_size land eq ms order hn.1 hj32
      he g x fuel (by omega) hg hland,
    fun he => V012.multi_steps_run_first_base L method_dt acc step_size land eq ms order hn.1 hj32
      he g x fuel (by omega) hg hland⟩

/-- C25 on the second order multi-steps method (three slots) with the quadratic drag and the
step size of the stability condition, over the rationals: in both revisions two Runge-Kutta
steps are made before the temporal loop, and the slot 2 holds the registers of the launch. -/
theorem multi_steps_run_first_steps_witness :
    (∃ (ms1 : V031.MultiSteps ℚ) (x1 : V031.RunVars ℚ) (steps : List (V031.StepRecord ℚ)),
      V031.multi_steps_run sample_libm (fun _ dt => dt) V110.equation_acceleration_2
          V110.equation_step_size_2 V110.equation_land_0 (sample_drag_equation : Equation ℚ)
          10 sample_multi_steps sample_drag_globals ⟨0, 0, 0, 0, 0, 0⟩
        = V031.multi_steps_loop sample_libm (fun _ dt => dt) V110.equation_acceleration_2
            V110.equation_step_size_2 V110.equation_land_0 (sample_drag_equation : Equation ℚ)
            10 ms1
            (Nat.iterate
              (V031.first_step V110.equation_acceleration_2 V110.equation_step_size_2
                V110.equation_land_0 (sample_drag_equation : Equation ℚ)) 2
              (0, (sample_multi_steps : V031.MultiSteps ℚ).runge_kutta,
                { (sample_drag_globals : Globals ℚ Nat) with
                  ro0 := (sample_drag_globals : Globals ℚ Nat).r0
                  ro1 := (sample_drag_globals : Globals ℚ Nat).r1
                  ro2 := (sample_drag_globals : Globals ℚ Nat).r2 })).2.2
            x1 steps ∧
      steps.length = 2 ∧
      ms1.method.r0 2 = (sample_drag_globals : Globals ℚ Nat).r0) ∧
    (∃ (ms1 : V031.MultiSteps ℚ) (x1 : V031.RunVars ℚ) (steps : List (V031.StepRecord ℚ)),
      V012.multi_steps_run sample_libm (fun _ dt => dt) V110.equation_acceleration_2
          V110.equation_step_size_2 (fun e t dt gl => V110.equation_land_0 e t t dt gl)
          (sample_drag_equation : Equation ℚ)
          10 sample_multi_steps sample_drag_globals ⟨0, 0, 0, 0, 0, 0⟩
        = V012.multi_steps_loop sample_libm (fun _ dt => dt) V110.equation_acceleration_2
            V110.equation_step_size_2 (fun e t dt gl => V110.equation_land_0 e t t dt gl)
            (sample_drag_equation : Equation ℚ)
            10 ms1
            (Nat.iterate
              (V031.first_step V110.equation_acceleration_2 V110.equation_step_size_2
                V110.equation_land_0 (sample_drag_equation : Equation ℚ)) 2
              (0, (sample_multi_steps : V031.MultiSteps ℚ).runge_kutta,
                { (sample_drag_globals : Globals ℚ Nat) with
                  ro0 := (sample_drag_globals : Globals ℚ Nat).r0
                  ro1 := (sample_drag_globals : Globals ℚ Nat).r1
                  ro2 := (sample_drag_globals : Globals ℚ Nat).r2 })).2.2
            x1 steps ∧
      steps.length = 2 ∧
      ms1.method.r0 2 = (sample_drag_globals : Globals ℚ Nat).r0) := by
  have hland : ∀ k, k < (sample_multi_steps : V031.MultiSteps ℚ).method.nsteps - 1 →
      (V110.equation_land_0 (sample_drag_equation : Equation ℚ)
        (Nat.iterate
          (V031.first_step V110.equation_acceleration_2 V110.equation_step_size_2
            V110.equation_land_0 (sample_drag_equation : Equation ℚ)) k
          (0, (sample_multi_steps : V031.MultiSteps ℚ).runge_kutta,
            { (sample_drag_globals : Globals ℚ Nat) with
              ro0 := (sample_drag_globals : Globals ℚ Nat).r0
              ro1 := (sample_drag_globals : Globals ℚ Nat).r1
              ro2 := (sample_drag_globals : Globals ℚ Nat).r2 })).1
        (Nat.iterate
          (V031.first_step V110.equation_acceleration_2 V110.equation_step_size_2
            V110.equation_land_0 (sample_drag_equation : Equation ℚ)) k
          (0, (sample_multi_steps : V031.MultiSteps ℚ).runge_kutta,
            { (sample_drag_globals : Globals ℚ Nat) with
              ro0 := (sample_drag_globals : Globals ℚ Nat).r0
              ro1 := (sample_drag_globals : Globals ℚ Nat).r1
              ro2 := (sample_drag_globals : Globals ℚ Nat).r2 })).1
        (V110.equation_step_size_2 (sample_drag_equation : Equation ℚ)
          (Nat.iterate
            (V031.first_step V110.equation_acceleration_2 V110.equation_step_size_2
              V110.equation_land_0 (sample_drag_equation : Equation ℚ)) k
            (0, (sample_multi_steps : V031.MultiSteps ℚ).runge_kutta,
              { (sample_drag_globals : Globals ℚ Nat) with
                ro0 := (sample_drag_globals : Globals ℚ Nat).r0
                ro1 := (sample_drag_globals : Globals ℚ Nat).r1
                ro2 := (sample_drag_globals : Globals ℚ Nat).r2 })).2.2)
        (Nat.iterate
          (V031.first_step V110.equation_acceleration_2 V110.equation_step_size_2
            V110.equation_land_0 (sample_drag_equation : Equation ℚ)) k
          (0, (sample_multi_steps : V031.MultiSteps ℚ).runge_kutta,
            { (sample_drag_globals : Globals ℚ Nat) with
              ro0 := (sample_drag_globals : Globals ℚ Nat).r0
              ro1 := (sample_drag_globals : Globals ℚ Nat).r1
              ro2 := (sample_drag_globals : Globals ℚ Nat).r2 })).2.2).ret = 0 := by
    intro k hk
    have hk2 : k < 2 := hk
    interval_cases k
    · set_option maxRecDepth 1000000 in with_unfolding_all decide
    · set_option maxRecDepth 1000000 in with_unfolding_all decide
  have h := (multi_steps_run_first_steps sample_libm (fun _ dt => dt)
    V110.equation_acceleration_2 V110.equation_step_size_2 V110.equation_land_0
    (sample_drag_equation : Equation ℚ) sample_multi_steps sample_multi_steps 2 rfl
    sample_drag_globals ⟨0, 0, 0, 0, 0, 0⟩ 10 (by decide)
    (fun t_old t dt gl _ => V110.equation_land_0_globals _ t_old t dt gl) hland).2.2
  obtain ⟨ms1, x1, steps, h1, h2, -, -, -, h6, -⟩ := h.1 rfl
  obtain ⟨ms2, x2, steps2, k1, k2, -, -, -, k6, -⟩ := h.2 rfl
  exact ⟨⟨ms1, x1, steps, h1, h2, (h6 0 (by decide)).1⟩,
    ⟨ms2, x2, steps2, k1, k2, (k6 0 (by decide)).1⟩⟩

/-! ## C26: the number of steps of a run with a fixed step size -/

section fixed
variable {K : Type} [LinearOrderedField K] [FloorRing K]

/-- The number of steps left after a step that does not reach the final time, and after the
step that reaches it. -/
theorem ceil_steps_left (tf t dt : K) (hdt : 0 < dt) (j : Nat)
    (hj : ⌈(tf - t) / dt⌉₊ = j + 1) :
    t < tf ∧ ⌈(tf - min (t + dt) tf) / dt⌉₊ = j ∧ (1 ≤ j → min (t + dt) tf = t + dt) := by
  have hpos : 0 < (tf - t) / dt := by
    have : 0 < ⌈(tf - t) / dt⌉₊ := by omega
    exact Nat.ceil_pos.mp this
  have hlt : t < tf := by
    have := (div_pos_iff_of_pos_right hdt).mp hpos
    linarith
  rcases le_total (t + dt) tf with hc | hc
  · rw [min_eq_left hc]
    have e : (tf - t) / dt = (tf - (t + dt)) / dt + 1 := by
      field_simp
      ring
    have hb : 0 ≤ (tf - (t + dt)) / dt := div_nonneg (by linarith) hdt.le
    refine ⟨hlt, ?_, fun _ => rfl⟩
    rw [e, Nat.ceil_add_one hb] at hj
    omega
  · rw [min_eq_right hc, sub_self, zero_div, Nat.ceil_zero]
    have h1 : (tf - t) / dt ≤ 1 := by
      rw [div_le_one hdt]
      linarith
    have h2 : ⌈(tf - t) / dt⌉₊ ≤ 1 := by
      have := Nat.ceil_le.mpr (by simpa using h1 : (tf - t) / dt ≤ ((1 : ℕ) : K))
      exact this
    have hj0 : j = 0 := by omega
    refine ⟨hlt, hj0.symm, fun h => ?_⟩
    omega

/-- The loop with a fixed step size and the final time as the end, `j` steps before the final
time: it makes `j` iterations with a step and ends at the next one, at the time `tf`. -/
theorem V031.runge_kutta_loop_fixed {σ : Type} (L : Libm K) (method_dt : Method K → K → K)
    (acc : Equation K → Vec3 K → Vec3 K → K → σ → Vec3 K × σ) (eq : Equation K) (dt : K)
    (hdt : 0 < dt) :
    ∀ (j k : Nat) (rk : V031.RungeKutta K) (g : Globals K σ) (x : V031.RunVars K),
      rk.method.error_dt = 0 → g.dt = dt → x.t ≤ eq.tf → (1 ≤ j → x.t = k * dt) →
      ⌈(eq.tf - x.t) / dt⌉₊ = j →
      (∀ fuel, fuel ≤ j →
        V031.runge_kutta_loop L method_dt acc V110.equation_step_size_0 V110.equation_land_0 eq
          fuel rk g x = none) ∧
      (∀ fuel, j < fuel →
        V031.runge_kutta_loop L method_dt acc V110.equation_step_size_0 V110.equation_land_0 eq
          fuel rk g x
        = some (eq.tf, V031.runge_kutta_steps acc eq dt eq.tf j k (rk, g))) := by
  intro j
  induction j with
  | zero =>
    intro k rk g x he _ hle _ hj
    have h0 : (eq.tf - x.t) / dt ≤ 0 := Nat.ceil_eq_zero.mp hj
    have h1 : eq.tf ≤ x.t := by
      have := (div_le_iff₀ hdt).mp h0
      linarith
    have ht : x.t = eq.tf := le_antisymm hle h1
    refine ⟨fun fuel hf => ?_, fun fuel hf => ?_⟩
    · have : fuel = 0 := by omega
      subst this
      rfl
    · obtain ⟨f, rfl⟩ : ∃ f, fuel = f + 1 := ⟨fuel - 1, by omega⟩
      rw [V031.runge_kutta_loop_end L method_dt acc eq f rk g x he h1, ht]
      rfl
  | succ j ih =>
    intro k rk g x he hg hle hk hj
    obtain ⟨hlt, hj', hmin⟩ := ceil_steps_left eq.tf x.t dt hdt j hj
    have hxt : x.t = k * dt := hk (by omega)
    have fr := V031.runge_kutta_step_frame acc rk eq x.t (min g.dt (eq.tf - x.t))
      { g with ro0 := g.r0, ro1 := g.r1, ro2 := g.r2 }
    obtain ⟨-, -, -, -, -, f6, -, -, -, -, f11⟩ := fr
    have hnext := ih (k + 1)
      (V031.runge_kutta_step acc rk eq x.t (min g.dt (eq.tf - x.t))
        { g with ro0 := g.r0, ro1 := g.r1, ro2 := g.r2 }).1
      (V031.runge_kutta_step acc rk eq x.t (min g.dt (eq.tf - x.t))
        { g with ro0 := g.r0, ro1 := g.r1, ro2 := g.r2 }).2
      { x with t_old := x.t, t := min (x.t + g.dt) eq.tf, dt := min g.dt (eq.tf - x.t) }
      (f6.trans he) (f11.trans hg) (min_le_right _ _)
      (fun h => by
        show min (x.t + g.dt) eq.tf = ((k + 1 : ℕ) : K) * dt
        rw [hg, hmin h, hxt]
        push_cast
        ring)
      (by
        show ⌈(eq.tf - min (x.t + g.dt) eq.tf) / dt⌉₊ = j
        rw [hg]
        exact hj')
    refine ⟨fun fuel hf => ?_, fun fuel hf => ?_⟩
    · rcases Nat.eq_zero_or_pos fuel with h0 | hpos
      · subst h0
        rfl
      · obtain ⟨f, rfl⟩ : ∃ f, fuel = f + 1 := ⟨fuel - 1, by omega⟩
        rw [V031.runge_kutta_loop_step L method_dt acc eq f rk g x he hlt]
        exact hnext.1 f (by omega)
    · obtain ⟨f, rfl⟩ : ∃ f, fuel = f + 1 := ⟨fuel - 1, by omega⟩
      rw [V031.runge_kutta_loop_step L method_dt acc eq f rk g x he hlt, hnext.2 f (by omega)]
      simp only [V031.runge_kutta_steps, hg, hxt]

/-- The sizes of the steps of a run with the fixed step size `dt` up to `tf`: `dt` before the
last one, and what is left to `tf` for the last one. -/
theorem fixed_step_sizes (tf dt : K) (hdt : 0 < dt) :
    (∀ k : Nat, k + 1 < ⌈tf / dt⌉₊ → min dt (tf - k * dt) = dt) ∧
    (∀ k : Nat, k + 1 = ⌈tf / dt⌉₊ → min dt (tf - k * dt) = tf - k * dt) := by
  refine ⟨fun k hk => ?_, fun k hk => ?_⟩
  · have h1 : ((k + 1 : ℕ) : K) < tf / dt := Nat.lt_ceil.mp hk
    have h2 := (lt_div_iff₀ hdt).mp h1
    push_cast at h2
    exact min_eq_left (by linarith)
  · have h1 : tf / dt ≤ ((k + 1 : ℕ) : K) := by
      rw [hk]
      exact Nat.le_ceil _
    have h2 := (div_le_iff₀ hdt).mp h1
    push_cast at h2
    exact min_eq_right (by linarith)

end fixed

/-- C26: with the final time as the end (`equation_land_0`), a fixed step `dt > 0`
(`equation_step_size_0`), no error control and `tf >= 0`, `runge_kutta_run` makes exactly
`N = ceil (tf / dt)` iterations with a Runge-Kutta step and ends at the next one: a bound of
`N` iterations or less is reached before the end, and with a larger bound the run returns
`tf` and leaves the state after the steps `k = 0 .. N - 1`, where the step `k` starts at
`k dt` with the size `dt` before the last one, and the last one with the size `tf - t_old`,
what is left to `tf`; for `tf = 0` no step is made and 0 is returned. -/
theorem runge_kutta_run_fixed_steps {K : Type} [LinearOrderedField K] [FloorRing K] {σ : Type}
    (L : Libm K) (method_dt : Method K → K → K)
    (acc : Equation K → Vec3 K → Vec3 K → K → σ → Vec3 K × σ) (eq : Equation K)
    (rk : V031.RungeKutta K) (g : Globals K σ) (x : V031.RunVars K)
    (he : rk.method.error_dt = 0) (hdt : 0 < g.dt) (htf : 0 ≤ eq.tf) :
    (∀ fuel, fuel ≤ ⌈eq.tf / g.dt⌉₊ →
      V031.runge_kutta_run L method_dt acc V110.equation_step_size_0 V110.equation_land_0 eq
        fuel rk g x = none) ∧
    (∀ fuel, ⌈eq.tf / g.dt⌉₊ < fuel →
      V031.runge_kutta_run L method_dt acc V110.equation_step_size_0 V110.equation_land_0 eq
        fuel rk g x
      = some (eq.tf, V031.runge_kutta_steps acc eq g.dt eq.tf ⌈eq.tf / g.dt⌉₊ 0
          (rk, { g with ro0 := g.r0, ro1 := g.r1, ro2 := g.r2 }))) ∧
    (∀ k : Nat, k + 1 < ⌈eq.tf / g.dt⌉₊ → min g.dt (eq.tf - k * g.dt) = g.dt) ∧
    (∀ k : Nat, k + 1 = ⌈eq.tf / g.dt⌉₊ → min g.dt (eq.tf - k * g.dt) = eq.tf - k * g.dt) ∧
    (eq.tf = 0 → ∀ fuel, 0 < fuel →
      V031.runge_kutta_run L method_dt acc V110.equation_step_size_0 V110.equation_land_0 eq
        fuel rk g x = some (0, rk, { g with ro0 := g.r0, ro1 := g.r1, ro2 := g.r2 })) := by
  have key := V031.runge_kutta_loop_fixed L method_dt acc eq g.dt hdt ⌈eq.tf / g.dt⌉₊ 0 rk
    { g with ro0 := g.r0, ro1 := g.r1, ro2 := g.r2 } { x with t := 0 } he rfl htf
    (fun _ => by simp) (by simp)
  obtain ⟨s1, s2⟩ := fixed_step_sizes eq.tf g.dt hdt
  refine ⟨key.1, key.2, s1, s2, fun h0 fuel hf => ?_⟩
  have hN : ⌈eq.tf / g.dt⌉₊ = 0 := by simp [h0]
  have h1 := key.2 fuel (by omega)
  rw [hN, h0] at h1
  exact h1

/-- C26 on a run to `tf = 1` with the step `dt = 0.3` of the second order method on the
linear drag, over the reals: with a bound of 5 iterations the run makes its 4 steps and
returns `tf`. -/
theorem runge_kutta_run_fixed_steps_witness :
    ⌈(1 : ℝ) / (3 / 10)⌉₊ = 4 ∧
    V031.runge_kutta_run Libm.real (fun _ dt => dt) V110.equation_acceleration_1
      V110.equation_step_size_0 V110.equation_land_0
      { sample_equation (100 : ℝ) 30 30 9.81 1 0 with lambda := 1 / 10 } 5
      (V031.runge_kutta_init_2 ⟨sample_method, [], [], []⟩)
      { (sample_globals : Globals ℝ Nat) with dt := 3 / 10 } ⟨0, 0, 0, 0, 0, 0⟩
    = some (1, V031.runge_kutta_steps V110.equation_acceleration_1
        { sample_equation (100 : ℝ) 30 30 9.81 1 0 with lambda := 1 / 10 } (3 / 10) 1 4 0
        (V031.runge_kutta_init_2 ⟨sample_method, [], [], []⟩,
          { (sample_globals : Globals ℝ Nat) with
            dt := 3 / 10
            ro0 := (sample_globals : Globals ℝ Nat).r0
            ro1 := (sample_globals : Globals ℝ Nat).r1
            ro2 := (sample_globals : Globals ℝ Nat).r2 })) := by
  have hc : ⌈(1 : ℝ) / (3 / 10)⌉₊ = 4 := by
    rw [Nat.ceil_eq_iff (by decide)]
    norm_num
  have h := (runge_kutta_run_fixed_steps Libm.real
    (fun _ dt => dt) V110.equation_acceleration_1
    { sample_equation (100 : ℝ) 30 30 9.81 1 0 with lambda := 1 / 10 }
    (V031.runge_kutta_init_2 ⟨sample_method, [], [], []⟩)
    { (sample_globals : Globals ℝ Nat) with dt := 3 / 10 } ⟨0, 0, 0, 0, 0, 0⟩
    rfl (by norm_num) (by norm_num [sample_equation])).2.1 5
  simp only [sample_equation] at h hc ⊢
  rw [hc] at h
  exact ⟨hc, h (by decide)⟩

/-! ## C27: the random initial conditions -/

/-- C27: with the generator as the sequence `rng 0, rng 1, ...` of its draws, `equation_init`
takes for the types 1, 2, 3 five draws, in the order lambda, speed, bearing, wind speed, wind
bearing, and for the type 0 four draws (no draw for lambda), in the order speed, bearing, wind
speed, wind bearing; it leaves `r = (0, 0, r0.z)` and
`v = (s cos va cos h, s cos va sin h, s sin va)` with `va = vertical_angle pi / 180`; the
struct that it leaves depends on the generator through these draws only. -/
theorem equation_init_draws {K : Type} [LinearOrderedField K] (L : Libm K) (eq : Equation K)
    (rng : Nat → K) :
    ((eq.type = 1 ∨ eq.type = 2 ∨ eq.type = 3) →
      (V110.equation_init L eq rng).1.lambda
        = eq.min_lambda + (eq.max_lambda - eq.min_lambda) * rng 0 ∧
      (V110.equation_init L eq rng).1.v
        = ⟨(eq.min_velocity + (eq.max_velocity - eq.min_velocity) * rng 1)
              * L.cosl (eq.vertical_angle * L.pi / 180) * L.cosl (2 * L.pi * rng 2),
            (eq.min_velocity + (eq.max_velocity - eq.min_velocity) * rng 1)
              * L.cosl (eq.vertical_angle * L.pi / 180) * L.sinl (2 * L.pi * rng 2),
            (eq.min_velocity + (eq.max_velocity - eq.min_velocity) * rng 1)
              * L.sinl (eq.vertical_angle * L.pi / 180)⟩ ∧
      (V110.equation_init L eq rng).1.w
        = ⟨eq.max_wind * rng 3 * L.cosl (2 * L.pi * rng 4),
            eq.max_wind * rng 3 * L.sinl (2 * L.pi * rng 4)⟩ ∧
      (V110.equation_init L eq rng).1.r = ⟨0, 0, eq.r.z⟩ ∧
      (V110.equation_init L eq rng).2 = (fun n => rng (n + 5)) ∧
      ∀ rng2 : Nat → K, (∀ i, i < 5 → rng2 i = rng i) →
        (V110.equation_init L eq rng2).1 = (V110.equation_init L eq rng).1) ∧
    (eq.type = 0 →
      (V110.equation_init L eq rng).1.lambda = eq.lambda ∧
      (V110.equation_init L eq rng).1.v
        = ⟨(eq.min_velocity + (eq.max_velocity - eq.min_velocity) * rng 0)
              * L.cosl (eq.vertical_angle * L.pi / 180) * L.cosl (2 * L.pi * rng 1),
            (eq.min_velocity + (eq.max_velocity - eq.min_velocity) * rng 0)
              * L.cosl (eq.vertical_angle * L.pi / 180) * L.sinl (2 * L.pi * rng 1),
            (eq.min_velocity + (eq.max_velocity - eq.min_velocity) * rng 0)
              * L.sinl (eq.vertical_angle * L.pi / 180)⟩ ∧
      (V110.equation_init L eq rng).1.w
        = ⟨eq.max_wind * rng 2 * L.cosl (2 * L.pi * rng 3),
            eq.max_wind * rng 2 * L.sinl (2 * L.pi * rng 3)⟩ ∧
      (V110.equation_init L eq rng).1.r = ⟨0, 0, eq.r.z⟩ ∧
      (V110.equation_init L eq rng).2 = (fun n => rng (n + 4)) ∧
      ∀ rng2 : Nat → K, (∀ i, i < 4 → rng2 i = rng i) →
        (V110.equation_init L eq rng2).1 = (V110.equation_init L eq rng).1) := by
  refine ⟨fun h => ?_, fun h => ?_⟩
  · have e : ∀ r : Nat → K, V110.equation_init L eq r
        = (({ eq with
              lambda := eq.min_lambda + (eq.max_lambda - eq.min_lambda) * r 0
              r := ⟨0, 0, eq.r.z⟩
              v := ⟨(eq.min_velocity + (eq.max_velocity - eq.min_velocity) * r 1)
                    * L.cosl (eq.vertical_angle * L.pi / 180) * L.cosl (2 * L.pi * r 2),
                  (eq.min_velocity + (eq.max_velocity - eq.min_velocity) * r 1)
                    * L.cosl (eq.vertical_angle * L.pi / 180) * L.sinl (2 * L.pi * r 2),
                  (eq.min_velocity + (eq.max_velocity - eq.min_velocity) * r 1)
                    * L.sinl (eq.vertical_angle * L.pi / 180)⟩
              w := ⟨eq.max_wind * r 3 * L.cosl (2 * L.pi * r 4),
                  eq.max_wind * r 3 * L.sinl (2 * L.pi * r 4)⟩ } : Equation K),
            fun n => r (n + 5)) := by
      intro r
      rcases h with h | h | h <;> simp only [V110.equation_init, V110.gsl_rng_uniform, h]
    refine ⟨by rw [e], by rw [e], by rw [e], by rw [e], by rw [e], fun rng2 h2 => ?_⟩
    rw [e, e, h2 0 (by decide), h2 1 (by decide), h2 2 (by decide), h2 3 (by decide),
      h2 4 (by decide)]
  · have e : ∀ r : Nat → K, V110.equation_init L eq r
        = (({ eq with
              r := ⟨0, 0, eq.r.z⟩
              v := ⟨(eq.min_velocity + (eq.max_velocity - eq.min_velocity) * r 0)
                    * L.cosl (eq.vertical_angle * L.pi / 180) * L.cosl (2 * L.pi * r 1),
                  (eq.min_velocity + (eq.max_velocity - eq.min_velocity) * r 0)
                    * L.cosl (eq.vertical_angle * L.pi / 180) * L.sinl (2 * L.pi * r 1),
                  (eq.min_velocity + (eq.max_velocity - eq.min_velocity) * r 0)
                    * L.sinl (eq.vertical_angle * L.pi / 180)⟩
              w := ⟨eq.max_wind * r 2 * L.cosl (2 * L.pi * r 3),
                  eq.max_wind * r 2 * L.sinl (2 * L.pi * r 3)⟩ } : Equation K),
            fun n => r (n + 4)) := by
      intro r
      simp only [V110.equation_init, V110.gsl_rng_uniform, h]
    refine ⟨by rw [e], by rw [e], by rw [e], by rw [e], by rw [e], fun rng2 h2 => ?_⟩
    rw [e, e, h2 0 (by decide), h2 1 (by decide), h2 2 (by decide), h2 3 (by decide)]

/-- C27 on an equation of type 1 and the draws `1/2, 1/3, 1/4, ...`: five draws are taken. -/
theorem equation_init_draws_witness :
    (V110.equation_init Libm.real
        { sample_equation (100 : ℝ) 0 0 9.81 1 1 with type := 1, max_lambda := 1 }
        (fun n => 1 / ((n : ℝ) + 2))).2
      = (fun n => 1 / (((n + 5 : ℕ) : ℝ) + 2)) :=
  ((equation_init_draws Libm.real
      { sample_equation (100 : ℝ) 0 0 9.81 1 1 with type := 1, max_lambda := 1 }
      (fun n => 1 / ((n : ℝ) + 2))).1 (Or.inl rfl)).2.2.2.2.1

/-! ## C28, C29, C30: the configurations that the reader accepts -/

/-- C28 at the failing input: a node `equation` of the type 0 with `time-step="1"`, `kt`,
`z`, `vx` and `land="1"`, read as the initial conditions of one trajectory, is accepted
(`return 1`) with `size_type = 1`, and no function is assigned to the pointer
`equation_step_size`. -/
theorem equation_read_xml_accepts_no_step_size :
    ∃ s, V110.equation_read_xml (sample_read_state : V110.ReadState ℚ)
        (sample_node XML_EQUATION [(XML_TYPE, 0), (XML_TIME_STEP, 1), (XML_LAND, 1)]
          [(XML_Z, 100), (XML_VX, 30), (XML_KT, 1 / 2)]) 1 = Except.ok s ∧
      s.eq.type = 0 ∧ s.eq.size_type = 1 ∧ s.kt = 1 / 2 ∧ s.equation_step_size = none :=
  ⟨_, rfl, rfl, rfl, rfl, rfl⟩

/-- C29 at the failing input: a node `equation` of the type 1 for the convergence mode with
`vmin = 5`, `vmax = 1`, `lambda_min = -2`, `lambda_max = -1` is accepted (`return 1`),
although `v_min <= v_max` and `lambda_min >= 0` do not hold. -/
theorem equation_read_xml_accepts_bad_ranges :
    ∃ s, V110.equation_read_xml (sample_read_state : V110.ReadState ℚ)
        (sample_node XML_EQUATION [(XML_TYPE, 1), (XML_TIME_STEP, 0), (XML_LAND, 1)]
          [(XML_Z, 100), (XML_VMIN, 5), (XML_VMAX, 1), (XML_VERTICAL_ANGLE, 45),
            (XML_LAMBDA_MIN, -2), (XML_LAMBDA_MAX, -1), (XML_DT, 1 / 100)]) 0 = Except.ok s ∧
      s.eq.min_velocity = 5 ∧ s.eq.max_velocity = 1 ∧ ¬ s.eq.min_velocity ≤ s.eq.max_velocity ∧
      s.eq.min_lambda = -2 ∧ ¬ 0 ≤ s.eq.min_lambda :=
  ⟨_, rfl, rfl, rfl, by decide, rfl, by decide⟩

/-- C30 at the failing input: a node `equation` of the type 1 without the property `lambda`,
read as the initial conditions of one trajectory, is accepted (`return 1`) with `lambda = 0`,
the divisor of `li = 1 / lambda` in `equation_solution_1`; and a node of the type 1 for the
convergence mode without `lambda_min` and `lambda_max` is accepted with the range `[0, 0]`,
from which `equation_init` draws `lambda = 0`. -/
theorem equation_read_xml_accepts_zero_lambda :
    (∃ s, V110.equation_read_xml (sample_read_state : V110.ReadState ℚ)
        (sample_node XML_EQUATION [(XML_TYPE, 1), (XML_TIME_STEP, 0), (XML_LAND, 1)]
          [(XML_Z, 100), (XML_VX, 30), (XML_VZ, 30), (XML_DT, 1 / 100)]) 1 = Except.ok s ∧
      s.eq.type = 1 ∧ s.equation_solution = some 1 ∧ s.eq.lambda = 0) ∧
    (∃ s, V110.equation_read_xml (sample_read_state : V110.ReadState ℚ)
        (sample_node XML_EQUATION [(XML_TYPE, 1), (XML_TIME_STEP, 0), (XML_LAND, 1)]
          [(XML_Z, 100), (XML_VMAX, 30), (XML_VERTICAL_ANGLE, 45),
            (XML_DT, 1 / 100)]) 0 = Except.ok s ∧
      s.eq.type = 1 ∧ s.equation_solution = some 1 ∧
      ∀ (L : Libm ℚ) (rng : Nat → ℚ), (V110.equation_init L s.eq rng).1.lambda = 0) := by
  refine ⟨⟨_, rfl, rfl, rfl, rfl⟩, ⟨_, rfl, rfl, rfl, fun L rng => ?_⟩⟩
  show (0 : ℚ) + (0 - 0) * rng 0 = 0
  simp

section reader
variable {K : Type} [LinearOrderedField K]

/-- The first part of the reader accepts a node only with `z >= 0`. -/
theorem V110.equation_read_xml_type_ok (s s1 : V110.ReadState K) (node : XmlNode K)
    (h : V110.equation_read_xml_type s node = Except.ok s1) :
    0 ≤ s1.eq.r.z := by
  unfold V110.equation_read_xml_type at h
  simp only at h
  repeat' split at h
  all_goals first
    | (simp only [Except.ok.injEq] at h; subst h; simp_all)
    | (simp only [reduceCtorEq] at h)

/-- The reader of the ranges accepts a node only with `v_min >= 0`, `v_max > 0`,
`w_max >= 0` and, for the types 1, 2, 3, `lambda_min <= lambda_max`; it leaves the position
and the type as they were. -/
theorem V110.equation_read_xml_ranges_ok (s s1 : V110.ReadState K) (node : XmlNode K)
    (h : V110.equation_read_xml_ranges s node = Except.ok s1) :
    s1.eq.r = s.eq.r ∧ s1.eq.type = s.eq.type ∧ 0 ≤ s1.eq.min_velocity ∧
    0 < s1.eq.max_velocity ∧ 0 ≤ s1.eq.max_wind ∧
    ((s1.eq.type = 1 ∨ s1.eq.type = 2 ∨ s1.eq.type = 3) →
      s1.eq.min_lambda ≤ s1.eq.max_lambda) := by
  unfold V110.equation_read_xml_ranges at h
  simp only at h
  repeat' split at h
  all_goals first
    | (simp only [Except.ok.injEq] at h; subst h; simp_all)
    | (simp only [reduceCtorEq] at h)

/-- The reader of the step size leaves the position, the type and the ranges as they were. -/
theorem V110.equation_read_xml_size_ok (s s1 : V110.ReadState K) (node : XmlNode K)
    (h : V110.equation_read_xml_size s node = Except.ok s1) :
    s1.eq.r = s.eq.r ∧ s1.eq.type = s.eq.type ∧ s1.eq.min_velocity = s.eq.min_velocity ∧
    s1.eq.max_velocity = s.eq.max_velocity ∧ s1.eq.max_wind = s.eq.max_wind ∧
    s1.eq.min_lambda = s.eq.min_lambda ∧ s1.eq.max_lambda = s.eq.max_lambda := by
  unfold V110.equation_read_xml_size at h
  simp only at h
  repeat' split at h
  all_goals first
    | (simp only [Except.ok.injEq] at h; subst h; simp_all)
    | (simp only [reduceCtorEq] at h)

/-- The reader of the landing accepts a node with `land = 0` only with `tf >= 0`; it leaves
the position, the type and the ranges as they were. -/
theorem V110.equation_read_xml_land_ok (s s1 : V110.ReadState K) (node : XmlNode K)
    (h : V110.equation_read_xml_land s node = Except.ok s1) :
    s1.eq.r = s.eq.r ∧ s1.eq.type = s.eq.type ∧ s1.eq.min_velocity = s.eq.min_velocity ∧
    s1.eq.max_velocity = s.eq.max_velocity ∧ s1.eq.max_wind = s.eq.max_wind ∧
    s1.eq.min_lambda = s.eq.min_lambda ∧ s1.eq.max_lambda = s.eq.max_lambda ∧
    (s1.eq.land_type = 0 → 0 ≤ s1.eq.tf) := by
  unfold V110.equation_read_xml_land at h
  simp only at h
  repeat' split at h
  all_goals first
    | (simp only [Except.ok.injEq] at h; subst h; simp_all)
    | (simp only [reduceCtorEq] at h)

/-- What the reader enforces on the ranges of the convergence mode: a node that it accepts
with `initial = 0` has `z >= 0`, `v_min >= 0`, `v_max > 0`, `w_max >= 0`,
`lambda_min <= lambda_max` for the types 1, 2, 3, and `tf >= 0` when `land_type = 0`. -/
theorem V110.equation_read_xml_enforced (s s1 : V110.ReadState K) (node : XmlNode K)
    (h : V110.equation_read_xml s node 0 = Except.ok s1) :
    0 ≤ s1.eq.r.z ∧ 0 ≤ s1.eq.min_velocity ∧ 0 < s1.eq.max_velocity ∧ 0 ≤ s1.eq.max_wind ∧
    ((s1.eq.type = 1 ∨ s1.eq.type = 2 ∨ s1.eq.type = 3) →
      s1.eq.min_lambda ≤ s1.eq.max_lambda) ∧
    (s1.eq.land_type = 0 → 0 ≤ s1.eq.tf) := by
  unfold V110.equation_read_xml at h
  simp only [ne_eq, not_true_eq_false, ite_false] at h
  split at h
  · simp only [reduceCtorEq] at h
  · rename_i a ha
    split at h
    · simp only [reduceCtorEq] at h
    · rename_i b hb
      split at h
      · simp only [reduceCtorEq] at h
      · rename_i c hc
        have h1 := V110.equation_read_xml_type_ok _ _ _ ha
        obtain ⟨r2, t2, v2, w2, x2, l2⟩ := V110.equation_read_xml_ranges_ok _ _ _ hb
        obtain ⟨r3, t3, v3, w3, x3, l3, m3⟩ := V110.equation_read_xml_size_ok _ _ _ hc
        obtain ⟨r4, t4, v4, w4, x4, l4, m4, tf4⟩ := V110.equation_read_xml_land_ok _ _ _ h
        refine ⟨?_, ?_, ?_, ?_, ?_, tf4⟩
        · rw [r4, r3, r2]; exact h1
        · rw [v4, v3]; exact v2
        · rw [w4, w3]; exact w2
        · rw [x4, x3]; exact x2
        · rw [t4, t3, l4, m4, l3, m3]; exact l2

end reader

/-! ## C36: the root that `solve_quadratic_reduced` prefers -/

/-- C36: for `a^2/4 >= b`, `solve_quadratic_reduced` (src/0.3.1/utils.c) returns the larger
root `-a/2 + sqrt (a^2/4 - b)` whenever that root lies in `[x1, x2]`, and returns the smaller
root `-a/2 - sqrt (a^2/4 - b)` in every other case; the two values are the roots of
`x^2 + a x + b`, and the second is not above the first. -/
theorem solve_quadratic_reduced_prefers_larger (a b x1 x2 : ℝ) (h : b ≤ a ^ 2 / 4) :
    ((x1 ≤ -a / 2 + Real.sqrt (a ^ 2 / 4 - b) ∧ -a / 2 + Real.sqrt (a ^ 2 / 4 - b) ≤ x2) →
      V031.solve_quadratic_reduced Libm.real a b x1 x2
        = -a / 2 + Real.sqrt (a ^ 2 / 4 - b)) ∧
    (¬ (x1 ≤ -a / 2 + Real.sqrt (a ^ 2 / 4 - b) ∧ -a / 2 + Real.sqrt (a ^ 2 / 4 - b) ≤ x2) →
      V031.solve_quadratic_reduced Libm.real a b x1 x2
        = -a / 2 - Real.sqrt (a ^ 2 / 4 - b)) ∧
    -a / 2 - Real.sqrt (a ^ 2 / 4 - b) ≤ -a / 2 + Real.sqrt (a ^ 2 / 4 - b) ∧
    (-a / 2 + Real.sqrt (a ^ 2 / 4 - b)) ^ 2
      + a * (-a / 2 + Real.sqrt (a ^ 2 / 4 - b)) + b = 0 ∧
    (-a / 2 - Real.sqrt (a ^ 2 / 4 - b)) ^ 2
      + a * (-a / 2 - Real.sqrt (a ^ 2 / 4 - b)) + b = 0 := by
  have e : -0.5 * a * (-0.5 * a) - b = a ^ 2 / 4 - b := by norm_num; ring
  have e2 : (-0.5 : ℝ) * a = -a / 2 := by norm_num; ring
  have hk : Real.sqrt (a ^ 2 / 4 - b) * Real.sqrt (a ^ 2 / 4 - b) = a ^ 2 / 4 - b :=
    Real.mul_self_sqrt (by linarith)
  have hs : 0 ≤ Real.sqrt (a ^ 2 / 4 - b) := Real.sqrt_nonneg _
  have e3 : -a / 2 * (-a / 2) - b = a ^ 2 / 4 - b := by ring
  simp only [V031.solve_quadratic_reduced, Libm.real, e2, e3]
  refine ⟨fun hc => ?_, fun hc => ?_, by linarith, by linear_combination hk,
    by linear_combination hk⟩
  · rw [if_neg]
    rintro (h' | h')
    · exact absurd hc.1 (not_le.mpr h')
    · exact absurd hc.2 (not_le.mpr h')
  · rw [if_pos]
    by_contra hn
    exact hc ⟨not_lt.mp (fun h' => hn (Or.inl h')), not_lt.mp (fun h' => hn (Or.inr h'))⟩

/-- C36 on `x^2 - 3 x + 2 = 0` in `[0, 3]`: both roots 1 and 2 are in the interval, and the
larger one is returned. -/
theorem solve_quadratic_reduced_prefers_larger_witness :
    (2 : ℝ) ≤ (-3) ^ 2 / 4 ∧
    V031.solve_quadratic_reduced Libm.real (-3) 2 0 3 = 2 := by
  have hs : Real.sqrt ((-3 : ℝ) ^ 2 / 4 - 2) = 1 / 2 := by
    rw [show ((-3 : ℝ) ^ 2 / 4 - 2) = (1 / 2) ^ 2 by norm_num]
    exact Real.sqrt_sq (by norm_num)
  refine ⟨by norm_num, ?_⟩
  rw [(solve_quadratic_reduced_prefers_larger (-3) 2 0 3 (by norm_num)).1
    (by rw [hs]; norm_num), hs]
  norm_num

/-! ## C35: the bracket of `equation_solve` -/

section solve
variable {K : Type} [LinearOrderedField K] {ε : Type}

/-- The doubling loop of `equation_solve` keeps `t1`, keeps `r02` as the position at `t2`,
keeps `t2 >= 1`, and ends at a time where the height is not positive. -/
theorem V110.equation_solve_double_end (sol : ε → K → Vec3 K × Vec3 K) (eq : ε) (fuel : Nat)
    (x y : V110.SolveVars K) (h1 : 1 ≤ x.t2) (hr : x.r02 = (sol eq x.t2).1)
    (h : V110.equation_solve_double sol eq fuel x = some y) :
    y.t1 = x.t1 ∧ 1 ≤ y.t2 ∧ (sol eq y.t2).1.z ≤ 0 := by
  induction fuel generalizing x with
  | zero => simp [V110.equation_solve_double] at h
  | succ fuel ih =>
    simp only [V110.equation_solve_double] at h
    split_ifs at h with hc
    · exact ih
        { x with t2 := x.t2 * 2, r02 := (sol eq (x.t2 * 2)).1, r12 := (sol eq (x.t2 * 2)).2 }
        (by simp only; linarith) rfl h
    · simp only [Option.some.injEq] at h
      subst h
      exact ⟨rfl, h1, by rw [← hr]; exact not_lt.mp hc⟩

/-- The invariant of the bisection loop of `equation_solve` after `i` iterations. -/
theorem V110.equation_solve_bisect_bracket (sol : ε → K → Vec3 K × Vec3 K) (eq : ε)
    (x : V110.SolveVars K) (h1 : x.t1 = 0) (h2 : 0 < x.t2) (hz : (sol eq x.t2).1.z ≤ 0)
    (i : Nat) :
    0 ≤ (V110.equation_solve_bisect sol eq i x).t1 ∧
    (V110.equation_solve_bisect sol eq i x).t1 < (V110.equation_solve_bisect sol eq i x).t2 ∧
    (V110.equation_solve_bisect sol eq i x).t2 ≤ x.t2 ∧
    (V110.equation_solve_bisect sol eq i x).t2 - (V110.equation_solve_bisect sol eq i x).t1
      = x.t2 / 2 ^ i ∧
    (sol eq (V110.equation_solve_bisect sol eq i x).t2).1.z ≤ 0 ∧
    ((V110.equation_solve_bisect sol eq i x).t1 = 0 ∨
      0 < (sol eq (V110.equation_solve_bisect sol eq i x).t1).1.z) ∧
    (1 ≤ i →
      ((V110.equation_solve_bisect sol eq i x).t3 = (V110.equation_solve_bisect sol eq i x).t1 ∨
        (V110.equation_solve_bisect sol eq i x).t3
          = (V110.equation_solve_bisect sol eq i x).t2) ∧
      (V110.equation_solve_bisect sol eq i x).r02
        = (sol eq (V110.equation_solve_bisect sol eq i x).t3).1 ∧
      (V110.equation_solve_bisect sol eq i x).r12
        = (sol eq (V110.equation_solve_bisect sol eq i x).t3).2) := by
  induction i with
  | zero =>
    simp only [V110.equation_solve_bisect, pow_zero, div_one]
    exact ⟨h1.ge, by rw [h1]; exact h2, le_rfl, by rw [h1]; ring, hz, Or.inl h1,
      fun h => absurd h (by decide)⟩
  | succ i ih =>
    obtain ⟨a1, a2, a3, a4, a5, a6, -⟩ := ih
    have e5 : (0.5 : K) = 1 / 2 := by norm_num
    simp only [V110.equation_solve_bisect, e5]
    set y := V110.equation_solve_bisect sol eq i x with hy
    have hw : x.t2 / 2 ^ (i + 1) = (y.t2 - y.t1) / 2 := by rw [a4, pow_succ]; field_simp
    split_ifs with hc
    · refine ⟨by simp only; linarith, by simp only; linarith, a3, ?_, a5, Or.inr hc,
        fun _ => ⟨Or.inl rfl, rfl, rfl⟩⟩
      simp only
      rw [hw]; ring
    · refine ⟨a1, by simp only; linarith, by simp only; linarith, ?_, not_lt.mp hc, a6,
        fun _ => ⟨Or.inr rfl, rfl, rfl⟩⟩
      simp only
      rw [hw]; ring

end solve

/-- C35: when the doubling loop of `equation_solve` (src/1.1.0/equation.c, 64 iterations of
the bisection) stops with `t2 = T`, the function returns a time `t3` and the state
`(r, v) = S (eq, t3)` of the closed form at that time, where `t3` is an end of the final
bracket `[t1, t2]`, which is contained in `[0, T]`, has the width `T / 2^64`, and has
`S (eq, t2).z <= 0` and either `t1 = 0` or `S (eq, t1).z > 0`. -/
theorem equation_solve_bracket {K : Type} [LinearOrderedField K] {ε : Type}
    (sol : ε → K → Vec3 K × Vec3 K) (eq : ε) (fuel : Nat) (t3 : K) (x : V110.SolveVars K)
    (h : V110.equation_solve_double sol eq fuel ⟨0, 1, t3, (sol eq 1).1, (sol eq 1).2⟩
      = some x) :
    ∃ y : V110.SolveVars K,
      V110.equation_solve sol eq fuel t3 = some (y.t3, y.r02, y.r12) ∧
      (y.r02, y.r12) = sol eq y.t3 ∧
      (y.t3 = y.t1 ∨ y.t3 = y.t2) ∧
      0 ≤ y.t1 ∧ y.t1 < y.t2 ∧ y.t2 ≤ x.t2 ∧ y.t2 - y.t1 = x.t2 / 2 ^ 64 ∧
      (sol eq y.t2).1.z ≤ 0 ∧ (y.t1 = 0 ∨ 0 < (sol eq y.t1).1.z) := by
  obtain ⟨d1, d2, d3⟩ := V110.equation_solve_double_end sol eq fuel _ x le_rfl rfl h
  obtain ⟨a1, a2, a3, a4, a5, a6, a7⟩ :=
    V110.equation_solve_bisect_bracket sol eq x d1 (by linarith) d3 64
  obtain ⟨b1, b2, b3⟩ := a7 (by decide)
  refine ⟨V110.equation_solve_bisect sol eq 64 x, ?_, ?_, b1, a1, a2, a3, a4, a5, a6⟩
  · simp only [V110.equation_solve, h, Option.map_some']
  · rw [b2, b3]

/-- C35 on the drop from `z = 1` without resistance over the rationals: the height at
`t2 = 1` is negative, so the doubling loop stops at `T = 1` and the bracket has the width
`1 / 2^64`. -/
theorem equation_solve_bracket_witness :
    V110.equation_solve_double V110.equation_solution_0 (sample_equation (1 : ℚ) 0 0 9.81 0 1)
        1 ⟨0, 1, 0, (V110.equation_solution_0 (sample_equation (1 : ℚ) 0 0 9.81 0 1) 1).1,
          (V110.equation_solution_0 (sample_equation (1 : ℚ) 0 0 9.81 0 1) 1).2⟩
      = some ⟨0, 1, 0, (V110.equation_solution_0 (sample_equation (1 : ℚ) 0 0 9.81 0 1) 1).1,
          (V110.equation_solution_0 (sample_equation (1 : ℚ) 0 0 9.81 0 1) 1).2⟩ ∧
    ∃ y : V110.SolveVars ℚ,
      V110.equation_solve V110.equation_solution_0 (sample_equation (1 : ℚ) 0 0 9.81 0 1) 1 0
        = some (y.t3, y.r02, y.r12) ∧
      (y.t3 = y.t1 ∨ y.t3 = y.t2) ∧ y.t2 - y.t1 = 1 / 2 ^ 64 := by
  have hd : V110.equation_solve_double V110.equation_solution_0
      (sample_equation (1 : ℚ) 0 0 9.81 0 1) 1
      ⟨0, 1, 0, (V110.equation_solution_0 (sample_equation (1 : ℚ) 0 0 9.81 0 1) 1).1,
        (V110.equation_solution_0 (sample_equation (1 : ℚ) 0 0 9.81 0 1) 1).2⟩
      = some ⟨0, 1, 0, (V110.equation_solution_0 (sample_equation (1 : ℚ) 0 0 9.81 0 1) 1).1,
        (V110.equation_solution_0 (sample_equation (1 : ℚ) 0 0 9.81 0 1) 1).2⟩ := by
    simp only [V110.equation_solve_double, V110.equation_solution_0, sample_equation, G]
    rw [if_neg]
    norm_num
  obtain ⟨y, h1, -, h3, -, -, -, h7, -⟩ :=
    equation_solve_bracket V110.equation_solution_0 (sample_equation (1 : ℚ) 0 0 9.81 0 1) 1 0
      _ hd
  exact ⟨hd, y, h1, h3, h7⟩

/-! ## C39: the branch that reverts the step in the early revision -/

section early_run
variable {K : Type} [LinearOrderedField K] {ε σ : Type}

/-- The inner loop of the step of revision 0.1.1 keeps the parameter `beta`. -/
theorem V011.step_inner_beta (dt : K) (a c : List K) (i k : Nat) (m : Method K) :
    (V011.step_inner dt a c i k m).beta = m.beta := by
  induction k using Nat.strong_induction_on with
  | _ k ih =>
    match k with
    | 0 => rfl
    | 1 => rfl
    | j + 2 =>
      simp only [V011.step_inner]
      exact ih (j + 1) (by omega)

/-- The stage loop of the step of revision 0.1.1 keeps the parameter `beta` and the globals
`dt` and `kt`. -/
theorem V011.step_stages_beta (acc : ε → Vec3 K → Vec3 K → K → σ → Vec3 K × σ) (eq : ε)
    (a c : List (List K)) (tt : List K) (t dt : K) (n : Nat) (s : Method K × Globals K σ) :
    (V011.step_stages acc eq a c tt t dt n s).1.beta = s.1.beta ∧
    (V011.step_stages acc eq a c tt t dt n s).2.dt = s.2.dt ∧
    (V011.step_stages acc eq a c tt t dt n s).2.kt = s.2.kt := by
  induction n with
  | zero => exact ⟨rfl, rfl, rfl⟩
  | succ n ih =>
    obtain ⟨h1, h2, h3⟩ := ih
    simp only [V011.step_stages, V011.step_stage, V011.stage_comb]
    rw [V011.step_inner_beta]
    exact ⟨h1, h2, h3⟩

/-- Function `runge_kutta_step` of revision 0.1.1 keeps the parameter `beta` and the globals
`dt` and `kt`. -/
theorem V011.runge_kutta_step_beta (acc : ε → Vec3 K → Vec3 K → K → σ → Vec3 K × σ)
    (rk : V011.RungeKutta K) (eq : ε) (t dt : K) (g : Globals K σ) :
    (V011.runge_kutta_step acc rk eq t dt g).1.method.beta = rk.method.beta ∧
    (V011.runge_kutta_step acc rk eq t dt g).2.dt = g.dt ∧
    (V011.runge_kutta_step acc rk eq t dt g).2.kt = g.kt := by
  simp only [V011.runge_kutta_step]
  obtain ⟨h1, h2, h3⟩ := V011.step_stages_beta acc eq rk.a rk.c rk.t t dt rk.method.nsteps
    ({ rk.method with
        r0 := Function.update rk.method.r0 0 g.r0
        r1 := Function.update rk.method.r1 0 g.r1
        r2 := Function.update rk.method.r2 0 g.r2 }, g)
  exact ⟨h1, h2, h3⟩

/-- The step size of `method_dt` of revision 0.1.0 is at least `beta * dt` for `dt >= 0`. -/
theorem V010.method_dt_ge (L : Libm K) (m : Method K) (dt : K) (h : 0 ≤ dt) :
    m.beta * dt ≤ V010.method_dt L m dt := by
  simp only [V010.method_dt]
  rw [mul_comm m.beta dt]
  exact mul_le_mul_of_nonneg_left (le_max_left _ _) h

/-- The loop of `runge_kutta_run` of revision 0.1.1 with `method_dt` of revision 0.1.0 never
enters the branch that reverts the step, when `beta >= 0`, the step size function is not
negative on the globals `dt`, `kt` of the run, and `equation_land` keeps a step size that is
not negative and the globals `dt`, `kt` when it reports no landing. -/
theorem V011.runge_kutta_loop_reverts (L : Libm K)
    (acc : ε → Vec3 K → Vec3 K → K → σ → Vec3 K × σ) (step_size : ε → Globals K σ → K)
    (land : ε → K → K → Globals K σ → LandResult K σ) (eq : ε) (dt0 kt0 : K)
    (hs : ∀ gl : Globals K σ, gl.dt = dt0 → gl.kt = kt0 → 0 ≤ step_size eq gl)
    (hl : ∀ (t dt : K) (gl : Globals K σ), 0 ≤ dt → (land eq t dt gl).ret = 0 →
      0 ≤ (land eq t dt gl).dt ∧ (land eq t dt gl).g.dt = gl.dt ∧
        (land eq t dt gl).g.kt = gl.kt)
    (fuel : Nat) (rk : V011.RungeKutta K) (g : Globals K σ) (x : V031.RunVars K) (n : Nat)
    (hb : 0 ≤ rk.method.beta) (hd : g.dt = dt0) (hk : g.kt = kt0) (hx : 0 < x.t → 0 ≤ x.dt)
    (r : V011.RunResult K σ)
    (h : V011.runge_kutta_loop L (V010.method_dt L) acc step_size land eq fuel rk g x n
      = some r) :
    r.reverts = n := by
  induction fuel generalizing rk g x with
  | zero => simp [V011.runge_kutta_loop] at h
  | succ fuel ih =>
    simp only [V011.runge_kutta_loop] at h
    by_cases hc : 0 < x.t ∧ rk.method.error_dt ≠ 0
    · have hdt : 0 ≤ x.dt := hx hc.1
      have hge := V010.method_dt_ge L rk.method x.dt hdt
      have hnr : ¬ V010.method_dt L rk.method x.dt < rk.method.beta * x.dt := not_lt.mpr hge
      have hnn : 0 ≤ V010.method_dt L rk.method x.dt := le_trans (mul_nonneg hb hdt) hge
      rw [if_pos hc, if_neg hnr] at h
      simp only at h
      by_cases hret : (land eq x.t (V010.method_dt L rk.method x.dt) g).ret ≠ 0
      · rw [if_pos hret] at h
        simp only [Option.some.injEq] at h
        rw [← h]
      · rw [if_neg hret, if_pos hc.2] at h
        obtain ⟨l1, l2, l3⟩ := hl x.t _ g hnn (not_not.mp hret)
        obtain ⟨f1, f2, f3⟩ := V011.runge_kutta_step_beta acc rk eq x.t
          (land eq x.t (V010.method_dt L rk.method x.dt) g).dt
          { (land eq x.t (V010.method_dt L rk.method x.dt) g).g with
            ro0 := (land eq x.t (V010.method_dt L rk.method x.dt) g).g.r0
            ro1 := (land eq x.t (V010.method_dt L rk.method x.dt) g).g.r1
            ro2 := (land eq x.t (V010.method_dt L rk.method x.dt) g).g.r2 }
        refine ih _ _ _ ?_ ?_ ?_ ?_ h
        · simp only [V011.runge_kutta_error]
          rw [f1]; exact hb
        · rw [f2]; exact l2.trans hd
        · rw [f3]; exact l3.trans hk
        · intro _; exact l1
    · have hss : 0 ≤ step_size eq g := hs g hd hk
      rw [if_neg hc] at h
      simp only at h
      by_cases hret : (land eq x.t (step_size eq g) g).ret ≠ 0
      · rw [if_pos hret] at h
        simp only [Option.some.injEq] at h
        rw [← h]
      · rw [if_neg hret] at h
        obtain ⟨l1, l2, l3⟩ := hl x.t _ g hss (not_not.mp hret)
        obtain ⟨f1, f2, f3⟩ := V011.runge_kutta_step_beta acc rk eq x.t
          (land eq x.t (step_size eq g) g).dt
          { (land eq x.t (step_size eq g) g).g with
            ro0 := (land eq x.t (step_size eq g) g).g.r0
            ro1 := (land eq x.t (step_size eq g) g).g.r1
            ro2 := (land eq x.t (step_size eq g) g).g.r2 }
        by_cases he : rk.method.error_dt ≠ 0
        · rw [if_pos he] at h
          refine ih _ _ _ ?_ ?_ ?_ ?_ h
          · simp only [V011.runge_kutta_error]
            rw [f1]; exact hb
          · rw [f2]; exact l2.trans hd
          · rw [f3]; exact l3.trans hk
          · intro _; exact l1
        · rw [if_neg he] at h
          refine ih _ _ _ ?_ ?_ ?_ ?_ h
          · rw [f1]; exact hb
          · rw [f2]; exact l2.trans hd
          · rw [f3]; exact l3.trans hk
          · intro _; exact l1

end early_run

/-- C39: `method_dt` of src/0.1.0/method.c returns
`dt * max (beta, min (alpha, (emt * dt / e0)^(1 / order)))`, so for every `dt >= 0` the
result is at least `beta * dt` and the condition `dt_next < beta * dt_old` of the branch
that reverts the step is false; and a run of `runge_kutta_run` of src/0.1.1/runge-kutta.c that
returns has never entered that branch, when `beta >= 0`, the step size function is not
negative on the globals `dt`, `kt` of the run, and `equation_land` keeps a step size that is
not negative and the globals `dt`, `kt` when it reports no landing. -/
theorem method_dt_never_reverts {K : Type} [LinearOrderedField K] {ε σ : Type} (L : Libm K)
    (acc : ε → Vec3 K → Vec3 K → K → σ → Vec3 K × σ) (step_size : ε → Globals K σ → K)
    (land : ε → K → K → Globals K σ → LandResult K σ) (eq : ε)
    (rk : V011.RungeKutta K) (g : Globals K σ) (x : V031.RunVars K) (fuel : Nat)
    (r : V011.RunResult K σ)
    (hb : 0 ≤ rk.method.beta)
    (hs : ∀ gl : Globals K σ, gl.dt = g.dt → gl.kt = g.kt → 0 ≤ step_size eq gl)
    (hl : ∀ (t dt : K) (gl : Globals K σ), 0 ≤ dt → (land eq t dt gl).ret = 0 →
      0 ≤ (land eq t dt gl).dt ∧ (land eq t dt gl).g.dt = gl.dt ∧
        (land eq t dt gl).g.kt = gl.kt)
    (h : V011.runge_kutta_run L (V010.method_dt L) acc step_size land eq fuel rk g x
      = some r) :
    (∀ (m : Method K) (dt : K),
      V010.method_dt L m dt
        = dt * max m.beta (min m.alpha (L.powl (m.emt * dt / m.e0) (1 / (m.order : K)))) ∧
      (0 ≤ dt → m.beta * dt ≤ V010.method_dt L m dt ∧
        ¬ V010.method_dt L m dt < m.beta * dt)) ∧
    r.reverts = 0 := by
  refine ⟨fun m dt => ⟨rfl, fun hdt => ⟨V010.method_dt_ge L m dt hdt,
    not_lt.mpr (V010.method_dt_ge L m dt hdt)⟩⟩, ?_⟩
  exact V011.runge_kutta_loop_reverts L acc step_size land eq g.dt g.kt hs hl fuel rk
    { g with ro0 := g.r0, ro1 := g.r1, ro2 := g.r2 } { x with t := 0 } 0 hb rfl rfl
    (fun h0 => absurd h0 (lt_irrefl _)) r h

/-- C39 on the second order Runge-Kutta method with error control (`alpha = 2`,
`beta = 1/2`), the model without resistance, the fixed step size 0.01 and the end at
`tf = 0.05`, over the rationals: the run returns and has never reverted a step. -/
theorem method_dt_never_reverts_witness :
    ∃ r : V011.RunResult ℚ Nat,
      V011.runge_kutta_run sample_libm (V010.method_dt sample_libm) V110.equation_acceleration_0
          V110.equation_step_size_0 (fun e t dt gl => V110.equation_land_0 e t t dt gl)
          (sample_equation (100 : ℚ) 30 30 9.81 0.05 0) 10
          (V011.runge_kutta_init_2
            ⟨{ (sample_method : Method ℚ) with error_dt := 1, alpha := 2, beta := 1 / 2, emt := 1 },
              [], [], [], []⟩)
          sample_globals ⟨0, 0, 0, 0, 0, 0⟩ = some r ∧
      r.reverts = 0 := by
  obtain ⟨r, hr⟩ := Option.isSome_iff_exists.mp
    (show (V011.runge_kutta_run sample_libm (V010.method_dt sample_libm)
        V110.equation_acceleration_0 V110.equation_step_size_0
        (fun e t dt gl => V110.equation_land_0 e t t dt gl)
        (sample_equation (100 : ℚ) 30 30 9.81 0.05 0) 10
        (V011.runge_kutta_init_2
          ⟨{ (sample_method : Method ℚ) with error_dt := 1, alpha := 2, beta := 1 / 2, emt := 1 },
            [], [], [], []⟩)
        sample_globals ⟨0, 0, 0, 0, 0, 0⟩).isSome = true by
      set_option maxRecDepth 1000000 in with_unfolding_all decide)
  refine ⟨r, hr, (method_dt_never_reverts sample_libm V110.equation_acceleration_0
    V110.equation_step_size_0 (fun e t dt gl => V110.equation_land_0 e t t dt gl)
    (sample_equation (100 : ℚ) 30 30 9.81 0.05 0) _ sample_globals ⟨0, 0, 0, 0, 0, 0⟩ 10 r
    (by norm_num [V011.runge_kutta_init_2, method_init, sample_method]) ?_ ?_ hr).2⟩
  · intro gl hd _
    simp only [V110.equation_step_size_0, hd, sample_globals]
    norm_num
  · intro t dt gl hdt hret
    simp only [V110.equation_land_0] at hret ⊢
    split_ifs at hret ⊢ with h1 h2
    · exact ⟨le_of_lt (sub_pos.mpr (not_le.mp h1)), rfl, rfl⟩
    · exact ⟨hdt, rfl, rfl⟩

/-! ## C31: the exit code of a convergence run that fails -/

section exit_code
variable {K : Type} [LinearOrderedField K]

/-- Function `convergence_run` returns 0 whenever it returns, whatever its local error code
is. -/
theorem V110.convergence_run_ret
    (sweep : V110.Convergence K → V110.ReadState K → V110.OpenResult K → Option Unit)
    (ms : V031.MultiSteps K) (rk : V031.RungeKutta K) (s : V110.ReadState K)
    (node : XmlTree K) (r : V110.RunReport)
    (h : V110.convergence_run sweep ms rk s node = some r) : r.ret = 0 := by
  unfold V110.convergence_run at h
  split at h
  · simp only [Option.some.injEq] at h; subst h; rfl
  · split at h
    · simp only [Option.some.injEq] at h; subst h; rfl
    · split at h
      · simp only [Option.some.injEq] at h; subst h; rfl
      · simp only at h
        generalize (V110.method_open_xml ms rk _).m = k at h
        rcases k with _ | _ | _ | k
        · simp only [Option.some.injEq] at h; subst h; rfl
        · simp only [Nat.zero_add, Option.map_eq_some'] at h
          obtain ⟨_, -, h⟩ := h; subst h; rfl
        · simp only [Nat.zero_add, Nat.reduceAdd, Option.map_eq_some'] at h
          obtain ⟨_, -, h⟩ := h; subst h; rfl
        · simp only [Option.some.injEq] at h; subst h; rfl

/-- With the root element of the convergence mode, `main` exits with the code 0 whenever it
returns: the assignment `e = 5` is not reached. -/
theorem V110.main_convergence_exit (XML_BALLISTIC : String)
    (trajectory : V110.ReadState K → V110.OpenResult K → Option Unit)
    (sweep : V110.Convergence K → V110.ReadState K → V110.OpenResult K → Option Unit)
    (ms : V031.MultiSteps K) (rk : V031.RungeKutta K) (s : V110.ReadState K)
    (node : XmlTree K) (hb : node.node.name ≠ XML_BALLISTIC)
    (hc : node.node.name = XML_CONVERGENCE) (e : Nat)
    (h : V110.main XML_BALLISTIC trajectory sweep ms rk s 3 (some (some node)) = some e) :
    e = 0 := by
  simp only [V110.main, ne_eq, not_true_eq_false, if_false, if_neg hb, if_pos hc,
    Option.map_eq_some'] at h
  obtain ⟨r, hr, h⟩ := h
  have h0 := V110.convergence_run_ret sweep ms rk s node r hr
  rw [h0] at h
  simpa using h.symm

end exit_code

/-- C31 at the failing inputs: a root element `convergence` without the property
`trajectories`, one without children, one whose first child is not a good `equation` node,
and one with a good equation and no node of a numerical method: `convergence_run` adds its
message (local error codes 1, 2, 3, 4) and returns 0, and `main` exits with the code 0, not
with 5. -/
theorem convergence_failure_exit_code :
    (V110.convergence_run (fun _ _ _ => some ()) sample_multi_steps
        (V031.runge_kutta_init_1 ⟨sample_method, [], [], []⟩) (sample_read_state)
        (XmlTree.mk (sample_node XML_CONVERGENCE [] ([] : List (String × ℚ))) [])
      = some ⟨1, 0⟩ ∧
    V110.main sample_root (fun _ _ => some ()) (fun _ _ _ => some ()) sample_multi_steps
        (V031.runge_kutta_init_1 ⟨sample_method, [], [], []⟩) (sample_read_state) 3
        (some (some
          (XmlTree.mk (sample_node XML_CONVERGENCE [] ([] : List (String × ℚ))) [])))
      = some 0) ∧
    (V110.convergence_run (fun _ _ _ => some ()) sample_multi_steps
        (V031.runge_kutta_init_1 ⟨sample_method, [], [], []⟩) (sample_read_state)
        (XmlTree.mk
          (sample_node XML_CONVERGENCE [(XML_TRAJECTORIES, 10), (XML_CONVERGENCE, 8)]
            [(XML_FACTOR, (1 / 2 : ℚ))]) [])
      = some ⟨2, 0⟩ ∧
    V110.main sample_root (fun _ _ => some ()) (fun _ _ _ => some ()) sample_multi_steps
        (V031.runge_kutta_init_1 ⟨sample_method, [], [], []⟩) (sample_read_state) 3
        (some (some
          (XmlTree.mk
            (sample_node XML_CONVERGENCE [(XML_TRAJECTORIES, 10), (XML_CONVERGENCE, 8)]
              [(XML_FACTOR, (1 / 2 : ℚ))]) [])))
      = some 0) ∧
    (V110.convergence_run (fun _ _ _ => some ()) sample_multi_steps
        (V031.runge_kutta_init_1 ⟨sample_method, [], [], []⟩) (sample_read_state)
        (XmlTree.mk
          (sample_node XML_CONVERGENCE [(XML_TRAJECTORIES, 10), (XML_CONVERGENCE, 8)]
            [(XML_FACTOR, (1 / 2 : ℚ))])
          [XmlTree.mk (sample_node XML_EQUATION [] []) []])
      = some ⟨3, 0⟩ ∧
    V110.main sample_root (fun _ _ => some ()) (fun _ _ _ => some ()) sample_multi_steps
        (V031.runge_kutta_init_1 ⟨sample_method, [], [], []⟩) (sample_read_state) 3
        (some (some
          (XmlTree.mk
            (sample_node XML_CONVERGENCE [(XML_TRAJECTORIES, 10), (XML_CONVERGENCE, 8)]
              [(XML_FACTOR, (1 / 2 : ℚ))])
            [XmlTree.mk (sample_node XML_EQUATION [] []) []])))
      = some 0) ∧
    (V110.convergence_run (fun _ _ _ => some ()) sample_multi_steps
        (V031.runge_kutta_init_1 ⟨sample_method, [], [], []⟩) (sample_read_state)
        (XmlTree.mk
          (sample_node XML_CONVERGENCE [(XML_TRAJECTORIES, 10), (XML_CONVERGENCE, 8)]
            [(XML_FACTOR, (1 / 2 : ℚ))])
          [XmlTree.mk
            (sample_node XML_EQUATION [(XML_TYPE, 0), (XML_TIME_STEP, 0), (XML_LAND, 1)]
              [(XML_Z, 100), (XML_VMAX, 30), (XML_VERTICAL_ANGLE, 45), (XML_DT, 1 / 100)])
            []])
      = some ⟨4, 0⟩ ∧
    V110.main sample_root (fun _ _ => some ()) (fun _ _ _ => some ()) sample_multi_steps
        (V031.runge_kutta_init_1 ⟨sample_method, [], [], []⟩) (sample_read_state) 3
        (some (some
          (XmlTree.mk
            (sample_node XML_CONVERGENCE [(XML_TRAJECTORIES, 10), (XML_CONVERGENCE, 8)]
              [(XML_FACTOR, (1 / 2 : ℚ))])
            [XmlTree.mk
              (sample_node XML_EQUATION [(XML_TYPE, 0), (XML_TIME_STEP, 0), (XML_LAND, 1)]
                [(XML_Z, 100), (XML_VMAX, 30), (XML_VERTICAL_ANGLE, 45), (XML_DT, 1 / 100)])
              []])))
      = some 0) :=
  ⟨⟨rfl, rfl⟩, ⟨by with_unfolding_all decide, by with_unfolding_all decide⟩,
    ⟨by with_unfolding_all decide, by with_unfolding_all decide⟩,
    ⟨by with_unfolding_all decide, by with_unfolding_all decide⟩⟩

/-! ## C38: the order of a Runge-Kutta method with error control -/

section read_order
variable {K : Type} [LinearOrderedField K]

/-- A node that `runge_kutta_read_xml` accepts has a type in 1..4, and the order of the method
is the type: the reader has no test that relates the order to the error control. -/
theorem V031.runge_kutta_read_xml_order (rk0 rk : V031.RungeKutta K) (node : XmlNode K)
    (h : V031.runge_kutta_read_xml rk0 node = Except.ok rk) :
    rk.method.order = (xml_node_get_uint node XML_TYPE).1 ∧
      1 ≤ rk.method.order ∧ rk.method.order ≤ 4 := by
  unfold V031.runge_kutta_read_xml at h
  simp only at h
  split at h
  · simp only [reduceCtorEq] at h
  · split at h
    · simp only [reduceCtorEq] at h
    · generalize (xml_node_get_uint node XML_TYPE).1 = k at h ⊢
      rcases k with _ | _ | _ | _ | _ | k
      all_goals
        simp only [V031.runge_kutta_init, Nat.zero_add, Nat.reduceAdd, Except.ok.injEq,
          reduceCtorEq] at h
      all_goals
        subst h
        simp [V031.runge_kutta_init_1, V031.runge_kutta_init_2, V031.runge_kutta_init_3,
          V031.runge_kutta_init_4, method_init]

end read_order

/-- C38 at the failing input: a node `runge_kutta` with `type="1"`, `time-step="1"`,
`alpha`, `beta` and `error_time` is accepted (`return 1`) with the error control enabled and
the order 1, for which the exponent of `method_dt` (src/1.1.0/method.c) is `1 / (1 - 1)`. -/
theorem runge_kutta_read_xml_accepts_order_1 :
    ∃ rk : V031.RungeKutta ℚ,
      V031.runge_kutta_read_xml ⟨sample_method, [], [], []⟩
        (sample_node XML_RUNGE_KUTTA [(XML_TYPE, 1), (XML_TIME_STEP, 1)]
          [(XML_ALPHA, 2), (XML_BETA, 1 / 2), (XML_ERROR_TIME, 1 / 1000)]) = Except.ok rk ∧
      rk.method.error_dt = 1 ∧ rk.method.order = 1 ∧ (rk.method.order : ℚ) - 1 = 0 ∧
      ∀ (L : Libm ℚ) (dt : ℚ),
        V110.method_dt L rk.method dt
          = dt * min 2 (L.powl (1 / 1000 * dt / rk.method.e0) (1 / 0)) := by
  refine ⟨_, rfl, rfl, rfl, ?_, fun L dt => ?_⟩
  · show (((1 : ℕ) : ℚ)) - 1 = 0
    norm_num
  · show dt * min 2 (L.powl (1 / 1000 * dt / 0) (1 / (((1 : ℕ) : ℚ) - 1)))
      = dt * min 2 (L.powl (1 / 1000 * dt / 0) (1 / 0))
    norm_num

/-! ## C34: the error estimate of the second order Runge-Kutta method -/

section error_2
variable {K : Type} [LinearOrderedField K] {ε σ : Type}

/-- The slots of the scratch arrays after `runge_kutta_step` of the second order method:
the slot 0 holds the registers of before the step, the slot 1 the explicit Euler stage, and
the slot 2 the final stage. -/
theorem V031.runge_kutta_step_slots_2 (acc : ε → Vec3 K → Vec3 K → K → σ → Vec3 K × σ)
    (rk0 : V031.RungeKutta K) (eq : ε) (t dt : K) (g : Globals K σ) :
    (V031.runge_kutta_step acc (V031.runge_kutta_init_2 rk0) eq t dt g).1.method.r0 0 = g.r0 ∧
    (V031.runge_kutta_step acc (V031.runge_kutta_init_2 rk0) eq t dt g).1.method.r1 0 = g.r1 ∧
    (V031.runge_kutta_step acc (V031.runge_kutta_init_2 rk0) eq t dt g).1.method.r2 0 = g.r2 ∧
    (V031.runge_kutta_step acc (V031.runge_kutta_init_2 rk0) eq t dt g).1.method.r0 1
      = ⟨g.r0.x + dt * g.r1.x, g.r0.y + dt * g.r1.y, g.r0.z + dt * g.r1.z⟩ ∧
    (V031.runge_kutta_step acc (V031.runge_kutta_init_2 rk0) eq t dt g).1.method.r1 1
      = ⟨g.r1.x + dt * g.r2.x, g.r1.y + dt * g.r2.y, g.r1.z + dt * g.r2.z⟩ ∧
    (V031.runge_kutta_step acc (V031.runge_kutta_init_2 rk0) eq t dt g).1.method.r0 2
      = ⟨g.r0.x + dt * 0.5 * g.r1.x
            + dt * 0.5 * ((V031.runge_kutta_step acc (V031.runge_kutta_init_2 rk0) eq t dt
                g).1.method.r1 1).x,
          g.r0.y + dt * 0.5 * g.r1.y
            + dt * 0.5 * ((V031.runge_kutta_step acc (V031.runge_kutta_init_2 rk0) eq t dt
                g).1.method.r1 1).y,
          g.r0.z + dt * 0.5 * g.r1.z
            + dt * 0.5 * ((V031.runge_kutta_step acc (V031.runge_kutta_init_2 rk0) eq t dt
                g).1.method.r1 1).z⟩ ∧
    (V031.runge_kutta_step acc (V031.runge_kutta_init_2 rk0) eq t dt g).1.method.r1 2
      = ⟨g.r1.x + dt * 0.5 * g.r2.x
            + dt * 0.5 * ((V031.runge_kutta_step acc (V031.runge_kutta_init_2 rk0) eq t dt
                g).1.method.r2 1).x,
          g.r1.y + dt * 0.5 * g.r2.y
            + dt * 0.5 * ((V031.runge_kutta_step acc (V031.runge_kutta_init_2 rk0) eq t dt
                g).1.method.r2 1).y,
          g.r1.z + dt * 0.5 * g.r2.z
            + dt * 0.5 * ((V031.runge_kutta_step acc (V031.runge_kutta_init_2 rk0) eq t dt
                g).1.method.r2 1).z⟩ ∧
    (V031.runge_kutta_step acc (V031.runge_kutta_init_2 rk0) eq t dt g).1.method.nsteps = 2 ∧
    (V031.runge_kutta_step acc (V031.runge_kutta_init_2 rk0) eq t dt g).1.e = V031.rk_e2 ∧
    (V031.runge_kutta_step acc (V031.runge_kutta_init_2 rk0) eq t dt g).1.method.et0
      = rk0.method.et0 ∧
    (V031.runge_kutta_step acc (V031.runge_kutta_init_2 rk0) eq t dt g).1.method.et1
      = rk0.method.et1 := by
  simp [V031.runge_kutta_step, V031.runge_kutta_init_2, method_init, V031.step_stages,
    V031.step_stage, V031.stage_comb, V031.step_inner, V031.rk_b2, V031.rk_b2_1, V031.rk_b2_2,
    V031.rk_t2, Vec3.axpy, Function.update]

end error_2

/-- C34: for the Runge-Kutta method of order 2, `runge_kutta_error` called right after
`runge_kutta_step` with the same `dt` sets `e0` to the Euclidean distance between the stage 1
position (the explicit Euler step `r + dt v`) and the final stage position (the new
register), `e0 = |R0[1] - R0[2]| = |dt (R1[0] / 2 - R1[1] / 2)|`, sets `e1` to the same
distance for the velocities, `e1 = |R1[1] - R1[2]| = |dt (R2[0] / 2 - R2[1] / 2)|`, and adds
`e0` to `et0` and `e1` to `et1`, which do not decrease.  Here `S` is the result of the step
and `E` the struct after the error estimate. -/
theorem runge_kutta_error_order_2 {ε σ : Type}
    (acc : ε → Vec3 ℝ → Vec3 ℝ → ℝ → σ → Vec3 ℝ × σ) (rk0 : V031.RungeKutta ℝ) (eq : ε)
    (t dt : ℝ) (g : Globals ℝ σ) :
    let S := V031.runge_kutta_step acc (V031.runge_kutta_init_2 rk0) eq t dt g
    let E := V031.runge_kutta_error Libm.real S.1 dt
    S.1.method.r0 1 = ⟨g.r0.x + dt * g.r1.x, g.r0.y + dt * g.r1.y, g.r0.z + dt * g.r1.z⟩ ∧
    S.1.method.r0 2 = S.2.r0 ∧ S.1.method.r1 2 = S.2.r1 ∧
    E.method.e0
      = Real.sqrt
        (((S.1.method.r0 1).x - (S.1.method.r0 2).x) ^ 2
          + ((S.1.method.r0 1).y - (S.1.method.r0 2).y) ^ 2
          + ((S.1.method.r0 1).z - (S.1.method.r0 2).z) ^ 2) ∧
    E.method.e0
      = Real.sqrt
        ((dt * ((S.1.method.r1 0).x / 2 - (S.1.method.r1 1).x / 2)) ^ 2
          + (dt * ((S.1.method.r1 0).y / 2 - (S.1.method.r1 1).y / 2)) ^ 2
          + (dt * ((S.1.method.r1 0).z / 2 - (S.1.method.r1 1).z / 2)) ^ 2) ∧
    E.method.e1
      = Real.sqrt
        (((S.1.method.r1 1).x - (S.1.method.r1 2).x) ^ 2
          + ((S.1.method.r1 1).y - (S.1.method.r1 2).y) ^ 2
          + ((S.1.method.r1 1).z - (S.1.method.r1 2).z) ^ 2) ∧
    E.method.e1
      = Real.sqrt
        ((dt * ((S.1.method.r2 0).x / 2 - (S.1.method.r2 1).x / 2)) ^ 2
          + (dt * ((S.1.method.r2 0).y / 2 - (S.1.method.r2 1).y / 2)) ^ 2
          + (dt * ((S.1.method.r2 0).z / 2 - (S.1.method.r2 1).z / 2)) ^ 2) ∧
    E.method.et0 = S.1.method.et0 + E.method.e0 ∧
    E.method.et1 = S.1.method.et1 + E.method.e1 ∧
    S.1.method.et0 ≤ E.method.et0 ∧ S.1.method.et1 ≤ E.method.et1 := by
  intro S E
  have hS : S = V031.runge_kutta_step acc (V031.runge_kutta_init_2 rk0) eq t dt g := rfl
  have hE : E = V031.runge_kutta_error Libm.real S.1 dt := rfl
  clear_value E
  clear_value S
  have hslots := V031.runge_kutta_step_slots_2 acc rk0 eq t dt g
  have hlast := V031.runge_kutta_step_last acc (V031.runge_kutta_init_2 rk0) eq t dt g 1 rfl
  rw [← hS] at hslots hlast
  obtain ⟨-, s10, s20, s01, s11, s02, s12, sn, se, -, -⟩ := hslots
  obtain ⟨l0, l1, -, -⟩ := hlast
  subst hE
  have e5 : (0.5 : ℝ) = 1 / 2 := by norm_num
  have hsum : V031.error_sums S.1 dt 2
      = (⟨dt * (1 / 2) * (S.1.method.r1 0).x + dt * (-(1 / 2)) * (S.1.method.r1 1).x,
          dt * (1 / 2) * (S.1.method.r1 0).y + dt * (-(1 / 2)) * (S.1.method.r1 1).y,
          dt * (1 / 2) * (S.1.method.r1 0).z + dt * (-(1 / 2)) * (S.1.method.r1 1).z⟩,
        ⟨dt * (1 / 2) * (S.1.method.r2 0).x + dt * (-(1 / 2)) * (S.1.method.r2 1).x,
          dt * (1 / 2) * (S.1.method.r2 0).y + dt * (-(1 / 2)) * (S.1.method.r2 1).y,
          dt * (1 / 2) * (S.1.method.r2 0).z + dt * (-(1 / 2)) * (S.1.method.r2 1).z⟩) := by
    simp only [V031.error_sums, se, V031.rk_e2, Vec3.axpy, List.getD_cons_zero,
      List.getD_cons_succ, zero_add, e5]
  have h0 : (V031.runge_kutta_error Libm.real S.1 dt).method.e0
      = Real.sqrt ((V031.error_sums S.1 dt 2).1.x * (V031.error_sums S.1 dt 2).1.x
        + (V031.error_sums S.1 dt 2).1.y * (V031.error_sums S.1 dt 2).1.y
        + (V031.error_sums S.1 dt 2).1.z * (V031.error_sums S.1 dt 2).1.z) := by
    simp only [V031.runge_kutta_error, sn, Libm.real]
  have h1 : (V031.runge_kutta_error Libm.real S.1 dt).method.e1
      = Real.sqrt ((V031.error_sums S.1 dt 2).2.x * (V031.error_sums S.1 dt 2).2.x
        + (V031.error_sums S.1 dt 2).2.y * (V031.error_sums S.1 dt 2).2.y
        + (V031.error_sums S.1 dt 2).2.z * (V031.error_sums S.1 dt 2).2.z) := by
    simp only [V031.runge_kutta_error, sn, Libm.real]
  have ht0 : (V031.runge_kutta_error Libm.real S.1 dt).method.et0
      = S.1.method.et0 + (V031.runge_kutta_error Libm.real S.1 dt).method.e0 := by
    simp only [V031.runge_kutta_error]
  have ht1 : (V031.runge_kutta_error Libm.real S.1 dt).method.et1
      = S.1.method.et1 + (V031.runge_kutta_error Libm.real S.1 dt).method.e1 := by
    simp only [V031.runge_kutta_error]
  have p0 : 0 ≤ (V031.runge_kutta_error Libm.real S.1 dt).method.e0 := by
    rw [h0]; exact Real.sqrt_nonneg _
  have p1 : 0 ≤ (V031.runge_kutta_error Libm.real S.1 dt).method.e1 := by
    rw [h1]; exact Real.sqrt_nonneg _
  refine ⟨s01, l0.symm, l1.symm, ?_, ?_, ?_, ?_, ht0, ht1, by rw [ht0]; linarith,
    by rw [ht1]; linarith⟩
  · rw [h0, hsum, s02, s01, s11, s10]
    simp only [e5]
    congr 1
    ring
  · rw [h0, hsum]
    congr 1
    ring
  · rw [h1, hsum, s12, s11, s20]
    simp only [e5]
    congr 1
    ring
  · rw [h1, hsum]
    congr 1
    ring

/-! ## C37: the step size that `runge_kutta_run` passes to `equation_land` -/

/-- C37 at the failing input: the quadratic drag with the step size of the stability
condition (`kt = 0.1`, `lambda = 0.1`, launch velocity `(30, 0, 0)`) and the first order
Runge-Kutta method, over the rationals.  The first step has the size `1/30`: it moves the
position by `30 * (1/30) = 1` from the backup.  At the call of `equation_land` after that
step the argument `dt` is `1/27`, the step size computed from the new velocity, and not
the size `1/30` of the step that produced the registers from the backup.  The same happens
with the error control (second order method, `alpha = 2`, `emt = 90`), where the first
step of size `1/30` moves the position by `(1/30) (30 + 27) / 2 = 19/20` and the argument
`dt` of the next call is `1/15`: the factor is `alpha = 2`, the smaller of `alpha` and the
ratio `emt dt / e0` to the power `1/(p - 1) = 1`, and the ratio is above 2 with the identity
that `sample_libm` has for `sqrtl` as it is with the square root. -/
theorem runge_kutta_run_land_step_size :
    V110.equation_step_size_2 (sample_drag_equation : Equation ℚ) sample_drag_globals
      = 1 / 30 ∧
    (V031.runge_kutta_run sample_libm (fun _ dt => dt) V110.equation_acceleration_2
        V110.equation_step_size_2 sample_land_probe (sample_drag_equation : Equation ℚ) 5
        (V031.runge_kutta_init_1 ⟨sample_method, [], [], []⟩) sample_drag_globals
        ⟨0, 0, 0, 0, 0, 0⟩).map (fun r => (r.1, r.2.2.ro1.x, r.2.2.r0.x - r.2.2.ro0.x))
      = some (1 / 27, 30, 1) ∧
    (V031.runge_kutta_run sample_libm (V110.method_dt sample_libm) V110.equation_acceleration_2
        V110.equation_step_size_2 sample_land_probe (sample_drag_equation : Equation ℚ) 5
        (V031.runge_kutta_init_2
          ⟨{ (sample_method : Method ℚ) with error_dt := 1, alpha := 2, emt := 90 },
            [], [], []⟩)
        sample_drag_globals
        ⟨0, 0, 0, 0, 0, 0⟩).map (fun r => (r.1, r.2.2.ro1.x, r.2.2.r0.x - r.2.2.ro0.x))
      = some (1 / 15, 30, 19 / 20) ∧
    (1 / 27 : ℚ) ≠ 1 / 30 ∧ (1 / 15 : ℚ) ≠ 1 / 30 := by
  refine ⟨?_, ?_, ?_, by norm_num, by norm_num⟩
  · with_unfolding_all decide
  · set_option maxRecDepth 1000000 in with_unfolding_all decide
  · set_option maxRecDepth 1000000 in with_unfolding_all decide

/-! ## C40: the closed forms of the revisions 0.1.0 and 1.1.0 -/

section revisions
variable {K : Type} [LinearOrderedField K]

/-- The closed forms of the types 0, 1 and 3 of the two revisions return the same vectors
when the configured gravity is the constant `G`. -/
theorem V010.equation_solution_013 (L : Libm K) (eq : Equation K) (hg : eq.g = G) (t : K) :
    V010.equation_solution_0 eq t = V110.equation_solution_0 eq t ∧
    V010.equation_solution_1 L eq t = V110.equation_solution_1 L eq t ∧
    V010.equation_solution_3 L eq t = V110.equation_solution_3 L eq t := by
  refine ⟨?_, ?_, ?_⟩
  · simp only [V010.equation_solution_0, V110.equation_solution_0, hg]
  · simp only [V010.equation_solution_1, V110.equation_solution_1, hg, Prod.mk.injEq,
      Vec3.mk.injEq]
    refine ⟨⟨?_, ?_, ?_⟩, ⟨trivial, trivial, ?_⟩⟩ <;> ring
  · simp only [V010.equation_solution_3, V110.equation_solution_3, hg, Prod.mk.injEq,
      Vec3.mk.injEq]
    refine ⟨⟨?_, ?_, trivial⟩, ⟨?_, ?_, trivial⟩⟩ <;> ring

/-- The horizontal components of the closed form of the type 2 in the two revisions. -/
theorem V010.equation_solution_2_horizontal (L : Libm K) (eq : Equation K) (t : K) :
    (V010.equation_solution_2 L eq t).1.x
      = (if eq.v.x - eq.w.x ≥ 0
          then eq.r.x + eq.w.x * t
            + 1 / eq.lambda * L.logl (1 + eq.lambda * |eq.v.x - eq.w.x| * t)
          else eq.r.x + eq.w.x * t
            - 1 / eq.lambda * L.logl (1 + eq.lambda * |eq.v.x - eq.w.x| * t)) ∧
    (V010.equation_solution_2 L eq t).1.y
      = (if eq.v.y - eq.w.y ≥ 0
          then eq.r.y + eq.w.y * t
            + 1 / eq.lambda * L.logl (1 + eq.lambda * |eq.v.y - eq.w.y| * t)
          else eq.r.y + eq.w.y * t
            - 1 / eq.lambda * L.logl (1 + eq.lambda * |eq.v.y - eq.w.y| * t)) ∧
    (V010.equation_solution_2 L eq t).2.x
      = eq.w.x + (eq.v.x - eq.w.x) / (1 + eq.lambda * |eq.v.x| * t) ∧
    (V010.equation_solution_2 L eq t).2.y
      = eq.w.y + (eq.v.y - eq.w.y) / (1 + eq.lambda * |eq.v.y| * t) ∧
    (V110.equation_solution_2 L eq t).1.x
      = (if eq.v.x - eq.w.x ≥ 0
          then eq.r.x + eq.w.x * t
            + 1 / eq.lambda * L.logl (1 + eq.lambda * t * |eq.v.x - eq.w.x|)
          else eq.r.x + eq.w.x * t
            - 1 / eq.lambda * L.logl (1 + eq.lambda * t * |eq.v.x - eq.w.x|)) ∧
    (V110.equation_solution_2 L eq t).1.y
      = (if eq.v.y - eq.w.y ≥ 0
          then eq.r.y + eq.w.y * t
            + 1 / eq.lambda * L.logl (1 + eq.lambda * t * |eq.v.y - eq.w.y|)
          else eq.r.y + eq.w.y * t
            - 1 / eq.lambda * L.logl (1 + eq.lambda * t * |eq.v.y - eq.w.y|)) ∧
    (V110.equation_solution_2 L eq t).2.x
      = eq.w.x + (eq.v.x - eq.w.x) / (1 + eq.lambda * t * |eq.v.x - eq.w.x|) ∧
    (V110.equation_solution_2 L eq t).2.y
      = eq.w.y + (eq.v.y - eq.w.y) / (1 + eq.lambda * t * |eq.v.y - eq.w.y|) := by
  simp only [V010.equation_solution_2, V110.equation_solution_2]
  split_ifs <;> exact ⟨rfl, rfl, rfl, rfl, rfl, rfl, rfl, rfl⟩

/-- The vertical components of the closed form of the type 2 in the two revisions, by
branches. -/
theorem V010.equation_solution_2_vertical (L : Libm K) (eq : Equation K) (t : K) :
    (eq.v.z ≤ 0 →
      (V010.equation_solution_2 L eq t).2.z
        = L.sqrtl (G / eq.lambda)
            * (eq.v.z * L.coshl (L.sqrtl (G * eq.lambda) * t)
              - L.sqrtl (G / eq.lambda) * L.sinhl (L.sqrtl (G * eq.lambda) * t))
            / (L.sqrtl (G / eq.lambda) * L.coshl (L.sqrtl (G * eq.lambda) * t)
              - eq.v.z * L.sinhl (L.sqrtl (G * eq.lambda) * t)) ∧
      (V010.equation_solution_2 L eq t).1.z
        = eq.r.z - L.logl (L.coshl (L.sqrtl (G * eq.lambda) * t)
            - eq.v.z * L.sinhl (L.sqrtl (G * eq.lambda) * t) / L.sqrtl (G / eq.lambda))
          / eq.lambda ∧
      (V110.equation_solution_2 L eq t).2.z
        = L.sqrtl (eq.g / eq.lambda)
            * (eq.v.z * L.coshl (L.sqrtl (eq.g * eq.lambda) * t)
              - L.sqrtl (eq.g / eq.lambda) * L.sinhl (L.sqrtl (eq.g * eq.lambda) * t))
            / (L.sqrtl (eq.g / eq.lambda) * L.coshl (L.sqrtl (eq.g * eq.lambda) * t)
              - eq.v.z * L.sinhl (L.sqrtl (eq.g * eq.lambda) * t)) ∧
      (V110.equation_solution_2 L eq t).1.z
        = eq.r.z - 1 / eq.lambda * L.logl (L.coshl (L.sqrtl (eq.g * eq.lambda) * t)
            - eq.v.z * L.sinhl (L.sqrtl (eq.g * eq.lambda) * t)
              / L.sqrtl (eq.g / eq.lambda))) ∧
    (¬ eq.v.z ≤ 0 →
      t ≤ L.atanl (eq.v.z / L.sqrtl (G / eq.lambda)) / L.sqrtl (G * eq.lambda) →
      (V010.equation_solution_2 L eq t).2.z
        = L.tanl (L.atanl (eq.v.z / L.sqrtl (G / eq.lambda)) - L.sqrtl (G * eq.lambda) * t)
          * L.sqrtl (G / eq.lambda) ∧
      (V010.equation_solution_2 L eq t).1.z
        = eq.r.z + L.logl (1 - L.sqrtl (G * eq.lambda) * t
            / L.cosl (L.atanl (eq.v.z / L.sqrtl (G / eq.lambda)))) / eq.lambda) ∧
    (¬ eq.v.z ≤ 0 →
      t ≤ L.atanl (eq.v.z / L.sqrtl (eq.g / eq.lambda)) / L.sqrtl (eq.g * eq.lambda) →
      (V110.equation_solution_2 L eq t).2.z
        = L.sqrtl (eq.g / eq.lambda)
          * L.tanl (L.atanl (eq.v.z / L.sqrtl (eq.g / eq.lambda))
            - L.sqrtl (eq.g * eq.lambda) * t) ∧
      (V110.equation_solution_2 L eq t).1.z
        = eq.r.z + 1 / eq.lambda
          * L.logl (L.cosl (L.atanl (eq.v.z / L.sqrtl (eq.g / eq.lambda))
              - L.sqrtl (eq.g * eq.lambda) * t)
            / L.cosl (L.atanl (eq.v.z / L.sqrtl (eq.g / eq.lambda))))) ∧
    (¬ eq.v.z ≤ 0 →
      ¬ t ≤ L.atanl (eq.v.z / L.sqrtl (G / eq.lambda)) / L.sqrtl (G * eq.lambda) →
      (V010.equation_solution_2 L eq t).2.z
        = -L.sqrtl (G / eq.lambda) * L.tanhl (L.sqrtl (G * eq.lambda)
            * (t - L.atanl (eq.v.z / L.sqrtl (G / eq.lambda)) / L.sqrtl (G * eq.lambda))) ∧
      (V010.equation_solution_2 L eq t).1.z
        = eq.r.z - L.logl (L.cosl (L.atanl (eq.v.z / L.sqrtl (G / eq.lambda)))
            * L.coshl (L.sqrtl (G * eq.lambda)
              * (t - L.atanl (eq.v.z / L.sqrtl (G / eq.lambda)) / L.sqrtl (G * eq.lambda))))
          / eq.lambda) ∧
    (¬ eq.v.z ≤ 0 →
      ¬ t ≤ L.atanl (eq.v.z / L.sqrtl (eq.g / eq.lambda)) / L.sqrtl (eq.g * eq.lambda) →
      (V110.equation_solution_2 L eq t).2.z
        = -L.sqrtl (eq.g / eq.lambda) * L.tanhl (L.sqrtl (eq.g * eq.lambda)
            * (t - L.atanl (eq.v.z / L.sqrtl (eq.g / eq.lambda))
              / L.sqrtl (eq.g * eq.lambda))) ∧
      (V110.equation_solution_2 L eq t).1.z
        = eq.r.z - 1 / eq.lambda
          * L.logl (L.cosl (L.atanl (eq.v.z / L.sqrtl (eq.g / eq.lambda)))
            * L.coshl (L.sqrtl (eq.g * eq.lambda)
              * (t - L.atanl (eq.v.z / L.sqrtl (eq.g / eq.lambda))
                / L.sqrtl (eq.g * eq.lambda))))) := by
  refine ⟨fun h => ?_, fun h h' => ?_, fun h h' => ?_, fun h h' => ?_, fun h h' => ?_⟩
  · simp only [V010.equation_solution_2, V110.equation_solution_2, if_pos h]
    try (split_ands <;> trivial)
  · simp only [V010.equation_solution_2, if_neg h, if_pos h']
    try (split_ands <;> trivial)
  · simp only [V110.equation_solution_2, if_neg h, if_pos h']
    try (split_ands <;> trivial)
  · simp only [V010.equation_solution_2, if_neg h, if_neg h']
    try (split_ands <;> trivial)
  · simp only [V110.equation_solution_2, if_neg h, if_neg h']
    try (split_ands <;> trivial)

end revisions

/-- Where the closed forms of the type 2 of the two revisions return the same components,
when the configured gravity is the constant `G`: the horizontal positions, the horizontal
velocity in a direction where `|v0| = |v0 - w|` (in particular without wind), the vertical
velocity, and the height in the branch `v0_z <= 0` and in the branch after the apex. -/
theorem V010.equation_solution_2_agree {K : Type} [LinearOrderedField K] (L : Libm K)
    (eq : Equation K) (hg : eq.g = G) (t : K) :
    (V010.equation_solution_2 L eq t).1.x = (V110.equation_solution_2 L eq t).1.x ∧
    (V010.equation_solution_2 L eq t).1.y = (V110.equation_solution_2 L eq t).1.y ∧
    (|eq.v.x| = |eq.v.x - eq.w.x| →
      (V010.equation_solution_2 L eq t).2.x = (V110.equation_solution_2 L eq t).2.x) ∧
    (|eq.v.y| = |eq.v.y - eq.w.y| →
      (V010.equation_solution_2 L eq t).2.y = (V110.equation_solution_2 L eq t).2.y) ∧
    (V010.equation_solution_2 L eq t).2.z = (V110.equation_solution_2 L eq t).2.z ∧
    ((eq.v.z ≤ 0 ∨ L.atanl (eq.v.z / L.sqrtl (G / eq.lambda)) / L.sqrtl (G * eq.lambda) < t) →
      (V010.equation_solution_2 L eq t).1.z = (V110.equation_solution_2 L eq t).1.z) := by
  obtain ⟨p0x, p0y, v0x, v0y, p1x, p1y, v1x, v1y⟩ := V010.equation_solution_2_horizontal L eq t
  have hv := V010.equation_solution_2_vertical L eq t
  rw [hg] at hv
  obtain ⟨b1, b2, b3, b4, b5⟩ := hv
  have ex : eq.lambda * |eq.v.x - eq.w.x| * t = eq.lambda * t * |eq.v.x - eq.w.x| := by ring
  have ey : eq.lambda * |eq.v.y - eq.w.y| * t = eq.lambda * t * |eq.v.y - eq.w.y| := by ring
  refine ⟨?_, ?_, fun h => ?_, fun h => ?_, ?_, fun h => ?_⟩
  · rw [p0x, p1x, ex]
  · rw [p0y, p1y, ey]
  · rw [v0x, v1x, h, ex]
  · rw [v0y, v1y, h, ey]
  · by_cases hz : eq.v.z ≤ 0
    · obtain ⟨c1, -, c3, -⟩ := b1 hz
      rw [c1, c3]
    · by_cases ht : t ≤ L.atanl (eq.v.z / L.sqrtl (G / eq.lambda)) / L.sqrtl (G * eq.lambda)
      · rw [(b2 hz ht).1, (b3 hz ht).1]; ring
      · rw [(b4 hz ht).1, (b5 hz ht).1]
  · rcases h with hz | ht
    · obtain ⟨-, c2, -, c4⟩ := b1 hz
      rw [c2, c4]; ring
    · by_cases hz : eq.v.z ≤ 0
      · obtain ⟨-, c2, -, c4⟩ := b1 hz
        rw [c2, c4]; ring
      · rw [(b4 hz (not_le.mpr ht)).2, (b5 hz (not_le.mpr ht)).2]; ring

/-- C40 at the failing inputs, over the real numbers with `g = 9.81`.  With the wind
`w = (1/2, 0)`, the velocity `(1, 0, 0)`, `lambda = 1` and `t = 1`, the horizontal velocity
of `equation_solution_2` of src/0.1.0/equation.c is `3/4`: its denominator has
`fabsl (eq->v[0])`, the velocity without the wind, where the documentation of the function
and its own position line have the velocity relative to the wind; revision 1.1.0 and the
documented formula give `5/6`, and the two revisions return the same horizontal position.
With the vertical launch at `v_z = 1`, `lambda = 9.81` and `t = pi / 8 / 9.81`, half of the
time of the apex, the height of revision 0.1.0 is `log (1 - (pi / 8) / cos (pi / 4)) / 9.81`
(the argument of the logarithm is positive), which is below the launch height although the
vertical velocity that the same call returns is still positive, and the height of revision
1.1.0 is `log (cos (pi / 8) / cos (pi / 4)) / 9.81`, above the launch height. -/
theorem equation_solution_2_revisions_differ :
    (V010.equation_solution_2 Libm.real
        { (sample_equation (0 : ℝ) 1 0 9.81 0 1) with type := 2, lambda := 1, w := ⟨1 / 2, 0⟩ }
        1).2.x = 3 / 4 ∧
    (V110.equation_solution_2 Libm.real
        { (sample_equation (0 : ℝ) 1 0 9.81 0 1) with type := 2, lambda := 1, w := ⟨1 / 2, 0⟩ }
        1).2.x = 5 / 6 ∧
    (1 / 2 : ℝ) + (1 - 1 / 2) / (1 + 1 * |1 - 1 / 2| * 1) = 5 / 6 ∧
    (V010.equation_solution_2 Libm.real
        { (sample_equation (0 : ℝ) 1 0 9.81 0 1) with type := 2, lambda := 1, w := ⟨1 / 2, 0⟩ }
        1).1.x
      = (V110.equation_solution_2 Libm.real
        { (sample_equation (0 : ℝ) 1 0 9.81 0 1) with type := 2, lambda := 1, w := ⟨1 / 2, 0⟩ }
        1).1.x ∧
    (V010.equation_solution_2 Libm.real
        { (sample_equation (0 : ℝ) 0 1 9.81 0 1) with type := 2, lambda := 9.81 }
        (Real.pi / 8 / 9.81)).1.z
      = Real.log (1 - Real.pi / 8 / (Real.sqrt 2 / 2)) / 9.81 ∧
    0 < 1 - Real.pi / 8 / (Real.sqrt 2 / 2) ∧
    (V010.equation_solution_2 Libm.real
        { (sample_equation (0 : ℝ) 0 1 9.81 0 1) with type := 2, lambda := 9.81 }
        (Real.pi / 8 / 9.81)).1.z < 0 ∧
    (V010.equation_solution_2 Libm.real
        { (sample_equation (0 : ℝ) 0 1 9.81 0 1) with type := 2, lambda := 9.81 }
        (Real.pi / 8 / 9.81)).2.z = Real.tan (Real.pi / 8) ∧
    0 < Real.tan (Real.pi / 8) ∧
    (V110.equation_solution_2 Libm.real
        { (sample_equation (0 : ℝ) 0 1 9.81 0 1) with type := 2, lambda := 9.81 }
        (Real.pi / 8 / 9.81)).1.z
      = Real.log (Real.cos (Real.pi / 8) / (Real.sqrt 2 / 2)) / 9.81 ∧
    0 < (V110.equation_solution_2 Libm.real
        { (sample_equation (0 : ℝ) 0 1 9.81 0 1) with type := 2, lambda := 9.81 }
        (Real.pi / 8 / 9.81)).1.z := by
  have hs2 : (1 : ℝ) < Real.sqrt 2 := by
    rw [show (1 : ℝ) = Real.sqrt 1 by simp]
    exact Real.sqrt_lt_sqrt (by norm_num) (by norm_num)
  have hsq : Real.sqrt ((9.81 : ℝ) * 9.81) = 9.81 := Real.sqrt_mul_self (by norm_num)
  have hs1 : Real.sqrt ((9.81 : ℝ) / 9.81) = 1 := by
    rw [div_self (by norm_num)]; exact Real.sqrt_one
  have hz : ¬ ((1 : ℝ) ≤ 0) := by norm_num
  have e : (9.81 : ℝ) * (Real.pi / 8 / 9.81) = Real.pi / 8 := by field_simp; ring
  have e8 : Real.pi / 4 - Real.pi / 8 = Real.pi / 8 := by ring
  have htc : Real.pi / 8 / 9.81 ≤ Real.pi / 4 / (9.81 : ℝ) := by
    have := Real.pi_pos
    exact div_le_div_of_nonneg_right (by linarith) (by norm_num)
  -- the argument of the logarithm of revision 0.1.0 lies in (0, 1)
  have hy1 : 0 < 1 - Real.pi / 8 / (Real.sqrt 2 / 2) := by
    have : Real.pi / 8 / (Real.sqrt 2 / 2) < 1 := by
      rw [div_lt_iff₀ (by positivity)]
      linarith [Real.pi_lt_four]
    linarith
  have hy2 : 1 - Real.pi / 8 / (Real.sqrt 2 / 2) < 1 := by
    have : 0 < Real.pi / 8 / (Real.sqrt 2 / 2) := by
      have := Real.pi_pos
      positivity
    linarith
  -- the argument of the logarithm of revision 1.1.0 is above 1
  have hc : Real.sqrt 2 / 2 < Real.cos (Real.pi / 8) := by
    rw [← Real.cos_pi_div_four]
    exact Real.cos_lt_cos_of_nonneg_of_le_pi_div_two (by have := Real.pi_pos; positivity)
      (by linarith [Real.pi_pos]) (by linarith [Real.pi_pos])
  have ht : 0 < Real.tan (Real.pi / 8) :=
    Real.tan_pos_of_pos_of_lt_pi_div_two (by have := Real.pi_pos; positivity)
      (by linarith [Real.pi_pos])
  have h0 := (V010.equation_solution_2_vertical Libm.real
      { (sample_equation (0 : ℝ) 0 1 9.81 0 1) with type := 2, lambda := 9.81 }
      (Real.pi / 8 / 9.81)).2.1 (by simp only [sample_equation]; exact hz)
      (by
        simp only [sample_equation, Libm.real, G, hsq, hs1, div_one, Real.arctan_one]
        exact htc)
  have h1 := (V010.equation_solution_2_vertical Libm.real
      { (sample_equation (0 : ℝ) 0 1 9.81 0 1) with type := 2, lambda := 9.81 }
      (Real.pi / 8 / 9.81)).2.2.1 (by simp only [sample_equation]; exact hz)
      (by
        simp only [sample_equation, Libm.real, hsq, hs1, div_one, Real.arctan_one]
        exact htc)
  have h0z : (V010.equation_solution_2 Libm.real
        { (sample_equation (0 : ℝ) 0 1 9.81 0 1) with type := 2, lambda := 9.81 }
        (Real.pi / 8 / 9.81)).1.z
      = Real.log (1 - Real.pi / 8 / (Real.sqrt 2 / 2)) / 9.81 := by
    rw [h0.2]
    simp only [sample_equation, Libm.real, G, hsq, hs1, div_one, Real.arctan_one,
      Real.cos_pi_div_four, zero_add, e]
  have h0v : (V010.equation_solution_2 Libm.real
        { (sample_equation (0 : ℝ) 0 1 9.81 0 1) with type := 2, lambda := 9.81 }
        (Real.pi / 8 / 9.81)).2.z = Real.tan (Real.pi / 8) := by
    rw [h0.1]
    simp only [sample_equation, Libm.real, G, hsq, hs1, div_one, Real.arctan_one, e, e8,
      mul_one]
  have h1z : (V110.equation_solution_2 Libm.real
        { (sample_equation (0 : ℝ) 0 1 9.81 0 1) with type := 2, lambda := 9.81 }
        (Real.pi / 8 / 9.81)).1.z
      = Real.log (Real.cos (Real.pi / 8) / (Real.sqrt 2 / 2)) / 9.81 := by
    rw [h1.2]
    simp only [sample_equation, Libm.real, hsq, hs1, div_one, Real.arctan_one,
      Real.cos_pi_div_four, zero_add, e, e8]
    ring
  refine ⟨?_, ?_, ?_, ?_, h0z, hy1, ?_, h0v, ht, h1z, ?_⟩
  · rw [(V010.equation_solution_2_horizontal _ _ _).2.2.1]
    norm_num [sample_equation]
  · rw [(V010.equation_solution_2_horizontal _ _ _).2.2.2.2.2.2.1]
    norm_num [sample_equation, abs_of_pos]
  · norm_num [abs_of_pos]
  · exact (V010.equation_solution_2_agree Libm.real _ rfl 1).1
  · rw [h0z]
    exact div_neg_of_neg_of_pos (Real.log_neg hy1 hy2) (by norm_num)
  · rw [h1z]
    have hl : 0 < Real.log (Real.cos (Real.pi / 8) / (Real.sqrt 2 / 2)) := by
      apply Real.log_pos
      rw [lt_div_iff₀ (by positivity)]
      linarith
    positivity

/-! ## C32: one Runge-Kutta step on the linear drag -/

section linear_drag
variable {K : Type} [LinearOrderedField K]

/-- On the linear drag, one step of the order `p` in 1..4 multiplies the horizontal velocity
relative to the wind by the polynomial of degree `p` in `x = lambda dt` with the coefficients
`1, -1, 1/2, -1/6, 1/24`. -/
theorem V031.runge_kutta_step_decay (p : Nat) (hp : 1 ≤ p ∧ p ≤ 4) (rk0 rk : V031.RungeKutta K)
    (hrk : V031.runge_kutta_init p rk0 = some rk) (eq : Equation K) (t dt : K)
    (g : Globals K Nat) (n : Nat)
    (hg : g.r2 = (V110.equation_acceleration_1 eq g.r0 g.r1 t n).1) :
    (V031.runge_kutta_step V110.equation_acceleration_1 rk eq t dt g).2.r1.x - eq.w.x
      = (g.r1.x - eq.w.x)
        * (1 - eq.lambda * dt
          + (if 2 ≤ p then (eq.lambda * dt) ^ 2 / 2 else 0)
          - (if 3 ≤ p then (eq.lambda * dt) ^ 3 / 6 else 0)
          + (if 4 ≤ p then (eq.lambda * dt) ^ 4 / 24 else 0)) ∧
    (V031.runge_kutta_step V110.equation_acceleration_1 rk eq t dt g).2.r1.y - eq.w.y
      = (g.r1.y - eq.w.y)
        * (1 - eq.lambda * dt
          + (if 2 ≤ p then (eq.lambda * dt) ^ 2 / 2 else 0)
          - (if 3 ≤ p then (eq.lambda * dt) ^ 3 / 6 else 0)
          + (if 4 ≤ p then (eq.lambda * dt) ^ 4 / 24 else 0)) := by
  obtain ⟨h1, h4⟩ := hp
  have hx : g.r2.x = -eq.lambda * (g.r1.x - eq.w.x) := by rw [hg]; rfl
  have hy : g.r2.y = -eq.lambda * (g.r1.y - eq.w.y) := by rw [hg]; rfl
  interval_cases p
  all_goals
    simp only [V031.runge_kutta_init, Option.some.injEq] at hrk
    subst hrk
    simp only [V031.runge_kutta_step, V031.runge_kutta_init_1, V031.runge_kutta_init_2,
      V031.runge_kutta_init_3, V031.runge_kutta_init_4, method_init, V031.step_stages,
      V031.step_stage, V031.stage_comb, V031.step_inner, V110.equation_acceleration_1,
      Function.update_apply, V031.rk_b1, V031.rk_b1_1, V031.rk_t1,
      V031.rk_b2, V031.rk_b2_1, V031.rk_b2_2, V031.rk_t2,
      V031.rk_b3, V031.rk_b3_1, V031.rk_b3_2, V031.rk_b3_3, V031.rk_t3,
      V031.rk_b4, V031.rk_b4_1, V031.rk_b4_2, V031.rk_b4_3, V031.rk_b4_4, V031.rk_t4,
      List.getD_cons_zero, List.getD_cons_succ]
    simp only [zero_add, Nat.reduceAdd, ite_true, OfNat.ofNat_ne_zero, OfNat.ofNat_ne_one,
      OfNat.one_ne_ofNat, OfNat.zero_ne_ofNat, one_ne_zero, zero_ne_one, Nat.reduceEqDiff,
      ite_false, Vec3.axpy, Nat.reduceLeDiff, le_refl, Nat.one_le_ofNat, hx, hy]
    norm_num
    constructor <;> ring

end linear_drag

/-- The polynomial of the decay of the step of order `p` is the Taylor polynomial of degree
`p` of the exponential at `-x`. -/
theorem taylor_decay (p : Nat) (hp : 1 ≤ p ∧ p ≤ 4) (x : ℝ) :
    1 - x + (if 2 ≤ p then x ^ 2 / 2 else 0) - (if 3 ≤ p then x ^ 3 / 6 else 0)
        + (if 4 ≤ p then x ^ 4 / 24 else 0)
      = ∑ k in Finset.range (p + 1), (-x) ^ k / (k.factorial : ℝ) := by
  obtain ⟨h1, h4⟩ := hp
  interval_cases p
  all_goals
    simp only [Finset.sum_range_succ, Finset.sum_range_zero, Nat.factorial, Nat.reduceLeDiff,
      le_refl, Nat.one_le_ofNat, ite_true, ite_false]
    norm_num
    ring

/-- C32: for the linear drag (type 1) and each Runge-Kutta order `p` in 1..4 (tables of
src/0.3.1/runge-kutta.c), when the acceleration register is consistent
(`a = A(eq, r, v, t)`), one `runge_kutta_step` of size `dt` maps the horizontal velocity
relative to the wind to `(v - w) * sum_{k=0..p} (-lambda dt)^k / k!`, the Taylor polynomial
of degree `p` of the exact decay factor, in `x` and in `y`; so, for `|lambda dt| <= 1`, the
error of the velocity of one step against `exp (-lambda dt)` is at most
`|v - w| |lambda dt|^(p+1) (p + 2) / ((p + 1)! (p + 1))`. -/
theorem runge_kutta_step_linear_drag (p : Nat) (hp : 1 ≤ p ∧ p ≤ 4)
    (rk0 rk : V031.RungeKutta ℝ) (hrk : V031.runge_kutta_init p rk0 = some rk)
    (eq : Equation ℝ) (t dt : ℝ) (g : Globals ℝ Nat) (n : Nat)
    (hg : g.r2 = (V110.equation_acceleration_1 eq g.r0 g.r1 t n).1) :
    ((V031.runge_kutta_step V110.equation_acceleration_1 rk eq t dt g).2.r1.x - eq.w.x
      = (g.r1.x - eq.w.x)
        * ∑ k in Finset.range (p + 1), (-(eq.lambda * dt)) ^ k / (k.factorial : ℝ)) ∧
    ((V031.runge_kutta_step V110.equation_acceleration_1 rk eq t dt g).2.r1.y - eq.w.y
      = (g.r1.y - eq.w.y)
        * ∑ k in Finset.range (p + 1), (-(eq.lambda * dt)) ^ k / (k.factorial : ℝ)) ∧
    (|eq.lambda * dt| ≤ 1 →
      |(V031.runge_kutta_step V110.equation_acceleration_1 rk eq t dt g).2.r1.x - eq.w.x
          - (g.r1.x - eq.w.x) * Real.exp (-(eq.lambda * dt))|
        ≤ |g.r1.x - eq.w.x|
          * (|eq.lambda * dt| ^ (p + 1)
            * (((p + 1 : ℕ).succ : ℝ) / (((p + 1).factorial : ℝ) * ((p + 1 : ℕ) : ℝ)))) ∧
      |(V031.runge_kutta_step V110.equation_acceleration_1 rk eq t dt g).2.r1.y - eq.w.y
          - (g.r1.y - eq.w.y) * Real.exp (-(eq.lambda * dt))|
        ≤ |g.r1.y - eq.w.y|
          * (|eq.lambda * dt| ^ (p + 1)
            * (((p + 1 : ℕ).succ : ℝ) / (((p + 1).factorial : ℝ) * ((p + 1 : ℕ) : ℝ))))) := by
  obtain ⟨dx, dy⟩ := V031.runge_kutta_step_decay p hp rk0 rk hrk eq t dt g n hg
  rw [taylor_decay p hp (eq.lambda * dt)] at dx dy
  refine ⟨dx, dy, fun hx => ?_⟩
  have hb := Real.exp_bound (show |-(eq.lambda * dt)| ≤ 1 by rw [abs_neg]; exact hx)
    (Nat.succ_pos p)
  rw [abs_neg] at hb
  have key : ∀ u : ℝ,
      |u * ∑ k in Finset.range (p + 1), (-(eq.lambda * dt)) ^ k / (k.factorial : ℝ)
          - u * Real.exp (-(eq.lambda * dt))|
        ≤ |u| * (|eq.lambda * dt| ^ (p + 1)
            * (((p + 1 : ℕ).succ : ℝ) / (((p + 1).factorial : ℝ) * ((p + 1 : ℕ) : ℝ)))) := by
    intro u
    rw [← mul_sub, abs_mul, abs_sub_comm]
    exact mul_le_mul_of_nonneg_left hb (abs_nonneg u)
  rw [dx, dy]
  exact ⟨key _, key _⟩

/-- C32 on the fourth order method with `lambda = 0.2`, the wind `(1, 0)`, the velocity
`(30, 0, 30)` and `dt = 0.01`: the acceleration register `(-5.8, 0, -15.81)` is the value
of the functional. -/
theorem runge_kutta_step_linear_drag_witness :
    (1 ≤ 4 ∧ 4 ≤ 4) ∧
    (V031.runge_kutta_step V110.equation_acceleration_1
        (V031.runge_kutta_init_4 ⟨sample_method, [], [], []⟩)
        { (sample_equation (100 : ℝ) 30 30 9.81 0 1) with
          type := 1, lambda := 0.2, w := ⟨1, 0⟩ }
        0 0.01 { (sample_globals : Globals ℝ Nat) with r2 := ⟨-5.8, 0, -15.81⟩ }).2.r1.x - 1
      = (30 - 1) * ∑ k in Finset.range (4 + 1), (-(0.2 * 0.01 : ℝ)) ^ k / (k.factorial : ℝ) :=
  ⟨⟨by decide, by decide⟩,
    (runge_kutta_step_linear_drag 4 ⟨by decide, by decide⟩ ⟨sample_method, [], [], []⟩ _ rfl
      { (sample_equation (100 : ℝ) 30 30 9.81 0 1) with type := 1, lambda := 0.2, w := ⟨1, 0⟩ }
      0 0.01 { (sample_globals : Globals ℝ Nat) with r2 := ⟨-5.8, 0, -15.81⟩ } 0
      (by
        simp only [V110.equation_acceleration_1, sample_equation, sample_globals,
          Vec3.mk.injEq]
        norm_num)).1⟩

/-! ## C33: the multi-steps step on a polynomial path -/

section exact
variable {K : Type} [LinearOrderedField K]

/-- A polynomial of degree at most 3 and its first two derivatives, by coefficients; the
coefficient of degree 3 is zero when the degree is at most 2. -/
theorem cubic_evals (q : Polynomial K) (h : q.natDegree ≤ 3) :
    ∃ c0 c1 c2 c3 : K, (q.natDegree ≤ 2 → c3 = 0) ∧
      ∀ s : K,
        q.eval s = c0 + c1 * s + c2 * s ^ 2 + c3 * s ^ 3 ∧
        (Polynomial.derivative q).eval s = c1 + 2 * c2 * s + 3 * c3 * s ^ 2 ∧
        (Polynomial.derivative (Polynomial.derivative q)).eval s = 2 * c2 + 6 * c3 * s := by
  have hq : q = Polynomial.C (q.coeff 0) + Polynomial.C (q.coeff 1) * Polynomial.X
      + Polynomial.C (q.coeff 2) * Polynomial.X ^ 2
      + Polynomial.C (q.coeff 3) * Polynomial.X ^ 3 := by
    conv_lhs => rw [Polynomial.as_sum_range' q 4 (by omega)]
    simp [Finset.sum_range_succ, ← Polynomial.C_mul_X_pow_eq_monomial]
  refine ⟨q.coeff 0, q.coeff 1, q.coeff 2, q.coeff 3,
    fun h2 => Polynomial.coeff_eq_zero_of_natDegree_lt (by omega), fun s => ?_⟩
  generalize q.coeff 0 = c0 at hq ⊢
  generalize q.coeff 1 = c1 at hq ⊢
  generalize q.coeff 2 = c2 at hq ⊢
  generalize q.coeff 3 = c3 at hq ⊢
  subst hq
  refine ⟨?_, ?_, ?_⟩
  · simp
  · simp
    ring
  · simp
    ring

end exact

/-- C33: let `p`, 2 or 3, be the order of the multi-steps method and `r` a vector polynomial
of degree at most `p`, with `v = r'` and `a = r''`.  If the registers hold `(r, v, a)` at the
time `t` and the slot `p` of the history holds `(r, v, a)` at the time `t - p dt`, then
`multi_steps_step` with the tables of `multi_steps_init` sets the position register to
`r (t + dt)` and the velocity register to `v (t + dt)` exactly, whatever the other slots
hold, and the acceleration register to the value of the functional at the new state.  When
the degree is at most 2 (a constant acceleration, as for the type 0), the new registers are
`r + v dt + a dt^2 / 2` and `v + a dt` of the old ones. -/
theorem multi_steps_step_exact {K : Type} [LinearOrderedField K] {ε σ : Type}
    (acc : ε → Vec3 K → Vec3 K → K → σ → Vec3 K × σ) (p : Nat) (ms0 ms : V031.MultiSteps K)
    (hms : V031.multi_steps_init ms0 p = some ms) (eq : ε) (t dt : K) (g : Globals K σ)
    (px py pz : Polynomial K)
    (hd : px.natDegree ≤ p ∧ py.natDegree ≤ p ∧ pz.natDegree ≤ p)
    (h0 : g.r0 = ⟨px.eval t, py.eval t, pz.eval t⟩)
    (h1 : g.r1
      =
        ⟨(Polynomial.derivative px).eval t,
          (Polynomial.derivative py).eval t,
          (Polynomial.derivative pz).eval t⟩)
    (h2 : g.r2
      =
        ⟨(Polynomial.derivative (Polynomial.derivative px)).eval t,
          (Polynomial.derivative (Polynomial.derivative py)).eval t,
          (Polynomial.derivative (Polynomial.derivative pz)).eval t⟩)
    (s0 : ms.method.r0 p = ⟨px.eval (t - p * dt), py.eval (t - p * dt), pz.eval (t - p * dt)⟩)
    (s1 : ms.method.r1 p
      =
        ⟨(Polynomial.derivative px).eval (t - p * dt),
          (Polynomial.derivative py).eval (t - p * dt),
          (Polynomial.derivative pz).eval (t - p * dt)⟩)
    (s2 : ms.method.r2 p
      =
        ⟨(Polynomial.derivative (Polynomial.derivative px)).eval (t - p * dt),
          (Polynomial.derivative (Polynomial.derivative py)).eval (t - p * dt),
          (Polynomial.derivative (Polynomial.derivative pz)).eval (t - p * dt)⟩) :
    (p = 2 ∨ p = 3) ∧
    (V031.multi_steps_step acc ms eq t dt g).2.r0 =
      ⟨px.eval (t + dt),
        py.eval (t + dt),
        pz.eval (t + dt)⟩ ∧
    (V031.multi_steps_step acc ms eq t dt g).2.r1
      =
        ⟨(Polynomial.derivative px).eval (t + dt),
          (Polynomial.derivative py).eval (t + dt),
          (Polynomial.derivative pz).eval (t + dt)⟩ ∧
    (V031.multi_steps_step acc ms eq t dt g).2.r2
      = (acc eq (V031.multi_steps_step acc ms eq t dt g).2.r0
          (V031.multi_steps_step acc ms eq t dt g).2.r1 (t + dt) g.nevaluations).1 ∧
    (px.natDegree ≤ 2 ∧ py.natDegree ≤ 2 ∧ pz.natDegree ≤ 2 →
      (V031.multi_steps_step acc ms eq t dt g).2.r0
        = ⟨g.r0.x + g.r1.x * dt + g.r2.x * dt ^ 2 / 2,
            g.r0.y + g.r1.y * dt + g.r2.y * dt ^ 2 / 2,
            g.r0.z + g.r1.z * dt + g.r2.z * dt ^ 2 / 2⟩ ∧
      (V031.multi_steps_step acc ms eq t dt g).2.r1
        = ⟨g.r1.x + g.r2.x * dt, g.r1.y + g.r2.y * dt, g.r1.z + g.r2.z * dt⟩) := by
  have hp : p = 2 ∨ p = 3 := by
    unfold V031.multi_steps_init at hms
    split at hms
    · exact Or.inl rfl
    · exact Or.inr rfl
    · simp only [reduceCtorEq] at hms
  obtain ⟨dx, dy, dz⟩ := hd
  obtain ⟨x0, x1, x2, x3, hx3, hx⟩ := cubic_evals px (by rcases hp with h | h <;> omega)
  obtain ⟨y0, y1, y2, y3, hy3, hy⟩ := cubic_evals py (by rcases hp with h | h <;> omega)
  obtain ⟨z0, z1, z2, z3, hz3, hz⟩ := cubic_evals pz (by rcases hp with h | h <;> omega)
  have e75 : (0.75 : K) = 3 / 4 := by norm_num
  have e25 : (0.25 : K) = 1 / 4 := by norm_num
  have hr0 : (V031.multi_steps_step acc ms eq t dt g).2.r0
      = (V031.multi_steps_sums ms dt g ms.method.nsteps).1 := by
    simp only [V031.multi_steps_step]
  have hr1 : (V031.multi_steps_step acc ms eq t dt g).2.r1
      = (V031.multi_steps_sums ms dt g ms.method.nsteps).2 := by
    simp only [V031.multi_steps_step]
  have hr2 : (V031.multi_steps_step acc ms eq t dt g).2.r2
      = (acc eq (V031.multi_steps_step acc ms eq t dt g).2.r0
          (V031.multi_steps_step acc ms eq t dt g).2.r1 (t + dt) g.nevaluations).1 := by
    simp only [V031.multi_steps_step]
  have hn0 : (V031.multi_steps_step acc ms eq t dt g).2.r0
      = ⟨px.eval (t + dt), py.eval (t + dt), pz.eval (t + dt)⟩ ∧
      (V031.multi_steps_step acc ms eq t dt g).2.r1
      = ⟨(Polynomial.derivative px).eval (t + dt), (Polynomial.derivative py).eval (t + dt),
          (Polynomial.derivative pz).eval (t + dt)⟩ := by
    refine ⟨?_, ?_⟩
    · rw [hr0]
      rcases hp with h | h
      · subst h
        simp only [V031.multi_steps_init, Option.some.injEq] at hms
        subst hms
        simp only [method_init] at s0 s1 s2 ⊢
        simp only [V031.multi_steps_sums, V031.ms_a2, V031.ms_c2, List.getD_cons_zero,
          List.getD_cons_succ, Vec3.comb, Vec3.addComb, h0, h1, h2, s0, s1, s2, hx, hy, hz,
          hx3 dx, hy3 dy, hz3 dz, Vec3.mk.injEq, e75, e25]
        push_cast
        refine ⟨?_, ?_, ?_⟩ <;> ring
      · subst h
        simp only [V031.multi_steps_init, Option.some.injEq] at hms
        subst hms
        simp only [method_init] at s0 s1 s2 ⊢
        simp only [V031.multi_steps_sums, V031.ms_a3, V031.ms_c3, List.getD_cons_zero,
          List.getD_cons_succ, Vec3.comb, Vec3.addComb, h0, h1, h2, s0, s1, s2, hx, hy, hz,
          Vec3.mk.injEq]
        push_cast
        refine ⟨?_, ?_, ?_⟩ <;> ring
    · rw [hr1]
      rcases hp with h | h
      · subst h
        simp only [V031.multi_steps_init, Option.some.injEq] at hms
        subst hms
        simp only [method_init] at s0 s1 s2 ⊢
        simp only [V031.multi_steps_sums, V031.ms_a2, V031.ms_c2, List.getD_cons_zero,
          List.getD_cons_succ, Vec3.comb, Vec3.addComb, h0, h1, h2, s0, s1, s2, hx, hy, hz,
          hx3 dx, hy3 dy, hz3 dz, Vec3.mk.injEq, e75, e25]
        push_cast
        refine ⟨?_, ?_, ?_⟩ <;> ring
      · subst h
        simp only [V031.multi_steps_init, Option.some.injEq] at hms
        subst hms
        simp only [method_init] at s0 s1 s2 ⊢
        simp only [V031.multi_steps_sums, V031.ms_a3, V031.ms_c3, List.getD_cons_zero,
          List.getD_cons_succ, Vec3.comb, Vec3.addComb, h0, h1, h2, s0, s1, s2, hx, hy, hz,
          Vec3.mk.injEq]
        push_cast
        refine ⟨?_, ?_, ?_⟩ <;> ring
  refine ⟨hp, hn0.1, hn0.2, hr2, fun hq => ?_⟩
  rw [hn0.1, hn0.2, h0, h1, h2]
  simp only [hx, hy, hz, hx3 hq.1, hy3 hq.2.1, hz3 hq.2.2, Vec3.mk.injEq]
  refine ⟨⟨?_, ?_, ?_⟩, ⟨?_, ?_, ?_⟩⟩ <;> ring

/-- C33 on the model without resistance, for the second order method over the rationals: the
launch `(30, 0, 30)` from `z = 100`, the registers at the time 2, the slot 2 at the time 0
and `dt = 1`; the step gives the closed form at the time 3. -/
theorem multi_steps_step_exact_witness :
    (V031.multi_steps_step V110.equation_acceleration_0
        { (sample_history : V031.MultiSteps ℚ) with
          method := method_init (sample_history : V031.MultiSteps ℚ).method 3 2
          a := V031.ms_a2, c := V031.ms_c2, ea := V031.ms_ea2, eb := V031.ms_eb2 }
        (sample_equation (100 : ℚ) 30 30 9.81 0 0) 2 1 sample_globals_2).2.r0
      = (V110.equation_solution_0 (sample_equation (100 : ℚ) 30 30 9.81 0 0) 3).1 ∧
    (V031.multi_steps_step V110.equation_acceleration_0
        { (sample_history : V031.MultiSteps ℚ) with
          method := method_init (sample_history : V031.MultiSteps ℚ).method 3 2
          a := V031.ms_a2, c := V031.ms_c2, ea := V031.ms_ea2, eb := V031.ms_eb2 }
        (sample_equation (100 : ℚ) 30 30 9.81 0 0) 2 1 sample_globals_2).2.r1
      = (V110.equation_solution_0 (sample_equation (100 : ℚ) 30 30 9.81 0 0) 3).2 := by
  have h := multi_steps_step_exact V110.equation_acceleration_0 2 sample_history
    { (sample_history : V031.MultiSteps ℚ) with
          method := method_init (sample_history : V031.MultiSteps ℚ).method 3 2
          a := V031.ms_a2, c := V031.ms_c2, ea := V031.ms_ea2, eb := V031.ms_eb2 }
    rfl (sample_equation (100 : ℚ) 30 30 9.81 0 0) 2 1 sample_globals_2
    (Polynomial.C 30 * Polynomial.X) 0
    (Polynomial.C 100 + Polynomial.C 30 * Polynomial.X
      + Polynomial.C (-4.905) * Polynomial.X ^ 2)
    ⟨by (compute_degree; norm_num), by simp, by compute_degree⟩
    (by simp [sample_globals_2, sample_globals]; norm_num)
    (by simp [sample_globals_2, sample_globals]; norm_num)
    (by simp [sample_globals_2, sample_globals]; norm_num)
    (by simp [method_init, sample_method, sample_history])
    (by simp [method_init, sample_method, sample_history])
    (by simp [method_init, sample_method, sample_history]; norm_num)
  obtain ⟨-, h0, h1, -, -⟩ := h
  rw [h0, h1]
  constructor
  · simp [V110.equation_solution_0, sample_equation, G]
    norm_num
  · simp [V110.equation_solution_0, sample_equation]
    norm_num

end Ballistic
